import Mathlib

/-!
The cxxtools JSON RPC client engine, HTTP connection state machine and value tree.

Shallow embedding of `src/json/rpcclientimpl.cpp`, `src/json/httpclient.cpp`,
`src/http/socket.cpp` and the member functions of `src/serializationinfo.cpp`.
Collaborators whose code is not among the sources (socket, stream buffer,
formatter, deserializer, selector, header parser, responders) appear as
explicit state, as recorded calls, or as parameters supplying their answers.
-/

namespace cxxtools

/-- Exception classes that the embedded code throws or catches. -/
inductive Exn where
  | logicError
  | runtimeError
  | ioError
  | ioTimeout
  | remoteException
  | other
deriving DecidableEq, Repr

namespace json

/-- Calls made on the `JsonFormatter` that writes into `_stream`. -/
inductive FmtCall where
  | beginObject (name type : String)
  | addValueStdString (name type value : String)
  | addValueString (name type value : String)
  | addValueInt (name type : String) (value : Nat)
  | beginArray (name type : String)
  | finishArray
  | finishObject
  | finish
deriving DecidableEq, Repr

/-- An `IDecomposer`: `format(formatter)` issues these formatter calls. -/
abbrev IDecomposer := List FmtCall

/-- An `IRemoteProcedure`, identified by a handle; `name()` is its method name. -/
structure IRemoteProcedure where
  handle : Nat
  name : String
deriving DecidableEq, Repr

/-- What the user callback behind `proc->onFinished()` does with the engine:
it may leave it alone, or call `endCall()` and either swallow or let escape
the exception that `endCall()` rethrows. -/
inductive Finish where
  | ignore
  | endCallCaught
  | endCallEscapes
deriving DecidableEq, Repr

/-- The fields of `RpcClientImpl` together with the observable state of its
`_socket` and `_stream`. -/
structure RpcClientImpl where
  /-- Whether `_socket.selector()` is non-null. -/
  selector : Bool
  /-- Value of `_socket.isConnected()`. -/
  connected : Bool
  /-- An asynchronous connect has been begun. -/
  connecting : Bool
  /-- An asynchronous write has been begun on the stream buffer. -/
  writing : Bool
  /-- An asynchronous read has been begun on the stream buffer. -/
  reading : Bool
  /-- Timeout currently set on the socket. -/
  socketTimeout : Nat
  /-- Formatter output sitting in the output buffer of `_stream`. -/
  out : List FmtCall
  /-- Formatter output already flushed to the peer. -/
  sent : List FmtCall
  /-- Bytes sitting in the input buffer of `_stream`. -/
  inBuf : List Char
  /-- Failure flags of `_stream` are set. -/
  streamFail : Bool
  ssl : Bool
  exceptionPending : Bool
  /-- The field `_proc`, the active procedure. -/
  proc : Option IRemoteProcedure
  /-- The field `_count`. -/
  count : Nat
  /-- The field `_prefix`. -/
  pfx : String
  timeout : Nat
  connectTimeout : Nat
  /-- Number of times `_scanner.begin` has been called. -/
  scannerBegun : Nat
  /-- The procedures on which `onFinished()` has been invoked, in order. -/
  finished : List IRemoteProcedure
deriving DecidableEq, Repr

namespace RpcClientImpl

/-- The state built by the constructor `RpcClientImpl::RpcClientImpl`. -/
def new : RpcClientImpl :=
  { selector := false, connected := false, connecting := false,
    writing := false, reading := false, socketTimeout := 0,
    out := [], sent := [], inBuf := [], streamFail := false,
    ssl := false, exceptionPending := false, proc := none, count := 0,
    pfx := "", timeout := 0, connectTimeout := 0, scannerBegun := 0,
    finished := [] }

/-- Effect of `_socket.close()`. -/
def socketClose (s : RpcClientImpl) : RpcClientImpl :=
  { s with connected := false, connecting := false, writing := false, reading := false }

/-- Embedding of `RpcClientImpl::cancel`. -/
def cancel (s : RpcClientImpl) : RpcClientImpl :=
  let s1 := socketClose s
  let s2 := { s1 with streamFail := false }
  let s3 := { s2 with out := [], inBuf := [] }
  { s3 with proc := none }

/-- Embedding of `RpcClientImpl::prepareRequest`. -/
def prepareRequest (s : RpcClientImpl) (name : String) (argv : List IDecomposer) :
    RpcClientImpl :=
  let count := s.count + 1
  let calls : List FmtCall :=
    [ FmtCall.beginObject "" "",
      FmtCall.addValueStdString "jsonrpc" "" "2.0",
      FmtCall.addValueString "method" "" (s.pfx ++ name),
      FmtCall.addValueInt "id" "int" count,
      FmtCall.beginArray "params" "" ]
    ++ argv.flatten
    ++ [ FmtCall.finishArray, FmtCall.finishObject, FmtCall.finish ]
  { s with count := count, out := s.out ++ calls }

/-- Embedding of `RpcClientImpl::endCall` as seen from inside a completion
callback: the flag is cleared; the returned boolean tells whether the pending
exception is rethrown. -/
def endCall (s : RpcClientImpl) : RpcClientImpl × Bool :=
  let s1 := { s with proc := none }
  if s1.exceptionPending then ({ s1 with exceptionPending := false }, true)
  else (s1, false)

/-- Answers of the collaborators used by `beginCall`. -/
structure BeginEnv where
  /-- Outcome of `_stream.buffer().beginWrite()`. -/
  beginWrite : Except Exn Unit
  /-- Outcome of `_socket.beginConnect(_addrInfo)`. -/
  beginConnect : Except Exn Unit
  /-- Behaviour of the completion callback. -/
  onFinished : Finish

/-- The call `proc->onFinished()` made in state `s`, for a callback that
behaves as `fin`: the state the callback leaves behind, and whether an
exception leaves the callback. A callback that calls `endCall()` leaves the
state that `endCall()` leaves; what `endCall()` rethrows stays inside a
callback that catches it and leaves one that does not. -/
def onFinished (fin : Finish) (s : RpcClientImpl) : RpcClientImpl × Bool :=
  match fin with
  | Finish.ignore => (s, false)
  | Finish.endCallCaught => ((endCall s).1, false)
  | Finish.endCallEscapes => endCall s

/-- The handler `catch (const std::exception&)` shared by `beginCall` and the
asynchronous callbacks, entered with exception `e`: `cancel()`,
`_exceptionPending = true`, `proc->onFinished()`, and then
`if (_exceptionPending) throw;` on the state the callback left. An exception
that leaves the callback is the one rethrown by `endCall()`, that is `e`, and
leaves the handler as well. `cont` is what follows the try block when the
handler completes without rethrowing. -/
def failAsync (s : RpcClientImpl) (e : Exn) (fin : Finish)
    (cont : RpcClientImpl → Except Exn Unit × RpcClientImpl) :
    Except Exn Unit × RpcClientImpl :=
  let s1 := cancel s
  let s2 := { s1 with exceptionPending := true, finished := s1.finished ++ s.proc.toList }
  let r := onFinished fin s2
  if r.2 then (Except.error e, r.1)
  else if r.1.exceptionPending then (Except.error e, r.1)
  else cont r.1

/-- Effect of `_socket.beginConnect` succeeding. -/
def startConnect (s : RpcClientImpl) : RpcClientImpl :=
  { s with connecting := true }

/-- Embedding of `RpcClientImpl::beginCall`. -/
def beginCall (s : RpcClientImpl) (method : IRemoteProcedure)
    (argv : List IDecomposer) (env : BeginEnv) : Except Exn Unit × RpcClientImpl :=
  if s.selector = false then (Except.error Exn.logicError, s)
  else if s.proc.isSome then (Except.error Exn.logicError, s)
  else
    let s1 := { s with proc := some method }
    let s2 := prepareRequest s1 method.name argv
    let fin : RpcClientImpl → Except Exn Unit × RpcClientImpl :=
      fun t => (Except.ok (), { t with scannerBegun := t.scannerBegun + 1 })
    if s2.connected then
      match env.beginWrite with
      | Except.ok _ => fin { s2 with writing := true }
      | Except.error Exn.ioError =>
        match env.beginConnect with
        | Except.ok _ => fin (startConnect s2)
        | Except.error e => failAsync s2 e env.onFinished fin
      | Except.error e => failAsync s2 e env.onFinished fin
    else
      match env.beginConnect with
      | Except.ok _ => fin (startConnect s2)
      | Except.error e => failAsync s2 e env.onFinished fin

/-- Outcome of feeding one byte to `_deserializer.advance` (followed, when the
reply is complete, by `_scanner.finalizeReply()`). -/
inductive Advance where
  | more
  | complete
  | throws (e : Exn)
deriving DecidableEq, Repr

/-- Answers of the collaborators used by the synchronous `call`. -/
structure CallEnv where
  /-- Outcome of the first `sb.pubsync()`, on a connected socket. -/
  flush : Except Exn Unit
  /-- Outcome of the probe `sb.sgetc()`; `none` is end of file. -/
  probe : Except Exn (Option Char)
  /-- Outcome of `_socket.connect` and the TLS handshake. -/
  connect : Except Exn Unit
  /-- Outcome of `sb.pubsync()` after reconnecting. -/
  reflush : Except Exn Unit
  /-- Bytes delivered by successive `sb.sbumpc()`, each with the answer of
  the deserializer; after the last one the stream is at end of file. -/
  reply : List (Char × Advance)

/-- Effect of a successful `sb.pubsync()`: the output buffer goes to the peer. -/
def pubsync (s : RpcClientImpl) : RpcClientImpl :=
  { s with sent := s.sent ++ s.out, out := [] }

/-- The outer handlers of `call`: `RemoteException` only clears `_proc`, any
other exception cancels. -/
def callCatch (s : RpcClientImpl) (e : Exn) : Except Exn Unit × RpcClientImpl :=
  if e = Exn.remoteException then (Except.error e, { s with proc := none })
  else (Except.error e, cancel s)

/-- The loop `while (true)` of `call`. -/
def callLoop (s : RpcClientImpl) : List (Char × Advance) → Except Exn Unit × RpcClientImpl
  | [] => callCatch (cancel s) Exn.runtimeError
  | (_, Advance.more) :: rest => callLoop s rest
  | (_, Advance.complete) :: _ => (Except.ok (), { s with proc := none })
  | (_, Advance.throws e) :: _ => callCatch s e

/-- The part of `call` guarded by `if (_socket.isConnected())`; its handler
only closes the socket, so what a failed flush leaves in the output buffer
stays there. -/
def callConnected (s : RpcClientImpl) (name : String) (argv : List IDecomposer)
    (env : CallEnv) : RpcClientImpl :=
  if s.connected then
    let s1 := prepareRequest s name argv
    let s2 := { s1 with socketTimeout := s1.timeout }
    match env.flush with
    | Except.error _ => socketClose s2
    | Except.ok _ =>
      let s3 := pubsync s2
      match env.probe with
      | Except.error _ => socketClose s3
      | Except.ok none => socketClose s3
      | Except.ok (some _) => s3
  else s

/-- Embedding of `RpcClientImpl::call`. -/
def call (s : RpcClientImpl) (method : IRemoteProcedure)
    (argv : List IDecomposer) (env : CallEnv) : Except Exn Unit × RpcClientImpl :=
  let s1 := { s with proc := some method }
  let s2 := callConnected s1 method.name argv env
  let begin : RpcClientImpl → Except Exn Unit × RpcClientImpl :=
    fun t => callLoop { t with scannerBegun := t.scannerBegun + 1 } env.reply
  if s2.connected = false then
    let s3 := { s2 with socketTimeout := s2.connectTimeout }
    match env.connect with
    | Except.error e => callCatch s3 e
    | Except.ok _ =>
      let s4 := { s3 with connected := true }
      let s5 := prepareRequest s4 method.name argv
      let s6 := { s5 with socketTimeout := s5.timeout }
      match env.reflush with
      | Except.error e => callCatch s6 e
      | Except.ok _ => begin (pubsync s6)
  else begin s2

/-- The handler `catch (const std::exception&)` of the asynchronous callbacks
`onConnect`, `onSslConnect`, `onOutput` and `onInput`, entered with exception
`e`: after `cancel()` the exception is rethrown at once when no procedure was
pending, and delivered through `onFinished()` otherwise. -/
def failHandler (s : RpcClientImpl) (e : Exn) (fin : Finish) :
    Except Exn Unit × RpcClientImpl :=
  match s.proc with
  | none => (Except.error e, cancel s)
  | some _ => failAsync s e fin (fun t => (Except.ok (), t))

/-- A `try` block followed by the handler above: the block completes in state
`t`, or throws `e` in state `t`. -/
def handled (fin : Finish) :
    Except (Exn × RpcClientImpl) RpcClientImpl → Except Exn Unit × RpcClientImpl
  | Except.ok t => (Except.ok (), t)
  | Except.error (e, t) => failHandler t e fin

/-- Answers of the collaborators used by `onConnect` and `onSslConnect`. -/
structure ConnectEnv where
  /-- Outcome of `socket.endConnect()`, respectively `socket.endSslConnect()`. -/
  endConnect : Except Exn Unit
  /-- Outcome of loading the certificate, `setSslVerify` and
  `socket.beginSslConnect()`. -/
  beginSslConnect : Except Exn Unit
  /-- Outcome of `_stream.buffer().beginWrite()`. -/
  beginWrite : Except Exn Unit
  /-- Behaviour of the completion callback. -/
  onFinished : Finish

/-- The `try` block of `RpcClientImpl::onConnect`. -/
def onConnectTry (s : RpcClientImpl) (env : ConnectEnv) :
    Except (Exn × RpcClientImpl) RpcClientImpl :=
  match env.endConnect with
  | Except.error e => Except.error (e, s)
  | Except.ok _ =>
    let s1 := { s with connecting := false, connected := true, exceptionPending := false }
    if s1.ssl then
      match env.beginSslConnect with
      | Except.error e => Except.error (e, s1)
      | Except.ok _ => Except.ok { s1 with connecting := true }
    else
      match env.beginWrite with
      | Except.error e => Except.error (e, s1)
      | Except.ok _ => Except.ok { s1 with writing := true }

/-- Embedding of `RpcClientImpl::onConnect`. -/
def onConnect (s : RpcClientImpl) (env : ConnectEnv) : Except Exn Unit × RpcClientImpl :=
  handled env.onFinished (onConnectTry s env)

/-- The `try` block of `RpcClientImpl::onSslConnect`. -/
def onSslConnectTry (s : RpcClientImpl) (env : ConnectEnv) :
    Except (Exn × RpcClientImpl) RpcClientImpl :=
  let s0 := { s with exceptionPending := false }
  match env.endConnect with
  | Except.error e => Except.error (e, s0)
  | Except.ok _ =>
    let s1 := { s0 with connecting := false }
    match env.beginWrite with
    | Except.error e => Except.error (e, s1)
    | Except.ok _ => Except.ok { s1 with writing := true }

/-- Embedding of `RpcClientImpl::onSslConnect`. -/
def onSslConnect (s : RpcClientImpl) (env : ConnectEnv) : Except Exn Unit × RpcClientImpl :=
  handled env.onFinished (onSslConnectTry s env)

/-- Answers of the collaborators used by `onOutput`. -/
structure OutputEnv where
  /-- Outcome of `sb.endWrite()`: how much of the output buffer went out. -/
  endWrite : Except Exn Nat
  /-- Outcome of `sb.beginWrite()`. -/
  beginWrite : Except Exn Unit
  /-- Outcome of `sb.beginRead()`. -/
  beginRead : Except Exn Unit
  /-- Behaviour of the completion callback. -/
  onFinished : Finish

/-- The `try` block of `RpcClientImpl::onOutput`. -/
def onOutputTry (s : RpcClientImpl) (env : OutputEnv) :
    Except (Exn × RpcClientImpl) RpcClientImpl :=
  let s0 := { s with exceptionPending := false }
  match env.endWrite with
  | Except.error e => Except.error (e, s0)
  | Except.ok n =>
    let s1 := { s0 with sent := s0.sent ++ s0.out.take n, out := s0.out.drop n,
                        writing := false }
    if s1.out.length > 0 then
      match env.beginWrite with
      | Except.error e => Except.error (e, s1)
      | Except.ok _ => Except.ok { s1 with writing := true }
    else
      match env.beginRead with
      | Except.error e => Except.error (e, s1)
      | Except.ok _ => Except.ok { s1 with reading := true }

/-- Embedding of `RpcClientImpl::onOutput`. -/
def onOutput (s : RpcClientImpl) (env : OutputEnv) : Except Exn Unit × RpcClientImpl :=
  handled env.onFinished (onOutputTry s env)

/-- The deserializer and scanner behind `_deserializer` and `_scanner`, with
state `D`. -/
structure Deserializer (D : Type) where
  /-- The call `_deserializer.advance(ch)`: the new state and whether the
  reply is complete. -/
  advance : D → Char → Except Exn (D × Bool)
  /-- The call `_scanner.finalizeReply()`. -/
  finalizeReply : D → Except Exn Unit

/-- The deserializer state together with a record of its use: the bytes
passed to `advance` so far, one per call and in call order, and whether the
last call reported completion. -/
structure Scan (D : Type) where
  state : D
  fed : List Char
  complete : Bool
deriving DecidableEq, Repr

/-- One call `_deserializer.advance(ch)`. -/
def advanceScan {D : Type} (de : Deserializer D) (p : Scan D) (ch : Char) :
    Except Exn Bool × Scan D :=
  match de.advance p.state ch with
  | Except.ok (d, b) => (Except.ok b, { state := d, fed := p.fed ++ [ch], complete := b })
  | Except.error e => (Except.error e, { p with fed := p.fed ++ [ch] })

/-- The loop `while (true)` of `call` with the deserializer made explicit;
`bytes` are what successive `sb.sbumpc()` deliver before end of file. -/
def callPump {D : Type} (de : Deserializer D) (s : RpcClientImpl) :
    Scan D → List Char → (Except Exn Unit × RpcClientImpl) × Scan D
  | p, [] => (callCatch (cancel s) Exn.runtimeError, p)
  | p, ch :: rest =>
    match advanceScan de p ch with
    | (Except.error e, p1) => (callCatch s e, p1)
    | (Except.ok false, p1) => callPump de s p1 rest
    | (Except.ok true, p1) =>
      let s1 := { s with proc := none }
      match de.finalizeReply p1.state with
      | Except.error e => (callCatch s1 e, p1)
      | Except.ok _ => ((Except.ok (), s1), p1)

/-- The loop `while (_stream.buffer().in_avail())` of `onInput` up to its
completion test: whether the reply is complete, the deserializer, and the
input left in the buffer. -/
def drain {D : Type} (de : Deserializer D) :
    Scan D → List Char → Except Exn Bool × Scan D × List Char
  | p, [] => (Except.ok false, p, [])
  | p, ch :: rest =>
    match advanceScan de p ch with
    | (Except.error e, p1) => (Except.error e, p1, rest)
    | (Except.ok true, p1) => (Except.ok true, p1, rest)
    | (Except.ok false, p1) => drain de p1 rest

/-- Answers of the collaborators used by `onInput`. -/
structure InputEnv where
  /-- Outcome of `sb.endRead()`: the bytes received. -/
  endRead : Except Exn (List Char)
  /-- Value of `sb.device()->eof()`. -/
  eof : Bool
  /-- Outcome of `sb.beginRead()`. -/
  beginRead : Except Exn Unit
  /-- Behaviour of the completion callback. -/
  onFinished : Finish

/-- The completion of a call in `onInput`: `_proc` is cleared and
`onFinished()` is invoked on the procedure `pr`. The `try` block has set
`_exceptionPending = false`, so an `endCall()` made by the callback rethrows
nothing and the callback returns. -/
def complete (s : RpcClientImpl) (pr : IRemoteProcedure) (fin : Finish) : RpcClientImpl :=
  let s1 := { s with proc := none, finished := s.finished ++ [pr] }
  (onFinished fin s1).1

/-- The `try` block of `RpcClientImpl::onInput`; there is no result when
`onFinished()` is invoked through a null `_proc`. -/
def onInputTry {D : Type} (de : Deserializer D) (s : RpcClientImpl) (p : Scan D)
    (env : InputEnv) : Option (Except (Exn × RpcClientImpl) RpcClientImpl × Scan D) :=
  let s0 := { s with exceptionPending := false }
  match env.endRead with
  | Except.error e => some (Except.error (e, s0), p)
  | Except.ok bytes =>
    let s1 := { s0 with reading := false, inBuf := s0.inBuf ++ bytes }
    if env.eof then some (Except.error (Exn.ioError, s1), p)
    else
      match drain de p s1.inBuf with
      | (Except.error e, p1, rest) => some (Except.error (e, { s1 with inBuf := rest }), p1)
      | (Except.ok true, p1, rest) =>
        let s2 := { s1 with inBuf := rest }
        match de.finalizeReply p1.state with
        | Except.error e => some (Except.error (e, s2), p1)
        | Except.ok _ =>
          match s2.proc with
          | none => none
          | some pr => some (Except.ok (complete s2 pr env.onFinished), p1)
      | (Except.ok false, p1, rest) =>
        let s2 := { s1 with inBuf := rest }
        if s2.streamFail then some (Except.error (Exn.runtimeError, socketClose s2), p1)
        else
          match env.beginRead with
          | Except.error e => some (Except.error (e, s2), p1)
          | Except.ok _ => some (Except.ok { s2 with reading := true }, p1)

/-- Embedding of `RpcClientImpl::onInput`. -/
def onInput {D : Type} (de : Deserializer D) (s : RpcClientImpl) (p : Scan D)
    (env : InputEnv) : Option ((Except Exn Unit × RpcClientImpl) × Scan D) :=
  (onInputTry de s p env).map (fun r => (handled env.onFinished r.1, r.2))

/-- What `onInput` finds when the read in progress has received `chunk`, the
peer has not closed and a further read can be begun. -/
def received (chunk : List Char) (fin : Finish) : InputEnv :=
  { endRead := Except.ok chunk, eof := false, beginRead := Except.ok (), onFinished := fin }

/-- Successive `onInput` events, one per chunk of received bytes; an event is
delivered only while a read is in progress and the previous one returned. -/
def onInputs {D : Type} (de : Deserializer D) (fin : Finish) :
    List (List Char) → RpcClientImpl → Scan D →
      Option ((Except Exn Unit × RpcClientImpl) × Scan D)
  | [], s, p => some ((Except.ok (), s), p)
  | chunk :: rest, s, p =>
    if s.reading then
      match onInput de s p (received chunk fin) with
      | none => none
      | some ((Except.ok _, s1), p1) => onInputs de fin rest s1 p1
      | some ((Except.error e, s1), p1) => some ((Except.error e, s1), p1)
    else some ((Except.ok (), s), p)

/-- What one call `_socket.selector()->wait(remaining)` does: it reports
expiry; or it returns true after the callbacks it ran left the engine as
`after`, and `clock.stop()` then reads `elapsed`; or an exception leaves a
callback. -/
inductive SelectorWait where
  | expired
  | activity (after : RpcClientImpl) (elapsed : Int)
  | throws (e : Exn) (after : RpcClientImpl)

/-- How `wait` ends: it returns; it throws `std::logic_error` for want of a
selector; it throws `IOTimeout` itself; an exception raised in a callback
passes through it; or the selector would be waited on beyond what is
scripted. -/
inductive WaitOutcome where
  | returned
  | noSelector
  | timedOut
  | raised (e : Exn)
  | unfinished
deriving DecidableEq, Repr

/-- Result of `wait`: how it ended, the engine, and the remaining time passed
to each selector wait, in order. -/
structure WaitResult where
  outcome : WaitOutcome
  engine : RpcClientImpl
  waits : List Int
deriving DecidableEq, Repr

/-- The loop `while (activeProcedure() != 0)` of `wait`; `remaining` is the
time passed to the next selector wait. -/
def waitLoop (timeout : Int) :
    List SelectorWait → RpcClientImpl → Int → List Int → WaitResult
  | [], s, _, waits =>
    if s.proc.isSome then
      { outcome := WaitOutcome.unfinished, engine := s, waits := waits }
    else { outcome := WaitOutcome.returned, engine := s, waits := waits }
  | step :: rest, s, remaining, waits =>
    if s.proc.isSome then
      match step with
      | SelectorWait.expired =>
        { outcome := WaitOutcome.timedOut, engine := s, waits := waits ++ [remaining] }
      | SelectorWait.throws e after =>
        { outcome := WaitOutcome.raised e, engine := after, waits := waits ++ [remaining] }
      | SelectorWait.activity after elapsed =>
        let remaining1 :=
          if timeout ≥ 0 then
            (if timeout - elapsed < 0 then 0 else timeout - elapsed)
          else remaining
        waitLoop timeout rest after remaining1 (waits ++ [remaining])
    else { outcome := WaitOutcome.returned, engine := s, waits := waits }

/-- Embedding of `RpcClientImpl::wait`. -/
def wait (s : RpcClientImpl) (timeout : Int) (script : List SelectorWait) : WaitResult :=
  if s.selector = false then
    { outcome := WaitOutcome.noSelector, engine := s, waits := [] }
  else waitLoop timeout script s timeout []

end RpcClientImpl

/-- The field `_impl` of `json::HttpClient`: null, or an implementation. -/
abbrev HttpClient (I : Type) := Option I

/-- Embedding of `HttpClient::activeProcedure`, over `activeProcedure` of the
implementation. -/
def HttpClient.activeProcedure {I : Type} (implActive : I → Option IRemoteProcedure)
    (c : HttpClient I) : Option IRemoteProcedure :=
  match c with
  | none => none
  | some i => implActive i

/-- Embedding of `HttpClient::cancel`, over `cancel` of the implementation. -/
def HttpClient.cancel {I : Type} (implCancel : I → I) (c : HttpClient I) : HttpClient I :=
  match c with
  | none => none
  | some i => some (implCancel i)

end json

namespace http

/-- A `MessageHeader`: the header fields in the order in which iteration from
`begin()` to `end()` visits them, and the protocol version. -/
structure MessageHeader where
  fields : List (String × String)
  httpVersionMajor : Nat
  httpVersionMinor : Nat
deriving DecidableEq, Repr

/-- A `Request`: what the parse events store, and its header. -/
structure Request where
  method : String
  url : String
  qparams : String
  header : MessageHeader
deriving DecidableEq, Repr

/-- A `Reply`: its header with return code and text, and the body written to
`bodyStream()`. -/
structure Reply where
  header : MessageHeader
  httpReturnCode : Nat
  httpReturnText : String
  body : String
deriving DecidableEq, Repr

/-- Collaborators of `Socket` whose code is not among the sources: the message
header queries, the header parser with state `P`, the server with its
responders of state `R`, the package version and the clock. -/
structure Collab (P R : Type) where
  /-- Comparison of header names used by `MessageHeader::hasHeader`. -/
  sameName : String → String → Bool
  /-- The query `MessageHeader::keepAlive`. -/
  keepAlive : MessageHeader → Bool
  /-- The query `RequestHeader::contentLength`. -/
  contentLength : MessageHeader → Nat
  /-- The update `Reply::setHeader`. -/
  setHeader : MessageHeader → String → String → MessageHeader
  /-- A request after `clear()`. -/
  newRequest : Request
  /-- A reply after `clear()`. -/
  newReply : Reply
  /-- The constant `PACKAGE_VERSION`. -/
  packageVersion : String
  /-- The text produced by `MessageHeader::htdateCurrent`. -/
  htdateCurrent : String
  /-- The parser state after `reset(false)`. -/
  parserReset : P
  /-- The call `_parser.advance(sb)` on the buffered input: new parser state,
  the request as filled by the parse events, and the input left over. -/
  parserAdvance : P → Request → List Char → P × Request × List Char
  parserFail : P → Bool
  parserEnd : P → Bool
  getDefaultResponder : Request → R
  getResponder : Request → R
  beginRequest : R → Request → Except Exn R
  /-- The call `readBody(_stream)` on the buffered input: the returned size. -/
  readBody : R → List Char → Except Exn (Nat × R)
  reply : R → Request → Reply → Except Exn Reply
  replyError : R → Request → Reply → Exn → Reply
  readTimeout : Nat
  writeTimeout : Nat
  keepAliveTimeout : Nat

/-- Modelled from the spec: `MessageHeader::hasHeader` (messageheader.cpp is not
among the sources); a header is present when the header already contains a
field of that name. -/
def hasHeader {P R : Type} (c : Collab P R) (h : MessageHeader) (name : String) : Bool :=
  h.fields.any (fun kv => c.sameName kv.1 name)

/-- Calls and signals recorded while the connection runs; the parser calls
carry the value of `out_avail()` at the moment of the call. -/
inductive Call where
  | parserAdvance (outAvail : Nat)
  | parserReset (outAvail : Nat)
  | getDefaultResponder
  | getResponder
  | beginRequest
  | readBody
  | reply
  | replyError
  | release
  | close
  | timeoutSignal
deriving DecidableEq, Repr

/-- Ways in which a run of the embedded code stops without returning: the
recursion bound of the embedding is used up, `assert(s > 0)` fails, or
`_responder` is dereferenced while null. -/
inductive Halt where
  | outOfFuel
  | assertFailed
  | nullResponder
deriving DecidableEq, Repr

/-- The fields of `Socket` together with the state of its device, stream
buffer and timer. -/
structure Socket (P R : Type) where
  certificateFile : String
  /-- The device is open: accepted and not closed. -/
  isOpen : Bool
  accepted : Bool
  /-- A TLS accept handshake has been begun and not ended. -/
  sslAccepting : Bool
  /-- A read has been begun on the stream buffer and not ended. -/
  reading : Bool
  /-- A write has been begun on the stream buffer and not ended. -/
  writing : Bool
  /-- Bytes the device has received for the read in progress. -/
  rx : List Char
  /-- Value of `sb.device()->eof()`. -/
  eof : Bool
  /-- Outcome of the write in progress: bytes written, or a failure. -/
  tx : Except Exn Nat
  /-- Input buffer of `_stream`; `in_avail()` is its length. -/
  inBuf : List Char
  /-- Value of `out_avail()`. -/
  outAvail : Nat
  /-- Everything written to `_stream`, one entry per output statement. -/
  wire : List String
  /-- The idle timer: `some t` when started with interval `t`. -/
  timer : Option Nat
  parser : P
  request : Request
  reply : Reply
  responder : Option R
  contentLength : Int
  log : List Call

namespace Socket

variable {P R : Type}

/-- The state built by the constructors of `Socket`. -/
def new (c : Collab P R) (certificateFile : String) : Socket P R :=
  { certificateFile := certificateFile, isOpen := false, accepted := false,
    sslAccepting := false, reading := false, writing := false, rx := [],
    eof := false, tx := Except.ok 0, inBuf := [], outAvail := 0, wire := [],
    timer := none, parser := c.parserReset, request := c.newRequest,
    reply := c.newReply, responder := none, contentLength := 0, log := [] }

/-- Appends a recorded call. -/
def record (s : Socket P R) (e : Call) : Socket P R :=
  { s with log := s.log ++ [e] }

/-- Effect of `close()` on the device. -/
def close (s : Socket P R) : Socket P R :=
  record { s with isOpen := false, reading := false, writing := false,
                  sslAccepting := false } Call.close

/-- Effect of `_timer.start(t)`. -/
def timerStart (s : Socket P R) (t : Nat) : Socket P R :=
  { s with timer := some t }

/-- Effect of `_timer.stop()`. -/
def timerStop (s : Socket P R) : Socket P R :=
  { s with timer := none }

/-- Effect of `sb.beginRead()`. -/
def beginRead (s : Socket P R) : Socket P R :=
  { s with reading := true }

/-- Effect of `sb.endRead()`: a read in progress hands over what the device
received. -/
def endRead (s : Socket P R) : Socket P R :=
  if s.reading then { s with inBuf := s.inBuf ++ s.rx, rx := [], reading := false }
  else s

/-- Effect of `sb.beginWrite()`. -/
def beginWrite (s : Socket P R) : Socket P R :=
  { s with writing := true }

/-- Effect of `sb.endWrite()`: a write in progress reports how much went out,
or fails. -/
def endWrite (s : Socket P R) : Except Exn (Socket P R) :=
  if s.writing then
    match s.tx with
    | Except.error e => Except.error e
    | Except.ok n => Except.ok { s with outAvail := s.outAvail - n, writing := false }
  else Except.ok s

/-- One output statement on `_stream`. -/
def write (s : Socket P R) (chunk : String) : Socket P R :=
  { s with wire := s.wire ++ [chunk], outAvail := s.outAvail + chunk.length }

/-- The text of one header line. -/
def headerLine (key value : String) : String :=
  key ++ ": " ++ value ++ "\r\n"

/-- The text of the status line. -/
def statusLine (r : Reply) : String :=
  "HTTP/" ++ toString r.header.httpVersionMajor ++ "." ++
    toString r.header.httpVersionMinor ++ " " ++ toString r.httpReturnCode ++ " " ++
    r.httpReturnText ++ "\r\n"

/-- Embedding of `Socket::sendReply`. -/
def sendReply (c : Collab P R) (s : Socket P R) : Socket P R :=
  let h := s.reply.header
  let s1 := write s (statusLine s.reply)
  let s2 := h.fields.foldl (fun t kv => write t (kv.1 ++ ": " ++ kv.2 ++ "\r\n")) s1
  let s3 := if !hasHeader c h "Content-Length" then
      write s2 ("Content-Length: " ++ toString s.reply.body.length ++ "\r\n")
    else s2
  let s4 := if !hasHeader c h "Server" then
      write s3 ("Server: cxxtools-Http-Server " ++ c.packageVersion ++ "\r\n")
    else s3
  let s5 := if !hasHeader c h "Connection" then
      write s4 ("Connection: " ++
        (if c.keepAlive s.request.header then "keep-alive" else "close") ++ "\r\n")
    else s4
  let s6 := if !hasHeader c h "Date" then
      write s5 ("Date: " ++ c.htdateCurrent ++ "\r\n")
    else s5
  let s7 := write s6 "\r\n"
  write s7 s.reply.body

/-- Embedding of `Socket::onTimeout`. -/
def onTimeout (s : Socket P R) : Socket P R :=
  record s Call.timeoutSignal

/-- Embedding of `Socket::accept`. -/
def accept (s : Socket P R) : Socket P R :=
  let s1 := { s with isOpen := true }
  if s1.certificateFile ≠ "" then { s1 with sslAccepting := true }
  else s1

/-- Embedding of `Socket::postAccept`; `handshake` is the outcome of
`endSslAccept()`, whose failure leaves `postAccept` as an exception. -/
def postAccept (c : Collab P R) (handshake : Except Exn Unit) (s : Socket P R) :
    Except Exn (Socket P R) :=
  let rest : Socket P R → Except Exn (Socket P R) := fun t =>
    let t1 := { t with accepted := true }
    let t2 := beginRead t1
    Except.ok (timerStart t2 c.readTimeout)
  if s.certificateFile ≠ "" then
    match handshake with
    | Except.error e => Except.error e
    | Except.ok _ => rest { s with sslAccepting := false }
  else rest s

/-- The handlers `catch (const std::exception& e)` around `beginRequest` and
`readBody`, up to the call of `sendReply()`: the reply gets `Connection: close`,
the responder writes its error reply and is released. -/
def errorState (c : Collab P R) (r : R) (e : Exn) (s : Socket P R) : Socket P R :=
  let rep1 := { s.reply with header := c.setHeader s.reply.header "Connection" "close" }
  let rep2 := c.replyError r s.request rep1 e
  let s1 := record { s with reply := rep2 } Call.replyError
  record { s1 with responder := none } Call.release

/-- The state in `Socket::doReply` before `sendReply()`: the responder `r`
has run its reply phase, or its error reply on a cleared reply when the reply
phase threw, and is released. -/
def replied (c : Collab P R) (r : R) (s : Socket P R) : Socket P R :=
  let s1 := record s Call.reply
  let s2 := match c.reply r s1.request s1.reply with
    | Except.ok rep => { s1 with reply := rep }
    | Except.error e =>
      record { s1 with reply := c.replyError r s1.request c.newReply e } Call.replyError
  record { s2 with responder := none } Call.release

/-- Embedding of `Socket::doReply`, with the `onOutput` it calls passed in. -/
def doReplyWith (c : Collab P R)
    (onOutput : Socket P R → Except Halt (Socket P R × Bool)) (s : Socket P R) :
    Except Halt (Socket P R × Bool) :=
  match s.responder with
  | none => Except.error Halt.nullResponder
  | some r => onOutput (sendReply c (replied c r s))

/-- The state after `readBody` returned `n` and left the responder as `r1`:
`n` bytes of input are consumed and `_contentLength -= n`. -/
def bodyRead (n : Nat) (r1 : R) (s : Socket P R) : Socket P R :=
  record { s with responder := some r1, inBuf := s.inBuf.drop n,
                  contentLength := s.contentLength - n } Call.readBody

/-- The end of the block `if (_responder)`: the test `_contentLength <= 0`. -/
def bodyDone (c : Collab P R)
    (onOutput : Socket P R → Except Halt (Socket P R × Bool)) (s : Socket P R) :
    Except Halt (Socket P R) :=
  if s.contentLength ≤ 0 then
    (doReplyWith c onOutput (timerStop s)).map Prod.fst
  else Except.ok (beginRead s)

/-- The block `if (_responder)` at the end of `Socket::onInput`, entered with
responder `r`. -/
def onInputBody (c : Collab P R)
    (onOutput : Socket P R → Except Halt (Socket P R × Bool)) (s : Socket P R) (r : R) :
    Except Halt (Socket P R) :=
  if s.inBuf.length > 0 then
    match c.readBody r s.inBuf with
    | Except.error e =>
      (onOutput (sendReply c (errorState c r e (record s Call.readBody)))).map Prod.fst
    | Except.ok (n, r1) =>
      if n > 0 then bodyDone c onOutput (bodyRead n r1 s)
      else Except.error Halt.assertFailed
  else bodyDone c onOutput s

/-- The state after `_parser.advance(sb)`. -/
def parsed (c : Collab P R) (s : Socket P R) : Socket P R :=
  let res := c.parserAdvance s.parser s.request s.inBuf
  record { s with parser := res.1, request := res.2.1, inBuf := res.2.2 }
    (Call.parserAdvance s.outAvail)

/-- The block `if (_parser.fail())` up to the call of `sendReply()`: the
default responder writes the error reply and is released. -/
def headerFailed (c : Collab P R) (s : Socket P R) : Socket P R :=
  let r := c.getDefaultResponder s.request
  let s1 := record s Call.getDefaultResponder
  let s2 := record { s1 with reply := c.replyError r s1.request s1.reply Exn.runtimeError }
    Call.replyError
  record { s2 with responder := none } Call.release

/-- The state in which `beginRequest` is called on the responder `r` that
`getResponder` selected. -/
def selected (r : R) (s : Socket P R) : Socket P R :=
  record (record { s with responder := some r } Call.getResponder) Call.beginRequest

/-- The state after `beginRequest` succeeded and left the responder as `r1`:
`_contentLength` is the content length of the request header. -/
def begun (c : Collab P R) (r1 : R) (s : Socket P R) : Socket P R :=
  { s with responder := some r1, contentLength := c.contentLength s.request.header }

/-- The block `if (_responder == 0)` of `Socket::onInput` and what follows it. -/
def onInputHeader (c : Collab P R)
    (onOutput : Socket P R → Except Halt (Socket P R × Bool)) (s : Socket P R) :
    Except Halt (Socket P R) :=
  let s3 := parsed c s
  if c.parserFail s3.parser then
    (onOutput (sendReply c (headerFailed c s3))).map Prod.fst
  else if c.parserEnd s3.parser then
    let r := c.getResponder s3.request
    let s4 := selected r s3
    match c.beginRequest r s4.request with
    | Except.error e => (onOutput (sendReply c (errorState c r e s4))).map Prod.fst
    | Except.ok r1 =>
      let s5 := begun c r1 s4
      if s5.contentLength = 0 then
        (doReplyWith c onOutput (timerStop s5)).map Prod.fst
      else onInputBody c onOutput s5 r1
  else Except.ok (beginRead s3)

/-- Embedding of `Socket::onInput`, with the `onOutput` it calls passed in. -/
def onInputWith (c : Collab P R)
    (onOutput : Socket P R → Except Halt (Socket P R × Bool)) (s : Socket P R) :
    Except Halt (Socket P R) :=
  let s1 := endRead s
  if s1.inBuf.length = 0 || s1.eof then Except.ok (close s1)
  else
    let s2 := timerStart s1 c.readTimeout
    match s2.responder with
    | some r => onInputBody c onOutput s2 r
    | none => onInputHeader c onOutput s2

/-- The keep-alive branch of `Socket::onOutput` up to the test of buffered
input: the timer is restarted, request and reply are cleared and the parser
is reset. -/
def keptAlive (c : Collab P R) (s : Socket P R) : Socket P R :=
  let s2 := timerStart s c.keepAliveTimeout
  record { s2 with request := c.newRequest, reply := c.newReply, parser := c.parserReset }
    (Call.parserReset s2.outAvail)

/-- The value of `_request.header().keepAlive() && _reply.header().keepAlive()`. -/
def negotiatedKeepAlive (c : Collab P R) (s : Socket P R) : Bool :=
  c.keepAlive s.request.header && c.keepAlive s.reply.header

/-- Embedding of `Socket::onOutput`, with the `onInput` it calls passed in. -/
def onOutputWith (c : Collab P R)
    (onInput : Socket P R → Except Halt (Socket P R)) (s : Socket P R) :
    Except Halt (Socket P R × Bool) :=
  match endWrite s with
  | Except.error _ => Except.ok (record (close s) Call.timeoutSignal, false)
  | Except.ok s1 =>
    if s1.outAvail ≠ 0 then
      Except.ok (timerStart (beginWrite s1) c.writeTimeout, true)
    else if negotiatedKeepAlive c s1 then
      let s3 := keptAlive c s1
      if s3.inBuf.length ≠ 0 then (onInput s3).map (fun t => (t, true))
      else Except.ok (beginRead s3, true)
    else Except.ok (close s1, false)

/-- The function `Socket::onOutput`; the first argument bounds the depth of the
mutual calls between `onOutput` and `onInput`. -/
def onOutput (c : Collab P R) : Nat → Socket P R → Except Halt (Socket P R × Bool)
  | 0, _ => Except.error Halt.outOfFuel
  | n + 1, s => onOutputWith c (onInputWith c (onOutput c n)) s

/-- The function `Socket::onInput`. -/
def onInput (c : Collab P R) (n : Nat) (s : Socket P R) : Except Halt (Socket P R) :=
  onInputWith c (onOutput c n) s

/-- The function `Socket::doReply`. -/
def doReply (c : Collab P R) (n : Nat) (s : Socket P R) : Except Halt (Socket P R × Bool) :=
  doReplyWith c (onOutput c n) s

/-- Readiness events that the reactor delivers to a connection, with what
the device reports at that moment. -/
inductive Event where
  | accept
  | postAccept (handshake : Except Exn Unit)
  | input (bytes : List Char) (eof : Bool)
  | output (result : Except Exn Nat)
  | timeout

/-- Modelled from the spec: the Reactor (its code is not among the sources)
dispatches per-stream readiness callbacks; a connection is accepted once, its
input callback runs when a begun read completes, its output callback when a
begun write completes, and its timer callback while the timer is started. A
run that stops without returning has no successor state. -/
def dispatch (c : Collab P R) (fuel : Nat) (s : Socket P R) : Event → Option (Socket P R)
  | Event.accept =>
    if s.isOpen = false ∧ s.accepted = false then some (accept s) else none
  | Event.postAccept handshake =>
    if s.isOpen = true ∧ s.accepted = false then (postAccept c handshake s).toOption else none
  | Event.input bytes eof =>
    if s.reading = true then (onInput c fuel { s with rx := bytes, eof := eof }).toOption
    else none
  | Event.output result =>
    if s.writing = true then
      (onOutput c fuel { s with tx := result }).toOption.map Prod.fst
    else none
  | Event.timeout =>
    if s.timer.isSome = true then some (onTimeout s) else none

/-- The state after a sequence of events, when each of them can be delivered. -/
def run (c : Collab P R) (fuel : Nat) : List Event → Socket P R → Option (Socket P R)
  | [], s => some s
  | e :: es, s => (dispatch c fuel s e).bind (run c fuel es)

/-- The connection is waiting for I/O: a read, a write or a TLS accept
handshake has been begun and not completed, and the connection is not closed. -/
def awaitsIO (s : Socket P R) : Prop :=
  (s.reading = true ∨ s.writing = true ∨ s.sslAccepting = true) ∧ s.isOpen = true

/-- The idle timer is started. -/
def timerArmed (s : Socket P R) : Prop :=
  s.timer.isSome = true

/-- The state `t` differs from `s` only in what the handling of input up to
the next output touches: device flags, pending output and write outcome are
those of `s`, and the recorded calls are those of `s` followed by parser and
responder calls, any parser call made at the pending output of `s`. -/
structure Frame (s t : Socket P R) : Prop where
  isOpen : t.isOpen = s.isOpen
  accepted : t.accepted = s.accepted
  sslAccepting : t.sslAccepting = s.sslAccepting
  reading : t.reading = s.reading
  writing : t.writing = s.writing
  outAvail : t.outAvail = s.outAvail
  tx : t.tx = s.tx
  log : ∃ extra, t.log = s.log ++ extra ∧
    ∀ e ∈ extra, e = Call.parserAdvance s.outAvail ∨
      e ∈ [Call.getDefaultResponder, Call.getResponder, Call.beginRequest, Call.readBody,
        Call.reply, Call.replyError, Call.release]

/-- Every parser call on record was made with no output pending. -/
def parsedOnlyWhenFlushed (log : List Call) : Prop :=
  ∀ n, (Call.parserAdvance n ∈ log ∨ Call.parserReset n ∈ log) → n = 0

end Socket

/-- The delegate `ServerImpl::acceptSslCertificate`: `none` when nothing is
connected to it, otherwise the registered predicate. -/
abbrev AcceptDelegate (Cert : Type) := Option (Cert → Bool)

/-- Embedding of `Socket::onAcceptSslCertificate`. -/
def onAcceptSslCertificate {Cert : Type} (d : AcceptDelegate Cert) (cert : Cert) : Bool :=
  !d.isSome || (match d with
    | some p => p cert
    | none => false)

/-- The predicate `doAccept` of the demo server. -/
def doAccept {Cert : Type} (_ : Cert) : Bool := true

/-- The predicate `noAccept` of the demo server. -/
def noAccept {Cert : Type} (_ : Cert) : Bool := false

end http
end cxxtools

open cxxtools cxxtools.json cxxtools.http

namespace cxxtools

/-- The categories of a `SerializationInfo`. -/
inductive Category where
  | Void
  | Value
  | Object
  | Array
deriving DecidableEq, Repr

/-- A floating point value, as far as the conversions look at it: a finite
value, an infinity, or not a number. -/
inductive FloatVal where
  | finite (q : ℚ)
  | posInf
  | negInf
  | nan
deriving DecidableEq, Repr

namespace FloatVal

/-- The comparison `a == b` of floating point values: not a number equals
nothing. -/
def eq : FloatVal → FloatVal → Bool
  | finite q, finite r => decide (q = r)
  | posInf, posInf => true
  | negInf, negInf => true
  | _, _ => false

/-- The comparison `a > b` of floating point values: false when either side
is not a number. -/
def gt : FloatVal → FloatVal → Bool
  | finite q, finite r => decide (r < q)
  | finite _, negInf => true
  | posInf, finite _ => true
  | posInf, negInf => true
  | _, _ => false

/-- The comparison `a < b`. -/
def lt (a b : FloatVal) : Bool := gt b a

/-- The negation `-a`. -/
def neg : FloatVal → FloatVal
  | finite q => finite (-q)
  | posInf => negInf
  | negInf => posInf
  | nan => nan

/-- The conversion to a narrower floating point type whose rounding of finite
values is `round`: infinities and not a number convert to themselves. -/
def narrow (round : ℚ → ℚ) : FloatVal → FloatVal
  | finite q => finite (round q)
  | posInf => posInf
  | negInf => negInf
  | nan => nan

end FloatVal

/-- The payload of a node: the tag `_t` with the member of `_u` it selects. -/
inductive Payload where
  | none
  | string (v : String)
  | string8 (v : String)
  | char (v : Char)
  | bool (v : Bool)
  | int (v : Int)
  | uint (v : Nat)
  | float (v : FloatVal)
  | double (v : FloatVal)
  | ldouble (v : FloatVal)
deriving DecidableEq, Repr

/-- A `SerializationInfo`: category, name, type name, payload, and the pointer
`_nodes`, null or the vector of children in insertion order. -/
inductive SerializationInfo where
  | mk (category : Category) (name : String) (type : String) (value : Payload)
      (nodes : Option (List SerializationInfo))

/-- Exceptions thrown by the member lookups of `SerializationInfo`. -/
inductive SerializationError where
  | memberNotFound (name : String)
  | rangeError
  | conversionError
deriving DecidableEq, Repr

namespace SerializationInfo

/-- The field `_category`. -/
def category : SerializationInfo → Category
  | mk c _ _ _ _ => c

/-- The field `_name`. -/
def name : SerializationInfo → String
  | mk _ n _ _ _ => n

/-- The field `_type`. -/
def type : SerializationInfo → String
  | mk _ _ t _ _ => t

/-- The payload. -/
def value : SerializationInfo → Payload
  | mk _ _ _ v _ => v

/-- The pointer `_nodes`. -/
def nodesPtr : SerializationInfo → Option (List SerializationInfo)
  | mk _ _ _ _ ns => ns

/-- Embedding of the const `SerializationInfo::nodes`: the children, or the
empty vector when `_nodes` is null. -/
def nodes : SerializationInfo → List SerializationInfo
  | mk _ _ _ _ (some ns) => ns
  | mk _ _ _ _ Option.none => []

/-- Modelled from the spec: the default constructor of `SerializationInfo`
(serializationinfo.h is not among the sources) builds an empty node: category
Void, no name, no type, no payload, no children. -/
def empty : SerializationInfo :=
  mk Category.Void "" "" Payload.none Option.none

/-- Modelled from the spec: `setName` (serializationinfo.h is not among the
sources) sets the name of the node and nothing else. -/
def setName : SerializationInfo → String → SerializationInfo
  | mk c _ t v ns, n => mk c n t v ns

/-- Embedding of `SerializationInfo::addMember`: the node afterwards, and the
child `n.back()` to which the returned reference refers. -/
def addMember (si : SerializationInfo) (name : String) :
    SerializationInfo × SerializationInfo :=
  let n := si.nodes
  let n1 := n ++ [empty]
  let n2 := n1.dropLast ++ [setName (n1.getLastD empty) name]
  let cat :=
    if si.category ≠ Category.Array ∧ si.category ≠ Category.Object then
      (if name.isEmpty then Category.Array else Category.Object)
    else si.category
  (mk cat si.name si.type si.value (some n2), n2.getLastD empty)

/-- The loop over the children in `getMember` and `findMember`: the first
child, from `begin()` on, whose name equals `name`. -/
def firstNamed (name : String) : List SerializationInfo → Option SerializationInfo
  | [] => Option.none
  | c :: rest => if c.name == name then some c else firstNamed name rest

/-- Embedding of `SerializationInfo::getMember(const std::string&)`. -/
def getMember (si : SerializationInfo) (name : String) :
    Except SerializationError SerializationInfo :=
  match firstNamed name si.nodes with
  | some c => Except.ok c
  | Option.none => Except.error (SerializationError.memberNotFound name)

/-- Embedding of `SerializationInfo::getMember(unsigned)`. -/
def getMemberAt (si : SerializationInfo) (idx : Nat) :
    Except SerializationError SerializationInfo :=
  match si.nodes.get? idx with
  | some c => Except.ok c
  | Option.none => Except.error SerializationError.rangeError

/-- Embedding of `SerializationInfo::findMember`, in both its const and its
non-const form: the pointer returned, null when no child has the name. -/
def findMember (si : SerializationInfo) (name : String) : Option SerializationInfo :=
  firstNamed name si.nodes

/-- The node after `addMember` has been called with each of `names` in turn. -/
def addMembers (si : SerializationInfo) (names : List String) : SerializationInfo :=
  names.foldl (fun t n => (addMember t n).1) si

end SerializationInfo

end cxxtools

namespace cxxtools

/-- Modelled from the spec: the largest value of `int_type`
(serializationinfo.h is not among the sources), the largest signed 64-bit
value. -/
def intTypeMax : Int := 2 ^ 63 - 1

/-- Modelled from the spec: the modulus of `unsigned_type`
(serializationinfo.h is not among the sources), an unsigned 64-bit type. -/
def unsignedTypeModulus : Int := 2 ^ 64

/-- Conversions used by the getters whose code is not among the sources:
`convert`, `String::narrow`, the casts from floating point to integer types,
and the roundings and largest finite values of `float` and `double`. -/
structure Conversions where
  /-- The conversion `String::narrow()`. -/
  narrow : String → String
  /-- The assignment of a narrow string to a wide one. -/
  widen : String → String
  /-- The conversion `Char::narrow()`. -/
  narrowChar : Char → Char
  /-- The call `convert(value, x)` into a narrow string, for the payload
  holding `x`. -/
  toText : Payload → String
  /-- The call `convert(value, x)` into a wide string. -/
  toWideText : Payload → String
  /-- The call `convert<int_type>` on a narrow string; `none` is
  `ConversionError`. -/
  stringToInt : String → Option Int
  /-- The call `convert<unsigned_type>` on a narrow string. -/
  stringToUInt : String → Option Nat
  /-- The call `convert<float>` on a narrow string. -/
  stringToFloat : String → Option FloatVal
  /-- The call `convert<double>` on a narrow string. -/
  stringToDouble : String → Option FloatVal
  /-- The call `convert<int_type>` on a wide string. -/
  wideToInt : String → Option Int
  /-- The call `convert<unsigned_type>` on a wide string. -/
  wideToUInt : String → Option Nat
  /-- The call `convert<float>` on a wide string. -/
  wideToFloat : String → Option FloatVal
  /-- The call `convert<double>` on a wide string. -/
  wideToDouble : String → Option FloatVal
  /-- The conversion of an integer value to `char`. -/
  intToChar : Int → Char
  /-- The cast `static_cast<char>` of a floating point value. -/
  floatToChar : FloatVal → Char
  /-- The cast `static_cast<int_type>` of a floating point value. -/
  floatToInt : FloatVal → Int
  /-- The cast `static_cast<unsigned_type>` of a floating point value. -/
  floatToUInt : FloatVal → Nat
  /-- Rounding of a finite value to `float`. -/
  roundFloat : ℚ → ℚ
  /-- Rounding of a finite value to `double`. -/
  roundDouble : ℚ → ℚ
  /-- The value `std::numeric_limits<float>::max()`. -/
  floatMax : ℚ
  /-- The value `std::numeric_limits<double>::max()`. -/
  doubleMax : ℚ

namespace SerializationInfo

/-- Embedding of `SerializationInfo::_releaseValue`: a string payload is
destroyed and `_t = t_none`. -/
def _releaseValue : SerializationInfo → SerializationInfo
  | mk c n t _ ns => mk c n t Payload.none ns

/-- The assignments `_u = value` (with `_t` naming its kind) and
`_category = Value` that end every setter. -/
def store (p : Payload) : SerializationInfo → SerializationInfo
  | mk _ n t _ ns => mk Category.Value n t p ns

/-- Embedding of `SerializationInfo::setNull`. -/
def setNull (si : SerializationInfo) : SerializationInfo :=
  store Payload.none (_releaseValue si)

/-- Embedding of `SerializationInfo::_setString`. -/
def _setString (si : SerializationInfo) (value : String) : SerializationInfo :=
  match si.value with
  | Payload.string _ => store (Payload.string value) si
  | _ => store (Payload.string value) (_releaseValue si)

/-- Embedding of `SerializationInfo::_setString8`, in both its forms. -/
def _setString8 (si : SerializationInfo) (value : String) : SerializationInfo :=
  match si.value with
  | Payload.string8 _ => store (Payload.string8 value) si
  | _ => store (Payload.string8 value) (_releaseValue si)

/-- Embedding of `SerializationInfo::_setChar`. -/
def _setChar (si : SerializationInfo) (value : Char) : SerializationInfo :=
  match si.value with
  | Payload.char _ => store (Payload.char value) si
  | _ => store (Payload.char value) (_releaseValue si)

/-- Embedding of `SerializationInfo::_setBool`. -/
def _setBool (si : SerializationInfo) (value : Bool) : SerializationInfo :=
  match si.value with
  | Payload.bool _ => store (Payload.bool value) si
  | _ => store (Payload.bool value) (_releaseValue si)

/-- Embedding of `SerializationInfo::_setInt`. -/
def _setInt (si : SerializationInfo) (value : Int) : SerializationInfo :=
  match si.value with
  | Payload.int _ => store (Payload.int value) si
  | _ => store (Payload.int value) (_releaseValue si)

/-- Embedding of `SerializationInfo::_setUInt`. -/
def _setUInt (si : SerializationInfo) (value : Nat) : SerializationInfo :=
  match si.value with
  | Payload.uint _ => store (Payload.uint value) si
  | _ => store (Payload.uint value) (_releaseValue si)

/-- Embedding of `SerializationInfo::_setFloat`. -/
def _setFloat (si : SerializationInfo) (value : FloatVal) : SerializationInfo :=
  match si.value with
  | Payload.float _ => store (Payload.float value) si
  | _ => store (Payload.float value) (_releaseValue si)

/-- Embedding of `SerializationInfo::_setDouble`. -/
def _setDouble (si : SerializationInfo) (value : FloatVal) : SerializationInfo :=
  match si.value with
  | Payload.double _ => store (Payload.double value) si
  | _ => store (Payload.double value) (_releaseValue si)

/-- Embedding of `SerializationInfo::_setLongDouble`. -/
def _setLongDouble (si : SerializationInfo) (value : FloatVal) : SerializationInfo :=
  match si.value with
  | Payload.ldouble _ => store (Payload.ldouble value) si
  | _ => store (Payload.ldouble value) (_releaseValue si)

/-- Embedding of `SerializationInfo::getValue(String&)`. -/
def getValueString (cv : Conversions) (si : SerializationInfo) : String :=
  match si.value with
  | Payload.none => ""
  | Payload.string v => v
  | Payload.string8 v => cv.widen v
  | Payload.char c => String.singleton c
  | p => cv.toWideText p

/-- Embedding of `SerializationInfo::getValue(std::string&)`. -/
def getValueString8 (cv : Conversions) (si : SerializationInfo) : String :=
  match si.value with
  | Payload.none => ""
  | Payload.string v => cv.narrow v
  | Payload.string8 v => v
  | Payload.char c => String.singleton c
  | p => cv.toText p

/-- The helper `isFalse` of serializationinfo.cpp. -/
def isFalse (c : Char) : Bool :=
  c == '\x00' || c == '0' || c == 'f' || c == 'F' || c == 'n' || c == 'N'

/-- The conversion of a floating point value to `bool`: everything but zero
is true. -/
def floatNonZero : FloatVal → Bool
  | FloatVal.finite q => decide (q ≠ 0)
  | _ => true

/-- Embedding of `SerializationInfo::_getBool`. -/
def _getBool (cv : Conversions) (si : SerializationInfo) : Bool :=
  match si.value with
  | Payload.none => false
  | Payload.string v =>
    match v.toList with
    | [] => false
    | c :: _ => !isFalse (cv.narrowChar c)
  | Payload.string8 v =>
    match v.toList with
    | [] => false
    | c :: _ => !isFalse c
  | Payload.char c => !isFalse c
  | Payload.bool b => b
  | Payload.int i => decide (i ≠ 0)
  | Payload.uint u => decide (u ≠ 0)
  | Payload.float f => floatNonZero f
  | Payload.double f => floatNonZero f
  | Payload.ldouble f => floatNonZero f

/-- Embedding of `SerializationInfo::_getChar`. -/
def _getChar (cv : Conversions) (si : SerializationInfo) : Char :=
  match si.value with
  | Payload.none => '\x00'
  | Payload.string v =>
    match v.toList with
    | [] => '\x00'
    | c :: _ => cv.narrowChar c
  | Payload.string8 v =>
    match v.toList with
    | [] => '\x00'
    | c :: _ => c
  | Payload.char c => c
  | Payload.bool b => cv.intToChar (if b then 1 else 0)
  | Payload.int i => cv.intToChar i
  | Payload.uint u => cv.intToChar u
  | Payload.float f => cv.floatToChar f
  | Payload.double f => cv.floatToChar f
  | Payload.ldouble f => cv.floatToChar f

/-- The value of the `char` payload `c` in the expression `_u._c - '0'`:
`char` is a signed 8-bit type for the compiler and platform of the sources
(gcc on x86-64), so that the bytes from 0x80 on are negative. -/
def charValue (c : Char) : Int :=
  if c.toNat % 256 < 128 then ((c.toNat % 256 : Nat) : Int)
  else ((c.toNat % 256 : Nat) : Int) - 256

/-- The test `ret < min || ret > max` that ends `_getInt`. -/
def checkInt (ret min max : Int) : Except SerializationError Int :=
  if ret < min ∨ ret > max then Except.error SerializationError.rangeError
  else Except.ok ret

/-- Embedding of `SerializationInfo::_getInt`. -/
def _getInt (cv : Conversions) (si : SerializationInfo) (min max : Int) :
    Except SerializationError Int :=
  match si.value with
  | Payload.none => checkInt 0 min max
  | Payload.string v =>
    match cv.wideToInt v with
    | some r => checkInt r min max
    | Option.none => Except.error SerializationError.conversionError
  | Payload.string8 v =>
    match cv.stringToInt v with
    | some r => checkInt r min max
    | Option.none => Except.error SerializationError.conversionError
  | Payload.char c => checkInt (charValue c - charValue '0') min max
  | Payload.bool b => checkInt (if b then 1 else 0) min max
  | Payload.int i => checkInt i min max
  | Payload.uint u =>
    if (u : Int) > intTypeMax then Except.error SerializationError.rangeError
    else checkInt u min max
  | Payload.float f => checkInt (cv.floatToInt f) min max
  | Payload.double f => checkInt (cv.floatToInt f) min max
  | Payload.ldouble f => checkInt (cv.floatToInt f) min max

/-- The test `ret > max` that ends `_getUInt`. -/
def checkUInt (ret max : Nat) : Except SerializationError Nat :=
  if ret > max then Except.error SerializationError.rangeError
  else Except.ok ret

/-- Embedding of `SerializationInfo::_getUInt`. -/
def _getUInt (cv : Conversions) (si : SerializationInfo) (max : Nat) :
    Except SerializationError Nat :=
  match si.value with
  | Payload.none => checkUInt 0 max
  | Payload.string v =>
    match cv.wideToUInt v with
    | some r => checkUInt r max
    | Option.none => Except.error SerializationError.conversionError
  | Payload.string8 v =>
    match cv.stringToUInt v with
    | some r => checkUInt r max
    | Option.none => Except.error SerializationError.conversionError
  | Payload.char c =>
    checkUInt (((charValue c - charValue '0') % unsignedTypeModulus).toNat) max
  | Payload.bool b => checkUInt (if b then 1 else 0) max
  | Payload.int i =>
    if i < 0 then Except.error SerializationError.rangeError
    else checkUInt i.toNat max
  | Payload.uint u => checkUInt u max
  | Payload.float f => checkUInt (cv.floatToUInt f) max
  | Payload.double f => checkUInt (cv.floatToUInt f) max
  | Payload.ldouble f => checkUInt (cv.floatToUInt f) max

/-- The cases `t_double` and `t_ldouble` of `_getFloat` and the case
`t_ldouble` of `_getDouble`: the narrowing of the payload `v` to a type with
rounding `round` and largest finite value `max`. -/
def narrowChecked (round : ℚ → ℚ) (max : ℚ) (v : FloatVal) :
    Except SerializationError FloatVal :=
  if FloatVal.eq v FloatVal.posInf then Except.ok FloatVal.posInf
  else if FloatVal.eq v (FloatVal.neg FloatVal.posInf) then
    Except.ok (FloatVal.neg FloatVal.posInf)
  else if !FloatVal.eq v v then Except.ok (FloatVal.narrow round v)
  else if FloatVal.gt v (FloatVal.finite max)
      || FloatVal.lt v (FloatVal.neg (FloatVal.finite max)) then
    Except.error SerializationError.rangeError
  else Except.ok (FloatVal.narrow round v)

/-- Embedding of `SerializationInfo::_getFloat`. -/
def _getFloat (cv : Conversions) (si : SerializationInfo) :
    Except SerializationError FloatVal :=
  match si.value with
  | Payload.none => Except.ok (FloatVal.finite 0)
  | Payload.string v =>
    match cv.wideToFloat v with
    | some r => Except.ok r
    | Option.none => Except.error SerializationError.conversionError
  | Payload.string8 v =>
    match cv.stringToFloat v with
    | some r => Except.ok r
    | Option.none => Except.error SerializationError.conversionError
  | Payload.char c =>
    Except.ok (FloatVal.finite (cv.roundFloat (charValue c - charValue '0')))
  | Payload.bool b => Except.ok (FloatVal.finite (if b then 1 else 0))
  | Payload.int i => Except.ok (FloatVal.finite (cv.roundFloat i))
  | Payload.uint u => Except.ok (FloatVal.finite (cv.roundFloat u))
  | Payload.float f => Except.ok f
  | Payload.double d => narrowChecked cv.roundFloat cv.floatMax d
  | Payload.ldouble d => narrowChecked cv.roundFloat cv.floatMax d

/-- Embedding of `SerializationInfo::_getDouble`. -/
def _getDouble (cv : Conversions) (si : SerializationInfo) :
    Except SerializationError FloatVal :=
  match si.value with
  | Payload.none => Except.ok (FloatVal.finite 0)
  | Payload.string v =>
    match cv.wideToDouble v with
    | some r => Except.ok r
    | Option.none => Except.error SerializationError.conversionError
  | Payload.string8 v =>
    match cv.stringToDouble v with
    | some r => Except.ok r
    | Option.none => Except.error SerializationError.conversionError
  | Payload.char c =>
    Except.ok (FloatVal.finite (cv.roundDouble (charValue c - charValue '0')))
  | Payload.bool b => Except.ok (FloatVal.finite (if b then 1 else 0))
  | Payload.int i => Except.ok (FloatVal.finite (cv.roundDouble i))
  | Payload.uint u => Except.ok (FloatVal.finite (cv.roundDouble u))
  | Payload.float f => Except.ok f
  | Payload.double d => Except.ok d
  | Payload.ldouble d => narrowChecked cv.roundDouble cv.doubleMax d

end SerializationInfo

end cxxtools

namespace cxxtools

namespace SerializationInfo

/-- The assignments `_u = u; _t = t;`: the payload alone is replaced. -/
def withValue : SerializationInfo → Payload → SerializationInfo
  | mk c n t _ ns, p => mk c n t p ns

/-- The assignment to `_nodes`: the pointer to the children alone is
replaced. -/
def withNodes : SerializationInfo → Option (List SerializationInfo) → SerializationInfo
  | mk c n t v _, ns => mk c n t v ns

/-- Modelled from the spec: `setValue(const String&)` (serializationinfo.h is
not among the sources) forwards to `_setString`. -/
def setValueString (si : SerializationInfo) (value : String) : SerializationInfo :=
  _setString si value

/-- Modelled from the spec: `setValue(const std::string&)` (serializationinfo.h
is not among the sources) forwards to `_setString8`. -/
def setValueString8 (si : SerializationInfo) (value : String) : SerializationInfo :=
  _setString8 si value

/-- The middle of `SerializationInfo::swap`, the cases on `_t` and `si._t`:
`this` and `si` afterwards. -/
def swapValues (self si : SerializationInfo) : SerializationInfo × SerializationInfo :=
  match self.value, si.value with
  | Payload.string x, Payload.string y =>
    -- `_String().swap(si._String());`
    (withValue self (Payload.string y), withValue si (Payload.string x))
  | Payload.string x, Payload.string8 y =>
    -- `std::string s; si._String8().swap(s);`
    let s := y
    let si1 := withValue si (Payload.string8 "")
    -- `si.setValue(String());`
    let si2 := setValueString si1 ""
    -- `si._String().swap(_String());`
    let si3 := withValue si2 (Payload.string x)
    let self1 := withValue self (Payload.string "")
    -- `setValue(s);`
    (setValueString8 self1 s, si3)
  | Payload.string x, u =>
    -- `U u = si._u; T t = si._t; si.setValue(String());`
    let si1 := setValueString si ""
    -- `_String().swap(si._String());`
    let si2 := withValue si1 (Payload.string x)
    let self1 := withValue self (Payload.string "")
    -- `_releaseValue(); _u = u; _t = t;`
    (withValue (_releaseValue self1) u, si2)
  | Payload.string8 x, Payload.string y =>
    -- `String s; si._String().swap(s);`
    let s := y
    let si1 := withValue si (Payload.string "")
    -- `si.setValue(std::string());`
    let si2 := setValueString8 si1 ""
    -- `_String8().swap(si._String8());`
    let si3 := withValue si2 (Payload.string8 x)
    let self1 := withValue self (Payload.string8 "")
    -- `setValue(s);`
    (setValueString self1 s, si3)
  | Payload.string8 x, Payload.string8 y =>
    -- `_String8().swap(si._String8());`
    (withValue self (Payload.string8 y), withValue si (Payload.string8 x))
  | Payload.string8 x, u =>
    -- `U u = si._u; T t = si._t; si.setValue(_String8());`
    let si1 := setValueString8 si x
    -- `_releaseValue(); _u = u; _t = t;`
    (withValue (_releaseValue self) u, si1)
  | u, Payload.string y =>
    -- `U u = _u; T t = _t; setValue(si._String());`
    let self1 := setValueString self y
    -- `si._releaseValue(); si._u = u; si._t = t;`
    (self1, withValue (_releaseValue si) u)
  | u, Payload.string8 y =>
    -- `U u = _u; T t = _t; setValue(si._String8());`
    let self1 := setValueString8 self y
    -- `si._releaseValue(); si._u = u; si._t = t;`
    (self1, withValue (_releaseValue si) u)
  | u, v =>
    -- `std::swap(_u, si._u); std::swap(_t, si._t);`
    (withValue self v, withValue si u)

/-- Embedding of `SerializationInfo::swap` for two distinct nodes: `this` and
`si` afterwards. -/
def swap (self si : SerializationInfo) : SerializationInfo × SerializationInfo :=
  -- `std::swap(_category, si._category); std::swap(_name, si._name);
  -- std::swap(_type, si._type);`
  let self1 := mk si.category si.name si.type self.value self.nodesPtr
  let si1 := mk self.category self.name self.type si.value si.nodesPtr
  let r := swapValues self1 si1
  -- `std::swap(_nodes, si._nodes);`
  (withNodes r.1 r.2.nodesPtr, withNodes r.2 r.1.nodesPtr)

/-- Embedding of `SerializationInfo::assignData` for a node `si` other than
`this`: `this` afterwards. -/
def assignData (self si : SerializationInfo) : SerializationInfo :=
  -- `_category = si._category; _type = si._type;` and the copy of `si._nodes`
  let self1 := mk si.category self.name si.type self.value si.nodesPtr
  match si.value with
  | Payload.string v => _setString self1 v
  | Payload.string8 v => _setString8 self1 v
  | u => withValue (_releaseValue self1) u

/-- Embedding of `operator<<=(SerializationInfo&, const SerializationInfo&)`. -/
def assignFrom (si ssi : SerializationInfo) : SerializationInfo :=
  assignData si ssi

/-- Embedding of the copy assignment `SerializationInfo::operator=` for a node
`si` other than `this`. -/
def assign (self si : SerializationInfo) : SerializationInfo :=
  setName (assignData self si) si.name

end SerializationInfo

end cxxtools

namespace cxxtools

/-- The condition variables of a `Queue`. -/
inductive QueueSignal where
  | notEmpty
  | notFull
deriving DecidableEq, Repr

/-- The fields of `Queue<T>`: the deque `_queue` from front to back,
`_maxSize` and `_numWaiting`, and the signals given on the two condition
variables so far. -/
structure Queue (T : Type) where
  queue : List T
  maxSize : Nat
  numWaiting : Nat
  signals : List QueueSignal
deriving DecidableEq, Repr

namespace Queue

variable {T : Type}

/-- The state built by the default constructor of `Queue`. -/
def new : Queue T :=
  { queue := [], maxSize := 0, numWaiting := 0, signals := [] }

/-- The tail of `get` and `tryGet` after `pop_front()`: `_notEmpty` is
signalled when elements are left, and `_notFull` is signalled. -/
def popped (q : Queue T) (rest : List T) : Queue T :=
  let s1 := if rest.isEmpty then q.signals else q.signals ++ [QueueSignal.notEmpty]
  { q with queue := rest, signals := s1 ++ [QueueSignal.notFull] }

/-- Embedding of `Queue<T>::tryGet`. -/
def tryGet [Inhabited T] (q : Queue T) : (T × Bool) × Queue T :=
  match q.queue with
  | [] => ((default, false), q)
  | element :: rest => ((element, true), popped q rest)

/-- Embedding of `Queue<T>::put`; there is no result when the call waits on
`_notFull` for another thread to make room. -/
def put (q : Queue T) (element : T) (force : Bool) : Option (Queue T) :=
  if !force && (decide (q.maxSize > 0) && decide (q.queue.length ≥ q.maxSize)) then none
  else
    let q1 := { q with queue := q.queue ++ [element],
                       signals := q.signals ++ [QueueSignal.notEmpty] }
    if q1.maxSize > 0 ∧ q1.queue.length < q1.maxSize then
      some { q1 with signals := q1.signals ++ [QueueSignal.notFull] }
    else some q1

/-- The loop of `Queue<T>::remove` over the deque from `begin()`: whether it
returns true. -/
def removeLoop [DecidableEq T] (element : T) : List T → Bool
  | [] => false
  | x :: rest => if x = element then true else removeLoop element rest

/-- Embedding of `Queue<T>::remove`: the value returned and the queue
afterwards. -/
def remove [DecidableEq T] (q : Queue T) (element : T) : Bool × Queue T :=
  (removeLoop element q.queue, q)

/-- Embedding of `Queue<T>::size`. -/
def size (q : Queue T) : Nat := q.queue.length

/-- The elements `xs` put one after the other. -/
def puts (force : Bool) : List T → Queue T → Option (Queue T)
  | [], q => some q
  | x :: xs, q => (put q x force).bind (puts force xs)

/-- The results of `n` successive calls of `tryGet`, and the queue afterwards. -/
def tryGets [Inhabited T] : Nat → Queue T → List (T × Bool) × Queue T
  | 0, q => ([], q)
  | n + 1, q => (((tryGet q).1 :: (tryGets n (tryGet q).2).1), (tryGets n (tryGet q).2).2)

end Queue

end cxxtools

namespace cxxtools

/-- How a call of `Condition::wait(lock, timeout)` ended: with true after a
wake-up or with false after the timeout, and the deque as the other threads
left it while the mutex was released. -/
structure WaitEnd (T : Type) where
  woken : Bool
  queue : List T
deriving DecidableEq, Repr

/-- What the C++ standard leaves undefined: `front()` and `pop_front()` on an
empty deque. -/
inductive QueueFault where
  | frontOfEmpty
deriving DecidableEq, Repr

namespace Queue

variable {T : Type}

/-- The statements `value_type element = _queue.front(); _queue.pop_front();`
with the signals and the return that follow them in `get`. -/
def takeFront (q : Queue T) : Except QueueFault ((T × Bool) × Queue T) :=
  match q.queue with
  | [] => Except.error QueueFault.frontOfEmpty
  | element :: rest => Except.ok ((element, true), popped q rest)

/-- Embedding of `Queue<T>::get(const Milliseconds&)`; `w` is how the wait on
`_notEmpty` ends, if the call waits. `_numWaiting` is incremented for the time
of the call and has its former value at every return. -/
def getTimed [Inhabited T] (q : Queue T) (w : WaitEnd T) :
    Except QueueFault ((T × Bool) × Queue T) :=
  if q.queue.isEmpty then
    let q1 := { q with queue := w.queue }
    if w.woken = false then Except.ok ((default, false), q1)
    else takeFront q1
  else takeFront q

end Queue

end cxxtools

namespace cxxtools

namespace Utf8Codec

/-- Modelled from the spec: the standard UTF-8 byte sequence of a code point
(utf8codec.cpp is not among the sources; its tests are): one byte below
U+0080, two below U+0800, three below U+10000 and four from there on. -/
def encodeChar (c : Nat) : List Nat :=
  if c < 0x80 then [c]
  else if c < 0x800 then [0xC0 + c / 64, 0x80 + c % 64]
  else if c < 0x10000 then [0xE0 + c / 4096, 0x80 + c / 64 % 64, 0x80 + c % 64]
  else [0xF0 + c / 262144, 0x80 + c / 4096 % 64, 0x80 + c / 64 % 64, 0x80 + c % 64]

/-- Modelled from the spec: `Utf8Codec::encode` (utf8codec.cpp is not among the
sources) maps each code point to its standard UTF-8 byte sequence. -/
def encode (s : List Nat) : List Nat :=
  (s.map encodeChar).flatten

/-- Modelled from the spec: the conversion state `MBState` of the decoder
(utf8codec.cpp is not among the sources): whether the decoder is still before
the first character, where a byte order mark is consumed, how many
continuation bytes the sequence in progress still needs, and its value so
far. -/
structure MBState where
  atStart : Bool
  need : Nat
  acc : Nat
deriving DecidableEq, Repr

/-- Modelled from the spec: the state of a new decoder. -/
def initial : MBState :=
  { atStart := true, need := 0, acc := 0 }

/-- Modelled from the spec: a complete code point leaves the decoder; the byte
order mark U+FEFF before the first character is consumed without output and
leaves the decoder as new. -/
def emit (st : MBState) (cp : Nat) : MBState × List Nat :=
  if st.atStart = true ∧ cp = 0xFEFF then ({ atStart := true, need := 0, acc := 0 }, [])
  else ({ atStart := false, need := 0, acc := 0 }, [cp])

/-- Modelled from the spec: one byte through the decoder; there is no result
for a byte that cannot stand where it stands. -/
def step (st : MBState) (b : Nat) : Option (MBState × List Nat) :=
  if st.need = 0 then
    if b < 0x80 then some (emit st b)
    else if 0xC0 ≤ b ∧ b < 0xE0 then some ({ st with need := 1, acc := b - 0xC0 }, [])
    else if 0xE0 ≤ b ∧ b < 0xF0 then some ({ st with need := 2, acc := b - 0xE0 }, [])
    else if 0xF0 ≤ b ∧ b < 0xF8 then some ({ st with need := 3, acc := b - 0xF0 }, [])
    else none
  else if 0x80 ≤ b ∧ b < 0xC0 then
    if st.need = 1 then some (emit st (st.acc * 64 + (b - 0x80)))
    else some ({ st with need := st.need - 1, acc := st.acc * 64 + (b - 0x80) }, [])
  else none

/-- Modelled from the spec: one call of the codec, `Utf8Codec::in`, on a chunk
of bytes with room for all output: the state afterwards and the characters
produced. -/
def codecIn (st : MBState) : List Nat → Option (MBState × List Nat)
  | [] => some (st, [])
  | b :: bs =>
    match step st b with
    | none => none
    | some (st1, out) => (codecIn st1 bs).map (fun r => (r.1, out ++ r.2))

/-- Modelled from the spec: successive calls of the codec, one per chunk. -/
def codecIns (st : MBState) : List (List Nat) → Option (MBState × List Nat)
  | [] => some (st, [])
  | chunk :: rest =>
    match codecIn st chunk with
    | none => none
    | some (st1, out) => (codecIns st1 rest).map (fun r => (r.1, out ++ r.2))

/-- Modelled from the spec: `Utf8Codec::decode` (utf8codec.cpp is not among the
sources) runs a new decoder over the bytes; what an incomplete sequence at the
end has consumed produces nothing. -/
def decode (bytes : List Nat) : Option (List Nat) :=
  (codecIn initial bytes).map Prod.snd

/-- The bytes EF BB BF of the byte order mark. -/
def byteOrderMark : List Nat := [0xEF, 0xBB, 0xBF]

end Utf8Codec

end cxxtools

namespace cxxtools

namespace xmlrpc

/-- Modelled from the spec: a `Fault` (the class is not among the sources; the
test constructs `Fault("Fault", 7)` and reads `rc()` and `text()`): an error
code and an error message. -/
structure Fault where
  rc : Int
  text : String
deriving DecidableEq, Repr

/-- Modelled from the spec: the items of one RPC message on the wire (the wire
codecs are not among the sources): a request is
`[method-name][param-count][param]*`, a reply is `[result]` or
`[error-code][error-message]`; the values of this model are integers. -/
inductive WireItem where
  | methodName (name : String)
  | paramCount (n : Nat)
  | value (v : Int)
  | errorCode (rc : Int)
  | errorMessage (text : String)
deriving DecidableEq, Repr

/-- Modelled from the spec: a registered handler (`ServiceProcedure` is only
declared in responder.h) of no argument or of two integer arguments, which
returns a value or throws a `Fault`. -/
inductive ServiceProcedure where
  | proc0 (f : Except Fault Int)
  | proc2 (f : Int → Int → Except Fault Int)

/-- Modelled from the spec: the handler called with the parameters of a
request, in order; parameters beyond the ones the handler declares are skipped;
there is no call when a declared parameter is missing. -/
def ServiceProcedure.invoke : ServiceProcedure → List Int → Option (Except Fault Int)
  | ServiceProcedure.proc0 f, _ => some f
  | ServiceProcedure.proc2 f, a :: b :: _ => some (f a b)
  | ServiceProcedure.proc2 _, _ => none

/-- Modelled from the spec: a `Service` (the class is not among the sources):
the handlers registered by name, and the faults with which the dispatcher
answers a request it cannot route, which the spec leaves open. -/
structure Service where
  procedures : List (String × ServiceProcedure)
  unknownMethod : String → Fault
  missingParameter : String → Fault

namespace Service

/-- Modelled from the spec: `Service::registerMethod`. -/
def registerMethod (s : Service) (name : String) (p : ServiceProcedure) : Service :=
  { s with procedures := (name, p) :: s.procedures }

/-- Modelled from the spec: the handler registered under a name. -/
def getProcedure (s : Service) (name : String) : Option ServiceProcedure :=
  (s.procedures.find? (fun e => e.1 == name)).map Prod.snd

/-- Modelled from the spec: the dispatcher routes a parsed request to the
registered handler. -/
def dispatch (s : Service) (name : String) (params : List Int) : Except Fault Int :=
  match s.getProcedure name with
  | none => Except.error (s.unknownMethod name)
  | some p =>
    match p.invoke params with
    | none => Except.error (s.missingParameter name)
    | some r => r

end Service

/-- Modelled from the spec: the request on the wire,
`[method-name][param-count][param]*`. -/
def formatRequest (name : String) (args : List Int) : List WireItem :=
  WireItem.methodName name :: WireItem.paramCount args.length :: args.map WireItem.value

/-- Modelled from the spec: the next `n` parameter values of a request and
what follows them. -/
def parseParams : Nat → List WireItem → Option (List Int × List WireItem)
  | 0, rest => some ([], rest)
  | n + 1, WireItem.value v :: rest =>
    (parseParams n rest).map (fun r => (v :: r.1, r.2))
  | _ + 1, _ => none

/-- Modelled from the spec: a request parsed from the wire: the method name and
the parameters, in order. -/
def parseRequest : List WireItem → Option (String × List Int)
  | WireItem.methodName name :: WireItem.paramCount n :: rest =>
    match parseParams n rest with
    | some (params, []) => some (name, params)
    | _ => none
  | _ => none

/-- Modelled from the spec: the reply on the wire, `[result]` or
`[error-code][error-message]`. -/
def formatReply : Except Fault Int → List WireItem
  | Except.ok v => [WireItem.value v]
  | Except.error f => [WireItem.errorCode f.rc, WireItem.errorMessage f.text]

/-- Modelled from the spec: a reply parsed from the wire. -/
def parseReply : List WireItem → Option (Except Fault Int)
  | [WireItem.value v] => some (Except.ok v)
  | [WireItem.errorCode rc, WireItem.errorMessage text] =>
    some (Except.error { rc := rc, text := text })
  | _ => none

/-- Modelled from the spec: the server answers the bytes of a request with the
bytes of a reply; there is no reply to what is not a request. -/
def serve (s : Service) (request : List WireItem) : Option (List WireItem) :=
  (parseRequest request).map (fun r => formatReply (s.dispatch r.1 r.2))

/-- Modelled from the spec: a remote call of the procedure `name` with the
arguments `args`: the request goes over the wire to the server, the reply comes
back and gives the caller a result or a fault. -/
def remoteCall (s : Service) (name : String) (args : List Int) :
    Option (Except Fault Int) :=
  (serve s (formatRequest name args)).bind parseReply

end xmlrpc

namespace XmlRpcTest

/-- The handler `XmlRpcTest::multiplyInt`: `return a*b;` (for operands whose
product is an `int`). -/
def multiplyInt (a b : Int) : Int :=
  a * b

/-- The handler `XmlRpcTest::throwFault`: `throw Fault("Fault", 7);`. -/
def throwFault : Except xmlrpc.Fault Int :=
  Except.error { rc := 7, text := "Fault" }

end XmlRpcTest

namespace rpcjserver

/-- The handler `add` of rpcjserver.cpp: `return a + b;` (for operands whose
sum is an `int`). -/
def add (a b : Int) : Int :=
  a + b

end rpcjserver

end cxxtools

namespace cxxtools

/-- An element of `QueryParams::_values`: a name, empty for an unnamed
parameter, and a value; a `std::string` is the list of its chars, a char being
a byte with the value `toNat`. -/
structure QueryParamsValue where
  name : List Char
  value : List Char
deriving DecidableEq, Repr

/-- The field `_values` of `QueryParams`. -/
structure QueryParams where
  values : List QueryParamsValue
deriving DecidableEq, Repr

namespace QueryParams

/-- Modelled from the spec: `add(name, value)` (query_params.h is not among the
sources) appends a named parameter. -/
def add (q : QueryParams) (name value : List Char) : QueryParams :=
  { values := q.values ++ [{ name := name, value := value }] }

/-- Modelled from the spec: `add(value)` (query_params.h is not among the
sources) appends an unnamed parameter. -/
def addUnnamed (q : QueryParams) (value : List Char) : QueryParams :=
  { values := q.values ++ [{ name := [], value := value }] }

/-- The loop of `QueryParams::remove` from the index `nn` on: the elements
from `nn` on as the loop leaves them. -/
def removeFrom (name : List Char) : List QueryParamsValue → List QueryParamsValue
  | [] => []
  | e :: rest => if e.name = name then removeFrom name rest else e :: removeFrom name rest

/-- Embedding of `QueryParams::remove`. -/
def remove (q : QueryParams) (name : List Char) : QueryParams :=
  { values := removeFrom name q.values }

/-- The loop of `QueryParams::param` from the index `nn` on: the value it
returns from inside the loop, if it does. -/
def paramFrom (name : List Char) : Nat → List QueryParamsValue → Option (List Char)
  | _, [] => none
  | n, e :: rest =>
    if e.name = name then
      (match n with
       | 0 => some e.value
       | m + 1 => paramFrom name m rest)
    else paramFrom name n rest

/-- Embedding of `QueryParams::param(name, n)`: the value of the nth parameter
of that name, or the empty string. -/
def param (q : QueryParams) (name : List Char) (n : Nat) : List Char :=
  match paramFrom name n q.values with
  | some v => v
  | none => []

/-- Embedding of `QueryParams::param(name, n, def)`. -/
def paramOr (q : QueryParams) (name : List Char) (n : Nat) (dflt : List Char) : List Char :=
  match paramFrom name n q.values with
  | some v => v
  | none => dflt

/-- The loop of `QueryParams::paramcount` from the index `nn` on. -/
def paramcountFrom (name : List Char) (count : Nat) : List QueryParamsValue → Nat
  | [] => count
  | e :: rest =>
    if e.name = name then paramcountFrom name (count + 1) rest
    else paramcountFrom name count rest

/-- Embedding of `QueryParams::paramcount`. -/
def paramcount (q : QueryParams) (name : List Char) : Nat :=
  paramcountFrom name 0 q.values

/-- The loop of `QueryParams::has` from the index `nn` on. -/
def hasFrom (name : List Char) : List QueryParamsValue → Bool
  | [] => false
  | e :: rest => if e.name = name then true else hasFrom name rest

/-- Embedding of `QueryParams::has`. -/
def has (q : QueryParams) (name : List Char) : Bool :=
  hasFrom name q.values

/-- The table `hex` of `appendUrl`. -/
def hex : List Char := "0123456789ABCDEF".toList

/-- Embedding of `appendUrl(std::string&, char)`. For a byte the tests
`ch > 32 && ch < 127` and the nibbles `(ch >> 4) & 0x0f` and `ch & 0x0f` give
the same whether `char` is signed or not. -/
def appendUrlChar (url : List Char) (ch : Char) : List Char :=
  if 32 < ch.toNat ∧ ch.toNat < 127 ∧ ch ≠ '%' ∧ ch ≠ '+' ∧ ch ≠ '=' ∧ ch ≠ '&' then
    url ++ [ch]
  else if ch = ' ' then url ++ ['+']
  else
    let hi := ch.toNat / 16 % 16
    let lo := ch.toNat % 16
    url ++ ['%', hex.getD hi '0', hex.getD lo '0']

/-- Embedding of `appendUrl(std::string&, const std::string&)`. -/
def appendUrl (url : List Char) (str : List Char) : List Char :=
  str.foldl appendUrlChar url

/-- The loop of `QueryParams::getUrl` from the index `nn` on, `first` telling
whether `nn` is 0. -/
def getUrlFrom (url : List Char) (first : Bool) : List QueryParamsValue → List Char
  | [] => url
  | e :: rest =>
    let url1 := if first then url else url ++ ['&']
    let url2 := if e.name ≠ [] then appendUrl url1 e.name ++ ['='] else url1
    getUrlFrom (appendUrl url2 e.value) false rest

/-- Embedding of `QueryParams::getUrl`. -/
def getUrl (q : QueryParams) : List Char :=
  getUrlFrom [] true q.values

end QueryParams

/-- The states of `UrlParser`. -/
inductive UrlParserState where
  | state_0
  | state_key
  | state_value
  | state_keyesc
  | state_valueesc
deriving DecidableEq, Repr

/-- The fields of `UrlParser`, with the `QueryParams` it refers to. -/
structure UrlParser where
  q : QueryParams
  state : UrlParserState
  key : List Char
  value : List Char
  cnt : Nat
  v : Nat
deriving DecidableEq, Repr

namespace UrlParser

/-- The constructor of `UrlParser`. -/
def new (q : QueryParams) : UrlParser :=
  { q := q, state := UrlParserState.state_0, key := [], value := [], cnt := 0, v := 0 }

/-- The cases `state_0`, `state_key` and `state_value` of `UrlParser::parse`. -/
def parsePlain (p : UrlParser) (ch : Char) : UrlParser :=
  match p.state with
  | UrlParserState.state_0 =>
    if ch = '=' then { p with state := UrlParserState.state_value }
    else if ch = '&' then p
    else if ch = '%' then { p with state := UrlParserState.state_keyesc }
    else if ch = '+' then { p with key := [' '], state := UrlParserState.state_key }
    else { p with key := [ch], state := UrlParserState.state_key }
  | UrlParserState.state_key =>
    if ch = '=' then { p with state := UrlParserState.state_value }
    else if ch = '&' then
      { p with q := p.q.addUnnamed p.key, key := [], state := UrlParserState.state_0 }
    else if ch = '%' then { p with state := UrlParserState.state_keyesc }
    else if ch = '+' then { p with key := p.key ++ [' '] }
    else { p with key := p.key ++ [ch] }
  | UrlParserState.state_value =>
    if ch = '%' then { p with state := UrlParserState.state_valueesc }
    else if ch = '&' then
      { p with q := p.q.add p.key p.value, key := [], value := [],
               state := UrlParserState.state_0 }
    else if ch = '+' then { p with value := p.value ++ [' '] }
    else { p with value := p.value ++ [ch] }
  | _ => p

/-- The value of a hexadecimal digit, as the three tests of the escape states
compute it. -/
def hexValue (ch : Char) : Option Nat :=
  if '0' ≤ ch ∧ ch ≤ '9' then some (ch.toNat - '0'.toNat)
  else if 'a' ≤ ch ∧ ch ≤ 'f' then some (ch.toNat - 'a'.toNat + 10)
  else if 'A' ≤ ch ∧ ch ≤ 'F' then some (ch.toNat - 'A'.toNat + 10)
  else none

/-- The escape states left with the literal `%`, when no digit followed it. -/
def pushPercent (p : UrlParser) : UrlParser :=
  if p.state = UrlParserState.state_keyesc then
    { p with key := p.key ++ ['%'], state := UrlParserState.state_key }
  else { p with value := p.value ++ ['%'], state := UrlParserState.state_value }

/-- The escape states left with the char `static_cast<char>(_v)`; callers reset
`_cnt` and `_v`. -/
def pushEscaped (p : UrlParser) : UrlParser :=
  if p.state = UrlParserState.state_keyesc then
    { p with key := p.key ++ [Char.ofNat (p.v % 256)], state := UrlParserState.state_key }
  else
    { p with value := p.value ++ [Char.ofNat (p.v % 256)],
             state := UrlParserState.state_value }

/-- Embedding of `UrlParser::parse`; `_v` is an `unsigned` of 32 bits. -/
def parse (p : UrlParser) (ch : Char) : UrlParser :=
  match p.state with
  | UrlParserState.state_keyesc | UrlParserState.state_valueesc =>
    (match hexValue ch with
     | some d =>
       let p1 := { p with cnt := p.cnt + 1, v := (p.v * 16 + d) % 4294967296 }
       if p1.cnt ≥ 2 then { pushEscaped p1 with cnt := 0, v := 0 } else p1
     | none =>
       let p1 := if p.cnt = 0 then pushPercent p else { pushEscaped p with cnt := 0, v := 0 }
       parsePlain p1 ch)
  | _ => parsePlain p ch

/-- Embedding of `UrlParser::finish`: the parameters afterwards. -/
def finish (p : UrlParser) : UrlParser :=
  match p.state with
  | UrlParserState.state_0 => p
  | UrlParserState.state_key =>
    if p.key ≠ [] then { p with q := p.q.addUnnamed p.key, key := [] } else p
  | UrlParserState.state_value =>
    { p with q := p.q.add p.key p.value, key := [], value := [] }
  | UrlParserState.state_keyesc =>
    let key := if p.cnt = 0 then p.key ++ ['%'] else p.key ++ [Char.ofNat (p.v % 256)]
    { p with q := p.q.addUnnamed key, key := [], value := [], cnt := 0, v := 0 }
  | UrlParserState.state_valueesc =>
    let value :=
      if p.cnt = 0 then p.value ++ ['%'] else p.value ++ [Char.ofNat (p.v % 256)]
    { p with q := p.q.add p.key value, key := [], value := [], cnt := 0, v := 0 }

end UrlParser

/-- Embedding of `QueryParams::parse_url(const std::string&)`. -/
def QueryParams.parse_url (q : QueryParams) (url : List Char) : QueryParams :=
  (UrlParser.finish (url.foldl UrlParser.parse (UrlParser.new q))).q

end cxxtools

namespace cxxtools

/-- Embedding of `isVarChar`. -/
def isVarChar (ch : Char) : Bool :=
  (decide ('a' ≤ ch) && decide (ch ≤ 'z'))
    || (decide ('A' ≤ ch) && decide (ch ≤ 'Z'))
    || (decide ('0' ≤ ch) && decide (ch ≤ '9'))
    || decide (ch = '_')

/-- The states of `EnvSubst`. -/
inductive EnvSubstState where
  | state_0
  | state_esc
  | state_varbegin
  | state_varname
  | state_bvarname
  | state_subst0
  | state_subst
  | state_nosubst
deriving DecidableEq, Repr

/-- A pointer to an `EnvSubst`: null, or the object with its fields `_state`,
`_varname` and `_next`; the string `_result`, to which all objects of a chain
refer, is passed along. -/
inductive EnvSubst where
  | null
  | obj (state : EnvSubstState) (varname : List Char) (next : EnvSubst)
deriving DecidableEq, Repr

/-- The three messages with which `parse` and `parseEnd` throw an
`EnvSubstSyntaxError`: "expected env variable after '$', got ...", "invalid
substitution operator ..." and "unexpected end". -/
inductive EnvSubstMessage where
  | expectedVariable (ch : Char)
  | invalidOperator (ch : Char)
  | unexpectedEnd
deriving DecidableEq, Repr

/-- How a call can fail: with the `EnvSubstSyntaxError` of `parse` or
`parseEnd`, with the `EnvSubstSyntaxError` "failed to parse ..." into which
`envSubst` wraps it, or, which C++ leaves undefined, by a call through a null
`_next`. -/
inductive EnvSubstFailure where
  | syntaxError (what : EnvSubstMessage)
  | failedToParse (str : List Char) (what : EnvSubstMessage)
  | nullPointer
deriving DecidableEq, Repr

namespace EnvSubst

/-- The argument `_varname.c_str()`: the chars before the first NUL. -/
def c_str (s : List Char) : List Char :=
  s.takeWhile (fun c => c ≠ Char.ofNat 0)

/-- The lines around `::getenv(_varname.c_str())`: the value of the variable
is appended to `_result` if the variable is set. -/
def substitute (env : List Char → Option (List Char)) (varname result : List Char) :
    List Char :=
  match env (c_str varname) with
  | some e => result ++ e
  | none => result

/-- The object built by the constructor of `EnvSubst`. -/
def new : EnvSubst :=
  obj EnvSubstState.state_0 [] null

/-- Embedding of `EnvSubst::isInBracket`. -/
def isInBracket : EnvSubst → Bool
  | null => false
  | obj state _ _ =>
    decide (state = EnvSubstState.state_bvarname) || decide (state = EnvSubstState.state_subst0)
      || decide (state = EnvSubstState.state_subst)
      || decide (state = EnvSubstState.state_nosubst)

/-- Embedding of `EnvSubst::parseEnd`: the object and `_result` afterwards. -/
def parseEnd (env : List Char → Option (List Char)) :
    EnvSubst → List Char → Except EnvSubstFailure (EnvSubst × List Char)
  | null, _ => Except.error EnvSubstFailure.nullPointer
  | obj EnvSubstState.state_0 varname next, result =>
    Except.ok (obj EnvSubstState.state_0 varname next, result)
  | obj EnvSubstState.state_esc varname next, result =>
    Except.ok (obj EnvSubstState.state_0 varname next, result ++ ['\\'])
  | obj EnvSubstState.state_varname varname next, result =>
    Except.ok (obj EnvSubstState.state_0 varname next, substitute env varname result)
  | obj _ _ _, _ => Except.error (EnvSubstFailure.syntaxError EnvSubstMessage.unexpectedEnd)

/-- Embedding of `EnvSubst::parse`: the object and `_result` afterwards. -/
def parse (env : List Char → Option (List Char)) :
    EnvSubst → List Char → Char → Except EnvSubstFailure (EnvSubst × List Char)
  | null, _, _ => Except.error EnvSubstFailure.nullPointer
  | obj state varname next, result, ch =>
    match state with
    | EnvSubstState.state_0 =>
      if ch = '\\' then Except.ok (obj EnvSubstState.state_esc varname next, result)
      else if ch = '$' then Except.ok (obj EnvSubstState.state_varbegin varname next, result)
      else Except.ok (obj EnvSubstState.state_0 varname next, result ++ [ch])
    | EnvSubstState.state_esc =>
      let result1 := if ch ≠ '$' then result ++ ['\\'] else result
      Except.ok (obj EnvSubstState.state_0 varname next, result1 ++ [ch])
    | EnvSubstState.state_varbegin =>
      if isVarChar ch = true then Except.ok (obj EnvSubstState.state_varname [ch] next, result)
      else if ch = '{' then Except.ok (obj EnvSubstState.state_bvarname [] next, result)
      else Except.error (EnvSubstFailure.syntaxError (EnvSubstMessage.expectedVariable ch))
    | EnvSubstState.state_varname =>
      if isVarChar ch = true then
        Except.ok (obj EnvSubstState.state_varname (varname ++ [ch]) next, result)
      else
        let result1 := substitute env varname result
        if ch = '\\' then Except.ok (obj EnvSubstState.state_esc varname next, result1)
        else Except.ok (obj EnvSubstState.state_0 varname next, result1 ++ [ch])
    | EnvSubstState.state_bvarname =>
      if ch = '}' then
        Except.ok (obj EnvSubstState.state_0 varname next, substitute env varname result)
      else if ch = ':' then Except.ok (obj EnvSubstState.state_subst0 varname next, result)
      else Except.ok (obj EnvSubstState.state_bvarname (varname ++ [ch]) next, result)
    | EnvSubstState.state_subst0 =>
      if ch = '-' then
        match env (c_str varname) with
        | some e => Except.ok (obj EnvSubstState.state_nosubst varname next, result ++ e)
        | none => Except.ok (obj EnvSubstState.state_subst varname new, result)
      else Except.error (EnvSubstFailure.syntaxError (EnvSubstMessage.invalidOperator ch))
    | EnvSubstState.state_subst =>
      if ch = '}' ∧ isInBracket next = false then
        match parseEnd env next result with
        | Except.error e => Except.error e
        | Except.ok r => Except.ok (obj EnvSubstState.state_0 varname null, r.2)
      else
        match parse env next result ch with
        | Except.error e => Except.error e
        | Except.ok r => Except.ok (obj EnvSubstState.state_subst varname r.1, r.2)
    | EnvSubstState.state_nosubst =>
      if ch = '}' then Except.ok (obj EnvSubstState.state_0 varname next, result)
      else Except.ok (obj EnvSubstState.state_nosubst varname next, result)

/-- The loop of `envSubst`: `parse` called with each char of `str` in turn. -/
def parseAll (env : List Char → Option (List Char)) :
    EnvSubst → List Char → List Char → Except EnvSubstFailure (EnvSubst × List Char)
  | es, result, [] => Except.ok (es, result)
  | es, result, ch :: rest =>
    match parse env es result ch with
    | Except.error e => Except.error e
    | Except.ok r => parseAll env r.1 r.2 rest

end EnvSubst

/-- Embedding of `envSubst`; the environment is a partial map from names to
values. -/
def envSubst (env : List Char → Option (List Char)) (str : List Char) :
    Except EnvSubstFailure (List Char) :=
  let body :=
    match EnvSubst.parseAll env EnvSubst.new [] str with
    | Except.error e => Except.error e
    | Except.ok r => EnvSubst.parseEnd env r.1 r.2
  match body with
  | Except.ok r => Except.ok r.2
  | Except.error (EnvSubstFailure.syntaxError what) =>
    Except.error (EnvSubstFailure.failedToParse str what)
  | Except.error e => Except.error e

end cxxtools

namespace cxxtools

namespace json

/-- Modelled from the spec: an `HttpClientImpl` on the heap as far as its base
`RefCounted` goes (refcounted.h is not among the sources): the counter, 0 in a
new object, which `addRef` increments and `release` decrements, both returning
the new value; and how many times `delete` has been applied to the object. -/
structure ImplObject where
  refs : Int
  deleted : Nat
deriving DecidableEq, Repr

/-- The objects of a program that uses `HttpClient` handles: the
`HttpClientImpl` objects in the order of their creation, a pointer to one being
its index, and the `HttpClient` objects: `none` for one that has been
destroyed, otherwise its field `_impl`, `none` for the null pointer. -/
structure HandleWorld where
  impls : List ImplObject
  handles : List (Option (Option Nat))
deriving DecidableEq, Repr

namespace HandleWorld

/-- A program that has not created any object yet. -/
def empty : HandleWorld :=
  { impls := [], handles := [] }

/-- Modelled from the spec: `_impl->addRef()`. -/
def addRef (w : HandleWorld) (i : Nat) : HandleWorld :=
  match w.impls[i]? with
  | some o => { w with impls := w.impls.set i { o with refs := o.refs + 1 } }
  | none => w

/-- Modelled from the spec: `_impl->release()`: the world afterwards and the
value returned. -/
def release (w : HandleWorld) (i : Nat) : HandleWorld × Int :=
  match w.impls[i]? with
  | some o => ({ w with impls := w.impls.set i { o with refs := o.refs - 1 } }, o.refs - 1)
  | none => (w, 0)

/-- The statement `delete _impl;`. -/
def delete (w : HandleWorld) (i : Nat) : HandleWorld :=
  match w.impls[i]? with
  | some o => { w with impls := w.impls.set i { o with deleted := o.deleted + 1 } }
  | none => w

/-- The statement `if (_impl && _impl->release() <= 0) delete _impl;` for the
value `impl` of `_impl`. -/
def releaseImpl (w : HandleWorld) (impl : Option Nat) : HandleWorld :=
  match impl with
  | none => w
  | some i => if (release w i).2 ≤ 0 then delete (release w i).1 i else (release w i).1

/-- The statement `if (_impl) _impl->addRef();` for the value `impl` of
`_impl`. -/
def addRefImpl (w : HandleWorld) (impl : Option Nat) : HandleWorld :=
  match impl with
  | none => w
  | some i => addRef w i

/-- Modelled from the spec: the default constructor of `HttpClient`
(httpclient.h is not among the sources) builds a handle with a null `_impl`. -/
def construct (w : HandleWorld) : HandleWorld :=
  { w with handles := w.handles ++ [some none] }

/-- Embedding of `HttpClient::getImpl` called on the handle `h`. -/
def getImpl (w : HandleWorld) (h : Nat) : HandleWorld :=
  match w.handles[h]? with
  | some (some none) =>
    -- `_impl = new HttpClientImpl(); _impl->addRef();`
    let i := w.impls.length
    addRef { impls := w.impls ++ [{ refs := 0, deleted := 0 }],
             handles := w.handles.set h (some (some i)) } i
  | _ => w

/-- Embedding of the copy constructor `HttpClient(const HttpClient& other)`:
a new handle is built from the handle `other`. -/
def copyConstruct (w : HandleWorld) (other : Nat) : HandleWorld :=
  match w.handles[other]? with
  | some (some impl) => addRefImpl { w with handles := w.handles ++ [some impl] } impl
  | _ => w

/-- Embedding of `HttpClient::operator=` called on the handle `h` with the
handle `other`. -/
def assign (w : HandleWorld) (h other : Nat) : HandleWorld :=
  match w.handles[h]?, w.handles[other]? with
  | some (some impl), some (some otherImpl) =>
    if impl = otherImpl then w
    else
      let w1 := releaseImpl w impl
      addRefImpl { w1 with handles := w1.handles.set h (some otherImpl) } otherImpl
  | _, _ => w

/-- Embedding of the destructor `~HttpClient` called on the handle `h`. -/
def destroy (w : HandleWorld) (h : Nat) : HandleWorld :=
  match w.handles[h]? with
  | some (some impl) =>
    let w1 := releaseImpl w impl
    { w1 with handles := w1.handles.set h none }
  | _ => w

end HandleWorld

/-- The calls a program makes on its handles; a call names the handles it is
made on by their indices and is no call at all when one of them is not a live
handle. -/
inductive HandleOp where
  | construct
  | copyConstruct (other : Nat)
  | assign (h other : Nat)
  | getImpl (h : Nat)
  | destroy (h : Nat)
deriving DecidableEq, Repr

namespace HandleWorld

/-- One call. -/
def step (w : HandleWorld) : HandleOp → HandleWorld
  | HandleOp.construct => construct w
  | HandleOp.copyConstruct other => copyConstruct w other
  | HandleOp.assign h other => assign w h other
  | HandleOp.getImpl h => getImpl w h
  | HandleOp.destroy h => destroy w h

/-- A sequence of calls, from a program without objects. -/
def run (ops : List HandleOp) : HandleWorld :=
  ops.foldl step empty

/-- The number of live handles whose `_impl` points to the object `i`. -/
def holders (w : HandleWorld) (i : Nat) : Nat :=
  w.handles.count (some (some i))

end HandleWorld

end json

end cxxtools

namespace cxxtools

/-- What `operator<<=(SerializationInfo&, const QueryParams&)` calls and the
sources do not hold: `Utf8Codec::decode`, with no result when it throws, and
the assignment `operator<<=(SerializationInfo&, const String&)` to a node. -/
structure QueryConvert where
  decode : List Char → Option String
  assignString : SerializationInfo → String → SerializationInfo

/-- How `operator<<=(SerializationInfo&, const QueryParams&)` can fail: with
the `SerializationError` of `SerializationError::doThrow`, or with what
`Utf8Codec::decode` throws. -/
inductive QueryConvertError where
  | serializationError (msg : String)
  | decodeFailed
deriving DecidableEq, Repr

namespace SerializationInfo

/-- The loop of `findMember` as the index of the child it returns: the first
child, from `begin()` on, whose name equals `name`. -/
def firstNamedIndex (name : String) : List SerializationInfo → Option Nat
  | [] => Option.none
  | c :: rest =>
    if c.name == name then some 0 else (firstNamedIndex name rest).map (fun i => i + 1)

/-- The node to which a pointer refers that was reached from `si` by going to
the child of index `i` for each `i` of the path in turn. -/
def nodeAt : List Nat → SerializationInfo → Option SerializationInfo
  | [], si => some si
  | i :: rest, si =>
    match si.nodes[i]? with
    | some c => nodeAt rest c
    | Option.none => Option.none

/-- The tree `si` after the node at the end of the path has been changed by
`f`. -/
def updateAt (f : SerializationInfo → SerializationInfo) :
    List Nat → SerializationInfo → SerializationInfo
  | [], si => f si
  | i :: rest, si =>
    match si.nodes[i]? with
    | some c => withNodes si (some (si.nodes.set i (updateAt f rest c)))
    | Option.none => si

/-- The expression `addMember(name) <<= value`: the member is added and the
assignment `f` is applied to it. -/
def addMemberWith (si : SerializationInfo) (name : String)
    (f : SerializationInfo → SerializationInfo) : SerializationInfo :=
  let r := si.addMember name
  withNodes r.1 (some (r.1.nodes.dropLast ++ [f r.2]))

end SerializationInfo

/-- The states of the loop over a parameter name in
`operator<<=(SerializationInfo&, const QueryParams&)`. -/
inductive NameScanState where
  | state_0
  | state_key
  | state_keyend
deriving DecidableEq, Repr

/-- The variables of the loop over a parameter name: the tree `si`, the
pointer `current` as the path from `si` to the node it refers to, `state` and
`nodename`. -/
structure NameScan where
  root : SerializationInfo
  current : List Nat
  state : NameScanState
  nodename : List Char

namespace NameScan

/-- The start of the loop: `state = state_0`, `nodename` empty,
`current = &si`. -/
def start (si : SerializationInfo) : NameScan :=
  { root := si, current := [], state := NameScanState.state_0, nodename := [] }

/-- The four statements at a `[`: `p = current->findMember(nodename)`,
`current = p ? p : &current->addMember(nodename)`, `nodename.clear()` and
`state = state_key`. A path that leads to no node of the tree stands for no
pointer of the program; for it only the last two statements are modelled. -/
def descend (s : NameScan) : NameScan :=
  match SerializationInfo.nodeAt s.current s.root with
  | none => { s with nodename := [], state := NameScanState.state_key }
  | some cur =>
    match SerializationInfo.firstNamedIndex (String.mk s.nodename) cur.nodes with
    | some i =>
      { s with current := s.current ++ [i], nodename := [],
               state := NameScanState.state_key }
    | none =>
      { root := SerializationInfo.updateAt
                  (fun n => (n.addMember (String.mk s.nodename)).1) s.current s.root,
        current := s.current ++ [cur.nodes.length],
        nodename := [], state := NameScanState.state_key }

/-- The body of the loop over the chars of a parameter name. -/
def step (s : NameScan) (ch : Char) : Except QueryConvertError NameScan :=
  match s.state with
  | NameScanState.state_0 =>
    if ch = '[' then Except.ok (descend s)
    else Except.ok { s with nodename := s.nodename ++ [ch] }
  | NameScanState.state_key =>
    if ch = ']' then Except.ok { s with state := NameScanState.state_keyend }
    else Except.ok { s with nodename := s.nodename ++ [ch] }
  | NameScanState.state_keyend =>
    if ch = '[' then Except.ok (descend s)
    else Except.error
      (QueryConvertError.serializationError "'[' expected in query parameters")

/-- The loop over the chars of a parameter name. -/
def scan : NameScan → List Char → Except QueryConvertError NameScan
  | s, [] => Except.ok s
  | s, ch :: rest =>
    match step s ch with
    | Except.error e => Except.error e
    | Except.ok s1 => scan s1 rest

end NameScan

/-- The body of the loop over the parameters in
`operator<<=(SerializationInfo&, const QueryParams&)`: the tree `si` after one
parameter. -/
def convertParam (cv : QueryConvert) (si : SerializationInfo) (e : QueryParamsValue) :
    Except QueryConvertError SerializationInfo :=
  match NameScan.scan (NameScan.start si) e.name with
  | Except.error x => Except.error x
  | Except.ok s =>
    match cv.decode e.value with
    | none => Except.error QueryConvertError.decodeFailed
    | some v =>
      Except.ok (SerializationInfo.updateAt
        (fun n => n.addMemberWith (String.mk s.nodename) (fun m => cv.assignString m v))
        s.current s.root)

/-- The loop over the parameters. -/
def convertParams (cv : QueryConvert) :
    SerializationInfo → List QueryParamsValue → Except QueryConvertError SerializationInfo
  | si, [] => Except.ok si
  | si, e :: rest =>
    match convertParam cv si e with
    | Except.error x => Except.error x
    | Except.ok si1 => convertParams cv si1 rest

/-- Embedding of `operator<<=(SerializationInfo&, const QueryParams&)`. -/
def convertQueryParams (cv : QueryConvert) (si : SerializationInfo) (q : QueryParams) :
    Except QueryConvertError SerializationInfo :=
  convertParams cv si q.values

end cxxtools

/-- An engine with a selector, a live connection and the asynchronous call of
procedure `first` pending. -/
def pendingEngine : RpcClientImpl :=
  { RpcClientImpl.new with
    selector := true, connected := true, reading := true,
    proc := some { handle := 1, name := "first" }, count := 1, scannerBegun := 1 }

/-- A peer that accepts the request and answers with a complete reply. -/
def answeringPeer : RpcClientImpl.CallEnv :=
  { flush := Except.ok (), probe := Except.ok (some 'r'), connect := Except.ok (),
    reflush := Except.ok (),
    reply := [('r', RpcClientImpl.Advance.more), ('.', RpcClientImpl.Advance.complete)] }

/-- States of the header parser of the example server. -/
inductive DemoParser where
  | scanning
  | done
  | failed
deriving DecidableEq, Repr

/-- Header parser of the example server: a newline ends the header, `!` is
malformed, `b` declares one more byte of body, `c` asks to close the
connection; other bytes are skipped. -/
def demoAdvance : DemoParser → Request → List Char → DemoParser × Request × List Char
  | DemoParser.scanning, req, ch :: rest =>
    if ch = '\n' then (DemoParser.done, req, rest)
    else if ch = '!' then (DemoParser.failed, req, rest)
    else if ch = 'b' then
      demoAdvance DemoParser.scanning
        { req with header := { req.header with fields := req.header.fields ++ [("Body", "1")] } }
        rest
    else if ch = 'c' then
      demoAdvance DemoParser.scanning
        { req with header :=
            { req.header with fields := req.header.fields ++ [("Connection", "close")] } }
        rest
    else demoAdvance DemoParser.scanning req rest
  | p, req, rest => (p, req, rest)

/-- An example server for evaluating the connection on concrete inputs: the
parser above, and a responder (its state counts the body bytes read) that
reads all buffered input as body and answers `ok`. -/
def demo : Collab DemoParser Nat :=
  { sameName := fun a b => a == b,
    keepAlive := fun h => !h.fields.any (fun kv => kv.1 == "Connection" && kv.2 == "close"),
    contentLength := fun h => (h.fields.filter (fun kv => kv.1 == "Body")).length,
    setHeader := fun h k v => { h with fields := h.fields.filter (fun kv => kv.1 != k) ++ [(k, v)] },
    newRequest := { method := "", url := "", qparams := "",
                    header := { fields := [], httpVersionMajor := 1, httpVersionMinor := 1 } },
    newReply := { header := { fields := [], httpVersionMajor := 1, httpVersionMinor := 1 },
                  httpReturnCode := 200, httpReturnText := "OK", body := "" },
    packageVersion := "3.0",
    htdateCurrent := "Sun, 01 Nov 2026 00:00:00 GMT",
    parserReset := DemoParser.scanning,
    parserAdvance := demoAdvance,
    parserFail := fun p => p == DemoParser.failed,
    parserEnd := fun p => p == DemoParser.done,
    getDefaultResponder := fun _ => 0,
    getResponder := fun _ => 0,
    beginRequest := fun r _ => Except.ok r,
    readBody := fun r buf => Except.ok (buf.length, r + buf.length),
    reply := fun _ _ rep => Except.ok { rep with body := "ok" },
    replyError := fun _ _ rep _ =>
      { rep with httpReturnCode := 500, httpReturnText := "Internal Server Error",
                 body := "error" },
    readTimeout := 20000,
    writeTimeout := 20000,
    keepAliveTimeout := 30000 }

/-- A connection whose write of pending output has failed. -/
def failedWrite : Socket DemoParser Nat :=
  { Socket.new demo "" with isOpen := true, accepted := true, writing := true,
                            outAvail := 135, tx := Except.error Exn.ioError,
                            timer := some 20000 }

/-- An accepted connection of the example server for which the read in
progress has received the bytes `rx`. -/
def receiving (rx : String) : Socket DemoParser Nat :=
  { Socket.new demo "" with isOpen := true, accepted := true, reading := true,
                            rx := rx.toList, timer := some 20000 }

/-- The example connection after it has received a header declaring two
bytes of body together with the first of them: one byte is outstanding. -/
def bodyPending : Socket DemoParser Nat :=
  Socket.beginRead (Socket.bodyRead 1 1 (Socket.begun demo 0 (Socket.selected 0
    (Socket.parsed demo (Socket.timerStart (Socket.endRead (receiving "GETbb\nx")) 20000)))))

/-- The example connection after it has received `rx` on a new connection and
handled it, at the moment its write in progress reports `sent` bytes written. -/
def answered (rx : String) (sent : Nat) : Socket DemoParser Nat :=
  match Socket.onInput demo 2 (receiving rx) with
  | Except.ok s => { s with tx := Except.ok sent }
  | Except.error _ => receiving rx

/-- A connected engine with no call pending. -/
def connectedEngine : RpcClientImpl :=
  { RpcClientImpl.new with selector := true, connected := true }

/-- A connection that has gone stale: flushing the request fails, a new
connection can be made, and the peer then answers with a complete reply. -/
def stalePeer : RpcClientImpl.CallEnv :=
  { flush := Except.error Exn.ioError, probe := Except.ok (some 'r'), connect := Except.ok (),
    reflush := Except.ok (),
    reply := [('r', RpcClientImpl.Advance.more), ('.', RpcClientImpl.Advance.complete)] }

/-- A peer that takes the request and closes the connection before a complete
reply has arrived. -/
def silentPeer : RpcClientImpl.CallEnv :=
  { flush := Except.ok (), probe := Except.ok (some 'r'), connect := Except.ok (),
    reflush := Except.ok (), reply := [('r', RpcClientImpl.Advance.more)] }

/-- An engine whose asynchronous call of `first` has its request partly
written. -/
def writingEngine : RpcClientImpl :=
  { pendingEngine with reading := false, writing := true,
                       out := [FmtCall.finishObject, FmtCall.finish] }

/-- A write that fails, reported to a callback that behaves as `fin`. -/
def brokenWrite (fin : Finish) : RpcClientImpl.OutputEnv :=
  { endWrite := Except.error Exn.ioError, beginWrite := Except.ok (),
    beginRead := Except.ok (), onFinished := fin }

/-- An engine whose asynchronous call of `first` waits for its connection,
with the request in the output buffer. -/
def connectingEngine : RpcClientImpl :=
  { pendingEngine with connected := false, reading := false, connecting := true,
                       out := [FmtCall.finishObject, FmtCall.finish] }

/-- A connection attempt, or a TLS handshake, that fails, reported to a
callback that behaves as `fin`. -/
def refusedConnect (fin : Finish) : RpcClientImpl.ConnectEnv :=
  { endConnect := Except.error Exn.ioError, beginSslConnect := Except.ok (),
    beginWrite := Except.ok (), onFinished := fin }

/-- A read that finds the connection closed by the peer, reported to a
callback that behaves as `fin`. -/
def closedRead (fin : Finish) : RpcClientImpl.InputEnv :=
  { endRead := Except.ok [], eof := true, beginRead := Except.ok (), onFinished := fin }

/-- A deserializer for examples: its state counts the bytes it has taken, and
the reply is complete at the first `.`; `!` makes it throw. -/
def dotDeserializer : RpcClientImpl.Deserializer Nat :=
  { advance := fun d ch =>
      if ch = '!' then Except.error Exn.other else Except.ok (d + 1, ch == '.'),
    finalizeReply := fun _ => Except.ok () }

/-- An engine that has sent its request and awaits the reply. -/
def awaitingEngine : RpcClientImpl :=
  { pendingEngine with reading := true, inBuf := [] }

/-- A node of category Object with two children of the same name. -/
def colours : SerializationInfo :=
  SerializationInfo.mk Category.Object "colours" "" Payload.none
    (some [SerializationInfo.mk Category.Value "red" "" (Payload.int 1) none,
           SerializationInfo.mk Category.Value "green" "" (Payload.int 2) none,
           SerializationInfo.mk Category.Value "red" "" (Payload.int 3) none])


/-- Conversions for evaluating the getters on examples: strings convert to
themselves, numbers to their decimal text, and `float` and `double` round
nothing and end at 1000 and 1000000. -/
def plainConversions : Conversions :=
  { narrow := fun s => s, widen := fun s => s, narrowChar := fun c => c,
    toText := fun _ => "?", toWideText := fun _ => "?",
    stringToInt := String.toInt?, stringToUInt := String.toNat?,
    stringToFloat := fun _ => none, stringToDouble := fun _ => none,
    wideToInt := String.toInt?, wideToUInt := String.toNat?,
    wideToFloat := fun _ => none, wideToDouble := fun _ => none,
    intToChar := fun i => Char.ofNat (i % 256).toNat,
    floatToChar := fun _ => '?', floatToInt := fun _ => 0, floatToUInt := fun _ => 0,
    roundFloat := fun q => q, roundDouble := fun q => q,
    floatMax := 1000, doubleMax := 1000000 }

/-- A queue of integers holding 1, 2 and 3, put in this order. -/
def oneTwoThree : Queue Int :=
  { queue := [1, 2, 3], maxSize := 0, numWaiting := 0, signals := [] }

/-- The string `Hi ä there` of the codec tests, as code points. -/
def hiThere : List Nat :=
  [0x48, 0x69, 0x20, 0xE4, 0x20, 0x74, 0x68, 0x65, 0x72, 0x65]

/-- A service without handlers; the faults for requests that cannot be routed
are sample values. -/
def emptyService : xmlrpc.Service :=
  { procedures := [],
    unknownMethod := fun _ => { rc := 0, text := "unknown method" },
    missingParameter := fun _ => { rc := 0, text := "missing parameter" } }

/-- The service of the test `Integer` with the handler of rpcjserver.cpp
besides: "multiply" is `multiplyInt`, "add" is `add`. -/
def calcService : xmlrpc.Service :=
  (emptyService.registerMethod "multiply"
    (xmlrpc.ServiceProcedure.proc2 (fun a b => Except.ok (XmlRpcTest.multiplyInt a b)))).registerMethod
    "add" (xmlrpc.ServiceProcedure.proc2 (fun a b => Except.ok (rpcjserver.add a b)))

/-- The service of the test `Fault`: "multiply" is `throwFault`. -/
def faultService : xmlrpc.Service :=
  emptyService.registerMethod "multiply" (xmlrpc.ServiceProcedure.proc0 XmlRpcTest.throwFault)

/-- A node that holds a string and has a member: `setValue("x")` on a new
node, then `addMember("k")`; its category is Object. -/
def labelled : SerializationInfo :=
  ((SerializationInfo.empty._setString "x").addMember "k").1

/-- A node of category Value that holds the integer 5. -/
def five : SerializationInfo :=
  SerializationInfo.mk Category.Value "n" "int" (Payload.int 5) none

/-- The parameters `a=1`, `b=2`, `a=3`. -/
def abaParams : QueryParams :=
  { values := [{ name := "a".toList, value := "1".toList },
               { name := "b".toList, value := "2".toList },
               { name := "a".toList, value := "3".toList }] }

/-- An environment in which `A` is "x" and `B` is "y" and no other variable is
set. -/
def sampleEnv : List Char → Option (List Char) :=
  fun n => if n = ['A'] then some ['x'] else if n = ['B'] then some ['y'] else none

/-- A program with three handles on one implementation: a handle is built and
gets its implementation, a copy is built, a third handle is built empty and
assigned from the first, the copy is assigned to itself and then from the
third, with which it shares, and the first and the second handle are
destroyed. -/
def sharingProgram : List HandleOp :=
  [HandleOp.construct, HandleOp.getImpl 0, HandleOp.copyConstruct 0, HandleOp.construct,
   HandleOp.assign 2 0, HandleOp.assign 1 1, HandleOp.assign 1 2, HandleOp.destroy 0,
   HandleOp.destroy 1]

/-- The parameters `a b` with the value `1&2`, an unnamed parameter with the
value `x=y`, and `k` with a value of the two bytes 200 and 10. -/
def mixedParams : QueryParams :=
  { values := [{ name := "a b".toList, value := "1&2".toList },
               { name := [], value := "x=y".toList },
               { name := "k".toList, value := [Char.ofNat 200, Char.ofNat 10] }] }

/-- A conversion environment for examples: the bytes of a value are taken as
its chars, and the assignment of a string to a node is `setValue`. -/
def plainQueryConvert : QueryConvert :=
  { decode := fun s => some (String.mk s),
    assignString := fun si v => SerializationInfo.setValueString si v }

/-- The parameters `a[b]=1` and `a[c]=2`. -/
def nestedParams : QueryParams :=
  { values := [{ name := "a[b]".toList, value := "1".toList },
               { name := "a[c]".toList, value := "2".toList }] }

/-- The tree of the parameters `a[b]=1` and `a[c]=2`: one member `a` with the
members `b` and `c`. -/
def nestedTree : SerializationInfo :=
  SerializationInfo.mk Category.Object "" "" Payload.none
    (some [SerializationInfo.mk Category.Object "a" "" Payload.none
      (some [SerializationInfo.mk Category.Value "b" "" (Payload.string "1") none,
             SerializationInfo.mk Category.Value "c" "" (Payload.string "2") none])])

/-- The default headers of the reply as the specification words them: each of
Content-Length, Server, Connection and Date, in this order, exactly when the
reply header does not already contain a header of that name. -/
def injectedDefaults {P R : Type} (c : Collab P R) (s : Socket P R) :
    List (String × String) :=
  (if hasHeader c s.reply.header "Content-Length" then []
    else [("Content-Length", toString s.reply.body.length)])
  ++ (if hasHeader c s.reply.header "Server" then []
    else [("Server", "cxxtools-Http-Server " ++ c.packageVersion)])
  ++ (if hasHeader c s.reply.header "Connection" then []
    else [("Connection", if c.keepAlive s.request.header then "keep-alive" else "close")])
  ++ (if hasHeader c s.reply.header "Date" then []
    else [("Date", c.htdateCurrent)])

/-- The reply as the specification assembles it: status line, the headers set
by the handler, the injected defaults, an empty line, the body. -/
def replyText {P R : Type} (c : Collab P R) (s : Socket P R) : List String :=
  [Socket.statusLine s.reply]
  ++ s.reply.header.fields.map (fun kv => Socket.headerLine kv.1 kv.2)
  ++ (injectedDefaults c s).map (fun kv => Socket.headerLine kv.1 kv.2)
  ++ ["\r\n", s.reply.body]

/-- The state `t` is `s` after output statements on the stream: only the
stream content and the amount of pending output differ, and nothing pending
is lost. -/
structure Wrote {P R : Type} (s t : Socket P R) : Prop where
  certificateFile : t.certificateFile = s.certificateFile
  isOpen : t.isOpen = s.isOpen
  accepted : t.accepted = s.accepted
  sslAccepting : t.sslAccepting = s.sslAccepting
  reading : t.reading = s.reading
  writing : t.writing = s.writing
  rx : t.rx = s.rx
  eof : t.eof = s.eof
  tx : t.tx = s.tx
  inBuf : t.inBuf = s.inBuf
  timer : t.timer = s.timer
  parser : t.parser = s.parser
  request : t.request = s.request
  reply : t.reply = s.reply
  responder : t.responder = s.responder
  contentLength : t.contentLength = s.contentLength
  log : t.log = s.log
  outAvail : s.outAvail ≤ t.outAvail

/-- The body of a request is being received: a responder is set, a read is
begun and no write is in progress, the remaining length is positive, and the
reply phase is on record `c0` times. -/
def receivingBody {P R : Type} (c0 : Nat) (s : Socket P R) : Prop :=
  s.responder.isSome = true ∧ s.reading = true ∧ s.writing = false
    ∧ 0 < s.contentLength ∧ s.log.count Call.reply = c0

/-- The reply phase has run once more than `c0` times, with no remaining
length, and the responder is released. -/
def repliedOnce {P R : Type} (c0 : Nat) (s : Socket P R) : Prop :=
  s.reading = false ∧ s.log.count Call.reply = c0 + 1 ∧ s.contentLength ≤ 0
    ∧ s.responder = none

/-- Input handling has ended without a reply phase: the connection is closed
or an error reply is on its way. -/
def endedUnreplied {P R : Type} (c0 : Nat) (s : Socket P R) : Prop :=
  s.reading = false ∧ s.log.count Call.reply = c0

/-- An accepted connection on which every parser call on record was made with
no output pending and on which a read is in progress only with no output
pending. -/
def serving {P R : Type} (s : Socket P R) : Prop :=
  Socket.parsedOnlyWhenFlushed s.log ∧ (s.reading = true → s.outAvail = 0)
    ∧ s.accepted = true

/-- The half-duplex invariant of a connection: every parser call on record was
made with no output pending, a read is in progress only with no output
pending, and a connection not yet accepted has neither output pending nor a
read or write in progress. -/
def orderly {P R : Type} (s : Socket P R) : Prop :=
  Socket.parsedOnlyWhenFlushed s.log ∧ (s.reading = true → s.outAvail = 0)
    ∧ (s.accepted = false → s.outAvail = 0 ∧ s.reading = false ∧ s.writing = false)

/-- The connection has been discarded: the socket is closed with nothing in
progress, the stream is cleared and its buffers are empty, and no procedure
is active. -/
def discarded (t : RpcClientImpl) : Prop :=
  t.connected = false ∧ t.connecting = false ∧ t.reading = false ∧ t.writing = false
    ∧ t.streamFail = false ∧ t.out = [] ∧ t.inBuf = [] ∧ t.proc = none


/-- The error `e`, raised in an asynchronous handler entered in state `s`, has
been delivered as result `r`: the connection is discarded; with a procedure
pending its `onFinished` has been invoked once, the handler raises `e`
unless the callback called `endCall()` and kept what that rethrew, and the
flag `_exceptionPending` is left cleared exactly when the callback called
`endCall()`; with none pending no callback has been invoked and the handler
raises `e`. -/
def delivered (s : RpcClientImpl) (e : Exn) (fin : Finish)
    (r : Except Exn Unit × RpcClientImpl) : Prop :=
  discarded r.2 ∧
    match s.proc with
    | some pr => r.2.finished = s.finished ++ [pr]
        ∧ (r.1 = Except.error e ↔ fin ≠ Finish.endCallCaught)
        ∧ (fin = Finish.endCallCaught → r.1 = Except.ok ())
        ∧ (r.2.exceptionPending = false ↔ fin ≠ Finish.ignore)
    | none => r.2.finished = s.finished ∧ r.1 = Except.error e

/-- The activity steps of a script during which the call stays pending. -/
def staysPending (front : List RpcClientImpl.SelectorWait) : Prop :=
  ∀ x ∈ front, ∃ after elapsed,
    x = RpcClientImpl.SelectorWait.activity after elapsed ∧ after.proc.isSome = true


/-- The formatter calls of one request object with method name `name`, the
arguments `argv` in order, and id `n`, as `prepareRequest` issues them:
members `jsonrpc`, `method`, `id` and the array `params`. -/
def requestCalls (pfx name : String) (argv : List IDecomposer) (n : Nat) : List FmtCall :=
  [ FmtCall.beginObject "" "",
    FmtCall.addValueStdString "jsonrpc" "" "2.0",
    FmtCall.addValueString "method" "" (pfx ++ name),
    FmtCall.addValueInt "id" "int" n,
    FmtCall.beginArray "params" "" ]
  ++ argv.flatten
  ++ [ FmtCall.finishArray, FmtCall.finishObject, FmtCall.finish ]

/-- The engine after preparing the requests `reqs` one after the other. -/
def preparedAll (s : RpcClientImpl) (reqs : List (String × List IDecomposer)) :
    RpcClientImpl :=
  reqs.foldl (fun t r => RpcClientImpl.prepareRequest t r.1 r.2) s

/-- Whether a payload is a wide string (0), a narrow string (1) or anything
else (2): the three classes `swap` and `assignData` tell apart. -/
def cxxtools.Payload.stringKind : Payload → Nat
  | Payload.string _ => 0
  | Payload.string8 _ => 1
  | _ => 2

/-- A default text whose braces match: read by the parser `es` with the result
`r` so far, every closing brace of `d` finds the parser inside a brace
construct of `d`. -/
def cxxtools.EnvSubst.bracesMatched (env : List Char → Option (List Char)) :
    EnvSubst → List Char → List Char → Bool
  | _, _, [] => true
  | es, r, c :: rest =>
    (decide (c ≠ '\x7d') || EnvSubst.isInBracket es)
      && (match EnvSubst.parse env es r c with
          | Except.error _ => true
          | Except.ok x => cxxtools.EnvSubst.bracesMatched env x.1 x.2 rest)

/-- What the reference count invariant says of one slot of the heap, `k` being
the number of live handles that point to it: where no object has been created
no handle points; the counter of an object equals the number of handles that
point to it; an object has been deleted at most once, and it has been deleted
exactly when no handle points to it. -/
def cxxtools.json.ImplObject.counted (o : Option ImplObject) (k : Nat) : Prop :=
  match o with
  | none => k = 0
  | some x => x.refs = (k : Int) ∧ x.deleted ≤ 1 ∧ (x.deleted = 0 ↔ 0 < k)

/-- The reference count invariant of a program. -/
def cxxtools.json.HandleWorld.consistent (w : HandleWorld) : Prop :=
  ∀ i, ImplObject.counted (w.impls[i]?) (w.holders i)

/-- The parser between two parameters, in `state_key` with the key read so
far. -/
def cxxtools.UrlParser.inKey (q : QueryParams) (key : List Char) : UrlParser :=
  { q := q, state := UrlParserState.state_key, key := key, value := [], cnt := 0, v := 0 }

/-- The parser in `state_value` with the key and the value read so far. -/
def cxxtools.UrlParser.inValue (q : QueryParams) (key value : List Char) : UrlParser :=
  { q := q, state := UrlParserState.state_value, key := key, value := value, cnt := 0, v := 0 }

/-- The text `getUrl` writes for one parameter, without the `&` before it. -/
def cxxtools.QueryParams.urlOf (e : QueryParamsValue) : List Char :=
  (if e.name ≠ [] then QueryParams.appendUrl [] e.name ++ ['='] else [])
    ++ QueryParams.appendUrl [] e.value

/-- The parser after it has read the text of one parameter. -/
def cxxtools.UrlParser.pending (q : QueryParams) (e : QueryParamsValue) : UrlParser :=
  if e.name = [] then UrlParser.inKey q e.value else UrlParser.inValue q e.name e.value

/-- A string of bytes: every char has a value below 256. -/
@[reducible] def cxxtools.QueryParams.isBytes (s : List Char) : Prop :=
  ∀ c ∈ s, c.toNat < 256

/-- A parameter that `getUrl` and `parse_url` carry: name and value are
strings of bytes, and an unnamed parameter has a value. -/
@[reducible] def cxxtools.QueryParams.carried (e : QueryParamsValue) : Prop :=
  QueryParams.isBytes e.name ∧ QueryParams.isBytes e.value ∧ (e.name = [] → e.value ≠ [])

/-- The text `getUrl` writes for the parameters after the first: each one
after an `&`. -/
def cxxtools.QueryParams.urlOfRest (es : List QueryParamsValue) : List Char :=
  (es.map (fun e => '&' :: QueryParams.urlOf e)).flatten

/-- The text `[k1]...[kn]` of the keys `k1`, ..., `kn`. -/
def cxxtools.QueryParams.bracketGroups (keys : List (List Char)) : List Char :=
  (keys.map (fun k => '[' :: k ++ [']'])).flatten

/-- A name in which a `]` that closes a key is directly followed by a char
other than `[`: the name begins with `base[k1]...[kn]`, `n` at least 1, and
goes on with such a char. -/
def cxxtools.QueryParams.badName (name : List Char) : Prop :=
  ∃ base keys c rest, keys ≠ [] ∧ name = base ++ QueryParams.bracketGroups keys ++ c :: rest
    ∧ (∀ x ∈ base, x ≠ '[') ∧ (∀ k ∈ keys, ∀ x ∈ k, x ≠ ']') ∧ c ≠ '['

/-- The tree below `si` after a leaf member named `leaf`, to which `f` is
applied, has been appended at the end of the path `segs`: each node of the path
is the first member of that name where there is one, and a member appended
for it otherwise. -/
def cxxtools.SerializationInfo.insertLeaf (leaf : String)
    (f : SerializationInfo → SerializationInfo) :
    List String → SerializationInfo → SerializationInfo
  | [], si => si.addMemberWith leaf f
  | seg :: segs, si =>
    match SerializationInfo.firstNamedIndex seg si.nodes with
    | some i =>
      SerializationInfo.updateAt (cxxtools.SerializationInfo.insertLeaf leaf f segs) [i] si
    | none =>
      SerializationInfo.updateAt (cxxtools.SerializationInfo.insertLeaf leaf f segs)
        [si.nodes.length] (si.addMember seg).1

/-- C1: with a selector set and a procedure active, `beginCall` fails with a
logic error and returns the engine exactly as it was: same active procedure,
same request counter, same output buffer. -/
theorem beginCall_pending_logicError (s : RpcClientImpl) (p method : IRemoteProcedure)
    (argv : List IDecomposer) (env : RpcClientImpl.BeginEnv)
    (hsel : s.selector = true) (hproc : s.proc = some p) :
    RpcClientImpl.beginCall s method argv env = (Except.error Exn.logicError, s)
    ∧ (RpcClientImpl.beginCall s method argv env).2.proc = some p
    ∧ (RpcClientImpl.beginCall s method argv env).2.count = s.count
    ∧ (RpcClientImpl.beginCall s method argv env).2.out = s.out
    ∧ (RpcClientImpl.beginCall s method argv env).2.sent = s.sent := by
  have h : RpcClientImpl.beginCall s method argv env = (Except.error Exn.logicError, s) := by
    simp [RpcClientImpl.beginCall, hsel, hproc]
  rw [h]
  exact ⟨rfl, hproc, rfl, rfl, rfl⟩

/-- Witness for C1: the theorem applied to an engine with a pending call. -/
theorem beginCall_pending_logicError_witness :
    pendingEngine.selector = true
    ∧ pendingEngine.proc = some { handle := 1, name := "first" }
    ∧ RpcClientImpl.beginCall pendingEngine { handle := 2, name := "second" } []
        { beginWrite := Except.ok (), beginConnect := Except.ok (),
          onFinished := Finish.ignore }
      = (Except.error Exn.logicError, pendingEngine) :=
  ⟨rfl, rfl, (beginCall_pending_logicError pendingEngine _ _ _ _ rfl rfl).1⟩

/-- C2 (evaluation at the failing input): with the call of `first` pending, the
synchronous `call` of `second` does not fail; it returns normally, has sent a
second request (counter advanced to 2) and leaves no procedure active, so the
pending call has been replaced and dropped. -/
theorem call_overwrites_pending :
    (RpcClientImpl.call pendingEngine { handle := 2, name := "second" } [] answeringPeer).1
      = Except.ok ()
    ∧ (RpcClientImpl.call pendingEngine { handle := 2, name := "second" } []
        answeringPeer).2.proc = none
    ∧ (RpcClientImpl.call pendingEngine { handle := 2, name := "second" } []
        answeringPeer).2.count = 2
    ∧ (RpcClientImpl.call pendingEngine { handle := 2, name := "second" } []
        answeringPeer).2.sent ≠ pendingEngine.sent := by
  refine ⟨rfl, rfl, rfl, ?_⟩
  decide

/-- C10: `onAcceptSslCertificate` accepts a certificate exactly when no
predicate is registered or the registered predicate returns true, and vetoes it
exactly when a predicate is registered and returns false. -/
theorem onAcceptSslCertificate_iff {Cert : Type} (d : AcceptDelegate Cert) (cert : Cert) :
    (onAcceptSslCertificate d cert = true ↔ (d = none ∨ ∃ p, d = some p ∧ p cert = true))
    ∧ (onAcceptSslCertificate d cert = false ↔ ∃ p, d = some p ∧ p cert = false) := by
  cases d with
  | none => simp [onAcceptSslCertificate]
  | some p => simp [onAcceptSslCertificate]

/-- Writing a list of items one by one appends one chunk per item. -/
theorem foldl_write_wire {P R α : Type} (f : α → String) (fields : List α) (s : Socket P R) :
    (fields.foldl (fun t kv => Socket.write t (f kv)) s).wire = s.wire ++ fields.map f := by
  induction fields generalizing s with
  | nil => simp
  | cons kv rest ih =>
    simp only [List.foldl_cons, List.map_cons]
    rw [ih]
    simp [Socket.write]

/-- What `sendReply` appends to the stream is the reply text of the
specification. -/
theorem sendReply_wire_eq {P R : Type} (c : Collab P R) (s : Socket P R) :
    (Socket.sendReply c s).wire = s.wire ++ replyText c s := by
  have e1 : "Content-Length: " = "Content-Length" ++ ": " := by decide
  have e2 : "Server: cxxtools-Http-Server " = "Server" ++ ": " ++ "cxxtools-Http-Server " := by
    decide
  have e3 : "Connection: " = "Connection" ++ ": " := by decide
  have e4 : "Date: " = "Date" ++ ": " := by decide
  have hw : ∀ (t : Socket P R) (x : String), (Socket.write t x).wire = t.wire ++ [x] :=
    fun _ _ => rfl
  unfold Socket.sendReply replyText injectedDefaults
  simp only [e1, e2, e3, e4]
  generalize hasHeader c s.reply.header "Content-Length" = b1
  generalize hasHeader c s.reply.header "Server" = b2
  generalize hasHeader c s.reply.header "Connection" = b3
  generalize hasHeader c s.reply.header "Date" = b4
  cases b1 <;> cases b2 <;> cases b3 <;> cases b4 <;>
    simp only [hw, foldl_write_wire, Socket.headerLine, String.append_assoc,
      Bool.not_true, Bool.not_false, if_true, if_false, List.map_append, List.map_cons,
      List.map_nil, List.append_assoc, List.cons_append, List.nil_append, Bool.false_eq_true]

/-- Each default header is injected once when the handler did not set it and
not at all when it did. -/
theorem injectedDefaults_count {P R : Type} (c : Collab P R) (s : Socket P R) :
    ∀ name ∈ ["Content-Length", "Server", "Connection", "Date"],
      ((injectedDefaults c s).filter (fun kv => kv.1 = name)).length
        = if hasHeader c s.reply.header name then 0 else 1 := by
  intro name hname
  simp only [List.mem_cons, List.mem_singleton, List.not_mem_nil, or_false] at hname
  unfold injectedDefaults
  simp only [List.filter_append, List.length_append]
  rcases hname with h | h | h | h <;> subst h <;>
    generalize hasHeader c s.reply.header "Content-Length" = b1 <;>
    generalize hasHeader c s.reply.header "Server" = b2 <;>
    generalize hasHeader c s.reply.header "Connection" = b3 <;>
    generalize hasHeader c s.reply.header "Date" = b4 <;>
    cases b1 <;> cases b2 <;> cases b3 <;> cases b4 <;> simp

/-- C3: `sendReply` appends to the stream, in this order, the status line, the
handler's headers, each of Content-Length, Server, Connection and Date exactly
when the reply header has no header of that name, an empty line and the body.
Every one of the four names then heads a header line of the output, and a name
the handler set is not among the injected lines. -/
theorem sendReply_wire {P R : Type} (c : Collab P R) (s : Socket P R) :
    (Socket.sendReply c s).wire = s.wire ++ replyText c s
    ∧ (∀ name ∈ ["Content-Length", "Server", "Connection", "Date"],
        ∃ k v, Socket.headerLine k v ∈ replyText c s ∧ (k = name ∨ c.sameName k name = true))
    ∧ (∀ name ∈ ["Content-Length", "Server", "Connection", "Date"],
        ((injectedDefaults c s).filter (fun kv => kv.1 = name)).length
          = if hasHeader c s.reply.header name then 0 else 1) := by
  refine ⟨sendReply_wire_eq c s, ?_, injectedDefaults_count c s⟩
  intro name hname
  by_cases hh : hasHeader c s.reply.header name = true
  · unfold hasHeader at hh
    rw [List.any_eq_true] at hh
    obtain ⟨kv, hkv, hsame⟩ := hh
    refine ⟨kv.1, kv.2, ?_, Or.inr hsame⟩
    unfold replyText
    simp only [List.mem_append, List.mem_map]
    exact Or.inl (Or.inl (Or.inr ⟨kv, hkv, rfl⟩))
  · simp only [Bool.not_eq_true] at hh
    have hmem : ∀ k v, (k, v) ∈ injectedDefaults c s → Socket.headerLine k v ∈ replyText c s := by
      intro k v hkv
      unfold replyText
      simp only [List.mem_append, List.mem_map]
      exact Or.inl (Or.inr ⟨(k, v), hkv, rfl⟩)
    simp only [List.mem_cons, List.mem_singleton, List.not_mem_nil, or_false] at hname
    rcases hname with h | h | h | h <;> subst h
    · exact ⟨"Content-Length", toString s.reply.body.length,
        hmem _ _ (by simp [injectedDefaults, hh]), Or.inl rfl⟩
    · exact ⟨"Server", "cxxtools-Http-Server " ++ c.packageVersion,
        hmem _ _ (by simp [injectedDefaults, hh]), Or.inl rfl⟩
    · exact ⟨"Connection", if c.keepAlive s.request.header then "keep-alive" else "close",
        hmem _ _ (by simp [injectedDefaults, hh]), Or.inl rfl⟩
    · exact ⟨"Date", c.htdateCurrent, hmem _ _ (by simp [injectedDefaults, hh]), Or.inl rfl⟩

/-- The status line is never empty. -/
theorem statusLine_length_pos (r : Reply) : 0 < (Socket.statusLine r).length := by
  unfold Socket.statusLine
  simp only [String.length_append]
  have : "HTTP/".length = 5 := by decide
  omega

/-- Nothing written is still written. -/
theorem wrote_refl {P R : Type} (s : Socket P R) : Wrote s s :=
  ⟨rfl, rfl, rfl, rfl, rfl, rfl, rfl, rfl, rfl, rfl, rfl, rfl, rfl, rfl, rfl, rfl, rfl,
    Nat.le_refl _⟩

/-- Output statements compose. -/
theorem wrote_trans {P R : Type} {s t u : Socket P R} (h1 : Wrote s t) (h2 : Wrote t u) :
    Wrote s u :=
  ⟨h2.certificateFile.trans h1.certificateFile, h2.isOpen.trans h1.isOpen,
    h2.accepted.trans h1.accepted, h2.sslAccepting.trans h1.sslAccepting,
    h2.reading.trans h1.reading, h2.writing.trans h1.writing, h2.rx.trans h1.rx,
    h2.eof.trans h1.eof, h2.tx.trans h1.tx, h2.inBuf.trans h1.inBuf, h2.timer.trans h1.timer,
    h2.parser.trans h1.parser, h2.request.trans h1.request, h2.reply.trans h1.reply,
    h2.responder.trans h1.responder, h2.contentLength.trans h1.contentLength,
    h2.log.trans h1.log, Nat.le_trans h1.outAvail h2.outAvail⟩

/-- One output statement. -/
theorem write_wrote {P R : Type} (s : Socket P R) (x : String) : Wrote s (Socket.write s x) :=
  ⟨rfl, rfl, rfl, rfl, rfl, rfl, rfl, rfl, rfl, rfl, rfl, rfl, rfl, rfl, rfl, rfl, rfl,
    Nat.le_add_right _ _⟩

/-- A loop of output statements. -/
theorem foldl_write_wrote {P R α : Type} (f : α → String) (fields : List α) (s : Socket P R) :
    Wrote s (fields.foldl (fun t kv => Socket.write t (f kv)) s) := by
  induction fields generalizing s with
  | nil => exact wrote_refl s
  | cons kv rest ih => exact wrote_trans (write_wrote s (f kv)) (ih _)

/-- A guarded output statement. -/
theorem ite_write_wrote {P R : Type} (b : Bool) (s : Socket P R) (x : String) :
    Wrote s (if b then Socket.write s x else s) := by
  cases b
  · exact wrote_refl s
  · exact write_wrote s x

/-- The function `sendReply` only writes to the stream, and leaves output pending. -/
theorem sendReply_wrote {P R : Type} (c : Collab P R) (s : Socket P R) :
    Wrote s (Socket.sendReply c s) ∧ 0 < (Socket.sendReply c s).outAvail := by
  have h1 : Wrote s (Socket.write s (Socket.statusLine s.reply)) := write_wrote _ _
  have hpos : 0 < (Socket.write s (Socket.statusLine s.reply)).outAvail := by
    have := statusLine_length_pos s.reply
    simp only [Socket.write]
    omega
  have hrest : Wrote (Socket.write s (Socket.statusLine s.reply)) (Socket.sendReply c s) := by
    unfold Socket.sendReply
    exact wrote_trans (foldl_write_wrote _ _ _) (wrote_trans (ite_write_wrote _ _ _)
      (wrote_trans (ite_write_wrote _ _ _) (wrote_trans (ite_write_wrote _ _ _)
        (wrote_trans (ite_write_wrote _ _ _) (wrote_trans (write_wrote _ _) (write_wrote _ _))))))
  exact ⟨wrote_trans h1 hrest, Nat.lt_of_lt_of_le hpos hrest.outAvail⟩

/-- A state is in its own frame. -/
theorem frame_refl {P R : Type} (s : Socket P R) : Socket.Frame s s :=
  ⟨rfl, rfl, rfl, rfl, rfl, rfl, rfl, ⟨[], by simp, by simp⟩⟩

/-- Frames compose. -/
theorem frame_trans {P R : Type} {s t u : Socket P R} (h1 : Socket.Frame s t)
    (h2 : Socket.Frame t u) : Socket.Frame s u := by
  obtain ⟨x1, hx1, hx1'⟩ := h1.log
  obtain ⟨x2, hx2, hx2'⟩ := h2.log
  refine ⟨h2.isOpen.trans h1.isOpen, h2.accepted.trans h1.accepted,
    h2.sslAccepting.trans h1.sslAccepting, h2.reading.trans h1.reading,
    h2.writing.trans h1.writing, h2.outAvail.trans h1.outAvail, h2.tx.trans h1.tx,
    ⟨x1 ++ x2, by rw [hx2, hx1, List.append_assoc], ?_⟩⟩
  intro e he
  rcases List.mem_append.mp he with h | h
  · exact hx1' e h
  · have := hx2' e h
    rw [h1.outAvail] at this
    exact this

/-- Starting or stopping the timer stays within the frame. -/
theorem frame_timer {P R : Type} (s : Socket P R) (t : Nat) :
    Socket.Frame s (Socket.timerStart s t) ∧ Socket.Frame s (Socket.timerStop s) :=
  ⟨⟨rfl, rfl, rfl, rfl, rfl, rfl, rfl, ⟨[], by simp [Socket.timerStart], by simp⟩⟩,
   ⟨rfl, rfl, rfl, rfl, rfl, rfl, rfl, ⟨[], by simp [Socket.timerStop], by simp⟩⟩⟩

/-- The error handlers stay within the frame. -/
theorem frame_errorState {P R : Type} (c : Collab P R) (r : R) (e : Exn) (s : Socket P R) :
    Socket.Frame s (Socket.errorState c r e s) :=
  ⟨rfl, rfl, rfl, rfl, rfl, rfl, rfl,
    ⟨[Call.replyError, Call.release], by simp [Socket.errorState, Socket.record], by simp⟩⟩

/-- The reply phase stays within the frame, is recorded once and releases the
responder. -/
theorem frame_replied {P R : Type} (c : Collab P R) (r : R) (s : Socket P R) :
    Socket.Frame s (Socket.replied c r s)
    ∧ (Socket.replied c r s).timer = s.timer
    ∧ (Socket.replied c r s).responder = none
    ∧ (Socket.replied c r s).log.count Call.reply = s.log.count Call.reply + 1 := by
  unfold Socket.replied
  simp only
  split
  · exact ⟨⟨rfl, rfl, rfl, rfl, rfl, rfl, rfl,
      ⟨[Call.reply, Call.release], by simp [Socket.record], by simp⟩⟩, rfl, rfl,
      by simp [Socket.record, List.count_append]⟩
  · exact ⟨⟨rfl, rfl, rfl, rfl, rfl, rfl, rfl,
      ⟨[Call.reply, Call.replyError, Call.release], by simp [Socket.record], by simp⟩⟩,
      rfl, rfl, by simp [Socket.record, List.count_append]⟩

/-- Reading a chunk of body stays within the frame. -/
theorem frame_bodyRead {P R : Type} (n : Nat) (r1 : R) (s : Socket P R) :
    Socket.Frame s (Socket.bodyRead n r1 s) :=
  ⟨rfl, rfl, rfl, rfl, rfl, rfl, rfl,
    ⟨[Call.readBody], by simp [Socket.bodyRead, Socket.record], by simp⟩⟩

/-- Advancing the parser stays within the frame. -/
theorem frame_parsed {P R : Type} (c : Collab P R) (s : Socket P R) :
    Socket.Frame s (Socket.parsed c s) :=
  ⟨rfl, rfl, rfl, rfl, rfl, rfl, rfl,
    ⟨[Call.parserAdvance s.outAvail], by simp [Socket.parsed, Socket.record], by simp⟩⟩

/-- The reply to a malformed header stays within the frame. -/
theorem frame_headerFailed {P R : Type} (c : Collab P R) (s : Socket P R) :
    Socket.Frame s (Socket.headerFailed c s) :=
  ⟨rfl, rfl, rfl, rfl, rfl, rfl, rfl,
    ⟨[Call.getDefaultResponder, Call.replyError, Call.release],
      by simp [Socket.headerFailed, Socket.record], by simp⟩⟩

/-- Selecting and starting a responder stays within the frame. -/
theorem frame_selected {P R : Type} (c : Collab P R) (r r1 : R) (s : Socket P R) :
    Socket.Frame s (Socket.selected r s)
    ∧ Socket.Frame s (Socket.begun c r1 (Socket.selected r s)) :=
  ⟨⟨rfl, rfl, rfl, rfl, rfl, rfl, rfl,
      ⟨[Call.getResponder, Call.beginRequest], by simp [Socket.selected, Socket.record],
        by simp⟩⟩,
   ⟨rfl, rfl, rfl, rfl, rfl, rfl, rfl,
      ⟨[Call.getResponder, Call.beginRequest],
        by simp [Socket.begun, Socket.selected, Socket.record], by simp⟩⟩⟩

/-- The function `doReply` on a connection with a responder `r` runs the reply
phase, sends the reply and goes on to `onOutput`. -/
theorem doReplyWith_eq {P R : Type} (c : Collab P R)
    (k : Socket P R → Except Halt (Socket P R × Bool)) (u : Socket P R) (r : R)
    (h : u.responder = some r) :
    Socket.doReplyWith c k u = k (Socket.sendReply c (Socket.replied c r u)) := by
  unfold Socket.doReplyWith
  rw [h]

/-- The test at the end of the body block: the reply phase runs exactly when
the remaining length is not positive. -/
theorem bodyDone_eq {P R : Type} (c : Collab P R)
    (k : Socket P R → Except Halt (Socket P R × Bool)) (t : Socket P R) (r : R)
    (h : t.responder = some r) :
    Socket.bodyDone c k t =
      if t.contentLength ≤ 0 then
        (k (Socket.sendReply c (Socket.replied c r (Socket.timerStop t)))).map Prod.fst
      else Except.ok (Socket.beginRead t) := by
  unfold Socket.bodyDone
  rw [doReplyWith_eq c k (Socket.timerStop t) r h]

/-- The ways in which the body block of `onInput` ends. -/
theorem onInputBody_exits {P R : Type} (c : Collab P R)
    (k : Socket P R → Except Halt (Socket P R × Bool)) (t : Socket P R) (r : R)
    (ht : t.responder = some r) :
    (∃ u, Socket.Frame t u ∧ u.timer = t.timer
        ∧ Socket.onInputBody c k t r = Except.ok (Socket.beginRead u))
    ∨ (∃ u, Socket.Frame t u
        ∧ Socket.onInputBody c k t r = (k (Socket.sendReply c u)).map Prod.fst)
    ∨ Socket.onInputBody c k t r = Except.error Halt.assertFailed := by
  have hdone : ∀ (v : Socket P R) (r' : R), v.responder = some r' → Socket.Frame t v →
      v.timer = t.timer →
      (∃ u, Socket.Frame t u ∧ u.timer = t.timer
        ∧ Socket.bodyDone c k v = Except.ok (Socket.beginRead u))
      ∨ (∃ u, Socket.Frame t u
        ∧ Socket.bodyDone c k v = (k (Socket.sendReply c u)).map Prod.fst) := by
    intro v r' hv hf htm
    rw [bodyDone_eq c k v r' hv]
    by_cases hcl : v.contentLength ≤ 0
    · rw [if_pos hcl]
      exact Or.inr ⟨_, frame_trans hf (frame_trans (frame_timer v 0).2
        (frame_replied c r' (Socket.timerStop v)).1), rfl⟩
    · rw [if_neg hcl]
      exact Or.inl ⟨v, hf, htm, rfl⟩
  unfold Socket.onInputBody
  by_cases hin : t.inBuf.length > 0
  · rw [if_pos hin]
    cases hrb : c.readBody r t.inBuf with
    | error e =>
      refine Or.inr (Or.inl ⟨Socket.errorState c r e (Socket.record t Call.readBody), ?_, rfl⟩)
      refine frame_trans ?_ (frame_errorState c r e _)
      exact ⟨rfl, rfl, rfl, rfl, rfl, rfl, rfl,
        ⟨[Call.readBody], by simp [Socket.record], by simp⟩⟩
    | ok res =>
      obtain ⟨n, r1⟩ := res
      simp only
      by_cases hn : n > 0
      · rw [if_pos hn]
        rcases hdone (Socket.bodyRead n r1 t) r1 rfl (frame_bodyRead n r1 t) rfl with h | h
        · exact Or.inl h
        · exact Or.inr (Or.inl h)
      · rw [if_neg hn]
        exact Or.inr (Or.inr rfl)
  · rw [if_neg hin]
    rcases hdone t r ht (frame_refl t) rfl with h | h
    · exact Or.inl h
    · exact Or.inr (Or.inl h)

/-- The ways in which the header block of `onInput` ends. -/
theorem onInputHeader_exits {P R : Type} (c : Collab P R)
    (k : Socket P R → Except Halt (Socket P R × Bool)) (t : Socket P R) :
    (∃ u, Socket.Frame t u ∧ u.timer = t.timer
        ∧ Socket.onInputHeader c k t = Except.ok (Socket.beginRead u))
    ∨ (∃ u, Socket.Frame t u
        ∧ Socket.onInputHeader c k t = (k (Socket.sendReply c u)).map Prod.fst)
    ∨ Socket.onInputHeader c k t = Except.error Halt.assertFailed := by
  unfold Socket.onInputHeader
  simp only
  by_cases hfail : c.parserFail (Socket.parsed c t).parser = true
  · rw [if_pos hfail]
    exact Or.inr (Or.inl ⟨_, frame_trans (frame_parsed c t) (frame_headerFailed c _), rfl⟩)
  · rw [if_neg hfail]
    by_cases hend : c.parserEnd (Socket.parsed c t).parser = true
    · rw [if_pos hend]
      cases hbr : c.beginRequest (c.getResponder (Socket.parsed c t).request)
          (Socket.selected (c.getResponder (Socket.parsed c t).request)
            (Socket.parsed c t)).request with
      | error e =>
        exact Or.inr (Or.inl ⟨_, frame_trans (frame_parsed c t)
          (frame_trans (frame_selected c _ (c.getResponder (Socket.parsed c t).request) _).1
            (frame_errorState c _ e _)), rfl⟩)
      | ok r1 =>
        simp only
        have hf : Socket.Frame t (Socket.begun c r1
            (Socket.selected (c.getResponder (Socket.parsed c t).request) (Socket.parsed c t))) :=
          frame_trans (frame_parsed c t) (frame_selected c _ r1 _).2
        split
        · rw [doReplyWith_eq c k _ r1 rfl]
          exact Or.inr (Or.inl ⟨_, frame_trans hf (frame_trans (frame_timer _ 0).2
            (frame_replied c r1 _).1), rfl⟩)
        · rcases onInputBody_exits c k (Socket.begun c r1
            (Socket.selected (c.getResponder (Socket.parsed c t).request) (Socket.parsed c t)))
            r1 rfl with ⟨u, hu, htm, heq⟩ | ⟨u, hu, heq⟩ | heq
          · exact Or.inl ⟨u, frame_trans hf hu, htm, heq⟩
          · exact Or.inr (Or.inl ⟨u, frame_trans hf hu, heq⟩)
          · exact Or.inr (Or.inr heq)
    · rw [if_neg hend]
      exact Or.inl ⟨_, frame_parsed c t, rfl, rfl⟩

/-- The ways in which `onInput` ends: the connection is closed, or a read is
begun with the idle timer started, or a reply is sent and `onOutput` takes
over, or the assertion on `readBody` fails. -/
theorem onInputWith_exits {P R : Type} (c : Collab P R)
    (k : Socket P R → Except Halt (Socket P R × Bool)) (s : Socket P R) :
    Socket.onInputWith c k s = Except.ok (Socket.close (Socket.endRead s))
    ∨ (∃ u, Socket.Frame (Socket.endRead s) u ∧ u.timer = some c.readTimeout
        ∧ Socket.onInputWith c k s = Except.ok (Socket.beginRead u))
    ∨ (∃ u, Socket.Frame (Socket.endRead s) u
        ∧ Socket.onInputWith c k s = (k (Socket.sendReply c u)).map Prod.fst)
    ∨ Socket.onInputWith c k s = Except.error Halt.assertFailed := by
  have hstart := (frame_timer (Socket.endRead s) c.readTimeout).1
  unfold Socket.onInputWith
  simp only
  split
  · exact Or.inl rfl
  · split
    · next r hr =>
      rcases onInputBody_exits c k (Socket.timerStart (Socket.endRead s) c.readTimeout) r hr
        with ⟨u, hu, ht, heq⟩ | ⟨u, hu, heq⟩ | heq
      · exact Or.inr (Or.inl ⟨u, frame_trans hstart hu, ht, heq⟩)
      · exact Or.inr (Or.inr (Or.inl ⟨u, frame_trans hstart hu, heq⟩))
      · exact Or.inr (Or.inr (Or.inr heq))
    · rcases onInputHeader_exits c k (Socket.timerStart (Socket.endRead s) c.readTimeout)
        with ⟨u, hu, ht, heq⟩ | ⟨u, hu, heq⟩ | heq
      · exact Or.inr (Or.inl ⟨u, frame_trans hstart hu, ht, heq⟩)
      · exact Or.inr (Or.inr (Or.inl ⟨u, frame_trans hstart hu, heq⟩))
      · exact Or.inr (Or.inr (Or.inr heq))

/-- With output pending and no write in progress, `onOutput` begins a write
and starts the idle timer with the write timeout. -/
theorem onOutput_pending {P R : Type} (c : Collab P R) (n : Nat) (s : Socket P R)
    (hw : s.writing = false) (hout : 0 < s.outAvail) :
    Socket.onOutput c (n + 1) s
      = Except.ok (Socket.timerStart (Socket.beginWrite s) c.writeTimeout, true) := by
  have hne : s.outAvail ≠ 0 := Nat.pos_iff_ne_zero.mp hout
  simp [Socket.onOutput, Socket.onOutputWith, Socket.endWrite, hw, hne]

/-- After `sendReply` on a connection with no write in progress, `onOutput`
begins the write of the reply. -/
theorem onOutput_sendReply {P R : Type} (c : Collab P R) (n : Nat) (u : Socket P R)
    (hw : u.writing = false) :
    Socket.onOutput c (n + 1) (Socket.sendReply c u)
      = Except.ok (Socket.timerStart (Socket.beginWrite (Socket.sendReply c u))
          c.writeTimeout, true) :=
  onOutput_pending c n _ ((sendReply_wrote c u).1.writing.trans hw) (sendReply_wrote c u).2

/-- Ending a read leaves the write in progress as it is. -/
theorem endRead_writing {P R : Type} (s : Socket P R) :
    (Socket.endRead s).writing = s.writing := by
  unfold Socket.endRead
  split <;> rfl

/-- With no write in progress, `onInput` returns with any positive bound:
it closes, begins a read, or begins the write of a reply, unless the
assertion on `readBody` fails. -/
theorem onInput_idle {P R : Type} (c : Collab P R) (n : Nat) (s : Socket P R)
    (hw : s.writing = false) :
    (∃ r, Socket.onInput c (n + 1) s = Except.ok r)
    ∨ Socket.onInput c (n + 1) s = Except.error Halt.assertFailed := by
  unfold Socket.onInput
  rcases onInputWith_exits c (Socket.onOutput c (n + 1)) s with h | ⟨u, _, _, h⟩ | ⟨u, hu, h⟩ | h
  · exact Or.inl ⟨_, h⟩
  · exact Or.inl ⟨_, h⟩
  · rw [onOutput_sendReply c n u (hu.writing.trans ((endRead_writing s).trans hw))] at h
    exact Or.inl ⟨_, h⟩
  · exact Or.inr h

/-- After `endWrite` succeeded no write is in progress. -/
theorem endWrite_writing {P R : Type} (s s1 : Socket P R) (h : Socket.endWrite s = Except.ok s1) :
    s1.writing = false := by
  unfold Socket.endWrite at h
  split at h
  · split at h
    · exact absurd h (by simp)
    · injection h with h
      rw [← h]
  · next hw =>
    injection h with h
    rw [← h]
    simpa using hw

/-- The function `onOutput` returns with any bound of at least two, unless the
assertion on `readBody` fails. -/
theorem onOutput_total {P R : Type} (c : Collab P R) (n : Nat) (s : Socket P R) :
    (∃ r, Socket.onOutput c (n + 2) s = Except.ok r)
    ∨ Socket.onOutput c (n + 2) s = Except.error Halt.assertFailed := by
  show (∃ r, Socket.onOutputWith c (Socket.onInput c (n + 1)) s = Except.ok r)
    ∨ Socket.onOutputWith c (Socket.onInput c (n + 1)) s = Except.error Halt.assertFailed
  unfold Socket.onOutputWith
  cases hew : Socket.endWrite s with
  | error e => exact Or.inl ⟨_, rfl⟩
  | ok s1 =>
    simp only
    split
    · exact Or.inl ⟨_, rfl⟩
    · split
      · split
        · have hw : (Socket.keptAlive c s1).writing = false := endWrite_writing s s1 hew
          rcases onInput_idle c n (Socket.keptAlive c s1) hw with ⟨r, h⟩ | h
          · rw [h]
            exact Or.inl ⟨_, rfl⟩
          · rw [h]
            exact Or.inr rfl
        · exact Or.inl ⟨_, rfl⟩
      · exact Or.inl ⟨_, rfl⟩

/-- The function `onInput` returns with any bound of at least two, unless the
assertion on `readBody` fails. -/
theorem onInput_total {P R : Type} (c : Collab P R) (n : Nat) (s : Socket P R) :
    (∃ r, Socket.onInput c (n + 2) s = Except.ok r)
    ∨ Socket.onInput c (n + 2) s = Except.error Halt.assertFailed := by
  unfold Socket.onInput
  rcases onInputWith_exits c (Socket.onOutput c (n + 2)) s with h | ⟨u, _, _, h⟩ | ⟨u, hu, h⟩ | h
  · exact Or.inl ⟨_, h⟩
  · exact Or.inl ⟨_, h⟩
  · rcases onOutput_total c n (Socket.sendReply c u) with ⟨r, hr⟩ | hr
    · rw [hr] at h
      exact Or.inl ⟨_, h⟩
    · rw [hr] at h
      exact Or.inr h
  · exact Or.inr h

/-- If what `onOutput` returns is closed or has the timer started, so is what
`onInput` returns. -/
theorem onInputWith_armed {P R : Type} (c : Collab P R)
    (k : Socket P R → Except Halt (Socket P R × Bool))
    (hk : ∀ s r b, k s = Except.ok (r, b) → r.isOpen = false ∨ Socket.timerArmed r)
    (s r : Socket P R) (h : Socket.onInputWith c k s = Except.ok r) :
    r.isOpen = false ∨ Socket.timerArmed r := by
  rcases onInputWith_exits c k s with h1 | ⟨u, _, htm, h1⟩ | ⟨u, _, h1⟩ | h1
  · rw [h1] at h
    injection h with h
    rw [← h]
    exact Or.inl rfl
  · rw [h1] at h
    injection h with h
    rw [← h]
    right
    show (Socket.beginRead u).timer.isSome = true
    show u.timer.isSome = true
    rw [htm]
    rfl
  · rw [h1] at h
    cases hks : k (Socket.sendReply c u) with
    | error e =>
      rw [hks] at h
      exact absurd h (by simp [Except.map])
    | ok rb =>
      rw [hks] at h
      obtain ⟨r', b⟩ := rb
      injection h with h
      simp only at h
      rw [← h]
      exact hk _ r' b hks
  · rw [h1] at h
    exact absurd h (by simp)

/-- If what `onInput` returns is closed or has the timer started, so is what
`onOutput` returns. -/
theorem onOutputWith_armed {P R : Type} (c : Collab P R)
    (k : Socket P R → Except Halt (Socket P R))
    (hk : ∀ s r, k s = Except.ok r → r.isOpen = false ∨ Socket.timerArmed r)
    (s r : Socket P R) (b : Bool) (h : Socket.onOutputWith c k s = Except.ok (r, b)) :
    r.isOpen = false ∨ Socket.timerArmed r := by
  unfold Socket.onOutputWith at h
  split at h
  · injection h with h
    injection h with h
    rw [← h]
    exact Or.inl rfl
  · next s1 _ =>
    split at h
    · injection h with h
      injection h with h
      rw [← h]
      exact Or.inr rfl
    · split at h
      · dsimp only at h
        split at h
        · cases hks : k (Socket.keptAlive c s1) with
          | error e =>
            rw [hks] at h
            exact absurd h (by simp [Except.map])
          | ok r' =>
            rw [hks] at h
            injection h with h
            injection h with h
            rw [← h]
            exact hk _ r' hks
        · injection h with h
          injection h with h
          rw [← h]
          exact Or.inr rfl
      · injection h with h
        injection h with h
        rw [← h]
        exact Or.inl rfl

/-- Whatever `onOutput` returns is closed or has the idle timer started. -/
theorem onOutput_armed {P R : Type} (c : Collab P R) (n : Nat) :
    ∀ (s r : Socket P R) (b : Bool), Socket.onOutput c n s = Except.ok (r, b) →
      r.isOpen = false ∨ Socket.timerArmed r := by
  induction n with
  | zero =>
    intro s r b h
    exact absurd h (by simp [Socket.onOutput])
  | succ n ih =>
    intro s r b h
    exact onOutputWith_armed c _ (fun s r h => onInputWith_armed c _ ih s r h) s r b h

/-- Whatever `onInput` returns is closed or has the idle timer started. -/
theorem onInput_armed {P R : Type} (c : Collab P R) (n : Nat) (s r : Socket P R)
    (h : Socket.onInput c n s = Except.ok r) : r.isOpen = false ∨ Socket.timerArmed r :=
  onInputWith_armed c _ (onOutput_armed c n) s r h

/-- Every event keeps an accepted connection closed or with its idle timer
started, and produces such a connection when it accepts one. -/
theorem dispatch_armed {P R : Type} (c : Collab P R) (n : Nat) (s s' : Socket P R)
    (e : Socket.Event)
    (hs : s.accepted = true → s.isOpen = false ∨ Socket.timerArmed s)
    (h : Socket.dispatch c n s e = some s') :
    s'.accepted = true → s'.isOpen = false ∨ Socket.timerArmed s' := by
  cases e with
  | accept =>
    simp only [Socket.dispatch] at h
    split at h
    · next hg =>
      injection h with h
      intro hacc
      rw [← h] at hacc
      have : (Socket.accept s).accepted = s.accepted := by
        unfold Socket.accept
        dsimp only
        split <;> rfl
      rw [this, hg.2] at hacc
      exact absurd hacc (by simp)
    · exact absurd h (by simp)
  | postAccept handshake =>
    simp only [Socket.dispatch] at h
    split at h
    · intro _
      right
      unfold Socket.postAccept at h
      dsimp only at h
      split at h
      · split at h
        · exact absurd h (by simp [Except.toOption])
        · simp only [Except.toOption, Option.some.injEq] at h
          rw [← h]
          rfl
      · simp only [Except.toOption, Option.some.injEq] at h
        rw [← h]
        rfl
    · exact absurd h (by simp)
  | input bytes eof =>
    simp only [Socket.dispatch] at h
    split at h
    · intro _
      cases hr : Socket.onInput c n { s with rx := bytes, eof := eof } with
      | error x =>
        rw [hr] at h
        exact absurd h (by simp [Except.toOption])
      | ok r =>
        rw [hr] at h
        simp only [Except.toOption, Option.some.injEq] at h
        rw [← h]
        exact onInput_armed c n _ r hr
    · exact absurd h (by simp)
  | output result =>
    simp only [Socket.dispatch] at h
    split at h
    · intro _
      cases hr : Socket.onOutput c n { s with tx := result } with
      | error x =>
        rw [hr] at h
        exact absurd h (by simp [Except.toOption])
      | ok r =>
        rw [hr] at h
        simp only [Except.toOption, Option.map_some', Option.some.injEq] at h
        rw [← h]
        exact onOutput_armed c n _ r.1 r.2 hr
    · exact absurd h (by simp)
  | timeout =>
    simp only [Socket.dispatch] at h
    split at h
    · injection h with h
      rw [← h]
      exact hs
    · exact absurd h (by simp)

/-- A property kept by every event holds after every run. -/
theorem run_induction {P R : Type} (c : Collab P R) (n : Nat) (I : Socket P R → Prop)
    (hstep : ∀ s s' e, I s → Socket.dispatch c n s e = some s' → I s')
    (evs : List Socket.Event) : ∀ s s', I s → Socket.run c n evs s = some s' → I s' := by
  induction evs with
  | nil =>
    intro s s' hs h
    simp only [Socket.run, Option.some.injEq] at h
    rw [← h]
    exact hs
  | cons e es ih =>
    intro s s' hs h
    simp only [Socket.run] at h
    cases hd : Socket.dispatch c n s e with
    | none =>
      rw [hd] at h
      exact absurd h (by simp)
    | some t =>
      rw [hd] at h
      exact ih t s' (hstep s t e hs hd) h

/-- With input buffered and no end of file, `onInput` restarts the timer and
goes on with the body block when a responder is set and with the header block
otherwise. -/
theorem onInputWith_live {P R : Type} (c : Collab P R)
    (k : Socket P R → Except Halt (Socket P R × Bool)) (s : Socket P R)
    (hin : (Socket.endRead s).inBuf.length ≠ 0) (heof : (Socket.endRead s).eof = false) :
    (∀ r, s.responder = some r → Socket.onInputWith c k s
        = Socket.onInputBody c k (Socket.timerStart (Socket.endRead s) c.readTimeout) r)
    ∧ (s.responder = none → Socket.onInputWith c k s
        = Socket.onInputHeader c k (Socket.timerStart (Socket.endRead s) c.readTimeout)) := by
  have hcond : ((Socket.endRead s).inBuf.length = 0 || (Socket.endRead s).eof) = false := by
    simp [hin, heof]
  have hresp : (Socket.timerStart (Socket.endRead s) c.readTimeout).responder = s.responder := by
    unfold Socket.endRead Socket.timerStart
    split <;> rfl
  constructor
  · intro r hr
    unfold Socket.onInputWith
    simp only [hcond, Bool.false_eq_true, if_false]
    rw [hresp, hr]
  · intro hr
    unfold Socket.onInputWith
    simp only [hcond, Bool.false_eq_true, if_false]
    rw [hresp, hr]

/-- The header block once the header is complete and `beginRequest` has
succeeded: with content length zero the reply phase runs at once, otherwise
the body block follows. -/
theorem onInputHeader_complete {P R : Type} (c : Collab P R)
    (k : Socket P R → Except Halt (Socket P R × Bool)) (t : Socket P R) (r1 : R)
    (hfail : c.parserFail (Socket.parsed c t).parser = false)
    (hend : c.parserEnd (Socket.parsed c t).parser = true)
    (hbegin : c.beginRequest (c.getResponder (Socket.parsed c t).request)
      (Socket.parsed c t).request = Except.ok r1) :
    (c.contentLength (Socket.parsed c t).request.header = 0 →
      Socket.onInputHeader c k t
        = (Socket.doReplyWith c k (Socket.timerStop (Socket.begun c r1
            (Socket.selected (c.getResponder (Socket.parsed c t).request)
              (Socket.parsed c t))))).map Prod.fst)
    ∧ (c.contentLength (Socket.parsed c t).request.header ≠ 0 →
      Socket.onInputHeader c k t
        = Socket.onInputBody c k (Socket.begun c r1
            (Socket.selected (c.getResponder (Socket.parsed c t).request)
              (Socket.parsed c t))) r1) := by
  have hreq : (Socket.selected (c.getResponder (Socket.parsed c t).request)
      (Socket.parsed c t)).request = (Socket.parsed c t).request := rfl
  have hcl : (Socket.begun c r1 (Socket.selected (c.getResponder (Socket.parsed c t).request)
      (Socket.parsed c t))).contentLength
        = ((c.contentLength (Socket.parsed c t).request.header : Nat) : Int) := rfl
  constructor
  · intro h0
    unfold Socket.onInputHeader
    simp only [hfail, hend, Bool.false_eq_true, if_false, if_true, hreq, hbegin, hcl, h0]
    rfl
  · intro h0
    have h0' : ¬ ((c.contentLength (Socket.parsed c t).request.header : Nat) : Int) = 0 := by
      exact_mod_cast h0
    unfold Socket.onInputHeader
    simp only [hfail, hend, Bool.false_eq_true, if_false, if_true, hreq, hbegin, hcl, h0']

/-- The body block on a chunk for which `readBody` returned `n > 0`: the
remaining length decreases by `n`; the reply phase runs when it is no longer
positive, and otherwise a read is begun and no reply phase is recorded. -/
theorem onInputBody_chunk {P R : Type} (c : Collab P R)
    (k : Socket P R → Except Halt (Socket P R × Bool)) (t : Socket P R) (r r1 : R) (n : Nat)
    (hin : t.inBuf.length > 0) (hread : c.readBody r t.inBuf = Except.ok (n, r1))
    (hn : 0 < n) :
    (Socket.bodyRead n r1 t).contentLength = t.contentLength - n
    ∧ (t.contentLength - n ≤ 0 → Socket.onInputBody c k t r
        = (Socket.doReplyWith c k (Socket.timerStop (Socket.bodyRead n r1 t))).map Prod.fst)
    ∧ (0 < t.contentLength - n → Socket.onInputBody c k t r
        = Except.ok (Socket.beginRead (Socket.bodyRead n r1 t))
      ∧ (Socket.beginRead (Socket.bodyRead n r1 t)).log.count Call.reply
        = t.log.count Call.reply) := by
  have hcl : (Socket.bodyRead n r1 t).contentLength = t.contentLength - n := rfl
  refine ⟨hcl, ?_, ?_⟩
  · intro hle
    unfold Socket.onInputBody
    rw [if_pos hin, hread]
    simp only [gt_iff_lt, hn, if_true]
    unfold Socket.bodyDone
    rw [hcl, if_pos hle]
  · intro hpos
    constructor
    · unfold Socket.onInputBody
      rw [if_pos hin, hread]
      simp only [gt_iff_lt, hn, if_true]
      unfold Socket.bodyDone
      rw [hcl, if_neg (not_le.mpr hpos)]
    · simp [Socket.beginRead, Socket.bodyRead, Socket.record, List.count_append]

/-- The state in which the write of a reply has been begun, in terms of the
state before `sendReply`. -/
theorem beganWrite_fields {P R : Type} (c : Collab P R) (u : Socket P R) :
    (Socket.timerStart (Socket.beginWrite (Socket.sendReply c u)) c.writeTimeout).reading
      = u.reading
    ∧ (Socket.timerStart (Socket.beginWrite (Socket.sendReply c u)) c.writeTimeout).log = u.log
    ∧ (Socket.timerStart (Socket.beginWrite (Socket.sendReply c u)) c.writeTimeout).contentLength
      = u.contentLength
    ∧ (Socket.timerStart (Socket.beginWrite (Socket.sendReply c u)) c.writeTimeout).responder
      = u.responder :=
  ⟨(sendReply_wrote c u).1.reading, (sendReply_wrote c u).1.log,
    (sendReply_wrote c u).1.contentLength, (sendReply_wrote c u).1.responder⟩

/-- Ending a read leaves everything but the input buffer as it is, and no read
in progress. -/
theorem endRead_fields {P R : Type} (s : Socket P R) :
    (Socket.endRead s).reading = false ∧ (Socket.endRead s).log = s.log
    ∧ (Socket.endRead s).responder = s.responder
    ∧ (Socket.endRead s).contentLength = s.contentLength
    ∧ (Socket.endRead s).outAvail = s.outAvail
    ∧ (Socket.endRead s).accepted = s.accepted := by
  unfold Socket.endRead
  split
  · exact ⟨rfl, rfl, rfl, rfl, rfl, rfl⟩
  · next h => exact ⟨by simpa using h, rfl, rfl, rfl, rfl, rfl⟩

/-- One input event while the body of a request is being received. -/
theorem body_step {P R : Type} (c : Collab P R) (n c0 : Nat) (t t' : Socket P R)
    (bytes : List Char) (eof : Bool) (ht : receivingBody c0 t)
    (h : Socket.dispatch c (n + 1) t (Socket.Event.input bytes eof) = some t') :
    receivingBody c0 t' ∨ repliedOnce c0 t' ∨ endedUnreplied c0 t' := by
  obtain ⟨hresp, hrd, hwr, hcl, hcount⟩ := ht
  obtain ⟨r, hr⟩ := Option.isSome_iff_exists.mp hresp
  simp only [Socket.dispatch] at h
  rw [if_pos hrd] at h
  generalize hs : ({ t with rx := bytes, eof := eof } : Socket P R) = s at h
  have hs_resp : s.responder = some r := by rw [← hs]; exact hr
  have hs_wr : s.writing = false := by rw [← hs]; exact hwr
  have hs_cl : s.contentLength = t.contentLength := by rw [← hs]
  have hs_log : s.log = t.log := by rw [← hs]
  obtain ⟨he1, he2, he3, he4, -, -⟩ := endRead_fields s
  have hew := endRead_writing s
  cases hres : Socket.onInput c (n + 1) s with
  | error x =>
    rw [hres] at h
    exact absurd h (by simp [Except.toOption])
  | ok res =>
    rw [hres] at h
    simp only [Except.toOption, Option.some.injEq] at h
    subst h
    unfold Socket.onInput at hres
    by_cases hcond : ((Socket.endRead s).inBuf.length = 0 || (Socket.endRead s).eof) = true
    · unfold Socket.onInputWith at hres
      simp only [hcond, if_true] at hres
      injection hres with hres
      right; right
      rw [← hres]
      exact ⟨rfl, by simp [Socket.close, Socket.record, List.count_append, he2, hs_log, hcount]⟩
    · simp only [Bool.not_eq_true, Bool.or_eq_false_iff, decide_eq_false_iff_not] at hcond
      rw [(onInputWith_live c _ s hcond.1 hcond.2).1 r hs_resp] at hres
      set u := Socket.timerStart (Socket.endRead s) c.readTimeout with hu
      have hu_in : u.inBuf.length > 0 := Nat.pos_of_ne_zero hcond.1
      have hu_wr : u.writing = false := hew.trans hs_wr
      have hu_rd : u.reading = false := he1
      have hu_log : u.log = t.log := he2.trans hs_log
      have hu_cl : u.contentLength = t.contentLength := he4.trans hs_cl
      cases hread : c.readBody r u.inBuf with
      | error e =>
        unfold Socket.onInputBody at hres
        rw [if_pos hu_in, hread] at hres
        simp only at hres
        rw [onOutput_sendReply c n (Socket.errorState c r e (Socket.record u Call.readBody))
          hu_wr] at hres
        injection hres with hres
        obtain ⟨f1, f2, -, -⟩ := beganWrite_fields c
          (Socket.errorState c r e (Socket.record u Call.readBody))
        right; right
        rw [← hres]
        refine ⟨f1.trans hu_rd, ?_⟩
        rw [f2]
        simp [Socket.errorState, Socket.record, List.count_append, hu_log, hcount]
      | ok pr =>
        obtain ⟨m, r1⟩ := pr
        by_cases hm : 0 < m
        · obtain ⟨b1, b2, b3⟩ := onInputBody_chunk c (Socket.onOutput c (n + 1)) u r r1 m
            hu_in hread hm
          by_cases hle : u.contentLength - (m : Int) ≤ 0
          · rw [b2 hle, doReplyWith_eq c _ _ r1 rfl, onOutput_sendReply c n
              (Socket.replied c r1 (Socket.timerStop (Socket.bodyRead m r1 u)))
              ((frame_replied c r1 _).1.writing.trans hu_wr)] at hres
            injection hres with hres
            obtain ⟨f1, f2, f3, f4⟩ := beganWrite_fields c
              (Socket.replied c r1 (Socket.timerStop (Socket.bodyRead m r1 u)))
            obtain ⟨g1, -, g3, g4⟩ := frame_replied c r1 (Socket.timerStop (Socket.bodyRead m r1 u))
            right; left
            rw [← hres]
            refine ⟨f1.trans (g1.reading.trans hu_rd), ?_, ?_, f4.trans g3⟩
            · rw [f2, g4]
              simp [Socket.timerStop, Socket.bodyRead, Socket.record, List.count_append,
                hu_log, hcount]
            · rw [f3]
              have : (Socket.replied c r1 (Socket.timerStop (Socket.bodyRead m r1 u))).contentLength
                  = u.contentLength - m := by
                unfold Socket.replied
                dsimp only
                split <;> rfl
              rw [this]
              exact hle
          · rw [(b3 (not_le.mp hle)).1] at hres
            injection hres with hres
            left
            rw [← hres]
            refine ⟨rfl, rfl, hu_wr, ?_, ?_⟩
            · show 0 < u.contentLength - (m : Int)
              exact not_le.mp hle
            · rw [(b3 (not_le.mp hle)).2, hu_log, hcount]
        · unfold Socket.onInputBody at hres
          rw [if_pos hu_in, hread] at hres
          simp only [gt_iff_lt, hm, if_false] at hres
          exact absurd hres (by simp)
/-- Input events while the body of a request is being received: as long as
the remaining length is positive no reply phase runs; it runs once, when the
remaining length is no longer positive, and then no further input is taken
before the reply is out. -/
theorem body_run {P R : Type} (c : Collab P R) (n c0 : Nat) :
    ∀ (inputs : List (List Char × Bool)) (t t' : Socket P R), receivingBody c0 t →
      Socket.run c (n + 1) (inputs.map (fun x => Socket.Event.input x.1 x.2)) t = some t' →
      receivingBody c0 t' ∨ repliedOnce c0 t' ∨ endedUnreplied c0 t' := by
  intro inputs
  induction inputs with
  | nil =>
    intro t t' ht h
    simp only [List.map_nil, Socket.run, Option.some.injEq] at h
    rw [← h]
    exact Or.inl ht
  | cons x rest ih =>
    intro t t' ht h
    simp only [List.map_cons, Socket.run] at h
    cases hd : Socket.dispatch c (n + 1) t (Socket.Event.input x.1 x.2) with
    | none =>
      rw [hd] at h
      exact absurd h (by simp)
    | some t1 =>
      rw [hd] at h
      simp only [Option.some_bind] at h
      have hstop : ∀ u : Socket P R, u.reading = false →
          Socket.run c (n + 1) (rest.map (fun x => Socket.Event.input x.1 x.2)) u = some t' →
          u = t' := by
        intro u hu hrun
        cases rest with
        | nil =>
          simp only [List.map_nil, Socket.run, Option.some.injEq] at hrun
          exact hrun
        | cons y ys =>
          simp only [List.map_cons, Socket.run, Socket.dispatch, hu, Bool.false_eq_true,
            if_false, Option.none_bind] at hrun
          exact absurd hrun (by simp)
      rcases body_step c n c0 t t1 x.1 x.2 ht hd with h1 | h1 | h1
      · exact ih t1 t' h1 h
      · rw [← hstop t1 h1.1 h]
        exact Or.inr (Or.inl h1)
      · rw [← hstop t1 h1.1 h]
        exact Or.inr (Or.inr h1)


/-- Calls recorded within a frame that starts with no output pending are
parser calls made with no output pending, or responder calls. -/
theorem frame_flushed {P R : Type} {s u : Socket P R} (hf : Socket.Frame s u)
    (hlog : Socket.parsedOnlyWhenFlushed s.log) (hout : s.outAvail = 0) :
    Socket.parsedOnlyWhenFlushed u.log := by
  obtain ⟨extra, he, hx⟩ := hf.log
  intro n hn
  rw [he] at hn
  simp only [List.mem_append] at hn
  rcases hn with (h | h) | (h | h)
  · exact hlog n (Or.inl h)
  · rcases hx _ h with h1 | h1
    · injection h1 with h1
      rw [h1, hout]
    · simp at h1
  · exact hlog n (Or.inr h)
  · rcases hx _ h with h1 | h1
    · cases h1
    · simp at h1

/-- Recording a call that is not a parser call keeps the parser calls on
record as they are. -/
theorem record_flushed {P R : Type} (s : Socket P R) (e : Call)
    (he : ∀ n, e ≠ Call.parserAdvance n ∧ e ≠ Call.parserReset n)
    (hlog : Socket.parsedOnlyWhenFlushed s.log) :
    Socket.parsedOnlyWhenFlushed (Socket.record s e).log := by
  intro n hn
  simp only [Socket.record, List.mem_append, List.mem_singleton] at hn
  rcases hn with (h | h) | (h | h)
  · exact hlog n (Or.inl h)
  · exact absurd h.symm (he n).1
  · exact hlog n (Or.inr h)
  · exact absurd h.symm (he n).2

/-- Ending a write leaves no more output pending than before and keeps the
record, the read in progress and the accepted flag. -/
theorem endWrite_fields {P R : Type} (s s1 : Socket P R)
    (h : Socket.endWrite s = Except.ok s1) :
    s1.log = s.log ∧ s1.reading = s.reading ∧ s1.accepted = s.accepted
    ∧ s1.outAvail ≤ s.outAvail := by
  unfold Socket.endWrite at h
  split at h
  · split at h
    · exact absurd h (by simp)
    · injection h with h
      rw [← h]
      exact ⟨rfl, rfl, rfl, Nat.sub_le _ _⟩
  · injection h with h
    rw [← h]
    exact ⟨rfl, rfl, rfl, Nat.le_refl _⟩

/-- If `onOutput` keeps a connection serving, so does `onInput` when it is
entered with no output pending. -/
theorem onInputWith_serving {P R : Type} (c : Collab P R)
    (k : Socket P R → Except Halt (Socket P R × Bool))
    (hk : ∀ s r b, serving s → k s = Except.ok (r, b) → serving r)
    (s r : Socket P R) (hs : serving s) (hout : s.outAvail = 0)
    (h : Socket.onInputWith c k s = Except.ok r) : serving r := by
  obtain ⟨hlog, _, hacc⟩ := hs
  obtain ⟨herd, helog, _, _, heout, heacc⟩ := endRead_fields s
  rcases onInputWith_exits c k s with h1 | ⟨u, hu, _, h1⟩ | ⟨u, hu, h1⟩ | h1
  · rw [h1] at h
    injection h with h
    rw [← h]
    refine ⟨?_, fun hr => absurd hr (by simp [Socket.close, Socket.record]), ?_⟩
    · exact record_flushed _ Call.close (fun n => ⟨by simp, by simp⟩) (by rw [helog]; exact hlog)
    · exact heacc.trans hacc
  · rw [h1] at h
    injection h with h
    rw [← h]
    refine ⟨?_, fun _ => ?_, ?_⟩
    · show Socket.parsedOnlyWhenFlushed u.log
      exact frame_flushed hu (by rw [helog]; exact hlog) (heout.trans hout)
    · exact hu.outAvail.trans (heout.trans hout)
    · exact hu.accepted.trans (heacc.trans hacc)
  · rw [h1] at h
    cases hks : k (Socket.sendReply c u) with
    | error e =>
      rw [hks] at h
      exact absurd h (by simp [Except.map])
    | ok rb =>
      rw [hks] at h
      obtain ⟨r', b⟩ := rb
      injection h with h
      simp only at h
      rw [← h]
      refine hk _ r' b ⟨?_, fun hr => ?_, ?_⟩ hks
      · rw [(sendReply_wrote c u).1.log]
        exact frame_flushed hu (by rw [helog]; exact hlog) (heout.trans hout)
      · rw [(sendReply_wrote c u).1.reading, hu.reading, herd] at hr
        exact absurd hr (by simp)
      · rw [(sendReply_wrote c u).1.accepted]
        exact hu.accepted.trans (heacc.trans hacc)
  · rw [h1] at h
    exact absurd h (by simp)

/-- If `onInput`, entered with no output pending, keeps a connection serving,
so does `onOutput`. -/
theorem onOutputWith_serving {P R : Type} (c : Collab P R)
    (k : Socket P R → Except Halt (Socket P R))
    (hk : ∀ s r, serving s → s.outAvail = 0 → k s = Except.ok r → serving r)
    (s r : Socket P R) (b : Bool) (hs : serving s)
    (h : Socket.onOutputWith c k s = Except.ok (r, b)) : serving r := by
  obtain ⟨hlog, hrd, hacc⟩ := hs
  unfold Socket.onOutputWith at h
  split at h
  · injection h with h
    injection h with h
    rw [← h]
    refine ⟨?_, fun hr => absurd hr (by simp [Socket.close, Socket.record]), hacc⟩
    exact record_flushed _ Call.timeoutSignal (fun n => ⟨by simp, by simp⟩)
      (record_flushed _ Call.close (fun n => ⟨by simp, by simp⟩) hlog)
  · next s1 hew =>
    obtain ⟨h1log, h1rd, h1acc, h1out⟩ := endWrite_fields s s1 hew
    have hlog1 : Socket.parsedOnlyWhenFlushed s1.log := by rw [h1log]; exact hlog
    split at h
    · injection h with h
      injection h with h
      rw [← h]
      refine ⟨hlog1, fun hr => ?_, h1acc.trans hacc⟩
      have : s.outAvail = 0 := hrd (h1rd.symm.trans hr)
      show s1.outAvail = 0
      omega
    · next hz =>
      have hz' : s1.outAvail = 0 := by
        simpa using hz
      have hkept : serving (Socket.keptAlive c s1) := by
        refine ⟨?_, fun _ => hz', h1acc.trans hacc⟩
        intro n hn
        simp only [Socket.keptAlive, Socket.record, Socket.timerStart, List.mem_append,
          List.mem_singleton] at hn
        rcases hn with (h | h) | (h | h)
        · exact hlog1 n (Or.inl h)
        · cases h
        · exact hlog1 n (Or.inr h)
        · injection h with h
          rw [h, hz']
      split at h
      · dsimp only at h
        split at h
        · cases hks : k (Socket.keptAlive c s1) with
          | error e =>
            rw [hks] at h
            exact absurd h (by simp [Except.map])
          | ok r' =>
            rw [hks] at h
            injection h with h
            injection h with h
            rw [← h]
            exact hk _ r' hkept hz' hks
        · injection h with h
          injection h with h
          rw [← h]
          exact ⟨hkept.1, fun _ => hz', hkept.2.2⟩
      · injection h with h
        injection h with h
        rw [← h]
        refine ⟨?_, fun hr => absurd hr (by simp [Socket.close, Socket.record]),
          h1acc.trans hacc⟩
        exact record_flushed _ Call.close (fun n => ⟨by simp, by simp⟩) hlog1

/-- The function `onOutput` keeps a connection serving. -/
theorem onOutput_serving {P R : Type} (c : Collab P R) (n : Nat) :
    ∀ (s r : Socket P R) (b : Bool), serving s → Socket.onOutput c n s = Except.ok (r, b) →
      serving r := by
  induction n with
  | zero =>
    intro s r b _ h
    exact absurd h (by simp [Socket.onOutput])
  | succ n ih =>
    intro s r b hs h
    exact onOutputWith_serving c _
      (fun s r hs hout h => onInputWith_serving c _ ih s r hs hout h) s r b hs h

/-- The function `onInput`, entered with no output pending, keeps a connection
serving. -/
theorem onInput_serving {P R : Type} (c : Collab P R) (n : Nat) (s r : Socket P R)
    (hs : serving s) (hout : s.outAvail = 0) (h : Socket.onInput c n s = Except.ok r) :
    serving r :=
  onInputWith_serving c _ (onOutput_serving c n) s r hs hout h
/-- Every event keeps the half-duplex invariant of a connection. -/
theorem dispatch_orderly {P R : Type} (c : Collab P R) (n : Nat) (s s' : Socket P R)
    (e : Socket.Event) (hs : orderly s) (h : Socket.dispatch c n s e = some s') :
    orderly s' := by
  obtain ⟨hlog, hrd, hnew⟩ := hs
  have hserving : s.reading = true ∨ s.writing = true → s.accepted = true := by
    intro hrw
    cases hacc : s.accepted with
    | true => rfl
    | false =>
      obtain ⟨_, h1, h2⟩ := hnew hacc
      rcases hrw with h3 | h3
      · rw [h1] at h3
        exact absurd h3 (by simp)
      · rw [h2] at h3
        exact absurd h3 (by simp)
  have hfrom : ∀ r : Socket P R, serving r → orderly r := by
    intro r hr
    exact ⟨hr.1, hr.2.1, fun hf => absurd (hr.2.2.symm.trans hf) (by simp)⟩
  cases e with
  | accept =>
    simp only [Socket.dispatch] at h
    split at h
    · injection h with h
      rw [← h]
      unfold Socket.accept
      dsimp only
      split
      · exact ⟨hlog, hrd, hnew⟩
      · exact ⟨hlog, hrd, hnew⟩
    · exact absurd h (by simp)
  | postAccept handshake =>
    simp only [Socket.dispatch] at h
    split at h
    · next hg =>
      obtain ⟨hout, _, _⟩ := hnew hg.2
      apply hfrom
      unfold Socket.postAccept at h
      dsimp only at h
      split at h
      · split at h
        · exact absurd h (by simp [Except.toOption])
        · simp only [Except.toOption, Option.some.injEq] at h
          rw [← h]
          exact ⟨hlog, fun _ => hout, rfl⟩
      · simp only [Except.toOption, Option.some.injEq] at h
        rw [← h]
        exact ⟨hlog, fun _ => hout, rfl⟩
    · exact absurd h (by simp)
  | input bytes eof =>
    simp only [Socket.dispatch] at h
    split at h
    · next hg =>
      cases hr : Socket.onInput c n { s with rx := bytes, eof := eof } with
      | error x =>
        rw [hr] at h
        exact absurd h (by simp [Except.toOption])
      | ok r =>
        rw [hr] at h
        simp only [Except.toOption, Option.some.injEq] at h
        rw [← h]
        exact hfrom r (onInput_serving c n { s with rx := bytes, eof := eof } r
          ⟨hlog, hrd, hserving (Or.inl hg)⟩ (hrd hg) hr)
    · exact absurd h (by simp)
  | output result =>
    simp only [Socket.dispatch] at h
    split at h
    · next hg =>
      cases hr : Socket.onOutput c n { s with tx := result } with
      | error x =>
        rw [hr] at h
        exact absurd h (by simp [Except.toOption])
      | ok r =>
        rw [hr] at h
        simp only [Except.toOption, Option.map_some', Option.some.injEq] at h
        rw [← h]
        exact hfrom r.1 (onOutput_serving c n { s with tx := result } r.1 r.2
          ⟨hlog, hrd, hserving (Or.inr hg)⟩ hr)
    · exact absurd h (by simp)
  | timeout =>
    simp only [Socket.dispatch] at h
    split at h
    · injection h with h
      rw [← h]
      exact ⟨record_flushed s Call.timeoutSignal (fun n => ⟨by simp, by simp⟩) hlog, hrd, hnew⟩
    · exact absurd h (by simp)

/-- C4 (amended): when `onOutput` finds the reply fully flushed, then without
negotiated keep-alive it closes the connection and returns false, after which
no input or output event is delivered; with negotiated keep-alive it restarts
the timer, clears request and reply and resets the parser, and then, if no
input is buffered, begins a read and returns true, whereas if input is
buffered it hands that input to `onInput` at once and returns true with the
state that `onInput` leaves. -/
theorem onOutput_flushed {P R : Type} (c : Collab P R) (n : Nat) (s s1 : Socket P R)
    (hflush : Socket.endWrite s = Except.ok s1) (hout : s1.outAvail = 0) :
    (Socket.negotiatedKeepAlive c s1 = false →
      Socket.onOutput c (n + 1) s = Except.ok (Socket.close s1, false)
      ∧ (Socket.close s1).isOpen = false
      ∧ (∀ k bytes eof, Socket.dispatch c k (Socket.close s1) (Socket.Event.input bytes eof)
          = none)
      ∧ (∀ k res, Socket.dispatch c k (Socket.close s1) (Socket.Event.output res) = none))
    ∧ (Socket.negotiatedKeepAlive c s1 = true → s1.inBuf = [] →
      Socket.onOutput c (n + 1) s
        = Except.ok (Socket.beginRead (Socket.keptAlive c s1), true)
      ∧ (Socket.beginRead (Socket.keptAlive c s1)).isOpen = s1.isOpen
      ∧ (Socket.beginRead (Socket.keptAlive c s1)).reading = true
      ∧ (Socket.beginRead (Socket.keptAlive c s1)).request = c.newRequest
      ∧ (Socket.beginRead (Socket.keptAlive c s1)).reply = c.newReply
      ∧ (Socket.beginRead (Socket.keptAlive c s1)).parser = c.parserReset
      ∧ (Socket.beginRead (Socket.keptAlive c s1)).timer = some c.keepAliveTimeout)
    ∧ (Socket.negotiatedKeepAlive c s1 = true → s1.inBuf ≠ [] →
      Socket.onOutput c (n + 1) s
        = (Socket.onInput c n (Socket.keptAlive c s1)).map (fun t => (t, true))) := by
  have hk : (Socket.keptAlive c s1).inBuf = s1.inBuf := rfl
  refine ⟨?_, ?_, ?_⟩
  · intro hka
    refine ⟨?_, rfl, ?_, ?_⟩
    · simp only [Socket.onOutput, Socket.onOutputWith, hflush, hout, hka, ne_eq,
        not_true_eq_false, if_false, Bool.false_eq_true]
    · intro k bytes eof
      simp [Socket.dispatch, Socket.close, Socket.record]
    · intro k res
      simp [Socket.dispatch, Socket.close, Socket.record]
  · intro hka hin
    refine ⟨?_, rfl, rfl, rfl, rfl, rfl, rfl⟩
    simp only [Socket.onOutput, Socket.onOutputWith, hflush, hout, hka, ne_eq,
      not_true_eq_false, if_false, if_true, hk, hin, List.length_nil]
  · intro hka hin
    have hlen : s1.inBuf.length ≠ 0 := by
      intro h
      exact hin (List.length_eq_zero.mp h)
    simp only [Socket.onOutput, Socket.onOutputWith, hflush, hout, hka, ne_eq,
      not_true_eq_false, if_false, if_true, hk, hlen, not_false_eq_true, Socket.onInput]

/-- Witness for C4: the example server has answered a request that asked to
close the connection, and the write of the reply completes. -/
theorem onOutput_flushed_witness :
    (answered "GETc\n" 130).writing = true
    ∧ Socket.negotiatedKeepAlive demo (answered "GETc\n" 130) = false
    ∧ ∃ t, Socket.onOutput demo 2 (answered "GETc\n" 130) = Except.ok (t, false)
      ∧ t.isOpen = false ∧ t.reading = false := by
  have h := onOutput_flushed demo 1 (answered "GETc\n" 130) _ rfl rfl
  exact ⟨rfl, rfl, _, (h.1 rfl).1, rfl, rfl⟩

/-- C4 (counterexample): the example server receives two requests at once,
both negotiating keep-alive. When the write of the first reply completes,
`onOutput` finds the reply fully flushed and returns with the connection
open, but no read has been begun and the parser is not in its reset state:
the second request has been parsed and answered within `onOutput`. -/
theorem onOutput_pipelined_not_rearmed :
    ∃ s, Socket.run demo 2 [Socket.Event.accept, Socket.Event.postAccept (Except.ok ()),
        Socket.Event.input "GET\nGET\n".toList false, Socket.Event.output (Except.ok 135)]
        (Socket.new demo "") = some s
      ∧ s.isOpen = true ∧ s.reading = false ∧ s.writing = true
      ∧ s.parser = DemoParser.done ∧ demo.parserReset = DemoParser.scanning
      ∧ s.log = [Call.parserAdvance 0, Call.getResponder, Call.beginRequest, Call.reply,
          Call.release, Call.parserReset 0, Call.parserAdvance 0, Call.getResponder,
          Call.beginRequest, Call.reply, Call.release] :=
  ⟨_, rfl, rfl, rfl, rfl, rfl, rfl, rfl⟩

/-- C5: once the header is complete and `beginRequest` has returned, `onInput`
runs the reply phase at once when the content length is zero and otherwise
goes on with the body block; there each chunk for which `readBody` returns
`m > 0` decreases the remaining length by `m`, the reply phase runs when the
remaining length is no longer positive and a read is begun otherwise; and over
any sequence of input events the reply phase runs exactly once, when the
remaining length has reached zero, and never while it is positive. -/
theorem body_streaming_then_reply {P R : Type} (c : Collab P R) (n : Nat) :
    (∀ (s : Socket P R) (r1 : R),
      (Socket.endRead s).inBuf.length ≠ 0 → (Socket.endRead s).eof = false →
      s.responder = none →
      c.parserFail (Socket.parsed c
        (Socket.timerStart (Socket.endRead s) c.readTimeout)).parser = false →
      c.parserEnd (Socket.parsed c
        (Socket.timerStart (Socket.endRead s) c.readTimeout)).parser = true →
      c.beginRequest (c.getResponder (Socket.parsed c
          (Socket.timerStart (Socket.endRead s) c.readTimeout)).request)
        (Socket.parsed c (Socket.timerStart (Socket.endRead s) c.readTimeout)).request
        = Except.ok r1 →
      (c.contentLength (Socket.parsed c
          (Socket.timerStart (Socket.endRead s) c.readTimeout)).request.header = 0 →
        Socket.onInput c n s
          = (Socket.doReply c n (Socket.timerStop (Socket.begun c r1
              (Socket.selected (c.getResponder (Socket.parsed c
                (Socket.timerStart (Socket.endRead s) c.readTimeout)).request)
                (Socket.parsed c (Socket.timerStart (Socket.endRead s)
                  c.readTimeout)))))).map Prod.fst)
      ∧ (c.contentLength (Socket.parsed c
          (Socket.timerStart (Socket.endRead s) c.readTimeout)).request.header ≠ 0 →
        Socket.onInput c n s
          = Socket.onInputBody c (Socket.onOutput c n) (Socket.begun c r1
              (Socket.selected (c.getResponder (Socket.parsed c
                (Socket.timerStart (Socket.endRead s) c.readTimeout)).request)
                (Socket.parsed c (Socket.timerStart (Socket.endRead s) c.readTimeout)))) r1))
    ∧ (∀ (t : Socket P R) (r r1 : R) (m : Nat),
      t.inBuf.length > 0 → c.readBody r t.inBuf = Except.ok (m, r1) → 0 < m →
      (Socket.bodyRead m r1 t).contentLength = t.contentLength - m
      ∧ (t.contentLength - m ≤ 0 → Socket.onInputBody c (Socket.onOutput c n) t r
          = (Socket.doReply c n (Socket.timerStop (Socket.bodyRead m r1 t))).map Prod.fst)
      ∧ (0 < t.contentLength - m → Socket.onInputBody c (Socket.onOutput c n) t r
          = Except.ok (Socket.beginRead (Socket.bodyRead m r1 t))
        ∧ (Socket.beginRead (Socket.bodyRead m r1 t)).log.count Call.reply
          = t.log.count Call.reply))
    ∧ (∀ (c0 : Nat) (inputs : List (List Char × Bool)) (t t' : Socket P R),
      receivingBody c0 t →
      Socket.run c (n + 1) (inputs.map (fun x => Socket.Event.input x.1 x.2)) t = some t' →
      receivingBody c0 t' ∨ repliedOnce c0 t' ∨ endedUnreplied c0 t') := by
  refine ⟨?_, ?_, fun c0 inputs t t' => body_run c n c0 inputs t t'⟩
  · intro s r1 hin heof hresp hfail hend hbegin
    unfold Socket.onInput
    rw [(onInputWith_live c _ s hin heof).2 hresp]
    exact onInputHeader_complete c _ _ r1 hfail hend hbegin
  · intro t r r1 m hin hread hm
    exact onInputBody_chunk c _ t r r1 m hin hread hm

/-- Witness for C5: the example server receives a header declaring two bytes
of body together with the first byte, and then the second byte. -/
theorem body_streaming_then_reply_witness :
    Socket.onInput demo 2 (receiving "GETbb\nx") = Except.ok bodyPending
    ∧ receivingBody 0 bodyPending
    ∧ ∃ t, Socket.run demo 2 [Socket.Event.input "y".toList false] bodyPending = some t
      ∧ repliedOnce 0 t
      ∧ (receivingBody 0 t ∨ repliedOnce 0 t ∨ endedUnreplied 0 t) := by
  refine ⟨rfl, ⟨rfl, rfl, rfl, by decide, rfl⟩, ?t, ?c, ?d, ?e⟩
  case c => exact rfl
  case d => exact ⟨rfl, rfl, by decide, rfl⟩
  case e =>
    exact (body_streaming_then_reply demo 1).2.2 0 [("y".toList, false)] bodyPending _
      ⟨rfl, rfl, rfl, by decide, rfl⟩ rfl

/-- C6: in every state reached by a run of events from a new connection,
every call that advanced or reset the header parser was made with no output
pending, and a read is in progress only with no output pending: the parser
never sees bytes of the next request while output of a reply is pending. -/
theorem parser_only_when_flushed {P R : Type} (c : Collab P R) (n : Nat)
    (certificateFile : String) (evs : List Socket.Event) (s : Socket P R)
    (hrun : Socket.run c n evs (Socket.new c certificateFile) = some s) :
    Socket.parsedOnlyWhenFlushed s.log ∧ (s.reading = true → s.outAvail = 0) := by
  have h := run_induction c n orderly
    (fun s s' e hs hd => dispatch_orderly c n s s' e hs hd) evs
    (Socket.new c certificateFile) s
    ⟨fun k hk => absurd hk (by simp [Socket.new]), fun _ => rfl, fun _ => ⟨rfl, rfl, rfl⟩⟩ hrun
  exact ⟨h.1, h.2.1⟩

/-- Witness for C6: the example server receives two requests at once; the
second is parsed only after the write of the first reply has completed. -/
theorem parser_only_when_flushed_witness :
    ∃ s, Socket.run demo 2 [Socket.Event.accept, Socket.Event.postAccept (Except.ok ()),
        Socket.Event.input "GET\nGET\n".toList false, Socket.Event.output (Except.ok 135)]
        (Socket.new demo "") = some s
      ∧ s.log = [Call.parserAdvance 0, Call.getResponder, Call.beginRequest, Call.reply,
          Call.release, Call.parserReset 0, Call.parserAdvance 0, Call.getResponder,
          Call.beginRequest, Call.reply, Call.release]
      ∧ Socket.parsedOnlyWhenFlushed s.log :=
  ⟨_, rfl, rfl,
    (parser_only_when_flushed demo 2 ""
      [Socket.Event.accept, Socket.Event.postAccept (Except.ok ()),
        Socket.Event.input "GET\nGET\n".toList false, Socket.Event.output (Except.ok 135)]
      _ rfl).1⟩


/-- C7 (amended): `onTimeout` emits the timeout signal exactly once and leaves
the connection as it is: it does not close it, and timer, reads and writes in
progress stay as they were. When flushing output fails in `onOutput`, the
connection is closed and the timeout signal is emitted exactly once. -/
theorem onTimeout_signals_once {P R : Type} (c : Collab P R) (s : Socket P R) :
    (Socket.onTimeout s).log = s.log ++ [Call.timeoutSignal]
    ∧ (Socket.onTimeout s).log.count Call.timeoutSignal = s.log.count Call.timeoutSignal + 1
    ∧ (Socket.onTimeout s).log.count Call.close = s.log.count Call.close
    ∧ (Socket.onTimeout s).isOpen = s.isOpen
    ∧ (Socket.onTimeout s).timer = s.timer
    ∧ (Socket.onTimeout s).reading = s.reading
    ∧ (Socket.onTimeout s).writing = s.writing
    ∧ (∀ n e, s.writing = true → s.tx = Except.error e →
        ∃ r, Socket.onOutput c (n + 1) s = Except.ok (r, false) ∧ r.isOpen = false
          ∧ r.log = s.log ++ [Call.close, Call.timeoutSignal]) := by
  refine ⟨rfl, ?_, ?_, rfl, rfl, rfl, rfl, ?_⟩
  · simp [Socket.onTimeout, Socket.record, List.count_append]
  · simp [Socket.onTimeout, Socket.record, List.count_append]
  · intro n e hw htx
    refine ⟨Socket.record (Socket.close s) Call.timeoutSignal, ?_, rfl, ?_⟩
    · simp [Socket.onOutput, Socket.onOutputWith, Socket.endWrite, hw, htx]
    · simp [Socket.record, Socket.close]

/-- Witness for C7: the failure path of `onOutput` on a connection whose write
failed. -/
theorem onTimeout_signals_once_witness :
    ∃ r, Socket.onOutput demo 1 failedWrite = Except.ok (r, false) ∧ r.isOpen = false
      ∧ r.log = failedWrite.log ++ [Call.close, Call.timeoutSignal] :=
  (onTimeout_signals_once demo failedWrite).2.2.2.2.2.2.2 0 Exn.ioError rfl rfl

/-- C7 (counterexample): after the idle timer of an accepted connection that
awaits input has expired, the timeout signal has been emitted once and the
connection is still open, with its read in progress and nothing closed. -/
theorem onTimeout_leaves_open :
    ∃ s, Socket.run demo 2 [Socket.Event.accept, Socket.Event.postAccept (Except.ok ()),
        Socket.Event.timeout] (Socket.new demo "") = some s
      ∧ s.log = [Call.timeoutSignal] ∧ s.isOpen = true ∧ s.reading = true :=
  ⟨_, rfl, rfl, rfl, rfl⟩

/-- C8 (amended): in every state reached by a run of events from a new
connection, once `postAccept` has run, a connection that awaits I/O has its
idle timer started. -/
theorem idle_timer_armed_once_accepted {P R : Type} (c : Collab P R) (n : Nat)
    (certificateFile : String) (evs : List Socket.Event) (s : Socket P R)
    (hrun : Socket.run c n evs (Socket.new c certificateFile) = some s)
    (hacc : s.accepted = true) (hio : Socket.awaitsIO s) : Socket.timerArmed s := by
  have h := run_induction c n
    (fun s => s.accepted = true → s.isOpen = false ∨ Socket.timerArmed s)
    (fun s s' e hs hd => dispatch_armed c n s s' e hs hd) evs
    (Socket.new c certificateFile) s (fun h => absurd h (by simp [Socket.new])) hrun hacc
  rcases h with h | h
  · rw [hio.2] at h
    exact absurd h (by simp)
  · exact h

/-- Witness for C8: a TLS connection that has been accepted and has received
a first part of a header awaits input with its timer started. -/
theorem idle_timer_armed_once_accepted_witness :
    ∃ s, Socket.run demo 2 [Socket.Event.accept, Socket.Event.postAccept (Except.ok ()),
        Socket.Event.input "GET".toList false] (Socket.new demo "server.pem") = some s
      ∧ Socket.awaitsIO s ∧ Socket.timerArmed s :=
  ⟨_, rfl, ⟨Or.inl rfl, rfl⟩,
    idle_timer_armed_once_accepted demo 2 "server.pem"
      [Socket.Event.accept, Socket.Event.postAccept (Except.ok ()),
        Socket.Event.input "GET".toList false] _ rfl rfl ⟨Or.inl rfl, rfl⟩⟩

/-- C8 (counterexample): right after `accept` on a connection with a
certificate the TLS handshake has been begun, the connection is open, and the
idle timer is not started. -/
theorem accept_tls_timer_not_armed :
    Socket.run demo 2 [Socket.Event.accept] (Socket.new demo "server.pem")
      = some (Socket.accept (Socket.new demo "server.pem"))
    ∧ Socket.awaitsIO (Socket.accept (Socket.new demo "server.pem"))
    ∧ ¬ Socket.timerArmed (Socket.accept (Socket.new demo "server.pem")) := by
  refine ⟨rfl, ⟨Or.inr (Or.inr rfl), rfl⟩, ?_⟩
  simp [Socket.timerArmed, Socket.accept, Socket.new]

/-- C9: when the header parser reports failure, `onInput` selects no
responder by path and calls neither `beginRequest` nor the reply phase: the
default responder writes the error reply, `sendReply` sends it and `onOutput`
takes over, whose result `onInput` returns. With no write in progress this
begins the write of the error reply. -/
theorem onInput_header_failure {P R : Type} (c : Collab P R) (n : Nat) (s : Socket P R)
    (hin : (Socket.endRead s).inBuf.length ≠ 0) (heof : (Socket.endRead s).eof = false)
    (hresp : s.responder = none)
    (hfail : c.parserFail
      (Socket.parsed c (Socket.timerStart (Socket.endRead s) c.readTimeout)).parser = true) :
    Socket.onInput c n s
      = (Socket.onOutput c n (Socket.sendReply c (Socket.headerFailed c
          (Socket.parsed c (Socket.timerStart (Socket.endRead s) c.readTimeout))))).map Prod.fst
    ∧ (Socket.headerFailed c
        (Socket.parsed c (Socket.timerStart (Socket.endRead s) c.readTimeout))).log
      = s.log ++ [Call.parserAdvance s.outAvail, Call.getDefaultResponder, Call.replyError,
          Call.release]
    ∧ (Socket.headerFailed c
        (Socket.parsed c (Socket.timerStart (Socket.endRead s) c.readTimeout))).responder = none
    ∧ (s.writing = false →
        Socket.onInput c (n + 1) s
          = Except.ok (Socket.timerStart (Socket.beginWrite (Socket.sendReply c
              (Socket.headerFailed c
                (Socket.parsed c (Socket.timerStart (Socket.endRead s) c.readTimeout)))))
              c.writeTimeout)) := by
  have hresp' : (Socket.timerStart (Socket.endRead s) c.readTimeout).responder = none := by
    unfold Socket.endRead Socket.timerStart
    split <;> exact hresp
  have hcond : ((Socket.endRead s).inBuf.length = 0 || (Socket.endRead s).eof) = false := by
    simp [hin, heof]
  have hmain : ∀ k, Socket.onInputWith c k s
      = (k (Socket.sendReply c (Socket.headerFailed c
          (Socket.parsed c (Socket.timerStart (Socket.endRead s) c.readTimeout))))).map
            Prod.fst := by
    intro k
    unfold Socket.onInputWith
    simp only [hcond, Bool.false_eq_true, if_false]
    rw [hresp']
    simp only [Socket.onInputHeader, hfail, if_true]
  have hlog : (Socket.endRead s).log = s.log ∧ (Socket.endRead s).outAvail = s.outAvail := by
    unfold Socket.endRead
    split <;> exact ⟨rfl, rfl⟩
  refine ⟨hmain _, ?_, rfl, ?_⟩
  · simp [Socket.headerFailed, Socket.parsed, Socket.record, Socket.timerStart, hlog.1, hlog.2]
  · intro hw
    unfold Socket.onInput
    rw [hmain, onOutput_sendReply c n]
    · rfl
    · exact ((frame_trans (frame_trans (frame_timer _ c.readTimeout).1 (frame_parsed c _))
        (frame_headerFailed c _)).writing).trans ((endRead_writing s).trans hw)

/-- Witness for C9: the example server receives the malformed header `G!`. -/
theorem onInput_header_failure_witness :
    ∃ r, Socket.onInput demo 2 (receiving "G!") = Except.ok r ∧ r.writing = true
      ∧ r.log = [Call.parserAdvance 0, Call.getDefaultResponder, Call.replyError,
          Call.release]
      ∧ r.reply.httpReturnCode = 500 :=
  ⟨_, (onInput_header_failure demo 1 (receiving "G!") (by decide) rfl rfl rfl).2.2.2 rfl,
    rfl, rfl, rfl⟩
/-- The reply loop of `call` returns normally at the first byte at which the
deserializer reports completion. -/
theorem callLoop_complete (s : RpcClientImpl) (front : List (Char × RpcClientImpl.Advance))
    (x : Char) (rest : List (Char × RpcClientImpl.Advance))
    (h : ∀ y ∈ front, y.2 = RpcClientImpl.Advance.more) :
    RpcClientImpl.callLoop s (front ++ (x, RpcClientImpl.Advance.complete) :: rest)
      = (Except.ok (), { s with proc := none }) := by
  induction front with
  | nil => rfl
  | cons y ys ih =>
    obtain ⟨c, a⟩ := y
    have ha : a = RpcClientImpl.Advance.more := h (c, a) (List.mem_cons_self _ _)
    subst ha
    simp only [List.cons_append, RpcClientImpl.callLoop]
    exact ih (fun z hz => h z (List.mem_cons_of_mem _ hz))

/-- After `cancel()` the connection is discarded. -/
theorem cancel_discarded (s : RpcClientImpl) : discarded (RpcClientImpl.cancel s) :=
  ⟨rfl, rfl, rfl, rfl, rfl, rfl, rfl, rfl⟩

/-- The outer handlers of `call` rethrow, and discard the connection unless
the exception is a remote one. -/
theorem callCatch_discarded (s : RpcClientImpl) (e : Exn) :
    (RpcClientImpl.callCatch s e).1 = Except.error e
    ∧ (e ≠ Exn.remoteException → discarded (RpcClientImpl.callCatch s e).2)
    ∧ (RpcClientImpl.callCatch s e).2.count = s.count := by
  unfold RpcClientImpl.callCatch
  by_cases h : e = Exn.remoteException
  · rw [if_pos h]
    exact ⟨rfl, fun hne => absurd h hne, rfl⟩
  · rw [if_neg h]
    exact ⟨rfl, fun _ => cancel_discarded s, rfl⟩

/-- The reply loop of `call` fails only through the outer handlers. -/
theorem callLoop_discarded (s : RpcClientImpl) (script : List (Char × RpcClientImpl.Advance)) :
    (∀ e, (RpcClientImpl.callLoop s script).1 = Except.error e → e ≠ Exn.remoteException →
      discarded (RpcClientImpl.callLoop s script).2)
    ∧ (RpcClientImpl.callLoop s script).2.count = s.count := by
  induction script with
  | nil =>
    refine ⟨fun e he hne => ?_, rfl⟩
    simp only [RpcClientImpl.callLoop]
    have h := callCatch_discarded (RpcClientImpl.cancel s) Exn.runtimeError
    exact h.2.1 (by decide)
  | cons y ys ih =>
    obtain ⟨c, a⟩ := y
    cases a with
    | more => exact ih
    | complete =>
      refine ⟨fun e he _ => ?_, rfl⟩
      simp [RpcClientImpl.callLoop] at he
    | throws e' =>
      refine ⟨fun e he hne => ?_, (callCatch_discarded s e').2.2⟩
      simp only [RpcClientImpl.callLoop] at he ⊢
      have h := callCatch_discarded s e'
      rw [h.1] at he
      injection he with he
      subst he
      exact h.2.1 hne

/-- When the stream ends before the deserializer reports completion, the
reply loop of `call` fails with a runtime error and cancels. -/
theorem callLoop_eof (s : RpcClientImpl) (front : List (Char × RpcClientImpl.Advance))
    (h : ∀ y ∈ front, y.2 = RpcClientImpl.Advance.more) :
    RpcClientImpl.callLoop s front = (Except.error Exn.runtimeError, RpcClientImpl.cancel s) := by
  induction front with
  | nil => rfl
  | cons y ys ih =>
    obtain ⟨c, a⟩ := y
    have ha : a = RpcClientImpl.Advance.more := h (c, a) (List.mem_cons_self _ _)
    subst ha
    simp only [RpcClientImpl.callLoop]
    exact ih (fun z hz => h z (List.mem_cons_of_mem _ hz))

/-- On an engine with a selector, no call pending and no connection,
`beginCall` prepares the request and begins to connect. -/
theorem beginCall_idle (t : RpcClientImpl) (method : IRemoteProcedure)
    (argv : List IDecomposer) (env : RpcClientImpl.BeginEnv)
    (hsel : t.selector = true) (hp : t.proc = none) (hc : t.connected = false) :
    RpcClientImpl.beginCall t method argv env
      = match env.beginConnect with
        | Except.ok _ =>
          (Except.ok (),
            { RpcClientImpl.startConnect
                (RpcClientImpl.prepareRequest { t with proc := some method } method.name argv)
              with scannerBegun := t.scannerBegun + 1 })
        | Except.error e =>
          RpcClientImpl.failAsync
            (RpcClientImpl.prepareRequest { t with proc := some method } method.name argv)
            e env.onFinished
            (fun u => (Except.ok (), { u with scannerBegun := u.scannerBegun + 1 })) := by
  unfold RpcClientImpl.beginCall
  rw [if_neg (by rw [hsel]; decide), if_neg (by rw [hp]; decide)]
  have hconn : (RpcClientImpl.prepareRequest { t with proc := some method }
      method.name argv).connected = false := hc
  dsimp only
  rw [if_neg (by rw [hconn]; decide)]
  cases env.beginConnect <;> rfl

/-- The state in which `proc->onFinished()` is invoked by the handler entered
in state `t`. -/
theorem failAsync_ignore (t : RpcClientImpl) (e : Exn)
    (cont : RpcClientImpl → Except Exn Unit × RpcClientImpl) :
    RpcClientImpl.failAsync t e Finish.ignore cont
      = (Except.error e,
          { RpcClientImpl.cancel t with
            exceptionPending := true,
            finished := (RpcClientImpl.cancel t).finished ++ t.proc.toList }) := rfl

/-- A callback that calls `endCall()` and keeps what it rethrows finds the flag
set, clears it, and so makes the handler complete without rethrowing. -/
theorem failAsync_endCallCaught (t : RpcClientImpl) (e : Exn)
    (cont : RpcClientImpl → Except Exn Unit × RpcClientImpl) :
    RpcClientImpl.failAsync t e Finish.endCallCaught cont
      = cont { RpcClientImpl.cancel t with
            exceptionPending := false,
            finished := (RpcClientImpl.cancel t).finished ++ t.proc.toList } := rfl

/-- A callback that calls `endCall()` and lets through what it rethrows makes
the exception leave the handler, with the flag cleared. -/
theorem failAsync_endCallEscapes (t : RpcClientImpl) (e : Exn)
    (cont : RpcClientImpl → Except Exn Unit × RpcClientImpl) :
    RpcClientImpl.failAsync t e Finish.endCallEscapes cont
      = (Except.error e,
          { RpcClientImpl.cancel t with
            exceptionPending := false,
            finished := (RpcClientImpl.cancel t).finished ++ t.proc.toList }) := rfl

/-- The handler of `beginCall` leaves the request counter as it is. -/
theorem failAsync_count (t : RpcClientImpl) (e : Exn) (fin : Finish)
    (cont : RpcClientImpl → Except Exn Unit × RpcClientImpl)
    (hcont : ∀ u, (cont u).2.count = u.count) :
    (RpcClientImpl.failAsync t e fin cont).2.count = t.count := by
  cases fin
  · rfl
  · rw [failAsync_endCallCaught, hcont]
    rfl
  · rfl

/-- The handler of the asynchronous callbacks delivers the error, when the
state in which it is entered has the pending procedure and callback record of
the state in which the callback was entered. -/
theorem failHandler_delivered (s t : RpcClientImpl) (e : Exn) (fin : Finish)
    (hp : t.proc = s.proc) (hf : t.finished = s.finished) :
    delivered s e fin (RpcClientImpl.failHandler t e fin) := by
  unfold delivered RpcClientImpl.failHandler
  cases hs : s.proc with
  | none =>
    rw [hs] at hp
    rw [hp]
    exact ⟨cancel_discarded t, hf, rfl⟩
  | some pr =>
    rw [hs] at hp
    rw [hp]
    cases fin
    · rw [failAsync_ignore]
      refine ⟨⟨rfl, rfl, rfl, rfl, rfl, rfl, rfl, rfl⟩, ?_, ?_, ?_, ?_⟩
      · simp [RpcClientImpl.cancel, RpcClientImpl.socketClose, hp, hf]
      · simp
      · intro h
        exact absurd h (by decide)
      · simp
    · rw [failAsync_endCallCaught]
      refine ⟨⟨rfl, rfl, rfl, rfl, rfl, rfl, rfl, rfl⟩, ?_, ?_, ?_, ?_⟩
      · simp [RpcClientImpl.cancel, RpcClientImpl.socketClose, hp, hf]
      · simp
      · intro _
        rfl
      · simp
    · rw [failAsync_endCallEscapes]
      refine ⟨⟨rfl, rfl, rfl, rfl, rfl, rfl, rfl, rfl⟩, ?_, ?_, ?_, ?_⟩
      · simp [RpcClientImpl.cancel, RpcClientImpl.socketClose, hp, hf]
      · simp
      · intro h
        exact absurd h (by decide)
      · simp

/-- An exception leaves the `try` block of `onConnect` with the pending
procedure and the callback record untouched. -/
theorem onConnectTry_throws (s t : RpcClientImpl) (env : RpcClientImpl.ConnectEnv) (e : Exn)
    (h : RpcClientImpl.onConnectTry s env = Except.error (e, t)) :
    t.proc = s.proc ∧ t.finished = s.finished := by
  unfold RpcClientImpl.onConnectTry at h
  split at h
  · injection h with h
    injection h with _ h
    rw [← h]
    exact ⟨rfl, rfl⟩
  · dsimp only at h
    split at h
    · split at h
      · injection h with h
        injection h with _ h
        rw [← h]
        exact ⟨rfl, rfl⟩
      · exact absurd h (by simp)
    · split at h
      · injection h with h
        injection h with _ h
        rw [← h]
        exact ⟨rfl, rfl⟩
      · exact absurd h (by simp)

/-- An exception leaves the `try` block of `onSslConnect` with the pending
procedure and the callback record untouched. -/
theorem onSslConnectTry_throws (s t : RpcClientImpl) (env : RpcClientImpl.ConnectEnv)
    (e : Exn) (h : RpcClientImpl.onSslConnectTry s env = Except.error (e, t)) :
    t.proc = s.proc ∧ t.finished = s.finished := by
  unfold RpcClientImpl.onSslConnectTry at h
  dsimp only at h
  split at h
  · injection h with h
    injection h with _ h
    rw [← h]
    exact ⟨rfl, rfl⟩
  · split at h
    · injection h with h
      injection h with _ h
      rw [← h]
      exact ⟨rfl, rfl⟩
    · exact absurd h (by simp)

/-- An exception leaves the `try` block of `onOutput` with the pending
procedure and the callback record untouched. -/
theorem onOutputTry_throws (s t : RpcClientImpl) (env : RpcClientImpl.OutputEnv) (e : Exn)
    (h : RpcClientImpl.onOutputTry s env = Except.error (e, t)) :
    t.proc = s.proc ∧ t.finished = s.finished := by
  unfold RpcClientImpl.onOutputTry at h
  dsimp only at h
  split at h
  · injection h with h
    injection h with _ h
    rw [← h]
    exact ⟨rfl, rfl⟩
  · split at h
    · split at h
      · injection h with h
        injection h with _ h
        rw [← h]
        exact ⟨rfl, rfl⟩
      · exact absurd h (by simp)
    · split at h
      · injection h with h
        injection h with _ h
        rw [← h]
        exact ⟨rfl, rfl⟩
      · exact absurd h (by simp)

/-- An exception leaves the `try` block of `onInput` with the pending
procedure and the callback record untouched. -/
theorem onInputTry_throws {D : Type} (de : RpcClientImpl.Deserializer D)
    (s t : RpcClientImpl) (p p1 : RpcClientImpl.Scan D) (env : RpcClientImpl.InputEnv)
    (e : Exn) (h : RpcClientImpl.onInputTry de s p env = some (Except.error (e, t), p1)) :
    t.proc = s.proc ∧ t.finished = s.finished := by
  unfold RpcClientImpl.onInputTry at h
  dsimp only at h
  split at h
  · simp only [Option.some.injEq, Prod.mk.injEq, Except.error.injEq] at h
    rw [← h.1.2]
    exact ⟨rfl, rfl⟩
  · split at h
    · simp only [Option.some.injEq, Prod.mk.injEq, Except.error.injEq] at h
      rw [← h.1.2]
      exact ⟨rfl, rfl⟩
    · split at h
      · simp only [Option.some.injEq, Prod.mk.injEq, Except.error.injEq] at h
        rw [← h.1.2]
        exact ⟨rfl, rfl⟩
      · split at h
        · simp only [Option.some.injEq, Prod.mk.injEq, Except.error.injEq] at h
          rw [← h.1.2]
          exact ⟨rfl, rfl⟩
        · split at h
          · exact absurd h (by simp)
          · exact absurd h (by simp)
      · split at h
        · simp only [Option.some.injEq, Prod.mk.injEq, Except.error.injEq] at h
          rw [← h.1.2]
          exact ⟨rfl, rfl⟩
        · split at h
          · simp only [Option.some.injEq, Prod.mk.injEq, Except.error.injEq] at h
            rw [← h.1.2]
            exact ⟨rfl, rfl⟩
          · exact absurd h (by simp)

/-- The loop of `wait` with no call pending returns at once. -/
theorem waitLoop_idle (timeout : Int) (script : List RpcClientImpl.SelectorWait)
    (s : RpcClientImpl) (remaining : Int) (waits : List Int) (h : s.proc = none) :
    RpcClientImpl.waitLoop timeout script s remaining waits
      = { outcome := RpcClientImpl.WaitOutcome.returned, engine := s, waits := waits } := by
  cases script <;> simp [RpcClientImpl.waitLoop, h]

/-- The loop of `wait` with a call pending, by the next selector wait. -/
theorem waitLoop_pending (timeout : Int) (s : RpcClientImpl) (remaining : Int)
    (waits : List Int) (h : s.proc.isSome = true) :
    RpcClientImpl.waitLoop timeout [] s remaining waits
      = { outcome := RpcClientImpl.WaitOutcome.unfinished, engine := s, waits := waits }
    ∧ (∀ rest, RpcClientImpl.waitLoop timeout (RpcClientImpl.SelectorWait.expired :: rest)
        s remaining waits
      = { outcome := RpcClientImpl.WaitOutcome.timedOut, engine := s,
          waits := waits ++ [remaining] })
    ∧ (∀ e after rest,
        RpcClientImpl.waitLoop timeout (RpcClientImpl.SelectorWait.throws e after :: rest)
          s remaining waits
      = { outcome := RpcClientImpl.WaitOutcome.raised e, engine := after,
          waits := waits ++ [remaining] })
    ∧ (∀ after elapsed rest,
        RpcClientImpl.waitLoop timeout
          (RpcClientImpl.SelectorWait.activity after elapsed :: rest) s remaining waits
      = RpcClientImpl.waitLoop timeout rest after
          (if timeout ≥ 0 then (if timeout - elapsed < 0 then 0 else timeout - elapsed)
            else remaining)
          (waits ++ [remaining])) := by
  refine ⟨?_, ?_, ?_, ?_⟩
  · simp only [RpcClientImpl.waitLoop, h, if_true]
  · intro rest
    simp only [RpcClientImpl.waitLoop, h, if_true]
  · intro e after rest
    simp only [RpcClientImpl.waitLoop, h, if_true]
  · intro after elapsed rest
    simp only [RpcClientImpl.waitLoop, h, if_true]

/-- The loop of `wait` returns only with no call pending. -/
theorem waitLoop_returned (timeout : Int) (script : List RpcClientImpl.SelectorWait) :
    ∀ (s : RpcClientImpl) (remaining : Int) (waits : List Int),
      (RpcClientImpl.waitLoop timeout script s remaining waits).outcome
        = RpcClientImpl.WaitOutcome.returned →
      (RpcClientImpl.waitLoop timeout script s remaining waits).engine.proc = none := by
  induction script with
  | nil =>
    intro s remaining waits h
    cases hp : s.proc with
    | none => rw [waitLoop_idle timeout [] s remaining waits hp]; exact hp
    | some pr =>
      rw [(waitLoop_pending timeout s remaining waits (by rw [hp]; rfl)).1] at h
      exact absurd h (by simp)
  | cons step rest ih =>
    intro s remaining waits h
    cases hp : s.proc with
    | none => rw [waitLoop_idle timeout _ s remaining waits hp]; exact hp
    | some pr =>
      have hs : s.proc.isSome = true := by rw [hp]; rfl
      obtain ⟨_, h2, h3, h4⟩ := waitLoop_pending timeout s remaining waits hs
      cases step with
      | expired =>
        rw [h2] at h
        exact absurd h (by simp)
      | throws e after =>
        rw [h3] at h
        exact absurd h (by simp)
      | activity after elapsed =>
        rw [h4] at h ⊢
        exact ih _ _ _ h

/-- The loop of `wait` throws its timeout exactly when a selector wait reports
expiry with the call pending at every wait up to it. -/
theorem waitLoop_timedOut (timeout : Int) (script : List RpcClientImpl.SelectorWait) :
    ∀ (s : RpcClientImpl) (remaining : Int) (waits : List Int),
      (RpcClientImpl.waitLoop timeout script s remaining waits).outcome
        = RpcClientImpl.WaitOutcome.timedOut
      ↔ (s.proc.isSome = true ∧ ∃ front rest,
          script = front ++ RpcClientImpl.SelectorWait.expired :: rest
          ∧ staysPending front) := by
  induction script with
  | nil =>
    intro s remaining waits
    constructor
    · intro h
      cases hp : s.proc with
      | none =>
        rw [waitLoop_idle timeout [] s remaining waits hp] at h
        exact absurd h (by simp)
      | some pr =>
        rw [(waitLoop_pending timeout s remaining waits (by rw [hp]; rfl)).1] at h
        exact absurd h (by simp)
    · rintro ⟨_, front, rest, h, _⟩
      exact absurd h (by simp)
  | cons step rest ih =>
    intro s remaining waits
    cases hp : s.proc with
    | none =>
      rw [waitLoop_idle timeout _ s remaining waits hp]
      constructor
      · intro h
        exact absurd h (by simp)
      · rintro ⟨h, _⟩
        exact absurd h (by simp)
    | some pr =>
      have hs : s.proc.isSome = true := by rw [hp]; rfl
      obtain ⟨_, h2, h3, h4⟩ := waitLoop_pending timeout s remaining waits hs
      cases step with
      | expired =>
        rw [h2]
        constructor
        · intro _
          exact ⟨rfl, [], rest, rfl, fun x hx => absurd hx (by simp)⟩
        · intro _
          rfl
      | throws e after =>
        rw [h3]
        constructor
        · intro h
          exact absurd h (by simp)
        · rintro ⟨_, front, rest1, h, hfront⟩
          cases front with
          | nil => simp at h
          | cons y ys =>
            simp only [List.cons_append, List.cons.injEq] at h
            obtain ⟨a, el, hy, _⟩ := hfront y (List.mem_cons_self _ _)
            rw [← h.1] at hy
            exact absurd hy (by simp)
      | activity after elapsed =>
        rw [h4, ih]
        constructor
        · rintro ⟨hafter, front, rest1, h, hfront⟩
          refine ⟨rfl, RpcClientImpl.SelectorWait.activity after elapsed :: front, rest1, ?_, ?_⟩
          · rw [h]
            rfl
          · intro x hx
            rcases List.mem_cons.mp hx with hx | hx
            · exact ⟨after, elapsed, hx, hafter⟩
            · exact hfront x hx
        · rintro ⟨_, front, rest1, h, hfront⟩
          cases front with
          | nil => simp at h
          | cons y ys =>
            simp only [List.cons_append, List.cons.injEq] at h
            obtain ⟨a, el, hy, ha⟩ := hfront y (List.mem_cons_self _ _)
            rw [← h.1] at hy
            injection hy with hy1 hy2
            refine ⟨by rw [hy1]; exact ha, ys, rest1, h.2, ?_⟩
            intro x hx
            exact hfront x (List.mem_cons_of_mem _ hx)

/-- A property of the time passed to the first selector wait that every
recomputation of the remaining time re-establishes holds of the time passed
to every selector wait. -/
theorem waitLoop_waits (timeout : Int) (Q : Int → Prop)
    (script : List RpcClientImpl.SelectorWait) :
    (∀ after elapsed, RpcClientImpl.SelectorWait.activity after elapsed ∈ script →
      0 ≤ timeout → Q (if timeout - elapsed < 0 then 0 else timeout - elapsed)) →
    ∀ (s : RpcClientImpl) (remaining : Int) (waits : List Int), Q remaining →
      (∀ w ∈ waits, Q w) →
      ∀ w ∈ (RpcClientImpl.waitLoop timeout script s remaining waits).waits, Q w := by
  induction script with
  | nil =>
    intro _ s remaining waits _ hws w hw
    cases hp : s.proc with
    | none =>
      rw [waitLoop_idle timeout [] s remaining waits hp] at hw
      exact hws w hw
    | some pr =>
      rw [(waitLoop_pending timeout s remaining waits (by rw [hp]; rfl)).1] at hw
      exact hws w hw
  | cons step rest ih =>
    intro hstep s remaining waits hrem hws w hw
    have hws1 : ∀ w ∈ waits ++ [remaining], Q w := by
      intro w hw
      rcases List.mem_append.mp hw with h | h
      · exact hws w h
      · rw [List.mem_singleton.mp h]
        exact hrem
    cases hp : s.proc with
    | none =>
      rw [waitLoop_idle timeout _ s remaining waits hp] at hw
      exact hws w hw
    | some pr =>
      have hs : s.proc.isSome = true := by rw [hp]; rfl
      obtain ⟨_, h2, h3, h4⟩ := waitLoop_pending timeout s remaining waits hs
      cases step with
      | expired =>
        rw [h2] at hw
        exact hws1 w hw
      | throws e after =>
        rw [h3] at hw
        exact hws1 w hw
      | activity after elapsed =>
        rw [h4] at hw
        refine ih (fun a el hmem => hstep a el (List.mem_cons_of_mem _ hmem)) after _ _ ?_
          hws1 w hw
        by_cases ht : timeout ≥ 0
        · rw [if_pos ht]
          exact hstep after elapsed (List.mem_cons_self _ _) ht
        · rw [if_neg ht]
          exact hrem

/-- Preparing requests advances the counter by their number and leaves the
prefix as it is. -/
theorem preparedAll_count (reqs : List (String × List IDecomposer)) :
    ∀ s : RpcClientImpl, (preparedAll s reqs).count = s.count + reqs.length
      ∧ (preparedAll s reqs).pfx = s.pfx := by
  induction reqs with
  | nil =>
    intro s
    exact ⟨rfl, rfl⟩
  | cons r rest ih =>
    intro s
    have h := ih (RpcClientImpl.prepareRequest s r.1 r.2)
    simp only [preparedAll, List.foldl_cons, List.length_cons] at h ⊢
    refine ⟨?_, h.2⟩
    rw [h.1]
    simp only [RpcClientImpl.prepareRequest]
    omega

/-- The input loop of `onInput` leaves input in the buffer only when it stops
at a completing or a throwing byte. -/
theorem drain_more {D : Type} (de : RpcClientImpl.Deserializer D) (bytes : List Char) :
    ∀ (p p1 : RpcClientImpl.Scan D) (rest : List Char),
      RpcClientImpl.drain de p bytes = (Except.ok false, p1, rest) → rest = [] := by
  induction bytes with
  | nil =>
    intro p p1 rest h
    simp only [RpcClientImpl.drain, Prod.mk.injEq] at h
    exact h.2.2.symm
  | cons ch tail ih =>
    intro p p1 rest h
    simp only [RpcClientImpl.drain] at h
    split at h
    · exact absurd h (by simp)
    · exact absurd h (by simp)
    · exact ih _ p1 rest h

/-- The reply loop of `call` over bytes of which the input loop of `onInput`
takes a first part: when that part neither completes nor throws, the reply loop
goes on from where the input loop stopped; otherwise both stop at the same
byte with the same deserializer. -/
theorem callPump_append {D : Type} (de : RpcClientImpl.Deserializer D) (s : RpcClientImpl)
    (a b : List Char) :
    ∀ (p p1 : RpcClientImpl.Scan D) (res : Except Exn Bool) (rest : List Char),
      RpcClientImpl.drain de p a = (res, p1, rest) →
      (res = Except.ok false →
        RpcClientImpl.callPump de s p (a ++ b) = RpcClientImpl.callPump de s p1 b)
      ∧ (res ≠ Except.ok false → (RpcClientImpl.callPump de s p (a ++ b)).2 = p1) := by
  induction a with
  | nil =>
    intro p p1 res rest h
    simp only [RpcClientImpl.drain, Prod.mk.injEq] at h
    refine ⟨fun _ => ?_, fun hne => absurd h.1.symm hne⟩
    rw [← h.2.1]
    rfl
  | cons ch tail ih =>
    intro p p1 res rest h
    simp only [RpcClientImpl.drain] at h
    simp only [List.cons_append, RpcClientImpl.callPump]
    split at h
    · next e p2 heq =>
      rw [heq]
      simp only [Prod.mk.injEq] at h
      refine ⟨fun hres => ?_, fun _ => h.2.1⟩
      rw [← h.1] at hres
      exact absurd hres (by simp)
    · next p2 heq =>
      rw [heq]
      simp only [Prod.mk.injEq] at h
      refine ⟨fun hres => ?_, fun _ => ?_⟩
      · rw [← h.1] at hres
        exact absurd hres (by simp)
      · rw [← h.2.1]
        simp only
        split <;> rfl
    · next p2 heq =>
      rw [heq]
      exact ih p2 p1 res rest h

/-- After the handler of the asynchronous callbacks no read is in progress. -/
theorem failHandler_reading (t : RpcClientImpl) (e : Exn) (fin : Finish) :
    (RpcClientImpl.failHandler t e fin).2.reading = false := by
  unfold RpcClientImpl.failHandler
  cases t.proc with
  | none => rfl
  | some pr => cases fin <;> rfl

/-- One `onInput` event delivering a chunk to an engine that awaits the reply
with an empty input buffer: when the chunk neither completes the reply nor
makes the deserializer throw, the engine awaits more input as before;
otherwise no read is in progress afterwards. In both cases the deserializer
is as the input loop left it. -/
theorem onInput_chunk {D : Type} (de : RpcClientImpl.Deserializer D) (fin : Finish)
    (s : RpcClientImpl) (p p1 : RpcClientImpl.Scan D) (chunk rest : List Char)
    (res : Except Exn Bool) (pr : IRemoteProcedure)
    (hbuf : s.inBuf = []) (hfail : s.streamFail = false) (hp : s.proc = some pr)
    (hd : RpcClientImpl.drain de p chunk = (res, p1, rest)) :
    (res = Except.ok false →
      ∃ s1, RpcClientImpl.onInput de s p (RpcClientImpl.received chunk fin) = some ((Except.ok (), s1), p1)
        ∧ s1.reading = true ∧ s1.inBuf = [] ∧ s1.streamFail = false ∧ s1.proc = some pr)
    ∧ (res ≠ Except.ok false →
      ∃ r, RpcClientImpl.onInput de s p (RpcClientImpl.received chunk fin) = some (r, p1)
        ∧ r.2.reading = false) := by
  unfold RpcClientImpl.onInput RpcClientImpl.onInputTry RpcClientImpl.received
  simp only [hbuf, List.nil_append, Bool.false_eq_true, if_false]
  rw [hd]
  cases res with
  | error e =>
    refine ⟨fun h => absurd h (by simp), fun _ => ?_⟩
    exact ⟨_, rfl, failHandler_reading _ e fin⟩
  | ok b =>
    cases b with
    | false =>
      refine ⟨fun _ => ?_, fun h => absurd rfl h⟩
      have hrest : rest = [] := drain_more de chunk p p1 rest hd
      simp only [hfail, Bool.false_eq_true, if_false, Option.map_some']
      exact ⟨_, rfl, rfl, hrest, rfl, hp⟩
    | true =>
      refine ⟨fun h => absurd h (by simp), fun _ => ?_⟩
      simp only
      cases de.finalizeReply p1.state with
      | error e => exact ⟨_, rfl, failHandler_reading _ e fin⟩
      | ok u =>
        simp only [hp, Option.map_some']
        refine ⟨_, rfl, ?_⟩
        cases fin <;> rfl

/-- With no read in progress no input event is delivered. -/
theorem onInputs_idle {D : Type} (de : RpcClientImpl.Deserializer D) (fin : Finish)
    (chunks : List (List Char)) (s : RpcClientImpl) (p : RpcClientImpl.Scan D)
    (h : s.reading = false) :
    RpcClientImpl.onInputs de fin chunks s p = some ((Except.ok (), s), p) := by
  cases chunks with
  | nil => rfl
  | cons c cs => simp [RpcClientImpl.onInputs, h]

/-- Input events deliver to the deserializer what the reply loop of `call`
delivers on the concatenation of the chunks. -/
theorem onInputs_callPump {D : Type} (de : RpcClientImpl.Deserializer D) (fin : Finish)
    (sync : RpcClientImpl) (pr : IRemoteProcedure) (chunks : List (List Char)) :
    ∀ (s : RpcClientImpl) (p : RpcClientImpl.Scan D), s.reading = true → s.inBuf = [] →
      s.streamFail = false → s.proc = some pr →
      ∃ r, RpcClientImpl.onInputs de fin chunks s p
        = some (r, (RpcClientImpl.callPump de sync p chunks.flatten).2) := by
  induction chunks with
  | nil =>
    intro s p _ _ _ _
    exact ⟨_, rfl⟩
  | cons chunk rest ih =>
    intro s p hrd hbuf hfail hp
    obtain ⟨res, p1, left, hd⟩ : ∃ res p1 left,
        RpcClientImpl.drain de p chunk = (res, p1, left) := ⟨_, _, _, rfl⟩
    obtain ⟨hmore, hstop⟩ := onInput_chunk de fin s p p1 chunk left res pr hbuf hfail hp hd
    obtain ⟨hpump, hpstop⟩ := callPump_append de sync chunk rest.flatten p p1 res left hd
    simp only [List.flatten_cons, RpcClientImpl.onInputs, hrd, if_true]
    by_cases hres : res = Except.ok false
    · obtain ⟨s1, h1, h1rd, h1buf, h1fail, h1p⟩ := hmore hres
      rw [h1, hpump hres]
      exact ih s1 p1 h1rd h1buf h1fail h1p
    · obtain ⟨r, h1, hrrd⟩ := hstop hres
      rw [h1, hpstop hres]
      obtain ⟨r1, s1⟩ := r
      cases r1 with
      | error e => exact ⟨_, rfl⟩
      | ok u =>
        simp only
        rw [onInputs_idle de fin rest s1 p1 hrrd]
        exact ⟨_, rfl⟩

/-- The reply loop of `call` passes to the deserializer a first part of the
bytes, in their order, one per call. -/
theorem callPump_fed {D : Type} (de : RpcClientImpl.Deserializer D) (s : RpcClientImpl)
    (bytes : List Char) :
    ∀ p : RpcClientImpl.Scan D,
      ∃ k, (RpcClientImpl.callPump de s p bytes).2.fed = p.fed ++ bytes.take k := by
  induction bytes with
  | nil =>
    intro p
    exact ⟨0, by simp [RpcClientImpl.callPump]⟩
  | cons ch rest ih =>
    intro p
    have hfed : (RpcClientImpl.advanceScan de p ch).2.fed = p.fed ++ [ch] := by
      unfold RpcClientImpl.advanceScan
      split <;> rfl
    simp only [RpcClientImpl.callPump]
    split
    · next e p1 heq =>
      rw [heq] at hfed
      exact ⟨1, by simpa using hfed⟩
    · next p1 heq =>
      rw [heq] at hfed
      obtain ⟨k, hk⟩ := ih p1
      refine ⟨k + 1, ?_⟩
      rw [hk, hfed]
      simp
    · next p1 heq =>
      rw [heq] at hfed
      refine ⟨1, ?_⟩
      split <;> simpa using hfed

/-- The children after `addMember`, and the child returned. -/
theorem addMember_nodes (si : SerializationInfo) (name : String) :
    (si.addMember name).1.nodes
      = si.nodes ++ [SerializationInfo.mk Category.Void name "" Payload.none none]
    ∧ (si.addMember name).2 = SerializationInfo.mk Category.Void name "" Payload.none none := by
  simp [SerializationInfo.addMember, SerializationInfo.nodes, SerializationInfo.empty,
    SerializationInfo.setName, List.dropLast_concat, List.getLastD_concat]

/-- The category after `addMember`. -/
theorem addMember_category (si : SerializationInfo) (name : String) :
    (si.addMember name).1.category
      = if si.category = Category.Array ∨ si.category = Category.Object then si.category
        else if name.isEmpty then Category.Array else Category.Object := by
  show (if si.category ≠ Category.Array ∧ si.category ≠ Category.Object then
      (if name.isEmpty then Category.Array else Category.Object) else si.category) = _
  cases si.category <;> simp

/-- The loop over the children finds a child exactly when it splits the list
at the first child of that name, and finds none exactly when no child has the
name. -/
theorem firstNamed_spec (name : String) (ns : List SerializationInfo) :
    (∀ c, SerializationInfo.firstNamed name ns = some c ↔
      ∃ front back, ns = front ++ c :: back ∧ c.name = name
        ∧ ∀ x ∈ front, x.name ≠ name)
    ∧ (SerializationInfo.firstNamed name ns = none ↔ ∀ x ∈ ns, x.name ≠ name) := by
  induction ns with
  | nil =>
    refine ⟨fun c => ⟨fun h => absurd h (by simp [SerializationInfo.firstNamed]), ?_⟩,
      ⟨fun _ x hx => absurd hx (by simp), fun _ => rfl⟩⟩
    rintro ⟨front, back, h, _⟩
    exact absurd h (by simp)
  | cons y ys ih =>
    by_cases hy : y.name = name
    · have hf : SerializationInfo.firstNamed name (y :: ys) = some y := by
        simp [SerializationInfo.firstNamed, hy]
      rw [hf]
      refine ⟨fun c => ⟨fun h => ?_, ?_⟩, ⟨fun h => absurd h (by simp), fun h => ?_⟩⟩
      · injection h with h
        exact ⟨[], ys, by rw [h]; rfl, by rw [← h]; exact hy, fun x hx => absurd hx (by simp)⟩
      · rintro ⟨front, back, h, hc, hfront⟩
        cases front with
        | nil =>
          simp only [List.nil_append, List.cons.injEq] at h
          rw [h.1]
        | cons z zs =>
          simp only [List.cons_append, List.cons.injEq] at h
          exact absurd (h.1 ▸ hy) (hfront z (List.mem_cons_self _ _))
      · exact absurd hy (h y (List.mem_cons_self _ _))
    · have hf : SerializationInfo.firstNamed name (y :: ys)
          = SerializationInfo.firstNamed name ys := by
        simp [SerializationInfo.firstNamed, hy]
      rw [hf]
      refine ⟨fun c => ?_, ?_⟩
      · rw [ih.1 c]
        constructor
        · rintro ⟨front, back, h, hc, hfront⟩
          refine ⟨y :: front, back, by rw [h]; rfl, hc, ?_⟩
          intro x hx
          rcases List.mem_cons.mp hx with hx | hx
          · rw [hx]
            exact hy
          · exact hfront x hx
        · rintro ⟨front, back, h, hc, hfront⟩
          cases front with
          | nil =>
            simp only [List.nil_append, List.cons.injEq] at h
            exact absurd (h.1 ▸ hc) hy
          | cons z zs =>
            simp only [List.cons_append, List.cons.injEq] at h
            exact ⟨zs, back, h.2, hc, fun x hx => hfront x (List.mem_cons_of_mem _ hx)⟩
      · rw [ih.2]
        constructor
        · intro h x hx
          rcases List.mem_cons.mp hx with hx | hx
          · rw [hx]
            exact hy
          · exact h x hx
        · intro h x hx
          exact h x (List.mem_cons_of_mem _ hx)

/-- Storing a payload sets it, with category Value, and leaves name, type and
children as they are; releasing the former payload before changes none of
this. -/
theorem store_fields (p : Payload) (si : SerializationInfo) :
    (SerializationInfo.store p si).value = p
    ∧ (SerializationInfo.store p si).category = Category.Value
    ∧ (SerializationInfo.store p si).nodes = si.nodes
    ∧ (SerializationInfo.store p si).name = si.name
    ∧ (SerializationInfo.store p (SerializationInfo._releaseValue si)).value = p
    ∧ (SerializationInfo.store p (SerializationInfo._releaseValue si)).category
      = Category.Value
    ∧ (SerializationInfo.store p (SerializationInfo._releaseValue si)).nodes = si.nodes
    ∧ (SerializationInfo.store p (SerializationInfo._releaseValue si)).name = si.name := by
  cases si with
  | mk c n t v ns => cases ns <;> exact ⟨rfl, rfl, rfl, rfl, rfl, rfl, rfl, rfl⟩

/-- Each setter stores its value as the payload of its kind, with category
Value, and leaves the children as they are. -/
theorem setters_store (si : SerializationInfo) :
    (∀ v, (si._setString v).value = Payload.string v
      ∧ (si._setString v).category = Category.Value ∧ (si._setString v).nodes = si.nodes)
    ∧ (∀ v, (si._setString8 v).value = Payload.string8 v
      ∧ (si._setString8 v).category = Category.Value ∧ (si._setString8 v).nodes = si.nodes)
    ∧ (∀ v, (si._setChar v).value = Payload.char v
      ∧ (si._setChar v).category = Category.Value ∧ (si._setChar v).nodes = si.nodes)
    ∧ (∀ v, (si._setBool v).value = Payload.bool v
      ∧ (si._setBool v).category = Category.Value ∧ (si._setBool v).nodes = si.nodes)
    ∧ (∀ v, (si._setInt v).value = Payload.int v
      ∧ (si._setInt v).category = Category.Value ∧ (si._setInt v).nodes = si.nodes)
    ∧ (∀ v, (si._setUInt v).value = Payload.uint v
      ∧ (si._setUInt v).category = Category.Value ∧ (si._setUInt v).nodes = si.nodes) := by
  refine ⟨?_, ?_, ?_, ?_, ?_, ?_⟩
  · intro v
    have h := store_fields (Payload.string v) si
    unfold SerializationInfo._setString
    split
    · exact ⟨h.1, h.2.1, h.2.2.1⟩
    · exact ⟨h.2.2.2.2.1, h.2.2.2.2.2.1, h.2.2.2.2.2.2.1⟩
  · intro v
    have h := store_fields (Payload.string8 v) si
    unfold SerializationInfo._setString8
    split
    · exact ⟨h.1, h.2.1, h.2.2.1⟩
    · exact ⟨h.2.2.2.2.1, h.2.2.2.2.2.1, h.2.2.2.2.2.2.1⟩
  · intro v
    have h := store_fields (Payload.char v) si
    unfold SerializationInfo._setChar
    split
    · exact ⟨h.1, h.2.1, h.2.2.1⟩
    · exact ⟨h.2.2.2.2.1, h.2.2.2.2.2.1, h.2.2.2.2.2.2.1⟩
  · intro v
    have h := store_fields (Payload.bool v) si
    unfold SerializationInfo._setBool
    split
    · exact ⟨h.1, h.2.1, h.2.2.1⟩
    · exact ⟨h.2.2.2.2.1, h.2.2.2.2.2.1, h.2.2.2.2.2.2.1⟩
  · intro v
    have h := store_fields (Payload.int v) si
    unfold SerializationInfo._setInt
    split
    · exact ⟨h.1, h.2.1, h.2.2.1⟩
    · exact ⟨h.2.2.2.2.1, h.2.2.2.2.2.1, h.2.2.2.2.2.2.1⟩
  · intro v
    have h := store_fields (Payload.uint v) si
    unfold SerializationInfo._setUInt
    split
    · exact ⟨h.1, h.2.1, h.2.2.1⟩
    · exact ⟨h.2.2.2.2.1, h.2.2.2.2.2.1, h.2.2.2.2.2.2.1⟩

/-- The getters on a node whose payload is of the kind asked for. -/
theorem getters_same_kind (cv : Conversions) (si : SerializationInfo) :
    (∀ v, si.value = Payload.string v → si.getValueString cv = v)
    ∧ (∀ v, si.value = Payload.string8 v → si.getValueString8 cv = v)
    ∧ (∀ v, si.value = Payload.char v → si._getChar cv = v)
    ∧ (∀ v, si.value = Payload.bool v → si._getBool cv = v)
    ∧ (∀ v min max, si.value = Payload.int v →
        si._getInt cv min max = SerializationInfo.checkInt v min max)
    ∧ (∀ v max, si.value = Payload.uint v →
        si._getUInt cv max = SerializationInfo.checkUInt v max) := by
  refine ⟨?_, ?_, ?_, ?_, ?_, ?_⟩
  · intro v h
    simp only [SerializationInfo.getValueString, h]
  · intro v h
    simp only [SerializationInfo.getValueString8, h]
  · intro v h
    simp only [SerializationInfo._getChar, h]
  · intro v h
    simp only [SerializationInfo._getBool, h]
  · intro v min max h
    simp only [SerializationInfo._getInt, h]
  · intro v max h
    simp only [SerializationInfo._getUInt, h]

/-- The narrowing of a finite value: a range error exactly when its magnitude
exceeds the largest finite value of the target. -/
theorem narrowChecked_finite (round : ℚ → ℚ) (max q : ℚ) :
    (max < |q| → SerializationInfo.narrowChecked round max (FloatVal.finite q)
      = Except.error SerializationError.rangeError)
    ∧ (|q| ≤ max → SerializationInfo.narrowChecked round max (FloatVal.finite q)
      = Except.ok (FloatVal.finite (round q))) := by
  have h0 : SerializationInfo.narrowChecked round max (FloatVal.finite q)
      = if (decide (max < q) || decide (q < -max)) = true then
          Except.error SerializationError.rangeError
        else Except.ok (FloatVal.finite (round q)) := by
    simp [SerializationInfo.narrowChecked, FloatVal.eq, FloatVal.neg, FloatVal.gt,
      FloatVal.lt, FloatVal.narrow]
  rw [h0]
  constructor
  · intro h
    have : max < q ∨ q < -max := by
      rcases lt_abs.mp h with h1 | h1
      · exact Or.inl h1
      · exact Or.inr (by linarith)
    rw [if_pos (by simpa using this)]
  · intro h
    have h1 := abs_le.mp h
    rw [if_neg]
    simp only [Bool.or_eq_true, decide_eq_true_eq, not_or, not_lt]
    exact ⟨h1.2, h1.1⟩

/-- The function `remove` on any queue: it returns true exactly when the queue
holds an element equal to the given one, and leaves the queue as it is in
either case. -/
theorem remove_unchanged {T : Type} [DecidableEq T] (q : Queue T) (element : T) :
    ((Queue.remove q element).1 = true ↔ element ∈ q.queue)
    ∧ (Queue.remove q element).2 = q := by
  refine ⟨?_, rfl⟩
  show Queue.removeLoop element q.queue = true ↔ _
  induction q.queue with
  | nil => simp [Queue.removeLoop]
  | cons x rest ih =>
    simp only [Queue.removeLoop, List.mem_cons]
    by_cases hx : x = element
    · simp [hx]
    · rw [if_neg hx, ih]
      constructor
      · exact Or.inr
      · rintro (h | h)
        · exact absurd h.symm hx
        · exact h

/-- Putting into an unbounded queue, or with force, appends at the back. -/
theorem put_appends {T : Type} (q : Queue T) (x : T) (force : Bool)
    (h : q.maxSize = 0 ∨ force = true) :
    ∃ q1, Queue.put q x force = some q1 ∧ q1.queue = q.queue ++ [x]
      ∧ q1.maxSize = q.maxSize := by
  have hcond : (!force && (decide (q.maxSize > 0) && decide (q.queue.length ≥ q.maxSize)))
      = false := by
    rcases h with h | h
    · simp [h]
    · simp [h]
  unfold Queue.put
  rw [hcond]
  simp only [Bool.false_eq_true, if_false]
  split
  · exact ⟨_, rfl, rfl, rfl⟩
  · exact ⟨_, rfl, rfl, rfl⟩

/-- Putting a sequence into an unbounded queue, or with force, appends it at the
back in its order. -/
theorem puts_appends {T : Type} (force : Bool) (xs : List T) :
    ∀ q : Queue T, (q.maxSize = 0 ∨ force = true) →
      ∃ q1, Queue.puts force xs q = some q1 ∧ q1.queue = q.queue ++ xs
        ∧ q1.maxSize = q.maxSize := by
  induction xs with
  | nil =>
    intro q _
    exact ⟨q, rfl, by simp, rfl⟩
  | cons x rest ih =>
    intro q h
    obtain ⟨q1, h1, h1q, h1m⟩ := put_appends q x force h
    obtain ⟨q2, h2, h2q, h2m⟩ := ih q1 (by rw [h1m]; exact h)
    refine ⟨q2, ?_, ?_, h2m.trans h1m⟩
    · simp only [Queue.puts, h1, Option.some_bind]
      exact h2
    · rw [h2q, h1q]
      simp

/-- Successive `tryGet` calls, as many as the queue holds elements, return the
elements from front to back, each with flag true, and leave the queue empty. -/
theorem tryGets_all {T : Type} [Inhabited T] (xs : List T) :
    ∀ q : Queue T, q.queue = xs →
      (Queue.tryGets xs.length q).1 = xs.map (fun x => (x, true))
      ∧ (Queue.tryGets xs.length q).2.queue = [] := by
  induction xs with
  | nil =>
    intro q h
    exact ⟨rfl, h⟩
  | cons x rest ih =>
    intro q h
    have hg : Queue.tryGet q = ((x, true), Queue.popped q rest) := by
      unfold Queue.tryGet
      rw [h]
    have hrest : (Queue.popped q rest).queue = rest := rfl
    obtain ⟨h1, h2⟩ := ih (Queue.popped q rest) hrest
    simp only [List.length_cons, Queue.tryGets, hg, List.map_cons]
    exact ⟨by rw [h1], h2⟩


/-- One byte taken by the decoder, then the rest. -/
theorem codecIn_step (st : Utf8Codec.MBState) (p : Utf8Codec.MBState × List Nat)
    (b : Nat) (bs : List Nat) (h : Utf8Codec.step st b = some p) :
    Utf8Codec.codecIn st (b :: bs)
      = (Utf8Codec.codecIn p.1 bs).map (fun r => (r.1, p.2 ++ r.2)) := by
  obtain ⟨st1, out⟩ := p
  simp only [Utf8Codec.codecIn, h]

/-- One byte taken by the decoder without output, then the rest. -/
theorem codecIn_silent (st st1 : Utf8Codec.MBState) (b : Nat) (bs : List Nat)
    (h : Utf8Codec.step st b = some (st1, [])) :
    Utf8Codec.codecIn st (b :: bs) = Utf8Codec.codecIn st1 bs := by
  rw [codecIn_step st (st1, []) b bs h]
  cases Utf8Codec.codecIn st1 bs <;> rfl

/-- The decoder on the first byte of a sequence. -/
theorem step_lead (st : Utf8Codec.MBState) (b : Nat) (hst : st.need = 0) :
    (b < 0x80 → Utf8Codec.step st b = some (Utf8Codec.emit st b))
    ∧ (0xC0 ≤ b → b < 0xE0 →
        Utf8Codec.step st b = some ({ st with need := 1, acc := b - 0xC0 }, []))
    ∧ (0xE0 ≤ b → b < 0xF0 →
        Utf8Codec.step st b = some ({ st with need := 2, acc := b - 0xE0 }, []))
    ∧ (0xF0 ≤ b → b < 0xF8 →
        Utf8Codec.step st b = some ({ st with need := 3, acc := b - 0xF0 }, [])) := by
  refine ⟨fun h => ?_, fun h1 h2 => ?_, fun h1 h2 => ?_, fun h1 h2 => ?_⟩
  · unfold Utf8Codec.step
    rw [if_pos hst, if_pos h]
  · unfold Utf8Codec.step
    rw [if_pos hst, if_neg (by omega), if_pos ⟨h1, h2⟩]
  · unfold Utf8Codec.step
    rw [if_pos hst, if_neg (by omega), if_neg (by omega), if_pos ⟨h1, h2⟩]
  · unfold Utf8Codec.step
    rw [if_pos hst, if_neg (by omega), if_neg (by omega), if_neg (by omega), if_pos ⟨h1, h2⟩]

/-- The decoder on a continuation byte. -/
theorem step_cont (st : Utf8Codec.MBState) (b : Nat) (h1 : 0x80 ≤ b) (h2 : b < 0xC0) :
    (st.need = 1 →
      Utf8Codec.step st b = some (Utf8Codec.emit st (st.acc * 64 + (b - 0x80))))
    ∧ (2 ≤ st.need →
      Utf8Codec.step st b
        = some ({ st with need := st.need - 1, acc := st.acc * 64 + (b - 0x80) }, [])) := by
  refine ⟨fun h => ?_, fun h => ?_⟩
  · unfold Utf8Codec.step
    rw [if_neg (by omega), if_pos ⟨h1, h2⟩, if_pos h]
  · unfold Utf8Codec.step
    rw [if_neg (by omega), if_pos ⟨h1, h2⟩, if_neg (by omega)]

/-- The decoder over the bytes of one code point, from a state between
sequences: the code point leaves the decoder. -/
theorem codecIn_encodeChar (st : Utf8Codec.MBState) (c : Nat) (rest : List Nat)
    (hst : st.need = 0) (hc : c < 0x110000) :
    Utf8Codec.codecIn st (Utf8Codec.encodeChar c ++ rest)
      = (Utf8Codec.codecIn (Utf8Codec.emit st c).1 rest).map
          (fun r => (r.1, (Utf8Codec.emit st c).2 ++ r.2)) := by
  unfold Utf8Codec.encodeChar
  by_cases h1 : c < 0x80
  · rw [if_pos h1]
    exact codecIn_step st _ c rest ((step_lead st c hst).1 h1)
  · rw [if_neg h1]
    by_cases h2 : c < 0x800
    · rw [if_pos h2]
      show Utf8Codec.codecIn st ((0xC0 + c / 64) :: (0x80 + c % 64) :: rest) = _
      rw [codecIn_silent st _ _ _ ((step_lead st _ hst).2.1 (by omega) (by omega)),
        codecIn_step _ _ _ rest ((step_cont _ (0x80 + c % 64) (by omega) (by omega)).1 rfl)]
      have hx : (0xC0 + c / 64 - 0xC0) * 64 + (0x80 + c % 64 - 0x80) = c := by omega
      simp only [Utf8Codec.emit, hx]
    · rw [if_neg h2]
      by_cases h3 : c < 0x10000
      · rw [if_pos h3]
        show Utf8Codec.codecIn st
          ((0xE0 + c / 4096) :: (0x80 + c / 64 % 64) :: (0x80 + c % 64) :: rest) = _
        rw [codecIn_silent st _ _ _ ((step_lead st _ hst).2.2.1 (by omega) (by omega)),
          codecIn_silent _ _ _ _
            ((step_cont _ (0x80 + c / 64 % 64) (by omega) (by omega)).2 (by simp)),
          codecIn_step _ _ _ rest
            ((step_cont _ (0x80 + c % 64) (by omega) (by omega)).1 rfl)]
        have hx : ((0xE0 + c / 4096 - 0xE0) * 64 + (0x80 + c / 64 % 64 - 0x80)) * 64 + (0x80 + c % 64 - 0x80) = c := by omega
        simp only [Utf8Codec.emit, hx]
      · rw [if_neg h3]
        show Utf8Codec.codecIn st ((0xF0 + c / 262144) :: (0x80 + c / 4096 % 64)
          :: (0x80 + c / 64 % 64) :: (0x80 + c % 64) :: rest) = _
        rw [codecIn_silent st _ _ _ ((step_lead st _ hst).2.2.2 (by omega) (by omega)),
          codecIn_silent _ _ _ _
            ((step_cont _ (0x80 + c / 4096 % 64) (by omega) (by omega)).2 (by simp)),
          codecIn_silent _ _ _ _
            ((step_cont _ (0x80 + c / 64 % 64) (by omega) (by omega)).2 (by simp)),
          codecIn_step _ _ _ rest
            ((step_cont _ (0x80 + c % 64) (by omega) (by omega)).1 rfl)]
        have hx : (((0xF0 + c / 262144 - 0xF0) * 64 + (0x80 + c / 4096 % 64 - 0x80)) * 64 + (0x80 + c / 64 % 64 - 0x80)) * 64 + (0x80 + c % 64 - 0x80) = c := by omega
        simp only [Utf8Codec.emit, hx]

/-- After a character has left the decoder it is between sequences. -/
theorem emit_shape (st : Utf8Codec.MBState) (c : Nat) :
    (st.atStart = false →
      Utf8Codec.emit st c = ({ atStart := false, need := 0, acc := 0 }, [c]))
    ∧ (c ≠ 0xFEFF →
      Utf8Codec.emit st c = ({ atStart := false, need := 0, acc := 0 }, [c]))
    ∧ (st.atStart = true →
      Utf8Codec.emit st 0xFEFF = ({ atStart := true, need := 0, acc := 0 }, [])) := by
  refine ⟨fun h => ?_, fun h => ?_, fun h => ?_⟩
  · unfold Utf8Codec.emit
    rw [if_neg (by simp [h])]
  · unfold Utf8Codec.emit
    rw [if_neg (by simp [h])]
  · unfold Utf8Codec.emit
    rw [if_pos ⟨h, rfl⟩]

/-- Encoding is character by character. -/
theorem encode_cons (c : Nat) (s : List Nat) :
    Utf8Codec.encode (c :: s) = Utf8Codec.encodeChar c ++ Utf8Codec.encode s := by
  simp only [Utf8Codec.encode, List.map_cons, List.flatten_cons]

/-- Past the first character the decoder returns every encoded code point. -/
theorem codecIn_encode_started (s : List Nat) (hs : ∀ c ∈ s, c < 0x110000) :
    ∀ st : Utf8Codec.MBState, st.need = 0 → st.atStart = false →
      (Utf8Codec.codecIn st (Utf8Codec.encode s)).map Prod.snd = some s := by
  induction s with
  | nil => intro st _ _; rfl
  | cons c s ih =>
    intro st hn ha
    rw [encode_cons, codecIn_encodeChar st c _ hn (hs c (List.mem_cons_self c s)),
      (emit_shape st c).1 ha]
    have h := ih (fun d hd => hs d (List.mem_cons_of_mem c hd))
      { atStart := false, need := 0, acc := 0 } rfl rfl
    revert h
    cases Utf8Codec.codecIn { atStart := false, need := 0, acc := 0 } (Utf8Codec.encode s) with
    | none => intro h; exact absurd h (by simp)
    | some r =>
      intro h
      simp only [Option.map_some', Option.some.injEq] at h
      simp only [Option.map_some', h, List.singleton_append]

/-- Before the first character the decoder drops byte order marks and returns
every encoded code point after them. -/
theorem codecIn_encode_atStart (s : List Nat) (hs : ∀ c ∈ s, c < 0x110000) :
    ∀ st : Utf8Codec.MBState, st.need = 0 → st.atStart = true →
      (Utf8Codec.codecIn st (Utf8Codec.encode s)).map Prod.snd
        = some (s.dropWhile (fun c => decide (c = 0xFEFF))) := by
  induction s with
  | nil => intro st _ _; rfl
  | cons c s ih =>
    intro st hn ha
    have hc := hs c (List.mem_cons_self c s)
    have hs1 : ∀ d ∈ s, d < 0x110000 := fun d hd => hs d (List.mem_cons_of_mem c hd)
    rw [encode_cons, codecIn_encodeChar st c _ hn hc]
    by_cases hb : c = 0xFEFF
    · subst hb
      rw [(emit_shape st 0xFEFF).2.2 ha]
      have h := ih hs1 { atStart := true, need := 0, acc := 0 } rfl rfl
      revert h
      cases Utf8Codec.codecIn { atStart := true, need := 0, acc := 0 }
          (Utf8Codec.encode s) with
      | none => intro h; exact absurd h (by simp)
      | some r =>
        intro h
        simp only [Option.map_some', Option.some.injEq] at h
        simp only [Option.map_some', h, List.nil_append, List.dropWhile_cons, decide_True,
          if_true]
    · rw [(emit_shape st c).2.1 hb]
      have h := codecIn_encode_started s hs1 { atStart := false, need := 0, acc := 0 } rfl rfl
      revert h
      cases Utf8Codec.codecIn { atStart := false, need := 0, acc := 0 }
          (Utf8Codec.encode s) with
      | none => intro h; exact absurd h (by simp)
      | some r =>
        intro h
        simp only [Option.map_some', Option.some.injEq] at h
        simp only [Option.map_some', h, List.singleton_append, List.dropWhile_cons, hb,
          decide_False, Bool.false_eq_true, if_false]

/-- Decoding what was encoded returns the string without its leading byte
order marks. -/
theorem decode_encode (s : List Nat) (hs : ∀ c ∈ s, c < 0x110000) :
    Utf8Codec.decode (Utf8Codec.encode s)
      = some (s.dropWhile (fun c => decide (c = 0xFEFF))) :=
  codecIn_encode_atStart s hs Utf8Codec.initial rfl rfl

/-- A new decoder is new again after the three bytes of the byte order mark. -/
theorem codecIn_byteOrderMark (b : List Nat) :
    Utf8Codec.codecIn Utf8Codec.initial (Utf8Codec.byteOrderMark ++ b)
      = Utf8Codec.codecIn Utf8Codec.initial b := by
  show Utf8Codec.codecIn Utf8Codec.initial (0xEF :: 0xBB :: 0xBF :: b) = _
  rw [codecIn_silent Utf8Codec.initial { atStart := true, need := 2, acc := 15 } 0xEF _ rfl,
    codecIn_silent { atStart := true, need := 2, acc := 15 }
      { atStart := true, need := 1, acc := 1019 } 0xBB _ rfl,
    codecIn_step { atStart := true, need := 1, acc := 1019 } (Utf8Codec.initial, []) 0xBF b
      rfl]
  cases Utf8Codec.codecIn Utf8Codec.initial b <;> rfl

/-- Successive calls of the codec give what one call on all the bytes gives. -/
theorem codecIn_append (a : List Nat) :
    ∀ (st : Utf8Codec.MBState) (b : List Nat),
      Utf8Codec.codecIn st (a ++ b)
        = match Utf8Codec.codecIn st a with
          | none => none
          | some (st1, out) =>
            (Utf8Codec.codecIn st1 b).map (fun r => (r.1, out ++ r.2)) := by
  induction a with
  | nil =>
    intro st b
    show Utf8Codec.codecIn st b = (Utf8Codec.codecIn st b).map (fun r => (r.1, [] ++ r.2))
    cases Utf8Codec.codecIn st b <;> rfl
  | cons x a ih =>
    intro st b
    show Utf8Codec.codecIn st (x :: (a ++ b)) = _
    cases hx : Utf8Codec.step st x with
    | none => simp only [Utf8Codec.codecIn, hx]
    | some p =>
      rw [codecIn_step st p x _ hx, codecIn_step st p x _ hx, ih]
      cases Utf8Codec.codecIn p.1 a with
      | none => rfl
      | some r =>
        obtain ⟨st1, out⟩ := r
        show Option.map _ (Option.map _ (Utf8Codec.codecIn st1 b))
          = Option.map _ (Utf8Codec.codecIn st1 b)
        cases Utf8Codec.codecIn st1 b with
        | none => rfl
        | some q => simp only [Option.map_some', List.append_assoc]

/-- Successive calls of the codec, one per chunk, give what one call on the
concatenation gives. -/
theorem codecIns_flatten (chunks : List (List Nat)) :
    ∀ st : Utf8Codec.MBState,
      Utf8Codec.codecIns st chunks = Utf8Codec.codecIn st chunks.flatten := by
  induction chunks with
  | nil => intro st; rfl
  | cons ch rest ih =>
    intro st
    rw [List.flatten_cons, codecIn_append]
    cases h : Utf8Codec.codecIn st ch with
    | none => simp only [Utf8Codec.codecIns, h]
    | some r =>
      obtain ⟨st1, out⟩ := r
      simp only [Utf8Codec.codecIns, h, ih]

/-- The parameters that went over the wire are parsed as they were sent, in
the same order. -/
theorem parseParams_format (args rest : List Int) :
    xmlrpc.parseParams args.length (args.map xmlrpc.WireItem.value
        ++ rest.map xmlrpc.WireItem.value)
      = some (args, rest.map xmlrpc.WireItem.value) := by
  induction args with
  | nil => rfl
  | cons a t ih =>
    show (xmlrpc.parseParams t.length (t.map xmlrpc.WireItem.value
      ++ rest.map xmlrpc.WireItem.value)).map _ = _
    rw [ih]
    rfl

/-- A request that went over the wire is parsed as the request that was
sent. -/
theorem parseRequest_format (name : String) (args : List Int) :
    xmlrpc.parseRequest (xmlrpc.formatRequest name args) = some (name, args) := by
  have h := parseParams_format args []
  simp only [List.map_nil, List.append_nil] at h
  simp only [xmlrpc.formatRequest, xmlrpc.parseRequest, h]

/-- A reply that went over the wire is parsed as the reply that was sent. -/
theorem parseReply_format (r : Except xmlrpc.Fault Int) :
    xmlrpc.parseReply (xmlrpc.formatReply r) = some r := by
  cases r <;> rfl

/-- A remote call gives the caller what the dispatcher got from the handler. -/
theorem remoteCall_dispatch (s : xmlrpc.Service) (name : String) (args : List Int) :
    xmlrpc.remoteCall s name args = some (s.dispatch name args) := by
  simp only [xmlrpc.remoteCall, xmlrpc.serve, parseRequest_format, Option.map_some',
    Option.some_bind, parseReply_format]

/-- The loop of `remove` keeps the elements of other names, in their order. -/
theorem removeFrom_filter (name : List Char) (l : List QueryParamsValue) :
    QueryParams.removeFrom name l = l.filter (fun e => decide (e.name ≠ name)) := by
  induction l with
  | nil => rfl
  | cons e rest ih =>
    by_cases h : e.name = name
    · simp only [QueryParams.removeFrom, h, if_true, ih, ne_eq, not_true_eq_false,
        decide_False, Bool.false_eq_true, not_false_eq_true, List.filter_cons_of_neg]
    · simp only [QueryParams.removeFrom, h, if_false, ih, ne_eq, not_false_eq_true,
        decide_True, List.filter_cons_of_pos]

/-- After the loop of `remove` no element has the name. -/
theorem removeFrom_none (name : List Char) (l : List QueryParamsValue) (count : Nat) :
    QueryParams.hasFrom name (QueryParams.removeFrom name l) = false
      ∧ QueryParams.paramcountFrom name count (QueryParams.removeFrom name l) = count := by
  induction l with
  | nil => exact ⟨rfl, rfl⟩
  | cons e rest ih =>
    by_cases h : e.name = name
    · simp only [QueryParams.removeFrom, h, if_true]
      exact ih
    · simp only [QueryParams.removeFrom, h, if_false, QueryParams.hasFrom,
        QueryParams.paramcountFrom]
      exact ih

/-- The loop of `remove` leaves the elements of every other name alone. -/
theorem removeFrom_other (name other : List Char) (h : other ≠ name)
    (l : List QueryParamsValue) :
    (∀ count, QueryParams.paramcountFrom other count (QueryParams.removeFrom name l)
        = QueryParams.paramcountFrom other count l)
      ∧ (∀ n, QueryParams.paramFrom other n (QueryParams.removeFrom name l)
        = QueryParams.paramFrom other n l) := by
  induction l with
  | nil => exact ⟨fun _ => rfl, fun _ => rfl⟩
  | cons e rest ih =>
    by_cases he : e.name = name
    · have ho : ¬ e.name = other := fun x => h (x.symm.trans he)
      simp only [QueryParams.removeFrom, he, if_true, QueryParams.paramcountFrom,
        QueryParams.paramFrom]
      rw [he] at ho
      simp only [ho, if_false]
      exact ih
    · simp only [QueryParams.removeFrom, he, if_false, QueryParams.paramcountFrom,
        QueryParams.paramFrom]
      refine ⟨fun count => ?_, fun n => ?_⟩
      · by_cases ho : e.name = other
        · simp only [ho, if_true, ih.1]
        · simp only [ho, if_false, ih.1]
      · by_cases ho : e.name = other
        · simp only [ho, if_true]
          cases n with
          | zero => rfl
          | succ m => exact ih.2 m
        · simp only [ho, if_false, ih.2]

/-- The loop of `envSubst` over two strings, one after the other. -/
theorem parseAll_append (env : List Char → Option (List Char)) (a : List Char) :
    ∀ (es : EnvSubst) (r b : List Char),
      EnvSubst.parseAll env es r (a ++ b)
        = match EnvSubst.parseAll env es r a with
          | Except.error e => Except.error e
          | Except.ok x => EnvSubst.parseAll env x.1 x.2 b := by
  induction a with
  | nil => intro es r b; rfl
  | cons c rest ih =>
    intro es r b
    show EnvSubst.parseAll env es r (c :: (rest ++ b)) = _
    cases h : EnvSubst.parse env es r c with
    | error e => simp only [EnvSubst.parseAll, h]
    | ok x => simp only [EnvSubst.parseAll, h, ih]

/-- A char of a variable name is none of the chars `parse` gives a meaning. -/
theorem isVarChar_plain (c : Char) (h : isVarChar c = true) :
    c ≠ '$' ∧ c ≠ '\\' ∧ c ≠ '\x7b' ∧ c ≠ '\x7d' ∧ c ≠ ':' := by
  refine ⟨?_, ?_, ?_, ?_, ?_⟩ <;>
  · intro e
    rw [e] at h
    exact absurd h (by decide)

/-- In `state_varname` the chars of a name are collected. -/
theorem parseAll_varname (env : List Char → Option (List Char)) (name : List Char)
    (hn : ∀ c ∈ name, isVarChar c = true) :
    ∀ (vn : List Char) (nx : EnvSubst) (r : List Char),
      EnvSubst.parseAll env (EnvSubst.obj EnvSubstState.state_varname vn nx) r name
        = Except.ok (EnvSubst.obj EnvSubstState.state_varname (vn ++ name) nx, r) := by
  induction name with
  | nil => intro vn nx r; simp only [EnvSubst.parseAll, List.append_nil]
  | cons c rest ih =>
    intro vn nx r
    have hc := hn c (List.mem_cons_self c rest)
    simp only [EnvSubst.parseAll, EnvSubst.parse, hc, if_true]
    rw [ih (fun d hd => hn d (List.mem_cons_of_mem c hd))]
    simp only [List.append_assoc, List.singleton_append]

/-- In `state_0` the chars of a name are copied. -/
theorem parseAll_copy_name (env : List Char → Option (List Char)) (name : List Char)
    (hn : ∀ c ∈ name, isVarChar c = true) :
    ∀ (vn : List Char) (nx : EnvSubst) (r : List Char),
      EnvSubst.parseAll env (EnvSubst.obj EnvSubstState.state_0 vn nx) r name
        = Except.ok (EnvSubst.obj EnvSubstState.state_0 vn nx, r ++ name) := by
  induction name with
  | nil => intro vn nx r; simp only [EnvSubst.parseAll, List.append_nil]
  | cons c rest ih =>
    intro vn nx r
    have hc := isVarChar_plain c (hn c (List.mem_cons_self c rest))
    simp only [EnvSubst.parseAll, EnvSubst.parse, hc.1, hc.2.1, if_false]
    rw [ih (fun d hd => hn d (List.mem_cons_of_mem c hd))]
    simp only [List.append_assoc, List.singleton_append]

/-- In `state_bvarname` the chars before `}` and `:` are collected. -/
theorem parseAll_bvarname (env : List Char → Option (List Char)) (name : List Char)
    (hn : ∀ c ∈ name, c ≠ '\x7d' ∧ c ≠ ':') :
    ∀ (vn : List Char) (nx : EnvSubst) (r : List Char),
      EnvSubst.parseAll env (EnvSubst.obj EnvSubstState.state_bvarname vn nx) r name
        = Except.ok (EnvSubst.obj EnvSubstState.state_bvarname (vn ++ name) nx, r) := by
  induction name with
  | nil => intro vn nx r; simp only [EnvSubst.parseAll, List.append_nil]
  | cons c rest ih =>
    intro vn nx r
    have hc := hn c (List.mem_cons_self c rest)
    simp only [EnvSubst.parseAll, EnvSubst.parse, hc.1, hc.2, if_false]
    rw [ih (fun d hd => hn d (List.mem_cons_of_mem c hd))]
    simp only [List.append_assoc, List.singleton_append]

/-- In `state_nosubst` the chars before `}` are skipped. -/
theorem parseAll_nosubst (env : List Char → Option (List Char)) (d : List Char)
    (hd : ∀ c ∈ d, c ≠ '\x7d') :
    ∀ (vn : List Char) (nx : EnvSubst) (r : List Char),
      EnvSubst.parseAll env (EnvSubst.obj EnvSubstState.state_nosubst vn nx) r d
        = Except.ok (EnvSubst.obj EnvSubstState.state_nosubst vn nx, r) := by
  induction d with
  | nil => intro vn nx r; rfl
  | cons c rest ih =>
    intro vn nx r
    have hc := hd c (List.mem_cons_self c rest)
    simp only [EnvSubst.parseAll, EnvSubst.parse, hc, if_false]
    exact ih (fun e he => hd e (List.mem_cons_of_mem c he)) vn nx r

/-- A string without `$` is copied, backslashes included, whether the loop
starts in `state_0` or, a backslash having been read, in `state_esc`. -/
theorem parseAll_no_dollar (env : List Char → Option (List Char)) (str : List Char)
    (hs : ∀ c ∈ str, c ≠ '$') :
    ∀ (vn : List Char) (nx : EnvSubst) (r : List Char),
      (∃ es, (match EnvSubst.parseAll env (EnvSubst.obj EnvSubstState.state_0 vn nx) r str with
              | Except.error e => Except.error e
              | Except.ok x => EnvSubst.parseEnd env x.1 x.2) = Except.ok (es, r ++ str))
      ∧ (∃ es, (match EnvSubst.parseAll env (EnvSubst.obj EnvSubstState.state_esc vn nx) r
                  str with
              | Except.error e => Except.error e
              | Except.ok x => EnvSubst.parseEnd env x.1 x.2)
            = Except.ok (es, r ++ '\\' :: str)) := by
  induction str with
  | nil =>
    intro vn nx r
    exact ⟨⟨EnvSubst.obj EnvSubstState.state_0 vn nx,
        by simp only [EnvSubst.parseAll, EnvSubst.parseEnd, List.append_nil]⟩,
      ⟨EnvSubst.obj EnvSubstState.state_0 vn nx,
        by simp only [EnvSubst.parseAll, EnvSubst.parseEnd]⟩⟩
  | cons c rest ih =>
    intro vn nx r
    have hc := hs c (List.mem_cons_self c rest)
    have ih1 := ih (fun d hd => hs d (List.mem_cons_of_mem c hd))
    refine ⟨?_, ?_⟩
    · by_cases hb : c = '\\'
      · obtain ⟨es, h⟩ := (ih1 vn nx r).2
        refine ⟨es, ?_⟩
        simp only [EnvSubst.parseAll, EnvSubst.parse, hb, if_true]
        exact h
      · obtain ⟨es, h⟩ := (ih1 vn nx (r ++ [c])).1
        refine ⟨es, ?_⟩
        simp only [EnvSubst.parseAll, EnvSubst.parse, hb, hc, if_false]
        rw [h]
        simp only [List.append_assoc, List.singleton_append]
    · obtain ⟨es, h⟩ := (ih1 vn nx (r ++ ['\\'] ++ [c])).1
      refine ⟨es, ?_⟩
      simp only [EnvSubst.parseAll, EnvSubst.parse, ne_eq, hc, not_false_eq_true, if_true]
      rw [h]
      simp only [List.append_assoc, List.singleton_append, List.cons_append, List.nil_append]

/-- What `envSubst` returns, from the result of its loop. -/
theorem envSubst_of_parseAll (env : List Char → Option (List Char)) (str : List Char) :
    (∀ es r es1 r1, EnvSubst.parseAll env EnvSubst.new [] str = Except.ok (es, r) →
        EnvSubst.parseEnd env es r = Except.ok (es1, r1) → envSubst env str = Except.ok r1)
      ∧ (∀ es r what, EnvSubst.parseAll env EnvSubst.new [] str = Except.ok (es, r) →
        EnvSubst.parseEnd env es r = Except.error (EnvSubstFailure.syntaxError what) →
        envSubst env str = Except.error (EnvSubstFailure.failedToParse str what))
      ∧ (∀ what, EnvSubst.parseAll env EnvSubst.new [] str
          = Except.error (EnvSubstFailure.syntaxError what) →
        envSubst env str = Except.error (EnvSubstFailure.failedToParse str what)) := by
  refine ⟨fun es r es1 r1 h1 h2 => ?_, fun es r what h1 h2 => ?_, fun what h => ?_⟩
  · simp only [envSubst, h1, h2]
  · simp only [envSubst, h1, h2]
  · simp only [envSubst, h]

/-- One char through the loop of `envSubst`. -/
theorem parseAll_step (env : List Char → Option (List Char)) (es es1 : EnvSubst)
    (r r1 : List Char) (c : Char) (rest : List Char)
    (h : EnvSubst.parse env es r c = Except.ok (es1, r1)) :
    EnvSubst.parseAll env es r (c :: rest) = EnvSubst.parseAll env es1 r1 rest := by
  simp only [EnvSubst.parseAll, h]

/-- A char on which `parse` throws ends the loop of `envSubst`. -/
theorem parseAll_throw (env : List Char → Option (List Char)) (es : EnvSubst)
    (r : List Char) (c : Char) (rest : List Char) (e : EnvSubstFailure)
    (h : EnvSubst.parse env es r c = Except.error e) :
    EnvSubst.parseAll env es r (c :: rest) = Except.error e := by
  simp only [EnvSubst.parseAll, h]

/-- The chars `$` and `{` in `state_0` and `state_varbegin`. -/
theorem parse_dollar_brace (env : List Char → Option (List Char)) (vn : List Char)
    (nx : EnvSubst) (r : List Char) :
    EnvSubst.parse env (EnvSubst.obj EnvSubstState.state_0 vn nx) r '$'
        = Except.ok (EnvSubst.obj EnvSubstState.state_varbegin vn nx, r)
      ∧ EnvSubst.parse env (EnvSubst.obj EnvSubstState.state_varbegin vn nx) r '\x7b'
        = Except.ok (EnvSubst.obj EnvSubstState.state_bvarname [] nx, r)
      ∧ EnvSubst.parse env (EnvSubst.obj EnvSubstState.state_bvarname vn nx) r ':'
        = Except.ok (EnvSubst.obj EnvSubstState.state_subst0 vn nx, r) :=
  ⟨rfl, rfl, rfl⟩

/-- The start of a `${name` construct read in `state_0`. -/
theorem parseAll_open (env : List Char → Option (List Char)) (name : List Char)
    (hn : ∀ c ∈ name, c ≠ '\x7d' ∧ c ≠ ':') (vn : List Char) (nx : EnvSubst)
    (r rest : List Char) :
    EnvSubst.parseAll env (EnvSubst.obj EnvSubstState.state_0 vn nx) r
        ('$' :: '\x7b' :: (name ++ rest))
      = EnvSubst.parseAll env (EnvSubst.obj EnvSubstState.state_bvarname name nx) r rest := by
  rw [parseAll_step env _ _ _ _ _ _ (parse_dollar_brace env vn nx r).1,
    parseAll_step env _ _ _ _ _ _ (parse_dollar_brace env vn nx r).2.1,
    parseAll_append, parseAll_bvarname env name hn [] nx r]
  rfl

/-- While the braces of the default text match, the parser of a `:-` construct
of an unset variable hands every char to the parser of the default text. -/
theorem parseAll_subst (env : List Char → Option (List Char)) (vn : List Char)
    (d : List Char) :
    ∀ (es : EnvSubst) (r : List Char), EnvSubst.bracesMatched env es r d = true →
      EnvSubst.parseAll env (EnvSubst.obj EnvSubstState.state_subst vn es) r d
        = match EnvSubst.parseAll env es r d with
          | Except.error e => Except.error e
          | Except.ok x => Except.ok (EnvSubst.obj EnvSubstState.state_subst vn x.1, x.2) := by
  induction d with
  | nil => intro es r _; rfl
  | cons c rest ih =>
    intro es r hm
    simp only [EnvSubst.bracesMatched, Bool.and_eq_true, Bool.or_eq_true,
      decide_eq_true_eq] at hm
    have hcond : ¬ (c = '\x7d' ∧ EnvSubst.isInBracket es = false) := by
      rintro ⟨h1, h2⟩
      rcases hm.1 with h | h
      · exact h h1
      · rw [h2] at h; exact absurd h (by decide)
    cases hp : EnvSubst.parse env es r c with
    | error e =>
      simp only [EnvSubst.parseAll, EnvSubst.parse, hcond, if_false, hp]
    | ok x =>
      have hm2 := hm.2
      rw [hp] at hm2
      simp only [EnvSubst.parseAll, EnvSubst.parse, hcond, if_false, hp]
      exact ih x.1 x.2 hm2

/-- When `envSubst` returns, its loop has ended outside every brace construct
and `parseEnd` has returned the result. -/
theorem envSubst_ok (env : List Char → Option (List Char)) (str out : List Char)
    (h : envSubst env str = Except.ok out) :
    ∃ es r es1, EnvSubst.parseAll env EnvSubst.new [] str = Except.ok (es, r)
      ∧ EnvSubst.parseEnd env es r = Except.ok (es1, out)
      ∧ EnvSubst.isInBracket es = false := by
  cases hp : EnvSubst.parseAll env EnvSubst.new [] str with
  | error e =>
    simp only [envSubst, hp] at h
    cases e <;> exact absurd h (by simp)
  | ok x =>
    obtain ⟨es, r⟩ := x
    cases he : EnvSubst.parseEnd env es r with
    | error e =>
      simp only [envSubst, hp, he] at h
      cases e <;> exact absurd h (by simp)
    | ok y =>
      obtain ⟨es1, out1⟩ := y
      simp only [envSubst, hp, he, Except.ok.injEq] at h
      refine ⟨es, r, es1, rfl, by rw [he, h], ?_⟩
      cases es with
      | null => rfl
      | obj st vn nx =>
        cases st <;> first | rfl | exact absurd he (by simp [EnvSubst.parseEnd])

/-- The elements of a list after one has been replaced. -/
theorem getElem?_set_cases {α : Type} (l : List α) (i j : Nat) (x : α) :
    (l.set i x)[j]? = if i = j then (l[j]?).map (fun _ => x) else l[j]? := by
  rw [List.getElem?_set']
  rfl

/-- The elements of a list after an element has been appended and replaced. -/
theorem getElem?_snoc_set {α : Type} (l : List α) (j : Nat) (x y : α) :
    ((l ++ [x]).set l.length y)[j]? = if j = l.length then some y else l[j]? := by
  induction l generalizing j with
  | nil => cases j <;> rfl
  | cons a t ih =>
    cases j with
    | zero =>
      simp only [List.cons_append, List.length_cons, List.set_cons_succ,
        List.getElem?_cons_zero]
      rw [if_neg (by omega)]
    | succ j =>
      have h := ih j
      simp only [List.cons_append, List.length_cons, List.set_cons_succ,
        List.getElem?_cons_succ, h, Nat.add_right_cancel_iff]

/-- The number of occurrences of a value after one element has been replaced. -/
theorem count_set_cases {α : Type} [BEq α] (l : List α) (i : Nat) (old x a : α)
    (h : l[i]? = some old) :
    (l.set i x).count a + (if (old == a) = true then 1 else 0)
      = l.count a + (if (x == a) = true then 1 else 0) := by
  induction l generalizing i with
  | nil => simp at h
  | cons b t ih =>
    cases i with
    | zero =>
      simp only [List.getElem?_cons_zero, Option.some.injEq] at h
      subst h
      simp only [List.set_cons_zero, List.count_cons]
      omega
    | succ i =>
      simp only [List.getElem?_cons_succ] at h
      have := ih i h
      simp only [List.set_cons_succ, List.count_cons]
      omega

/-- An element of a list occurs in it. -/
theorem count_pos_of_getElem? {α : Type} [BEq α] [LawfulBEq α] (l : List α) (i : Nat)
    (a : α) (h : l[i]? = some a) : 0 < l.count a := by
  rw [List.count_pos_iff]
  exact List.getElem?_mem h

/-- What `if (_impl) _impl->addRef();` does to the heap. -/
theorem addRefImpl_spec (w : HandleWorld) (impl : Option Nat) :
    (HandleWorld.addRefImpl w impl).handles = w.handles
      ∧ ∀ j, (HandleWorld.addRefImpl w impl).impls[j]?
          = (w.impls[j]?).map
              (fun o => if impl = some j then { o with refs := o.refs + 1 } else o) := by
  cases impl with
  | none =>
    refine ⟨rfl, fun j => ?_⟩
    cases h : w.impls[j]? <;> simp [HandleWorld.addRefImpl, h]
  | some i =>
    cases hi : w.impls[i]? with
    | none =>
      refine ⟨by simp only [HandleWorld.addRefImpl, HandleWorld.addRef, hi], fun j => ?_⟩
      simp only [HandleWorld.addRefImpl, HandleWorld.addRef, hi]
      by_cases e : i = j
      · subst e; simp [hi]
      · cases h : w.impls[j]? <;> simp [e]
    | some o =>
      refine ⟨by simp only [HandleWorld.addRefImpl, HandleWorld.addRef, hi], fun j => ?_⟩
      simp only [HandleWorld.addRefImpl, HandleWorld.addRef, hi, getElem?_set_cases]
      by_cases e : i = j
      · subst e; simp [hi]
      · cases h : w.impls[j]? <;> simp [e]

/-- What `if (_impl && _impl->release() <= 0) delete _impl;` does to the heap. -/
theorem releaseImpl_spec (w : HandleWorld) (impl : Option Nat) :
    (HandleWorld.releaseImpl w impl).handles = w.handles
      ∧ ∀ j, (HandleWorld.releaseImpl w impl).impls[j]?
          = (w.impls[j]?).map
              (fun o => if impl = some j then
                  (if o.refs - 1 ≤ 0 then { refs := o.refs - 1, deleted := o.deleted + 1 }
                   else { o with refs := o.refs - 1 })
                else o) := by
  cases impl with
  | none =>
    refine ⟨rfl, fun j => ?_⟩
    cases h : w.impls[j]? <;> simp [HandleWorld.releaseImpl, h]
  | some i =>
    cases hi : w.impls[i]? with
    | none =>
      have hw : HandleWorld.releaseImpl w (some i) = w := by
        simp [HandleWorld.releaseImpl, HandleWorld.release, HandleWorld.delete, hi]
      rw [hw]
      refine ⟨rfl, fun j => ?_⟩
      by_cases e : i = j
      · subst e; simp [hi]
      · cases h : w.impls[j]? <;> simp [e]
    | some o =>
      have hlt : i < w.impls.length := (List.getElem?_eq_some_iff.mp hi).1
      by_cases hr : o.refs - 1 ≤ 0
      · have hw : HandleWorld.releaseImpl w (some i)
            = { w with impls :=
                  w.impls.set i ({ refs := o.refs - 1, deleted := o.deleted + 1 }) } := by
          simp [HandleWorld.releaseImpl, HandleWorld.release, HandleWorld.delete, hi, hr,
            hlt, List.set_set]
        rw [hw]
        refine ⟨rfl, fun j => ?_⟩
        simp only [getElem?_set_cases]
        by_cases e : i = j
        · subst e
          simp only [hi, Option.map_some', if_true, if_pos hr]
        · cases h : w.impls[j]? <;> simp [e]
      · have hw : HandleWorld.releaseImpl w (some i)
            = { w with impls := w.impls.set i { o with refs := o.refs - 1 } } := by
          simp [HandleWorld.releaseImpl, HandleWorld.release, hi, hr]
        rw [hw]
        refine ⟨rfl, fun j => ?_⟩
        simp only [getElem?_set_cases]
        by_cases e : i = j
        · subst e
          simp only [hi, Option.map_some', if_true, if_neg hr]
        · cases h : w.impls[j]? <;> simp [e]

/-- The invariant of a slot is kept when a handle is added to an object to
which a handle points already and its counter is incremented. -/
theorem counted_addRef (x : Option ImplObject) (k : Nat) (hc : ImplObject.counted x k)
    (hk : 0 < k) :
    ImplObject.counted (x.map (fun o => { o with refs := o.refs + 1 })) (k + 1) := by
  cases x with
  | none =>
    simp only [ImplObject.counted] at hc
    omega
  | some o =>
    simp only [ImplObject.counted, Option.map_some'] at hc ⊢
    refine ⟨?_, hc.2.1, ?_⟩
    · rw [hc.1]; push_cast; ring
    · constructor
      · intro _; omega
      · intro _; exact hc.2.2.mpr hk

/-- The invariant of a slot is kept when a handle is taken from an object, its
counter is decremented, and the object is deleted if the counter is not
positive then. -/
theorem counted_release (x : Option ImplObject) (k : Nat)
    (hc : ImplObject.counted x (k + 1)) :
    ImplObject.counted
      (x.map (fun o => if o.refs - 1 ≤ 0 then
          ({ refs := o.refs - 1, deleted := o.deleted + 1 } : ImplObject)
        else { o with refs := o.refs - 1 })) k := by
  cases x with
  | none =>
    simp only [ImplObject.counted] at hc
    omega
  | some o =>
    simp only [ImplObject.counted, Option.map_some'] at hc ⊢
    have hd : o.deleted = 0 := hc.2.2.mpr (by omega)
    have hr : o.refs - 1 = (k : Int) := by rw [hc.1]; push_cast; ring
    by_cases h : o.refs - 1 ≤ 0
    · rw [if_pos h]
      have hk : k = 0 := by omega
      subst hk
      refine ⟨by simpa using hr, ?_, fun x => absurd x (by simp), fun x => absurd x (by omega)⟩
      show o.deleted + 1 ≤ 1
      omega
    · rw [if_neg h]
      refine ⟨hr, ?_, fun _ => by omega, fun _ => hd⟩
      show o.deleted ≤ 1
      omega

/-- The handles that point to an object, after a handle with a null `_impl`
has been appended. -/
theorem holders_construct (w : HandleWorld) (i : Nat) :
    (HandleWorld.construct w).holders i = w.holders i := by
  simp [HandleWorld.construct, HandleWorld.holders, List.count_append]

/-- The default constructor keeps the invariant. -/
theorem construct_consistent (w : HandleWorld) (hw : w.consistent) :
    (HandleWorld.construct w).consistent := by
  intro i
  rw [holders_construct]
  exact hw i

/-- The function `getImpl` keeps the invariant. -/
theorem getImpl_consistent (w : HandleWorld) (h : Nat) (hw : w.consistent) :
    (HandleWorld.getImpl w h).consistent := by
  unfold HandleWorld.getImpl
  cases hh : w.handles[h]? with
  | none => exact hw
  | some a =>
    cases a with
    | none => exact hw
    | some impl =>
      cases impl with
      | some i => exact hw
      | none =>
        intro j
        have hcount := count_set_cases w.handles h (some none) (some (some w.impls.length))
          (some (some j)) hh
        have hj := hw j
        simp only [HandleWorld.addRef, List.getElem?_concat_length, HandleWorld.holders,
          getElem?_snoc_set]
        simp only [HandleWorld.holders] at hj
        by_cases e : j = w.impls.length
        · subst e
          have hnone : w.impls[w.impls.length]? = none := by simp
          rw [hnone] at hj
          simp only [ImplObject.counted] at hj
          simp only [if_true, ImplObject.counted]
          simp at hcount
          rw [hcount, hj]
          simp
        · rw [if_neg e]
          have e2 : ¬ w.impls.length = j := fun x => e x.symm
          simp [e2] at hcount
          rw [hcount]
          exact hj

/-- The copy constructor keeps the invariant. -/
theorem copyConstruct_consistent (w : HandleWorld) (other : Nat) (hw : w.consistent) :
    (HandleWorld.copyConstruct w other).consistent := by
  unfold HandleWorld.copyConstruct
  cases hh : w.handles[other]? with
  | none => exact hw
  | some a =>
    cases a with
    | none => exact hw
    | some impl =>
      intro j
      have hs := addRefImpl_spec { w with handles := w.handles ++ [some impl] } impl
      have hj := hw j
      simp only [HandleWorld.holders] at hj
      simp only [HandleWorld.holders, hs.1, hs.2, List.count_append, List.count_singleton]
      by_cases e : impl = some j
      · subst e
        have hpos := count_pos_of_getElem? w.handles other (some (some j)) hh
        simpa using counted_addRef _ _ hj hpos
      · have e2 : ¬ (some impl == some (some j)) = true := by simpa using e
        simp only [e, if_false, e2, Nat.add_zero]
        cases hx : w.impls[j]? with
        | none => rw [hx] at hj; exact hj
        | some o => rw [hx] at hj; exact hj

/-- The destructor keeps the invariant. -/
theorem destroy_consistent (w : HandleWorld) (h : Nat) (hw : w.consistent) :
    (HandleWorld.destroy w h).consistent := by
  unfold HandleWorld.destroy
  cases hh : w.handles[h]? with
  | none => exact hw
  | some a =>
    cases a with
    | none => exact hw
    | some impl =>
      intro j
      have hs := releaseImpl_spec w impl
      have hcount := count_set_cases w.handles h (some impl) none (some (some j)) hh
      have hj := hw j
      simp only [HandleWorld.holders] at hj
      simp only [HandleWorld.holders, hs.1, hs.2]
      by_cases e : impl = some j
      · subst e
        simp at hcount
        rw [← hcount] at hj
        simpa using counted_release _ _ hj
      · have e2 : ¬ (some impl == some (some j)) = true := by simpa using e
        simp [e2] at hcount
        rw [hcount]
        simp only [e, if_false]
        cases hx : w.impls[j]? with
        | none => rw [hx] at hj; exact hj
        | some o => rw [hx] at hj; exact hj

/-- The assignment keeps the invariant. -/
theorem assign_consistent (w : HandleWorld) (h other : Nat) (hw : w.consistent) :
    (HandleWorld.assign w h other).consistent := by
  unfold HandleWorld.assign
  cases hh : w.handles[h]? with
  | none => exact hw
  | some a =>
    cases a with
    | none => exact hw
    | some impl =>
      cases ho : w.handles[other]? with
      | none => exact hw
      | some b =>
        cases b with
        | none => exact hw
        | some otherImpl =>
          by_cases heq : impl = otherImpl
          · simp only [heq, if_true]
            exact hw
          · simp only [heq, if_false]
            intro j
            have hr := releaseImpl_spec w impl
            have hs := addRefImpl_spec
              { impls := (HandleWorld.releaseImpl w impl).impls,
                handles := w.handles.set h (some otherImpl) } otherImpl
            rw [hr.1]
            have hcount := count_set_cases w.handles h (some impl) (some otherImpl)
              (some (some j)) hh
            have hj := hw j
            simp only [HandleWorld.holders] at hj
            simp only [HandleWorld.holders, hs.1, hs.2, hr.1, hr.2, Option.map_map]
            by_cases e1 : impl = some j
            · have e2 : ¬ otherImpl = some j := fun x => heq (e1.trans x.symm)
              have e3 : ¬ (some otherImpl == some (some j)) = true := by simpa using e2
              subst e1
              simp [e3] at hcount
              rw [← hcount] at hj
              have := counted_release _ _ hj
              cases hx : w.impls[j]? with
              | none => rw [hx] at this; simpa [e2] using this
              | some o => rw [hx] at this; simpa [e2] using this
            · have e4 : ¬ (some impl == some (some j)) = true := by simpa using e1
              by_cases e2 : otherImpl = some j
              · subst e2
                have hpos := count_pos_of_getElem? w.handles other (some (some j)) ho
                simp [e4] at hcount
                rw [hcount]
                have := counted_addRef _ _ hj hpos
                cases hx : w.impls[j]? with
                | none => rw [hx] at this; simpa [e1] using this
                | some o => rw [hx] at this; simpa [e1] using this
              · have e3 : ¬ (some otherImpl == some (some j)) = true := by simpa using e2
                simp [e3, e4] at hcount
                rw [hcount]
                cases hx : w.impls[j]? with
                | none => rw [hx] at hj; simpa using hj
                | some o => rw [hx] at hj; simpa [e1, e2] using hj

/-- Every call keeps the invariant. -/
theorem step_consistent (w : HandleWorld) (op : HandleOp) (hw : w.consistent) :
    (HandleWorld.step w op).consistent := by
  cases op with
  | construct => exact construct_consistent w hw
  | copyConstruct other => exact copyConstruct_consistent w other hw
  | assign h other => exact assign_consistent w h other hw
  | getImpl h => exact getImpl_consistent w h hw
  | destroy h => exact destroy_consistent w h hw

/-- The invariant holds after every sequence of calls that starts in a state
in which it holds. -/
theorem foldl_step_consistent (ops : List HandleOp) :
    ∀ w : HandleWorld, w.consistent → (ops.foldl HandleWorld.step w).consistent := by
  induction ops with
  | nil => intro w hw; exact hw
  | cons op rest ih => intro w hw; exact ih _ (step_consistent w op hw)

/-- The digits of the table `hex` have the values of their places. -/
theorem hexValue_hex :
    ∀ d, d < 16 → UrlParser.hexValue (QueryParams.hex.getD d '0') = some d := by
  decide

/-- What `appendUrl` appends for a char does not depend on the url so far. -/
theorem appendUrlChar_append (url : List Char) (c : Char) :
    QueryParams.appendUrlChar url c = url ++ QueryParams.appendUrlChar [] c := by
  unfold QueryParams.appendUrlChar
  split
  · rfl
  · split <;> rfl

/-- What `appendUrl` appends for a string does not depend on the url so far,
and is appended char by char. -/
theorem appendUrl_append (s : List Char) :
    ∀ url, QueryParams.appendUrl url s = url ++ QueryParams.appendUrl [] s := by
  induction s with
  | nil => intro url; simp [QueryParams.appendUrl]
  | cons c t ih =>
    intro url
    have h1 : QueryParams.appendUrl url (c :: t)
        = QueryParams.appendUrl (QueryParams.appendUrlChar url c) t := rfl
    have h2 : QueryParams.appendUrl [] (c :: t)
        = QueryParams.appendUrl (QueryParams.appendUrlChar [] c) t := rfl
    rw [h1, h2, ih (QueryParams.appendUrlChar url c), ih (QueryParams.appendUrlChar [] c),
      appendUrlChar_append url c, List.append_assoc]

/-- The text of a string begins with the text of its first char. -/
theorem appendUrl_cons (c : Char) (t : List Char) :
    QueryParams.appendUrl [] (c :: t)
      = QueryParams.appendUrlChar [] c ++ QueryParams.appendUrl [] t := by
  have h2 : QueryParams.appendUrl [] (c :: t)
      = QueryParams.appendUrl (QueryParams.appendUrlChar [] c) t := rfl
  rw [h2, appendUrl_append]

/-- An escape `%XY` read in a key or a value gives the byte with the digits
`X` and `Y`. -/
theorem parse_escape (q : QueryParams) (key value : List Char) (n : Nat) (hn : n < 256) :
    ['%', QueryParams.hex.getD (n / 16 % 16) '0', QueryParams.hex.getD (n % 16) '0'].foldl
        UrlParser.parse (UrlParser.inKey q key)
      = UrlParser.inKey q (key ++ [Char.ofNat n])
    ∧ ['%', QueryParams.hex.getD (n / 16 % 16) '0', QueryParams.hex.getD (n % 16) '0'].foldl
        UrlParser.parse (UrlParser.new q)
      = UrlParser.inKey q [Char.ofNat n]
    ∧ ['%', QueryParams.hex.getD (n / 16 % 16) '0', QueryParams.hex.getD (n % 16) '0'].foldl
        UrlParser.parse (UrlParser.inValue q key value)
      = UrlParser.inValue q key (value ++ [Char.ofNat n]) := by
  have h1 := hexValue_hex (n / 16 % 16) (by omega)
  have h2 := hexValue_hex (n % 16) (by omega)
  have hv : (n / 16 % 16 % 4294967296 * 16 + n % 16) % 4294967296 % 256 = n := by
    omega
  have k1 : UrlParser.parse (UrlParser.inKey q key) '%'
      = { UrlParser.inKey q key with state := UrlParserState.state_keyesc } := rfl
  have k0 : UrlParser.parse (UrlParser.new q) '%'
      = { UrlParser.new q with state := UrlParserState.state_keyesc } := rfl
  have kv : UrlParser.parse (UrlParser.inValue q key value) '%'
      = { UrlParser.inValue q key value with state := UrlParserState.state_valueesc } := rfl
  refine ⟨?_, ?_, ?_⟩
  · simp only [List.foldl_cons, List.foldl_nil, k1]
    simp only [UrlParser.parse, UrlParser.inKey, h1, h2, UrlParser.pushEscaped]
    simp
    rw [hv]
  · simp only [List.foldl_cons, List.foldl_nil, k0]
    simp only [UrlParser.parse, UrlParser.new, UrlParser.inKey, h1, h2, UrlParser.pushEscaped]
    simp
    rw [hv]
  · simp only [List.foldl_cons, List.foldl_nil, kv]
    simp only [UrlParser.parse, UrlParser.inValue, h1, h2, UrlParser.pushEscaped]
    simp
    rw [hv]

/-- The text `appendUrl` writes for a byte, read in a key, at the start of a
parameter, and in a value, gives the byte back. -/
theorem parse_appendUrlChar (q : QueryParams) (key value : List Char) (c : Char)
    (hc : c.toNat < 256) :
    (QueryParams.appendUrlChar [] c).foldl UrlParser.parse (UrlParser.inKey q key)
        = UrlParser.inKey q (key ++ [c])
      ∧ (QueryParams.appendUrlChar [] c).foldl UrlParser.parse (UrlParser.new q)
        = UrlParser.inKey q [c]
      ∧ (QueryParams.appendUrlChar [] c).foldl UrlParser.parse (UrlParser.inValue q key value)
        = UrlParser.inValue q key (value ++ [c]) := by
  unfold QueryParams.appendUrlChar
  by_cases hlit : 32 < c.toNat ∧ c.toNat < 127 ∧ c ≠ '%' ∧ c ≠ '+' ∧ c ≠ '=' ∧ c ≠ '&'
  · rw [if_pos hlit]
    obtain ⟨_, _, h1, h2, h3, h4⟩ := hlit
    simp only [List.nil_append, List.foldl_cons, List.foldl_nil, UrlParser.parse,
      UrlParser.parsePlain, UrlParser.inKey, UrlParser.new, UrlParser.inValue, h1, h2, h3, h4,
      if_false, and_self]
  · rw [if_neg hlit]
    by_cases hsp : c = ' '
    · rw [if_pos hsp, hsp]
      exact ⟨rfl, rfl, rfl⟩
    · rw [if_neg hsp]
      have h := parse_escape q key value c.toNat hc
      rw [Char.ofNat_toNat] at h
      exact h

/-- The text `appendUrl` writes for a string of bytes, read in a key and in a
value, gives the string back. -/
theorem parse_appendUrl (s : List Char) (hs : QueryParams.isBytes s) :
    ∀ (q : QueryParams) (key value : List Char),
      (QueryParams.appendUrl [] s).foldl UrlParser.parse (UrlParser.inKey q key)
          = UrlParser.inKey q (key ++ s)
        ∧ (QueryParams.appendUrl [] s).foldl UrlParser.parse (UrlParser.inValue q key value)
          = UrlParser.inValue q key (value ++ s) := by
  induction s with
  | nil =>
    intro q key value
    simp [QueryParams.appendUrl]
  | cons c t ih =>
    intro q key value
    have hc := hs c (List.mem_cons_self c t)
    have ht : QueryParams.isBytes t := fun d hd => hs d (List.mem_cons_of_mem c hd)
    have hch := parse_appendUrlChar q key value c hc
    rw [appendUrl_cons, List.foldl_append, List.foldl_append, hch.1, hch.2.2,
      (ih ht q (key ++ [c]) value).1, (ih ht q key (value ++ [c])).2]
    simp only [List.append_assoc, List.singleton_append, and_self]

/-- The text `appendUrl` writes for a string of bytes that is not empty, read
at the start of a parameter, gives the string back as the key. -/
theorem parse_appendUrl_start (s : List Char) (hs : QueryParams.isBytes s) (hne : s ≠ [])
    (q : QueryParams) :
    (QueryParams.appendUrl [] s).foldl UrlParser.parse (UrlParser.new q)
      = UrlParser.inKey q s := by
  obtain ⟨c, t, rfl⟩ := List.exists_cons_of_ne_nil hne
  have hc := hs c (List.mem_cons_self c t)
  have ht : QueryParams.isBytes t := fun d hd => hs d (List.mem_cons_of_mem c hd)
  rw [appendUrl_cons, List.foldl_append, (parse_appendUrlChar q [] [] c hc).2.1,
    (parse_appendUrl t ht q [c] []).1]
  rfl

/-- The text of one parameter, read at the start of a parameter, leaves the
parser with the parameter pending; an `&` or the end of the input adds it. -/
theorem parse_urlOf (q : QueryParams) (e : QueryParamsValue) (he : QueryParams.carried e) :
    (QueryParams.urlOf e).foldl UrlParser.parse (UrlParser.new q) = UrlParser.pending q e
      ∧ UrlParser.parse (UrlParser.pending q e) '&'
        = UrlParser.new { values := q.values ++ [e] }
      ∧ (UrlParser.finish (UrlParser.pending q e)).q = { values := q.values ++ [e] } := by
  obtain ⟨n, v⟩ := e
  obtain ⟨hn, hv, hu⟩ := he
  by_cases h : n = []
  · subst h
    have hv1 : v ≠ [] := hu rfl
    refine ⟨?_, ?_, ?_⟩
    · simp only [QueryParams.urlOf, ne_eq, not_true_eq_false, if_false, List.nil_append,
        UrlParser.pending, if_true]
      exact parse_appendUrl_start v hv hv1 q
    · rfl
    · simp only [UrlParser.pending, if_true, UrlParser.finish, UrlParser.inKey, ne_eq, hv1,
        not_false_eq_true, QueryParams.addUnnamed]
  · refine ⟨?_, ?_, ?_⟩
    · have hk : UrlParser.parse (UrlParser.inKey q n) '=' = UrlParser.inValue q n [] := rfl
      simp only [QueryParams.urlOf, ne_eq, h, not_false_eq_true, if_true, UrlParser.pending,
        if_false, List.foldl_append, List.foldl_cons, List.foldl_nil]
      rw [parse_appendUrl_start n hn h q, hk, (parse_appendUrl v hv q n []).2]
      rfl
    · simp only [UrlParser.pending, h, if_false]
      rfl
    · simp only [UrlParser.pending, h, if_false]
      rfl

/-- The url of `getUrl` after the first parameter: each further parameter is
written after an `&`. -/
theorem getUrlFrom_rest (es : List QueryParamsValue) :
    ∀ url, QueryParams.getUrlFrom url false es = url ++ QueryParams.urlOfRest es := by
  induction es with
  | nil => intro url; simp [QueryParams.getUrlFrom, QueryParams.urlOfRest]
  | cons e rest ih =>
    intro url
    have hrest : QueryParams.urlOfRest (e :: rest)
        = '&' :: QueryParams.urlOf e ++ QueryParams.urlOfRest rest := by
      simp [QueryParams.urlOfRest]
    rw [hrest]
    by_cases h : e.name = []
    · simp only [QueryParams.getUrlFrom, Bool.false_eq_true, if_false, ne_eq, h,
        not_true_eq_false, ih, QueryParams.urlOf, List.nil_append]
      rw [appendUrl_append]
      simp only [List.append_assoc, List.singleton_append, List.cons_append, List.nil_append]
    · simp only [QueryParams.getUrlFrom, Bool.false_eq_true, if_false, ne_eq, h,
        not_false_eq_true, if_true, ih, QueryParams.urlOf]
      rw [appendUrl_append, appendUrl_append (e.name)]
      simp only [List.append_assoc, List.singleton_append, List.cons_append, List.nil_append]

/-- The url of `getUrl`: the first parameter, then each further parameter after
an `&`. -/
theorem getUrl_cons (e : QueryParamsValue) (rest : List QueryParamsValue) :
    QueryParams.getUrl { values := e :: rest }
      = QueryParams.urlOf e ++ QueryParams.urlOfRest rest := by
  by_cases h : e.name = []
  · simp only [QueryParams.getUrl, QueryParams.getUrlFrom, if_true, ne_eq, h,
      not_true_eq_false, if_false, getUrlFrom_rest, QueryParams.urlOf, List.nil_append]
  · simp only [QueryParams.getUrl, QueryParams.getUrlFrom, if_true, ne_eq, h,
      not_false_eq_true, getUrlFrom_rest, QueryParams.urlOf]
    rw [appendUrl_append]

/-- The parameters written after the first are read back, after the one that
is pending. -/
theorem parse_urlOfRest (rest : List QueryParamsValue)
    (hr : ∀ e ∈ rest, QueryParams.carried e) :
    ∀ (q : QueryParams) (e : QueryParamsValue), QueryParams.carried e →
      (UrlParser.finish
          ((QueryParams.urlOfRest rest).foldl UrlParser.parse (UrlParser.pending q e))).q
        = { values := q.values ++ e :: rest } := by
  induction rest with
  | nil =>
    intro q e he
    simp only [QueryParams.urlOfRest, List.map_nil, List.flatten_nil, List.foldl_nil]
    exact (parse_urlOf q e he).2.2
  | cons e1 rest ih =>
    intro q e he
    have hrest : QueryParams.urlOfRest (e1 :: rest)
        = '&' :: QueryParams.urlOf e1 ++ QueryParams.urlOfRest rest := by
      simp [QueryParams.urlOfRest]
    have he1 := hr e1 (List.mem_cons_self e1 rest)
    rw [hrest]
    simp only [List.cons_append, List.foldl_cons, List.foldl_append]
    rw [(parse_urlOf q e he).2.1, (parse_urlOf _ e1 he1).1,
      ih (fun x hx => hr x (List.mem_cons_of_mem e1 hx)) _ e1 he1]
    simp only [List.append_assoc, List.singleton_append]

/-- The index that stands for the pointer of `findMember` is the index of the
child `findMember` returns. -/
theorem firstNamedIndex_spec (name : String) (ns : List SerializationInfo) :
    (SerializationInfo.firstNamedIndex name ns).bind (fun i => ns[i]?)
        = SerializationInfo.firstNamed name ns
      ∧ (∀ i, SerializationInfo.firstNamedIndex name ns = some i → ∃ c, ns[i]? = some c) := by
  induction ns with
  | nil => exact ⟨rfl, fun i h => absurd h (by simp [SerializationInfo.firstNamedIndex])⟩
  | cons c rest ih =>
    cases h : (c.name == name) with
    | true =>
      simp only [SerializationInfo.firstNamedIndex, SerializationInfo.firstNamed, h, if_true,
        Option.some_bind, List.getElem?_cons_zero, Option.some.injEq, true_and]
      intro i hi
      exact ⟨c, by rw [← hi, List.getElem?_cons_zero]⟩
    | false =>
      simp only [SerializationInfo.firstNamedIndex, SerializationInfo.firstNamed, h,
        Bool.false_eq_true, if_false]
      refine ⟨?_, fun i hi => ?_⟩
      · rw [← ih.1]
        cases SerializationInfo.firstNamedIndex name rest with
        | none => rfl
        | some j =>
          simp only [Option.map_some', Option.some_bind, List.getElem?_cons_succ]
      · cases hx : SerializationInfo.firstNamedIndex name rest with
        | none => rw [hx] at hi; exact absurd hi (by simp)
        | some j =>
          rw [hx] at hi
          simp only [Option.map_some', Option.some.injEq] at hi
          obtain ⟨d, hd⟩ := ih.2 j hx
          exact ⟨d, by rw [← hi, List.getElem?_cons_succ]; exact hd⟩

/-- The children of a node whose pointer `_nodes` has been replaced. -/
theorem withNodes_nodes (si : SerializationInfo) (ns : List SerializationInfo) :
    (SerializationInfo.withNodes si (some ns)).nodes = ns
      ∧ SerializationInfo.withNodes (SerializationInfo.withNodes si (some ns)) (some ns)
        = SerializationInfo.withNodes si (some ns)
      ∧ (∀ ms, SerializationInfo.withNodes (SerializationInfo.withNodes si (some ns)) (some ms)
        = SerializationInfo.withNodes si (some ms)) := by
  obtain ⟨c, n, t, v, x⟩ := si
  exact ⟨rfl, rfl, fun _ => rfl⟩

/-- A change at the end of a path that is extended by a child index is the
change of that child at the end of the path. -/
theorem updateAt_snoc (f : SerializationInfo → SerializationInfo) (i : Nat) (p : List Nat) :
    ∀ r, SerializationInfo.updateAt f (p ++ [i]) r
      = SerializationInfo.updateAt (SerializationInfo.updateAt f [i]) p r := by
  induction p with
  | nil => intro r; rfl
  | cons j rest ih =>
    intro r
    show SerializationInfo.updateAt f (j :: (rest ++ [i])) r = _
    cases h : r.nodes[j]? with
    | none => simp only [SerializationInfo.updateAt, h]
    | some c => simp only [SerializationInfo.updateAt, h, ih]

/-- Two changes, one after the other, at the end of the same path. -/
theorem updateAt_updateAt (g h : SerializationInfo → SerializationInfo) (p : List Nat) :
    ∀ r, SerializationInfo.updateAt g p (SerializationInfo.updateAt h p r)
      = SerializationInfo.updateAt (fun c => g (h c)) p r := by
  induction p with
  | nil => intro r; rfl
  | cons j rest ih =>
    intro r
    cases hj : r.nodes[j]? with
    | none => simp only [SerializationInfo.updateAt, hj]
    | some c =>
      have hlt : j < r.nodes.length := (List.getElem?_eq_some_iff.mp hj).1
      simp only [SerializationInfo.updateAt, hj, (withNodes_nodes _ _).1,
        List.getElem?_set_self hlt, List.set_set, (withNodes_nodes r _).2.2, ih]

/-- A change at the end of a path depends only on what it does to the node
there. -/
theorem updateAt_congr (g h : SerializationInfo → SerializationInfo) (p : List Nat) :
    ∀ r, (∀ c, SerializationInfo.nodeAt p r = some c → g c = h c) →
      SerializationInfo.updateAt g p r = SerializationInfo.updateAt h p r := by
  induction p with
  | nil => intro r hr; exact hr r rfl
  | cons j rest ih =>
    intro r hr
    cases hj : r.nodes[j]? with
    | none => simp only [SerializationInfo.updateAt, hj]
    | some c =>
      simp only [SerializationInfo.updateAt, hj]
      rw [ih c (fun d hd => hr d (by simp only [SerializationInfo.nodeAt, hj]; exact hd))]

/-- The node at the end of a path after a change there, and the node at the
end of a path extended by a child index. -/
theorem nodeAt_updateAt (h : SerializationInfo → SerializationInfo) (p : List Nat) :
    ∀ r, SerializationInfo.nodeAt p (SerializationInfo.updateAt h p r)
        = (SerializationInfo.nodeAt p r).map h := by
  induction p with
  | nil => intro r; rfl
  | cons j rest ih =>
    intro r
    cases hj : r.nodes[j]? with
    | none => simp only [SerializationInfo.updateAt, SerializationInfo.nodeAt, hj, Option.map_none']
    | some c =>
      have hlt : j < r.nodes.length := (List.getElem?_eq_some_iff.mp hj).1
      simp only [SerializationInfo.updateAt, SerializationInfo.nodeAt, hj,
        (withNodes_nodes _ _).1, List.getElem?_set_self hlt, ih]

/-- The node at the end of a path extended by a child index. -/
theorem nodeAt_snoc (i : Nat) (p : List Nat) :
    ∀ r, SerializationInfo.nodeAt (p ++ [i]) r
      = (SerializationInfo.nodeAt p r).bind (fun c => c.nodes[i]?) := by
  induction p with
  | nil =>
    intro r
    show SerializationInfo.nodeAt [i] r = _
    cases h : r.nodes[i]? <;> simp [SerializationInfo.nodeAt, h]
  | cons j rest ih =>
    intro r
    show SerializationInfo.nodeAt (j :: (rest ++ [i])) r = _
    cases hj : r.nodes[j]? with
    | none => simp only [SerializationInfo.nodeAt, hj, Option.none_bind]
    | some c => simp only [SerializationInfo.nodeAt, hj, ih]

/-- The loop over a name, over two strings one after the other. -/
theorem scan_append (a : List Char) :
    ∀ (s : NameScan) (b : List Char),
      NameScan.scan s (a ++ b)
        = match NameScan.scan s a with
          | Except.error e => Except.error e
          | Except.ok s1 => NameScan.scan s1 b := by
  induction a with
  | nil => intro s b; rfl
  | cons c rest ih =>
    intro s b
    show NameScan.scan s (c :: (rest ++ b)) = _
    cases h : NameScan.step s c with
    | error e => simp only [NameScan.scan, h]
    | ok s1 => simp only [NameScan.scan, h, ih]

/-- In `state_0` the chars before a `[` are collected in `nodename`. -/
theorem scan_base (base : List Char) (hb : ∀ x ∈ base, x ≠ '[') :
    ∀ s : NameScan, s.state = NameScanState.state_0 →
      NameScan.scan s base = Except.ok { s with nodename := s.nodename ++ base } := by
  induction base with
  | nil => intro s _; simp only [NameScan.scan, List.append_nil]
  | cons c rest ih =>
    intro s hs
    have hc := hb c (List.mem_cons_self c rest)
    simp only [NameScan.scan, NameScan.step, hs, hc, if_false]
    rw [ih (fun x hx => hb x (List.mem_cons_of_mem c hx))
      { root := s.root, current := s.current, state := NameScanState.state_0,
        nodename := s.nodename ++ [c] } rfl]
    simp only [List.append_assoc, List.singleton_append]

/-- In `state_key` the chars before a `]` are collected in `nodename`. -/
theorem scan_key (k : List Char) (hk : ∀ x ∈ k, x ≠ ']') :
    ∀ s : NameScan, s.state = NameScanState.state_key →
      NameScan.scan s k = Except.ok { s with nodename := s.nodename ++ k } := by
  induction k with
  | nil => intro s _; simp only [NameScan.scan, List.append_nil]
  | cons c rest ih =>
    intro s hs
    have hc := hk c (List.mem_cons_self c rest)
    simp only [NameScan.scan, NameScan.step, hs, hc, if_false]
    rw [ih (fun x hx => hk x (List.mem_cons_of_mem c hx))
      { root := s.root, current := s.current, state := NameScanState.state_key,
        nodename := s.nodename ++ [c] } rfl]
    simp only [List.append_assoc, List.singleton_append]

/-- The fields `nodename` and `state` after the statements at a `[`. -/
theorem descend_fields (s : NameScan) :
    (NameScan.descend s).nodename = [] ∧ (NameScan.descend s).state = NameScanState.state_key := by
  unfold NameScan.descend
  split
  · exact ⟨rfl, rfl⟩
  · split <;> exact ⟨rfl, rfl⟩

/-- A key in brackets, read in `state_0` or in `state_keyend`: the loop goes to
the member named by `nodename` and has the key in `nodename` then. -/
theorem scan_group (k : List Char) (hk : ∀ x ∈ k, x ≠ ']') (s : NameScan)
    (hs : s.state = NameScanState.state_0 ∨ s.state = NameScanState.state_keyend) :
    NameScan.scan s ('[' :: (k ++ [']']))
      = Except.ok { NameScan.descend s with nodename := k,
                                            state := NameScanState.state_keyend } := by
  have hstep : NameScan.step s '[' = Except.ok (NameScan.descend s) := by
    rcases hs with h | h <;> simp only [NameScan.step, h, if_true]
  have hd := descend_fields s
  have hclose : ∀ t : NameScan, t.state = NameScanState.state_key →
      NameScan.step t ']' = Except.ok { t with state := NameScanState.state_keyend } := by
    intro t ht
    simp only [NameScan.step, ht, if_true]
  simp only [NameScan.scan, hstep]
  rw [scan_append, scan_key k hk _ hd.2]
  simp only [NameScan.scan, hd.1, List.nil_append]
  rw [hclose { root := (NameScan.descend s).root, current := (NameScan.descend s).current,
               state := (NameScan.descend s).state, nodename := k } hd.2]

/-- The statements at a `[`, when the node has a member of the name and when
it has none. -/
theorem descend_cases (s : NameScan) (c : SerializationInfo)
    (hc : SerializationInfo.nodeAt s.current s.root = some c) :
    (∀ i, SerializationInfo.firstNamedIndex (String.mk s.nodename) c.nodes = some i →
        NameScan.descend s
          = { s with current := s.current ++ [i], nodename := [],
                     state := NameScanState.state_key })
      ∧ (SerializationInfo.firstNamedIndex (String.mk s.nodename) c.nodes = none →
        NameScan.descend s
          = { root := SerializationInfo.updateAt
                        (fun n => (n.addMember (String.mk s.nodename)).1) s.current s.root,
              current := s.current ++ [c.nodes.length],
              nodename := [], state := NameScanState.state_key }) := by
  refine ⟨fun i hi => ?_, fun hi => ?_⟩
  · simp only [NameScan.descend, hc, hi]
  · simp only [NameScan.descend, hc, hi]

/-- A change at the node to which the statements at a `[` go is, seen from the
node where they start, the change of the first member of the name, or of a
member appended for the name when there is none. -/
theorem descend_update (G : SerializationInfo → SerializationInfo) (s : NameScan)
    (c : SerializationInfo) (hc : SerializationInfo.nodeAt s.current s.root = some c) :
    SerializationInfo.updateAt G (NameScan.descend s).current (NameScan.descend s).root
        = SerializationInfo.updateAt
            (fun n =>
              match SerializationInfo.firstNamedIndex (String.mk s.nodename) n.nodes with
              | some i => SerializationInfo.updateAt G [i] n
              | none => SerializationInfo.updateAt G [n.nodes.length]
                  (n.addMember (String.mk s.nodename)).1)
            s.current s.root
      ∧ ∃ c1, SerializationInfo.nodeAt (NameScan.descend s).current (NameScan.descend s).root
          = some c1 := by
  cases hi : SerializationInfo.firstNamedIndex (String.mk s.nodename) c.nodes with
  | some i =>
    rw [(descend_cases s c hc).1 i hi]
    refine ⟨?_, ?_⟩
    · show SerializationInfo.updateAt G (s.current ++ [i]) s.root = _
      rw [updateAt_snoc]
      refine updateAt_congr _ _ _ _ (fun d hd => ?_)
      rw [hc] at hd
      injection hd with hd
      subst hd
      simp only [hi]
    · show ∃ c1, SerializationInfo.nodeAt (s.current ++ [i]) s.root = some c1
      rw [nodeAt_snoc, hc]
      exact (firstNamedIndex_spec _ _).2 i hi
  | none =>
    rw [(descend_cases s c hc).2 hi]
    refine ⟨?_, ?_⟩
    · show SerializationInfo.updateAt G (s.current ++ [c.nodes.length])
        (SerializationInfo.updateAt (fun n => (n.addMember (String.mk s.nodename)).1)
          s.current s.root) = _
      rw [updateAt_snoc, updateAt_updateAt]
      refine updateAt_congr _ _ _ _ (fun d hd => ?_)
      rw [hc] at hd
      injection hd with hd
      subst hd
      simp only [hi]
    · show ∃ c1, SerializationInfo.nodeAt (s.current ++ [c.nodes.length])
        (SerializationInfo.updateAt (fun n => (n.addMember (String.mk s.nodename)).1)
          s.current s.root) = some c1
      rw [nodeAt_snoc, nodeAt_updateAt, hc]
      simp only [Option.map_some', Option.some_bind, (addMember_nodes c _).1,
        List.getElem?_concat_length]
      exact ⟨_, rfl⟩

/-- The text `[k1]...[kn]` begins with its first key in brackets. -/
theorem bracketGroups_cons (k : List Char) (ks : List (List Char)) :
    QueryParams.bracketGroups (k :: ks)
      = '[' :: (k ++ [']']) ++ QueryParams.bracketGroups ks := by
  simp [QueryParams.bracketGroups]

/-- The keys in brackets, read in `state_0` or in `state_keyend`: the member
appended by the statement after the loop is the leaf at the end of the path
of the names read. -/
theorem scan_groups (f : SerializationInfo → SerializationInfo) (keys : List (List Char))
    (hk : ∀ k ∈ keys, ∀ x ∈ k, x ≠ ']') :
    ∀ (s : NameScan) (c : SerializationInfo),
      (s.state = NameScanState.state_0 ∨ s.state = NameScanState.state_keyend) →
      SerializationInfo.nodeAt s.current s.root = some c →
      ∃ s1, NameScan.scan s (QueryParams.bracketGroups keys) = Except.ok s1
        ∧ (keys ≠ [] → s1.state = NameScanState.state_keyend)
        ∧ SerializationInfo.updateAt
              (fun n => n.addMemberWith (String.mk s1.nodename) f) s1.current s1.root
            = SerializationInfo.updateAt
                (SerializationInfo.insertLeaf
                  (String.mk ((s.nodename :: keys).getLast (List.cons_ne_nil _ _))) f
                  ((s.nodename :: keys).dropLast.map String.mk))
                s.current s.root := by
  induction keys with
  | nil =>
    intro s c _ _
    refine ⟨s, rfl, fun h => absurd rfl h, ?_⟩
    exact updateAt_congr _ _ _ _ (fun d _ => rfl)
  | cons k ks ih =>
    intro s c hs hc
    have hk1 := hk k (List.mem_cons_self k ks)
    have hks : ∀ k2 ∈ ks, ∀ x ∈ k2, x ≠ ']' := fun k2 h2 => hk k2 (List.mem_cons_of_mem k h2)
    obtain ⟨c1, hc1⟩ := (descend_update (fun n => n) s c hc).2
    obtain ⟨s1, h1, h2, h3⟩ := ih hks
      { NameScan.descend s with nodename := k, state := NameScanState.state_keyend } c1
      (Or.inr rfl) hc1
    refine ⟨s1, ?_, fun _ => ?_, ?_⟩
    · rw [bracketGroups_cons, scan_append, scan_group k hk1 s hs]
      exact h1
    · cases ks with
      | nil =>
        simp only [QueryParams.bracketGroups, List.map_nil, List.flatten_nil, NameScan.scan,
          Except.ok.injEq] at h1
        rw [← h1]
      | cons k2 ks2 => exact h2 (List.cons_ne_nil _ _)
    · rw [h3]
      have hd := (descend_update
        (SerializationInfo.insertLeaf
          (String.mk ((k :: ks).getLast (List.cons_ne_nil _ _))) f
          ((k :: ks).dropLast.map String.mk)) s c hc).1
      refine hd.trans (updateAt_congr _ _ _ _ (fun d _ => ?_))
      simp only [List.getLast_cons (List.cons_ne_nil k ks), List.dropLast_cons₂, List.map_cons,
        SerializationInfo.insertLeaf]

/-- The loop over a name throws nothing but the `SerializationError` for a
missing `[`. -/
theorem scan_error_kind (name : List Char) :
    ∀ (s : NameScan) (e : QueryConvertError), NameScan.scan s name = Except.error e →
      e = QueryConvertError.serializationError "'[' expected in query parameters" := by
  induction name with
  | nil => intro s e h; exact absurd h (by simp [NameScan.scan])
  | cons ch t ih =>
    intro s e h
    cases hst : NameScan.step s ch with
    | ok s1 =>
      simp only [NameScan.scan, hst] at h
      exact ih s1 e h
    | error x =>
      simp only [NameScan.scan, hst, Except.error.injEq] at h
      subst h
      unfold NameScan.step at hst
      cases hs : s.state <;> simp only [hs] at hst <;> split at hst <;>
        first
          | (injection hst with hst; exact hst.symm)
          | (injection hst)

/-- When the loop over a name throws, the name has a closing bracket that is
followed by a char other than `[`: what this says of the rest of the name in
each of the three states. -/
theorem scan_error_shape (name : List Char) :
    ∀ (s : NameScan) (e : QueryConvertError), NameScan.scan s name = Except.error e →
      (s.state = NameScanState.state_0 →
        ∃ base keys c rest, keys ≠ []
          ∧ name = base ++ QueryParams.bracketGroups keys ++ c :: rest
          ∧ (∀ x ∈ base, x ≠ '[') ∧ (∀ k ∈ keys, ∀ x ∈ k, x ≠ ']') ∧ c ≠ '[')
      ∧ (s.state = NameScanState.state_key →
        ∃ k keys c rest, name = k ++ ']' :: (QueryParams.bracketGroups keys ++ c :: rest)
          ∧ (∀ x ∈ k, x ≠ ']') ∧ (∀ k ∈ keys, ∀ x ∈ k, x ≠ ']') ∧ c ≠ '[')
      ∧ (s.state = NameScanState.state_keyend →
        ∃ keys c rest, name = QueryParams.bracketGroups keys ++ c :: rest
          ∧ (∀ k ∈ keys, ∀ x ∈ k, x ≠ ']') ∧ c ≠ '[') := by
  induction name with
  | nil => intro s e h; exact absurd h (by simp [NameScan.scan])
  | cons ch t ih =>
    intro s e h
    have hgroup : ∀ s1 : NameScan, s1.state = NameScanState.state_key →
        NameScan.scan s1 t = Except.error e →
        ∃ keys c rest, '[' :: t = QueryParams.bracketGroups keys ++ c :: rest ∧ keys ≠ []
          ∧ (∀ k ∈ keys, ∀ x ∈ k, x ≠ ']') ∧ c ≠ '[' := by
      intro s1 hs1 h1
      obtain ⟨k, keys, c, rest, hn, hk, hks, hc⟩ := (ih s1 e h1).2.1 hs1
      refine ⟨k :: keys, c, rest, ?_, List.cons_ne_nil _ _, ?_, hc⟩
      · rw [bracketGroups_cons, hn]
        simp only [List.cons_append, List.append_assoc, List.singleton_append,
          List.nil_append]
      · intro k2 h2
        rcases List.mem_cons.mp h2 with h2 | h2
        · rw [h2]; exact hk
        · exact hks k2 h2
    refine ⟨fun hs => ?_, fun hs => ?_, fun hs => ?_⟩
    · by_cases hb : ch = '['
      · have hst : NameScan.step s ch = Except.ok (NameScan.descend s) := by
          simp only [NameScan.step, hs, hb, if_true]
        simp only [NameScan.scan, hst] at h
        obtain ⟨keys, c, rest, hn, hne, hks, hc⟩ := hgroup _ (descend_fields s).2 h
        refine ⟨[], keys, c, rest, hne, ?_, fun x hx => absurd hx (by simp), hks, hc⟩
        rw [hb, hn]
        rfl
      · have hst : NameScan.step s ch
            = Except.ok { s with nodename := s.nodename ++ [ch] } := by
          simp only [NameScan.step, hs, hb, if_false]
        simp only [NameScan.scan, hst] at h
        obtain ⟨base, keys, c, rest, hne, hn, hbase, hks, hc⟩ := (ih _ e h).1 hs
        refine ⟨ch :: base, keys, c, rest, hne, ?_, ?_, hks, hc⟩
        · rw [hn]; rfl
        · intro x hx
          rcases List.mem_cons.mp hx with hx | hx
          · rw [hx]; exact hb
          · exact hbase x hx
    · by_cases hb : ch = ']'
      · have hst : NameScan.step s ch
            = Except.ok { s with state := NameScanState.state_keyend } := by
          simp only [NameScan.step, hs, hb, if_true]
        simp only [NameScan.scan, hst] at h
        obtain ⟨keys, c, rest, hn, hks, hc⟩ := (ih _ e h).2.2 rfl
        refine ⟨[], keys, c, rest, ?_, fun x hx => absurd hx (by simp), hks, hc⟩
        rw [hb, hn]
        rfl
      · have hst : NameScan.step s ch
            = Except.ok { s with nodename := s.nodename ++ [ch] } := by
          simp only [NameScan.step, hs, hb, if_false]
        simp only [NameScan.scan, hst] at h
        obtain ⟨k, keys, c, rest, hn, hk, hks, hc⟩ := (ih _ e h).2.1 hs
        refine ⟨ch :: k, keys, c, rest, ?_, ?_, hks, hc⟩
        · rw [hn]; rfl
        · intro x hx
          rcases List.mem_cons.mp hx with hx | hx
          · rw [hx]; exact hb
          · exact hk x hx
    · by_cases hb : ch = '['
      · have hst : NameScan.step s ch = Except.ok (NameScan.descend s) := by
          simp only [NameScan.step, hs, hb, if_true]
        simp only [NameScan.scan, hst] at h
        obtain ⟨keys, c, rest, hn, _, hks, hc⟩ := hgroup _ (descend_fields s).2 h
        exact ⟨keys, c, rest, by rw [hb, hn], hks, hc⟩
      · exact ⟨[], ch, t, rfl, fun k hk => absurd hk (by simp), hb⟩
/-- C11 (amended): when flushing the request over an already connected socket
fails during `call`, the failure is not surfaced: whichever exception the
flush threw, `call` closes the socket and goes on to reconnect and to
serialize and send the request again. If the reconnect fails, its exception
is what the caller sees; if reconnect and second flush succeed and the reply
completes, `call` returns normally, connected, with the request counter
advanced by two. In every case the request is serialized at most twice. -/
theorem call_flush_failure_reconnects (s : RpcClientImpl) (method : IRemoteProcedure)
    (argv : List IDecomposer) (env : RpcClientImpl.CallEnv) (e : Exn)
    (hc : s.connected = true) (hf : env.flush = Except.error e) :
    (∀ e1, RpcClientImpl.call s method argv { env with flush := Except.error e1 }
        = RpcClientImpl.call s method argv env)
    ∧ (∀ e1, env.connect = Except.error e1 →
        (RpcClientImpl.call s method argv env).1 = Except.error e1
        ∧ (RpcClientImpl.call s method argv env).2.count = s.count + 1)
    ∧ (∀ front x rest, env.connect = Except.ok () → env.reflush = Except.ok () →
        (∀ y ∈ front, y.2 = RpcClientImpl.Advance.more) →
        env.reply = front ++ (x, RpcClientImpl.Advance.complete) :: rest →
        (RpcClientImpl.call s method argv env).1 = Except.ok ()
        ∧ (RpcClientImpl.call s method argv env).2.connected = true
        ∧ (RpcClientImpl.call s method argv env).2.count = s.count + 2)
    ∧ (RpcClientImpl.call s method argv env).2.count ≤ s.count + 2 := by
  have hcc : ∀ env1 : RpcClientImpl.CallEnv, ∀ e1, env1.flush = Except.error e1 →
      RpcClientImpl.callConnected { s with proc := some method } method.name argv env1
        = RpcClientImpl.socketClose
            { RpcClientImpl.prepareRequest { s with proc := some method } method.name argv with
              socketTimeout := s.timeout } := by
    intro env1 e1 h1
    simp only [RpcClientImpl.callConnected, hc, if_true, h1]
    rfl
  refine ⟨?_, ?_, ?_, ?_⟩
  · intro e1
    simp only [RpcClientImpl.call]
    rw [hcc env e hf, hcc { env with flush := Except.error e1 } e1 rfl]
  · intro e1 hconn
    simp only [RpcClientImpl.call]
    rw [hcc env e hf]
    simp only [RpcClientImpl.socketClose, hconn, if_true]
    exact ⟨(callCatch_discarded _ e1).1, (callCatch_discarded _ e1).2.2⟩
  · intro front x rest hconn hre hfront hreply
    simp only [RpcClientImpl.call]
    rw [hcc env e hf]
    simp only [RpcClientImpl.socketClose, hconn, hre, if_true, hreply]
    rw [callLoop_complete _ front x rest hfront]
    exact ⟨rfl, rfl, rfl⟩
  · simp only [RpcClientImpl.call]
    rw [hcc env e hf]
    simp only [RpcClientImpl.socketClose, if_true]
    cases env.connect with
    | error e1 =>
      simp only
      rw [(callCatch_discarded _ e1).2.2]
      simp [RpcClientImpl.prepareRequest]
    | ok u =>
      simp only
      cases env.reflush with
      | error e1 =>
        simp only
        rw [(callCatch_discarded _ e1).2.2]
        simp [RpcClientImpl.prepareRequest]
      | ok u1 =>
        simp only
        rw [(callLoop_discarded _ env.reply).2]
        simp [RpcClientImpl.prepareRequest, RpcClientImpl.pubsync]

/-- Witness for C11: a connected engine calls over a connection that has
gone stale. -/
theorem call_flush_failure_reconnects_witness :
    (RpcClientImpl.call connectedEngine { handle := 1, name := "add" } [] stalePeer).1
      = Except.ok ()
    ∧ (RpcClientImpl.call connectedEngine { handle := 1, name := "add" } []
        stalePeer).2.connected = true
    ∧ (RpcClientImpl.call connectedEngine { handle := 1, name := "add" } []
        stalePeer).2.count = connectedEngine.count + 2 :=
  (call_flush_failure_reconnects connectedEngine { handle := 1, name := "add" } [] stalePeer
    Exn.ioError rfl rfl).2.2.1 [('r', RpcClientImpl.Advance.more)] '.' [] rfl rfl
    (by decide) rfl

/-- C11 (counterexample): flushing the request over the connected socket
fails, and `call` neither fails nor leaves it at one request: it returns
normally, over a new connection, having serialized two requests (ids 1 and 2)
within the one invocation. -/
theorem call_retries_after_flush_failure :
    connectedEngine.connected = true
    ∧ stalePeer.flush = Except.error Exn.ioError
    ∧ (RpcClientImpl.call connectedEngine { handle := 1, name := "add" } [] stalePeer).1
      = Except.ok ()
    ∧ (RpcClientImpl.call connectedEngine { handle := 1, name := "add" } []
        stalePeer).2.count = 2
    ∧ FmtCall.addValueInt "id" "int" 2 ∈
        (RpcClientImpl.call connectedEngine { handle := 1, name := "add" } []
          stalePeer).2.sent := by
  refine ⟨rfl, rfl, rfl, rfl, ?_⟩
  decide
/-- C12: when `call` fails with an exception other than a remote one, the
connection has been discarded by the time the exception reaches the caller:
the socket is closed, the stream is cleared and its buffers are empty, and no
procedure is active. In particular, when the stream ends before the reply is
complete, the reply loop fails with a runtime error after `cancel()`. -/
theorem call_transport_failure_discards (s : RpcClientImpl) (method : IRemoteProcedure)
    (argv : List IDecomposer) (env : RpcClientImpl.CallEnv) :
    (∀ e, (RpcClientImpl.call s method argv env).1 = Except.error e →
      e ≠ Exn.remoteException → discarded (RpcClientImpl.call s method argv env).2)
    ∧ (∀ (t : RpcClientImpl) (front : List (Char × RpcClientImpl.Advance)),
      (∀ y ∈ front, y.2 = RpcClientImpl.Advance.more) →
      RpcClientImpl.callLoop t front
        = (Except.error Exn.runtimeError, RpcClientImpl.cancel t)
      ∧ discarded (RpcClientImpl.cancel t)) := by
  refine ⟨?_, fun t front h => ⟨callLoop_eof t front h, cancel_discarded t⟩⟩
  intro e he hne
  simp only [RpcClientImpl.call] at he ⊢
  split at he
  · next hnc =>
    rw [if_pos hnc]
    cases hconn : env.connect with
    | error e1 =>
      rw [hconn] at he
      simp only at he ⊢
      rw [(callCatch_discarded _ e1).1] at he
      injection he with he
      subst he
      exact (callCatch_discarded _ e1).2.1 hne
    | ok u =>
      rw [hconn] at he
      simp only at he ⊢
      cases hre : env.reflush with
      | error e1 =>
        rw [hre] at he
        simp only at he ⊢
        rw [(callCatch_discarded _ e1).1] at he
        injection he with he
        subst he
        exact (callCatch_discarded _ e1).2.1 hne
      | ok u1 =>
        rw [hre] at he
        simp only at he ⊢
        exact (callLoop_discarded _ env.reply).1 e he hne
  · next hnc =>
    rw [if_neg hnc]
    exact (callLoop_discarded _ env.reply).1 e he hne

/-- Witness for C12: the peer closes the connection before the reply is
complete. -/
theorem call_transport_failure_discards_witness :
    (RpcClientImpl.call connectedEngine { handle := 1, name := "add" } [] silentPeer).1
      = Except.error Exn.runtimeError
    ∧ discarded (RpcClientImpl.call connectedEngine { handle := 1, name := "add" } []
        silentPeer).2 :=
  ⟨rfl, (call_transport_failure_discards connectedEngine { handle := 1, name := "add" } []
    silentPeer).1 Exn.runtimeError rfl (by decide)⟩

/-- C13: in every engine state `cancel` leaves the socket closed with nothing
in progress, the stream buffers empty and no procedure active, whether or not
a call was pending; a `beginCall` that follows on an engine with a selector is
not rejected: it prepares its request and, when the connect can be begun,
returns normally with its procedure active. Through `HttpClient`, `cancel`
does nothing without an implementation, and no procedure is active after it
whenever the implementation has none active after its own `cancel`. -/
theorem cancel_discards (s : RpcClientImpl) :
    discarded (RpcClientImpl.cancel s)
    ∧ (RpcClientImpl.cancel s).proc = none
    ∧ (∀ method argv env, s.selector = true →
        (RpcClientImpl.beginCall (RpcClientImpl.cancel s) method argv env).2.count
          = s.count + 1
        ∧ (env.beginConnect = Except.ok () →
          (RpcClientImpl.beginCall (RpcClientImpl.cancel s) method argv env).1 = Except.ok ()
          ∧ (RpcClientImpl.beginCall (RpcClientImpl.cancel s) method argv env).2.proc
            = some method))
    ∧ (∀ (I : Type) (implActive : I → Option IRemoteProcedure) (implCancel : I → I)
        (c : HttpClient I), (∀ i, implActive (implCancel i) = none) →
        HttpClient.activeProcedure implActive (HttpClient.cancel implCancel c) = none)
    ∧ (∀ (I : Type) (implActive : I → Option IRemoteProcedure) (implCancel : I → I),
        HttpClient.cancel implCancel (none : HttpClient I) = none
        ∧ HttpClient.activeProcedure implActive (none : HttpClient I) = none) := by
  refine ⟨cancel_discarded s, rfl, ?_, ?_, fun I implActive implCancel => ⟨rfl, rfl⟩⟩
  · intro method argv env hsel
    rw [beginCall_idle (RpcClientImpl.cancel s) method argv env hsel rfl rfl]
    constructor
    · cases env.beginConnect with
      | ok u => rfl
      | error e =>
        simp only
        rw [failAsync_count _ e env.onFinished _ (fun u => rfl)]
        rfl
    · intro hbc
      rw [hbc]
      exact ⟨rfl, rfl⟩
  · intro I implActive implCancel c h
    cases c with
    | none => rfl
    | some i => exact h i

/-- Witness for C13: the pending call of the example engine is cancelled and
a new call is begun. -/
theorem cancel_discards_witness :
    pendingEngine.proc = some { handle := 1, name := "first" }
    ∧ (RpcClientImpl.cancel pendingEngine).proc = none
    ∧ (RpcClientImpl.beginCall (RpcClientImpl.cancel pendingEngine)
        { handle := 2, name := "second" } []
        { beginWrite := Except.ok (), beginConnect := Except.ok (),
          onFinished := Finish.ignore }).1 = Except.ok ()
    ∧ (RpcClientImpl.beginCall (RpcClientImpl.cancel pendingEngine)
        { handle := 2, name := "second" } []
        { beginWrite := Except.ok (), beginConnect := Except.ok (),
          onFinished := Finish.ignore }).2.proc = some { handle := 2, name := "second" } :=
  ⟨rfl, rfl, ((cancel_discards pendingEngine).2.2.1 { handle := 2, name := "second" } []
    { beginWrite := Except.ok (), beginConnect := Except.ok (), onFinished := Finish.ignore }
    rfl).2 rfl⟩

/-- C14: when an exception leaves the `try` block of `onConnect`,
`onSslConnect`, `onOutput` or `onInput`, the call is cancelled and, with a
procedure pending, `onFinished` of that procedure is invoked exactly once; the
handler then tests the flag that `endCall()` clears, so that it raises the
exception unless the callback called `endCall()` and kept what it rethrew, and
the flag is left cleared exactly when the callback called `endCall()`. With no
procedure pending no callback is invoked and the handler raises the
exception. -/
theorem async_error_delivered (s t : RpcClientImpl) (e : Exn) :
    (∀ env, RpcClientImpl.onConnectTry s env = Except.error (e, t) →
      delivered s e env.onFinished (RpcClientImpl.onConnect s env))
    ∧ (∀ env, RpcClientImpl.onSslConnectTry s env = Except.error (e, t) →
      delivered s e env.onFinished (RpcClientImpl.onSslConnect s env))
    ∧ (∀ env, RpcClientImpl.onOutputTry s env = Except.error (e, t) →
      delivered s e env.onFinished (RpcClientImpl.onOutput s env))
    ∧ (∀ (D : Type) (de : RpcClientImpl.Deserializer D) (p p1 : RpcClientImpl.Scan D) env,
      RpcClientImpl.onInputTry de s p env = some (Except.error (e, t), p1) →
      ∃ r, RpcClientImpl.onInput de s p env = some (r, p1)
        ∧ delivered s e env.onFinished r) := by
  refine ⟨?_, ?_, ?_, ?_⟩
  · intro env h
    unfold RpcClientImpl.onConnect
    rw [h]
    exact failHandler_delivered s t e env.onFinished (onConnectTry_throws s t env e h).1
      (onConnectTry_throws s t env e h).2
  · intro env h
    unfold RpcClientImpl.onSslConnect
    rw [h]
    exact failHandler_delivered s t e env.onFinished (onSslConnectTry_throws s t env e h).1
      (onSslConnectTry_throws s t env e h).2
  · intro env h
    unfold RpcClientImpl.onOutput
    rw [h]
    exact failHandler_delivered s t e env.onFinished (onOutputTry_throws s t env e h).1
      (onOutputTry_throws s t env e h).2
  · intro D de p p1 env h
    refine ⟨RpcClientImpl.failHandler t e env.onFinished, ?_, ?_⟩
    · unfold RpcClientImpl.onInput
      rw [h]
      rfl
    · exact failHandler_delivered s t e env.onFinished (onInputTry_throws de s t p p1 env e h).1
        (onInputTry_throws de s t p p1 env e h).2

/-- Witness for C14: the write of a pending request fails; the callback of the
pending procedure is invoked once and, as it collects the error, `onOutput`
returns normally, while it raises the error for a callback that does not call
`endCall()`. A refused connection is raised out of `onConnect` when the
callback leaves the engine alone, a failed handshake out of `onSslConnect`
when the callback lets through what `endCall()` rethrows, the end of input is
collected in `onInput`, and with no call pending the error leaves `onOutput`
with no callback invoked. -/
theorem async_error_delivered_witness :
    delivered writingEngine Exn.ioError Finish.endCallCaught
      (RpcClientImpl.onOutput writingEngine (brokenWrite Finish.endCallCaught))
    ∧ (RpcClientImpl.onOutput writingEngine (brokenWrite Finish.endCallCaught)).1
      = Except.ok ()
    ∧ (RpcClientImpl.onOutput writingEngine (brokenWrite Finish.endCallCaught)).2.finished
      = [{ handle := 1, name := "first" }]
    ∧ (RpcClientImpl.onOutput writingEngine (brokenWrite Finish.ignore)).1
      = Except.error Exn.ioError
    ∧ delivered connectingEngine Exn.ioError Finish.ignore
      (RpcClientImpl.onConnect connectingEngine (refusedConnect Finish.ignore))
    ∧ (RpcClientImpl.onConnect connectingEngine (refusedConnect Finish.ignore)).1
      = Except.error Exn.ioError
    ∧ (RpcClientImpl.onConnect connectingEngine (refusedConnect Finish.ignore)).2.exceptionPending
      = true
    ∧ delivered connectingEngine Exn.ioError Finish.endCallEscapes
      (RpcClientImpl.onSslConnect connectingEngine (refusedConnect Finish.endCallEscapes))
    ∧ (RpcClientImpl.onSslConnect connectingEngine (refusedConnect Finish.endCallEscapes)).1
      = Except.error Exn.ioError
    ∧ (∃ r, RpcClientImpl.onInput dotDeserializer awaitingEngine
          { state := 0, fed := [], complete := false } (closedRead Finish.endCallCaught)
        = some (r, { state := 0, fed := [], complete := false })
        ∧ delivered awaitingEngine Exn.ioError Finish.endCallCaught r)
    ∧ delivered connectedEngine Exn.ioError Finish.ignore
      (RpcClientImpl.onOutput connectedEngine (brokenWrite Finish.ignore))
    ∧ (RpcClientImpl.onOutput connectedEngine (brokenWrite Finish.ignore)).2.finished = [] :=
  ⟨(async_error_delivered writingEngine { writingEngine with exceptionPending := false }
      Exn.ioError).2.2.1 (brokenWrite Finish.endCallCaught) rfl, rfl, rfl, rfl,
    (async_error_delivered connectingEngine connectingEngine Exn.ioError).1
      (refusedConnect Finish.ignore) rfl, rfl, rfl,
    (async_error_delivered connectingEngine { connectingEngine with exceptionPending := false }
      Exn.ioError).2.1 (refusedConnect Finish.endCallEscapes) rfl, rfl,
    (async_error_delivered awaitingEngine
      { awaitingEngine with exceptionPending := false, reading := false }
      Exn.ioError).2.2.2 Nat dotDeserializer { state := 0, fed := [], complete := false }
      { state := 0, fed := [], complete := false } (closedRead Finish.endCallCaught) rfl,
    (async_error_delivered connectedEngine { connectedEngine with exceptionPending := false }
      Exn.ioError).2.2.1 (brokenWrite Finish.ignore) rfl, rfl⟩
/-- C15: on an engine with a selector, `wait` returns at once, without a
selector wait, when no call is pending; when it returns no call is pending;
it throws its timeout exactly when a selector wait reports expiry with the
call pending at every wait up to it; and for a non-negative timeout the time
passed to each selector wait is never negative and, the clock never reading a
negative elapsed time, never more than the timeout. -/
theorem wait_contract (s : RpcClientImpl) (timeout : Int)
    (script : List RpcClientImpl.SelectorWait) (hsel : s.selector = true) :
    (s.proc = none → RpcClientImpl.wait s timeout script
      = { outcome := RpcClientImpl.WaitOutcome.returned, engine := s, waits := [] })
    ∧ ((RpcClientImpl.wait s timeout script).outcome = RpcClientImpl.WaitOutcome.returned →
      (RpcClientImpl.wait s timeout script).engine.proc = none)
    ∧ ((RpcClientImpl.wait s timeout script).outcome = RpcClientImpl.WaitOutcome.timedOut
      ↔ (s.proc.isSome = true ∧ ∃ front rest,
          script = front ++ RpcClientImpl.SelectorWait.expired :: rest
          ∧ staysPending front))
    ∧ (0 ≤ timeout → ∀ w ∈ (RpcClientImpl.wait s timeout script).waits, 0 ≤ w)
    ∧ (0 ≤ timeout →
      (∀ after elapsed, RpcClientImpl.SelectorWait.activity after elapsed ∈ script →
        0 ≤ elapsed) →
      ∀ w ∈ (RpcClientImpl.wait s timeout script).waits, w ≤ timeout) := by
  have hw : RpcClientImpl.wait s timeout script
      = RpcClientImpl.waitLoop timeout script s timeout [] := by
    unfold RpcClientImpl.wait
    rw [if_neg (by rw [hsel]; decide)]
  rw [hw]
  refine ⟨fun hp => waitLoop_idle timeout script s timeout [] hp,
    waitLoop_returned timeout script s timeout [],
    waitLoop_timedOut timeout script s timeout [], ?_, ?_⟩
  · intro ht
    refine waitLoop_waits timeout (fun w => 0 ≤ w) script ?_ s timeout [] ht
      (fun w hw => absurd hw (by simp))
    intro after elapsed _ _
    show 0 ≤ (if timeout - elapsed < 0 then 0 else timeout - elapsed)
    split <;> omega
  · intro ht hel
    refine waitLoop_waits timeout (fun w => w ≤ timeout) script ?_ s timeout [] (le_refl _)
      (fun w hw => absurd hw (by simp))
    intro after elapsed hmem _
    have := hel after elapsed hmem
    show (if timeout - elapsed < 0 then 0 else timeout - elapsed) ≤ timeout
    split <;> omega

/-- Witness for C15: with a call pending, a first selector wait sees activity
after 30 of the 100 units and the second reports expiry. -/
theorem wait_contract_witness :
    (RpcClientImpl.wait pendingEngine 100
      [RpcClientImpl.SelectorWait.activity pendingEngine 30,
        RpcClientImpl.SelectorWait.expired]).outcome = RpcClientImpl.WaitOutcome.timedOut
    ∧ (RpcClientImpl.wait pendingEngine 100
      [RpcClientImpl.SelectorWait.activity pendingEngine 30,
        RpcClientImpl.SelectorWait.expired]).waits = [100, 70]
    ∧ ∀ w ∈ (RpcClientImpl.wait pendingEngine 100
      [RpcClientImpl.SelectorWait.activity pendingEngine 30,
        RpcClientImpl.SelectorWait.expired]).waits, w ≤ 100 :=
  ⟨by decide, by decide,
    (wait_contract pendingEngine 100
      [RpcClientImpl.SelectorWait.activity pendingEngine 30,
        RpcClientImpl.SelectorWait.expired] rfl).2.2.2.2 (by decide)
      (by
        intro after elapsed hmem
        simp only [List.mem_cons, RpcClientImpl.SelectorWait.activity.injEq,
          List.mem_singleton, reduceCtorEq, or_false, List.not_mem_nil] at hmem
        omega)⟩

/-- C16: `prepareRequest` appends to the stream exactly one request object:
the members `jsonrpc` = "2.0", `method` = prefix followed by the method name,
`id` = the counter after incrementing it, and the array `params` holding the
arguments in argument order; nothing else of the engine changes. On an
engine that has prepared the requests `reqs` since it was built, the id is
their number plus one, so the first id is 1 and ids go up by one. -/
theorem prepareRequest_emits (s : RpcClientImpl) (name : String) (argv : List IDecomposer) :
    RpcClientImpl.prepareRequest s name argv
      = { s with count := s.count + 1,
                 out := s.out ++ requestCalls s.pfx name argv (s.count + 1) }
    ∧ (RpcClientImpl.prepareRequest RpcClientImpl.new name argv).out
      = requestCalls "" name argv 1
    ∧ (∀ reqs : List (String × List IDecomposer),
      (RpcClientImpl.prepareRequest (preparedAll RpcClientImpl.new reqs) name argv).out
        = (preparedAll RpcClientImpl.new reqs).out
          ++ requestCalls "" name argv (reqs.length + 1)
      ∧ (RpcClientImpl.prepareRequest (preparedAll RpcClientImpl.new reqs) name argv).count
        = reqs.length + 1) := by
  refine ⟨rfl, ?_, ?_⟩
  · simp [RpcClientImpl.prepareRequest, RpcClientImpl.new, requestCalls]
  · intro reqs
    obtain ⟨hc, hp⟩ := preparedAll_count reqs RpcClientImpl.new
    have hc0 : (preparedAll RpcClientImpl.new reqs).count = reqs.length := by
      rw [hc]
      simp [RpcClientImpl.new]
    have hp0 : (preparedAll RpcClientImpl.new reqs).pfx = "" := hp
    constructor
    · show (preparedAll RpcClientImpl.new reqs).out
          ++ requestCalls (preparedAll RpcClientImpl.new reqs).pfx name argv
            ((preparedAll RpcClientImpl.new reqs).count + 1) = _
      rw [hc0, hp0]
    · show (preparedAll RpcClientImpl.new reqs).count + 1 = _
      rw [hc0]

/-- C17: whatever the split of the reply bytes into chunks delivered by
successive `onInput` events, the deserializer ends as the reply loop of
`call` leaves it on the whole byte sequence: the same bytes have been passed
to `advance`, one per call and in order, a first part of the sequence that
ends where `advance` first reports completion (or throws), with the same
state and the same completion report; hence any two splits of the same bytes
give the same result. -/
theorem fragmentation_independence {D : Type} (de : RpcClientImpl.Deserializer D)
    (fin : Finish) (sync : RpcClientImpl) (pr : IRemoteProcedure) (chunks : List (List Char))
    (s : RpcClientImpl) (p : RpcClientImpl.Scan D) (hrd : s.reading = true)
    (hbuf : s.inBuf = []) (hfail : s.streamFail = false) (hp : s.proc = some pr) :
    (∃ r, RpcClientImpl.onInputs de fin chunks s p
        = some (r, (RpcClientImpl.callPump de sync p chunks.flatten).2))
    ∧ (∀ chunks2 : List (List Char), chunks2.flatten = chunks.flatten →
        (RpcClientImpl.onInputs de fin chunks2 s p).map Prod.snd
          = (RpcClientImpl.onInputs de fin chunks s p).map Prod.snd)
    ∧ (∃ k, (RpcClientImpl.callPump de sync p chunks.flatten).2.fed
        = p.fed ++ chunks.flatten.take k) := by
  refine ⟨onInputs_callPump de fin sync pr chunks s p hrd hbuf hfail hp, ?_,
    callPump_fed de sync chunks.flatten p⟩
  intro chunks2 h2
  obtain ⟨r1, h1⟩ := onInputs_callPump de fin sync pr chunks s p hrd hbuf hfail hp
  obtain ⟨r2, h2'⟩ := onInputs_callPump de fin sync pr chunks2 s p hrd hbuf hfail hp
  rw [h1, h2', h2]
  rfl

/-- Witness for C17: the reply `abc.` arrives in the chunks `ab`, an empty
one, `c.` and `zz`; the deserializer takes the four bytes up to the
completing one, as the reply loop of `call` does on `abc.zz`. -/
theorem fragmentation_independence_witness :
    (∃ r, RpcClientImpl.onInputs dotDeserializer Finish.endCallCaught
        ["ab".toList, [], "c.".toList, "zz".toList] awaitingEngine
        { state := 0, fed := [], complete := false }
      = some (r, { state := 4, fed := "abc.".toList, complete := true }))
    ∧ (RpcClientImpl.callPump dotDeserializer connectedEngine
        { state := 0, fed := [], complete := false } "abc.zz".toList).2
      = { state := 4, fed := "abc.".toList, complete := true } :=
  ⟨(fragmentation_independence dotDeserializer Finish.endCallCaught connectedEngine
      { handle := 1, name := "first" } ["ab".toList, [], "c.".toList, "zz".toList]
      awaitingEngine { state := 0, fed := [], complete := false } rfl rfl rfl rfl).1,
    by decide⟩

/-- C18: `addMember(name)` appends exactly one child at the end of the child
list, whether or not a child of that name exists: the former children are
unchanged and keep their order, the child count grows by one, and the
returned child is the new last child, which carries the given name and is
otherwise empty; name, type and payload of the node stay as they are. -/
theorem addMember_appends (si : SerializationInfo) (name : String) :
    (si.addMember name).1.nodes = si.nodes ++ [(si.addMember name).2]
    ∧ (si.addMember name).1.nodes.length = si.nodes.length + 1
    ∧ (si.addMember name).1.nodes.take si.nodes.length = si.nodes
    ∧ (si.addMember name).1.nodes.getLast? = some (si.addMember name).2
    ∧ (si.addMember name).2 = SerializationInfo.setName SerializationInfo.empty name
    ∧ (si.addMember name).2.name = name
    ∧ (si.addMember name).2.category = Category.Void
    ∧ (si.addMember name).2.value = Payload.none
    ∧ (si.addMember name).2.nodes = []
    ∧ (si.addMember name).1.name = si.name
    ∧ (si.addMember name).1.type = si.type
    ∧ (si.addMember name).1.value = si.value := by
  obtain ⟨h1, h2⟩ := addMember_nodes si name
  rw [h1, h2]
  refine ⟨rfl, by simp, by simp, by simp, rfl, rfl, rfl, rfl, rfl, rfl, rfl, rfl⟩

/-- C19: after `addMember(name)` the category of the node is what it was if
that was Array or Object, and otherwise Array for an empty name and Object for
a non-empty one; so no sequence of `addMember` calls makes an Array of an
Object or an Object of an Array. -/
theorem addMember_category_rule (si : SerializationInfo) (name : String) :
    ((si.category = Category.Array ∨ si.category = Category.Object) →
      (si.addMember name).1.category = si.category)
    ∧ (si.category ≠ Category.Array → si.category ≠ Category.Object → name = "" →
      (si.addMember name).1.category = Category.Array)
    ∧ (si.category ≠ Category.Array → si.category ≠ Category.Object → name ≠ "" →
      (si.addMember name).1.category = Category.Object)
    ∧ (∀ names : List String, si.category = Category.Object →
      (si.addMembers names).category = Category.Object)
    ∧ (∀ names : List String, si.category = Category.Array →
      (si.addMembers names).category = Category.Array) := by
  have hkeep : ∀ (names : List String) (t : SerializationInfo),
      (t.category = Category.Array ∨ t.category = Category.Object) →
      (t.addMembers names).category = t.category := by
    intro names
    induction names with
    | nil =>
      intro t _
      rfl
    | cons n rest ih =>
      intro t ht
      have h1 : (t.addMember n).1.category = t.category := by
        rw [addMember_category, if_pos ht]
      have h2 := ih (t.addMember n).1 (by rw [h1]; exact ht)
      simp only [SerializationInfo.addMembers, List.foldl_cons] at h2 ⊢
      rw [h2, h1]
  refine ⟨fun h => ?_, fun ha ho hn => ?_, fun ha ho hn => ?_, fun names h => ?_,
    fun names h => ?_⟩
  · rw [addMember_category, if_pos h]
  · rw [addMember_category, if_neg (by simp [ha, ho]), hn]
    rfl
  · rw [addMember_category, if_neg (by simp [ha, ho])]
    have : name.isEmpty = false := by
      cases hb : name.isEmpty with
      | false => rfl
      | true => exact absurd ((String.isEmpty_iff name).mp hb) hn
    rw [this]
    rfl
  · rw [hkeep names si (Or.inr h), h]
  · rw [hkeep names si (Or.inl h), h]

/-- Witness for C19: a Void node becomes an Array by an unnamed child and
stays one when a named child follows; a second child of an existing name is
appended to an Object, which stays an Object. -/
theorem addMember_category_rule_witness :
    (SerializationInfo.empty.addMember "").1.category = Category.Array
    ∧ (SerializationInfo.empty.addMembers ["", "x"]).category = Category.Array
    ∧ (colours.addMembers ["", "red"]).category = Category.Object
    ∧ (colours.addMembers ["", "red"]).nodes.length = 5 :=
  ⟨(addMember_category_rule SerializationInfo.empty "").2.1 (by decide) (by decide) rfl,
    rfl, rfl, rfl⟩

/-- C20: `getMember(name)` returns the first child, in insertion order, whose
name equals `name`, and throws `SerializationMemberNotFound` exactly when no
child has that name; `findMember(name)` throws nothing and returns that same
first child, or null exactly when `getMember(name)` throws. -/
theorem getMember_findMember (si : SerializationInfo) (name : String) :
    (∀ c, si.getMember name = Except.ok c ↔
      ∃ front back, si.nodes = front ++ c :: back ∧ c.name = name
        ∧ ∀ x ∈ front, x.name ≠ name)
    ∧ (si.getMember name = Except.error (SerializationError.memberNotFound name)
        ↔ ∀ x ∈ si.nodes, x.name ≠ name)
    ∧ (∀ e, si.getMember name = Except.error e → e = SerializationError.memberNotFound name)
    ∧ (∀ c, si.findMember name = some c ↔ si.getMember name = Except.ok c)
    ∧ (si.findMember name = none
        ↔ si.getMember name = Except.error (SerializationError.memberNotFound name)) := by
  obtain ⟨hsome, hnone⟩ := firstNamed_spec name si.nodes
  unfold SerializationInfo.getMember SerializationInfo.findMember
  cases hf : SerializationInfo.firstNamed name si.nodes with
  | none =>
    rw [hf] at hnone hsome
    refine ⟨fun c => ?_, ?_, ?_, fun c => ?_, ?_⟩
    · rw [← hsome c]
      simp
    · simp only [true_iff]
      exact hnone.mp rfl
    · intro e h
      injection h with h
      exact h.symm
    · simp
    · simp
  | some c0 =>
    rw [hf] at hnone hsome
    refine ⟨fun c => ?_, ?_, ?_, fun c => ?_, ?_⟩
    · rw [← hsome c]
      simp
    · rw [← hnone]
      simp
    · intro e h
      exact absurd h (by simp)
    · simp
    · simp

/-- The two lookups on the example node: the first of the two children named
`red` is found, and a name no child has is not. -/
theorem getMember_findMember_example :
    (colours.getMember "red").toOption.map SerializationInfo.value = some (Payload.int 1)
    ∧ (colours.findMember "red").map SerializationInfo.value = some (Payload.int 1)
    ∧ (colours.getMember "blue").toOption.map SerializationInfo.value = none
    ∧ (colours.findMember "blue").map SerializationInfo.value = none := by
  refine ⟨by decide, by decide, by decide, by decide⟩

/-- C21: whatever the node held before, each scalar setter leaves it with
category Value and exactly the given value as payload of that kind, and the
getter of the same kind returns that value: the wide and the narrow string,
the char and the bool as they are, the signed integer for bounds that contain
it, the unsigned integer for a maximum not below it. -/
theorem setValue_then_getValue (cv : Conversions) (si : SerializationInfo) :
    (∀ v, (si._setString v).category = Category.Value
      ∧ (si._setString v).value = Payload.string v
      ∧ (si._setString v).getValueString cv = v)
    ∧ (∀ v, (si._setString8 v).category = Category.Value
      ∧ (si._setString8 v).value = Payload.string8 v
      ∧ (si._setString8 v).getValueString8 cv = v)
    ∧ (∀ v, (si._setChar v).category = Category.Value
      ∧ (si._setChar v).value = Payload.char v
      ∧ (si._setChar v)._getChar cv = v)
    ∧ (∀ v, (si._setBool v).category = Category.Value
      ∧ (si._setBool v).value = Payload.bool v
      ∧ (si._setBool v)._getBool cv = v)
    ∧ (∀ v min max, (si._setInt v).category = Category.Value
      ∧ (si._setInt v).value = Payload.int v
      ∧ (min ≤ v → v ≤ max → (si._setInt v)._getInt cv min max = Except.ok v))
    ∧ (∀ v max, (si._setUInt v).category = Category.Value
      ∧ (si._setUInt v).value = Payload.uint v
      ∧ (v ≤ max → (si._setUInt v)._getUInt cv max = Except.ok v)) := by
  obtain ⟨h1, h2, h3, h4, h5, h6⟩ := setters_store si
  refine ⟨fun v => ?_, fun v => ?_, fun v => ?_, fun v => ?_, fun v min max => ?_,
    fun v max => ?_⟩
  · exact ⟨(h1 v).2.1, (h1 v).1, (getters_same_kind cv _).1 v (h1 v).1⟩
  · exact ⟨(h2 v).2.1, (h2 v).1, (getters_same_kind cv _).2.1 v (h2 v).1⟩
  · exact ⟨(h3 v).2.1, (h3 v).1, (getters_same_kind cv _).2.2.1 v (h3 v).1⟩
  · exact ⟨(h4 v).2.1, (h4 v).1, (getters_same_kind cv _).2.2.2.1 v (h4 v).1⟩
  · refine ⟨(h5 v).2.1, (h5 v).1, fun hmin hmax => ?_⟩
    rw [(getters_same_kind cv _).2.2.2.2.1 v min max (h5 v).1]
    unfold SerializationInfo.checkInt
    rw [if_neg (by omega)]
  · refine ⟨(h6 v).2.1, (h6 v).1, fun hmax => ?_⟩
    rw [(getters_same_kind cv _).2.2.2.2.2 v max (h6 v).1]
    unfold SerializationInfo.checkUInt
    rw [if_neg (by omega)]

/-- Witness for C21: the example Object node is given the integer 42, which is
read back within the bounds of a 16-bit target. -/
theorem setValue_then_getValue_witness :
    (colours._setInt 42).category = Category.Value
    ∧ (colours._setInt 42)._getInt plainConversions (-32768) 32767 = Except.ok 42 :=
  ⟨rfl, ((setValue_then_getValue plainConversions colours).2.2.2.2.1 42 (-32768) 32767).2.2
    (by decide) (by decide)⟩

/-- C23 (amended): for a node holding the signed integer `v` and any bounds,
`_getInt` returns `v` when `min <= v <= max` and throws a range error
otherwise. For a node holding the unsigned integer `u` it throws a range error
whenever `u` exceeds the largest signed 64-bit value, and otherwise returns
`u` when `min <= u <= max` and throws a range error if not; so for a target
whose `min` is not positive and whose `max` is a signed 64-bit value it
returns `u` exactly when `u <= max`. -/
theorem getInt_range (cv : Conversions) (c : Category) (n t : String)
    (ns : Option (List SerializationInfo)) (min max : Int) :
    (∀ v : Int,
      (min ≤ v → v ≤ max →
        (SerializationInfo.mk c n t (Payload.int v) ns)._getInt cv min max = Except.ok v)
      ∧ (¬ (min ≤ v ∧ v ≤ max) →
        (SerializationInfo.mk c n t (Payload.int v) ns)._getInt cv min max
          = Except.error SerializationError.rangeError))
    ∧ (∀ u : Nat,
      (intTypeMax < (u : Int) →
        (SerializationInfo.mk c n t (Payload.uint u) ns)._getInt cv min max
          = Except.error SerializationError.rangeError)
      ∧ ((u : Int) ≤ intTypeMax → min ≤ (u : Int) → (u : Int) ≤ max →
        (SerializationInfo.mk c n t (Payload.uint u) ns)._getInt cv min max
          = Except.ok (u : Int))
      ∧ (¬ (min ≤ (u : Int) ∧ (u : Int) ≤ max) →
        (SerializationInfo.mk c n t (Payload.uint u) ns)._getInt cv min max
          = Except.error SerializationError.rangeError)
      ∧ (min ≤ 0 → max ≤ intTypeMax →
        ((SerializationInfo.mk c n t (Payload.uint u) ns)._getInt cv min max
            = Except.ok (u : Int) ↔ (u : Int) ≤ max))) := by
  have hint : ∀ v : Int, (SerializationInfo.mk c n t (Payload.int v) ns)._getInt cv min max
      = SerializationInfo.checkInt v min max := fun v => rfl
  have huint : ∀ u : Nat, (SerializationInfo.mk c n t (Payload.uint u) ns)._getInt cv min max
      = if (u : Int) > intTypeMax then Except.error SerializationError.rangeError
        else SerializationInfo.checkInt u min max := fun u => rfl
  refine ⟨fun v => ⟨fun h1 h2 => ?_, fun h => ?_⟩, fun u => ⟨fun h => ?_, fun h0 h1 h2 => ?_,
    fun h => ?_, fun hmin hmax => ?_⟩⟩
  · rw [hint, SerializationInfo.checkInt, if_neg (by omega)]
  · rw [hint, SerializationInfo.checkInt, if_pos (by omega)]
  · rw [huint, if_pos h]
  · rw [huint, if_neg (by omega), SerializationInfo.checkInt, if_neg (by omega)]
  · rw [huint]
    split
    · rfl
    · rw [SerializationInfo.checkInt, if_pos (by omega)]
  · rw [huint]
    constructor
    · intro h
      split at h
      · exact absurd h (by simp)
      · unfold SerializationInfo.checkInt at h
        split at h
        · exact absurd h (by simp)
        · omega
    · intro h
      rw [if_neg (by omega), SerializationInfo.checkInt, if_neg (by omega)]

/-- Witness for C23: a node holding the signed integer 70000 read into a 16-bit
and into a 32-bit target, and a node holding the unsigned integer 2^63. -/
theorem getInt_range_witness :
    (SerializationInfo.mk Category.Value "n" "" (Payload.int 70000) none)._getInt
        plainConversions (-32768) 32767 = Except.error SerializationError.rangeError
    ∧ (SerializationInfo.mk Category.Value "n" "" (Payload.int 70000) none)._getInt
        plainConversions (-2147483648) 2147483647 = Except.ok 70000
    ∧ (SerializationInfo.mk Category.Value "n" "" (Payload.uint (2 ^ 63)) none)._getInt
        plainConversions (-9223372036854775808) 9223372036854775807
      = Except.error SerializationError.rangeError :=
  ⟨((getInt_range plainConversions Category.Value "n" "" none (-32768) 32767).1 70000).2
      (by decide),
    ((getInt_range plainConversions Category.Value "n" "" none (-2147483648) 2147483647).1
      70000).1 (by decide) (by decide),
    ((getInt_range plainConversions Category.Value "n" "" none (-9223372036854775808)
      9223372036854775807).2 (2 ^ 63)).1 (by decide)⟩

/-- C23 (counterexample): a node holds the unsigned integer 3, which is not
above the maximum 10 of the bounds 5 and 10, and `_getInt` does not return it
but throws a range error, 3 being below the minimum. -/
theorem getInt_unsigned_below_min :
    (5 : Int) ≤ 10 ∧ ((3 : Nat) : Int) ≤ 10
    ∧ (SerializationInfo.mk Category.Value "n" "" (Payload.uint 3) none)._getInt
        plainConversions 5 10 = Except.error SerializationError.rangeError := by
  refine ⟨by decide, by decide, ?_⟩
  rfl

/-- C24: for a node holding a negative signed integer `_getUInt` throws a range
error whatever the maximum; for a node holding a signed integer `v` that is
not negative it returns `v` exactly when `v <= max`, and throws a range error
otherwise. -/
theorem getUInt_rejects_negative (cv : Conversions) (c : Category) (n t : String)
    (ns : Option (List SerializationInfo)) (v : Int) (max : Nat) :
    (v < 0 → (SerializationInfo.mk c n t (Payload.int v) ns)._getUInt cv max
      = Except.error SerializationError.rangeError)
    ∧ (0 ≤ v →
      ((SerializationInfo.mk c n t (Payload.int v) ns)._getUInt cv max = Except.ok v.toNat
        ↔ v ≤ (max : Int))
      ∧ (v ≤ (max : Int) → ((v.toNat : Nat) : Int) = v)
      ∧ (¬ v ≤ (max : Int) →
        (SerializationInfo.mk c n t (Payload.int v) ns)._getUInt cv max
          = Except.error SerializationError.rangeError)) := by
  have h0 : (SerializationInfo.mk c n t (Payload.int v) ns)._getUInt cv max
      = if v < 0 then Except.error SerializationError.rangeError
        else SerializationInfo.checkUInt v.toNat max := rfl
  rw [h0]
  refine ⟨fun h => by rw [if_pos h], fun h => ⟨?_, fun _ => by omega, fun hgt => ?_⟩⟩
  · rw [if_neg (by omega)]
    unfold SerializationInfo.checkUInt
    constructor
    · intro h1
      split at h1
      · exact absurd h1 (by simp)
      · omega
    · intro h1
      rw [if_neg (by omega)]
  · rw [if_neg (by omega)]
    unfold SerializationInfo.checkUInt
    rw [if_pos (by omega)]

/-- Witness for C24: a node holding -1 read into an unsigned 64-bit target, and
a node holding 300 read into an 8-bit and into a 16-bit target. -/
theorem getUInt_rejects_negative_witness :
    (SerializationInfo.mk Category.Value "n" "" (Payload.int (-1)) none)._getUInt
        plainConversions 18446744073709551615 = Except.error SerializationError.rangeError
    ∧ (SerializationInfo.mk Category.Value "n" "" (Payload.int 300) none)._getUInt
        plainConversions 255 = Except.error SerializationError.rangeError
    ∧ (SerializationInfo.mk Category.Value "n" "" (Payload.int 300) none)._getUInt
        plainConversions 65535 = Except.ok 300 :=
  ⟨(getUInt_rejects_negative plainConversions Category.Value "n" "" none (-1)
      18446744073709551615).1 (by decide),
    ((getUInt_rejects_negative plainConversions Category.Value "n" "" none 300 255).2
      (by decide)).2.2 (by decide),
    ((getUInt_rejects_negative plainConversions Category.Value "n" "" none 300 65535).2
      (by decide)).1.2 (by decide)⟩

/-- C25: narrowing a double or extended-precision payload to float, or an
extended-precision payload to double, yields plus infinity for plus infinity,
minus infinity for minus infinity and not-a-number for not-a-number; for a
finite payload it throws a range error when the magnitude exceeds the largest
finite value of the target and converts the value otherwise; so a range error
is thrown exactly for finite payloads of too large a magnitude. -/
theorem float_narrowing (cv : Conversions) (c : Category) (n t : String)
    (ns : Option (List SerializationInfo)) (v : FloatVal) :
    (SerializationInfo.mk c n t (Payload.double v) ns)._getFloat cv
      = SerializationInfo.narrowChecked cv.roundFloat cv.floatMax v
    ∧ (SerializationInfo.mk c n t (Payload.ldouble v) ns)._getFloat cv
      = SerializationInfo.narrowChecked cv.roundFloat cv.floatMax v
    ∧ (SerializationInfo.mk c n t (Payload.ldouble v) ns)._getDouble cv
      = SerializationInfo.narrowChecked cv.roundDouble cv.doubleMax v
    ∧ (∀ (round : ℚ → ℚ) (max : ℚ),
      SerializationInfo.narrowChecked round max FloatVal.posInf = Except.ok FloatVal.posInf
      ∧ SerializationInfo.narrowChecked round max FloatVal.negInf = Except.ok FloatVal.negInf
      ∧ SerializationInfo.narrowChecked round max FloatVal.nan = Except.ok FloatVal.nan
      ∧ (∀ q : ℚ, |q| ≤ max →
        SerializationInfo.narrowChecked round max (FloatVal.finite q)
          = Except.ok (FloatVal.finite (round q)))
      ∧ (SerializationInfo.narrowChecked round max v
          = Except.error SerializationError.rangeError
        ↔ ∃ q : ℚ, v = FloatVal.finite q ∧ max < |q|)
      ∧ (∀ e, SerializationInfo.narrowChecked round max v = Except.error e →
          e = SerializationError.rangeError)) := by
  refine ⟨rfl, rfl, rfl, fun round max => ⟨rfl, rfl, rfl, fun q h =>
    (narrowChecked_finite round max q).2 h, ?_, ?_⟩⟩
  · cases v with
    | finite q =>
      constructor
      · intro h
        refine ⟨q, rfl, ?_⟩
        by_contra hle
        rw [(narrowChecked_finite round max q).2 (not_lt.mp hle)] at h
        exact absurd h (by simp)
      · rintro ⟨q1, hq, h⟩
        injection hq with hq
        rw [hq]
        exact (narrowChecked_finite round max q1).1 h
    | posInf =>
      constructor
      · intro h
        exact absurd h (by simp [SerializationInfo.narrowChecked, FloatVal.eq])
      · rintro ⟨q, hq, _⟩
        exact absurd hq (by simp)
    | negInf =>
      constructor
      · intro h
        exact absurd h (by simp [SerializationInfo.narrowChecked, FloatVal.eq, FloatVal.neg])
      · rintro ⟨q, hq, _⟩
        exact absurd hq (by simp)
    | nan =>
      constructor
      · intro h
        exact absurd h (by simp [SerializationInfo.narrowChecked, FloatVal.eq, FloatVal.neg])
      · rintro ⟨q, hq, _⟩
        exact absurd hq (by simp)
  · intro e h
    cases v with
    | finite q =>
      by_cases hq : max < |q|
      · rw [(narrowChecked_finite round max q).1 hq] at h
        injection h with h
        exact h.symm
      · rw [(narrowChecked_finite round max q).2 (not_lt.mp hq)] at h
        exact absurd h (by simp)
    | posInf => exact absurd h (by simp [SerializationInfo.narrowChecked, FloatVal.eq])
    | negInf =>
      exact absurd h (by simp [SerializationInfo.narrowChecked, FloatVal.eq, FloatVal.neg])
    | nan =>
      exact absurd h (by simp [SerializationInfo.narrowChecked, FloatVal.eq, FloatVal.neg])

/-- Witness for C25: with the example conversions, whose float ends at 1000,
a double payload of 1000 is converted and one of -1001 is refused. -/
theorem float_narrowing_witness :
    (SerializationInfo.mk Category.Value "x" "" (Payload.double (FloatVal.finite 1000))
        none)._getFloat plainConversions = Except.ok (FloatVal.finite 1000)
    ∧ SerializationInfo.narrowChecked plainConversions.roundFloat plainConversions.floatMax
        (FloatVal.finite (-1001)) = Except.error SerializationError.rangeError := by
  have h := float_narrowing plainConversions Category.Value "x" "" none (FloatVal.finite (-1001))
  refine ⟨?_, ?_⟩
  · rw [(float_narrowing plainConversions Category.Value "x" "" none (FloatVal.finite 1000)).1]
    exact (h.2.2.2 plainConversions.roundFloat plainConversions.floatMax).2.2.2.1 1000
      (by simp [plainConversions, abs_of_nonneg])
  · exact (h.2.2.2 plainConversions.roundFloat plainConversions.floatMax).2.2.2.2.1.mpr
      ⟨-1001, rfl, by simp [plainConversions, abs_of_nonneg]; norm_num⟩

/-- C26 (evaluation at the failing input): on the queue holding 1, 2 and 3,
`remove(2)` returns true and the queue afterwards still holds 1, 2 and 3, with
size 3: the element found has not been erased. -/
theorem remove_reports_without_erasing :
    (Queue.remove oneTwoThree 2).1 = true
    ∧ (Queue.remove oneTwoThree 2).2.queue = [1, 2, 3]
    ∧ Queue.size (Queue.remove oneTwoThree 2).2 = 3
    ∧ (Queue.remove oneTwoThree 2).2.queue ≠ [1, 3] := by
  refine ⟨rfl, rfl, rfl, ?_⟩
  decide

/-- C27: elements put one after the other into an empty queue that is
unbounded, or put with force, are returned by successive `tryGet` calls in the
order in which they were put, each once and with flag true; the next `tryGet`
returns a default-constructed value with flag false, and the queue is empty
and stays as it is. -/
theorem queue_fifo {T : Type} [Inhabited T] (xs : List T) (q : Queue T) (force : Bool)
    (hq : q.queue = []) (h : q.maxSize = 0 ∨ force = true) :
    ∃ q1, Queue.puts force xs q = some q1
      ∧ (Queue.tryGets xs.length q1).1 = xs.map (fun x => (x, true))
      ∧ (Queue.tryGets xs.length q1).2.queue = []
      ∧ (Queue.tryGet (Queue.tryGets xs.length q1).2).1 = (default, false)
      ∧ (Queue.tryGet (Queue.tryGets xs.length q1).2).2 = (Queue.tryGets xs.length q1).2 := by
  obtain ⟨q1, h1, h1q, _⟩ := puts_appends force xs q h
  rw [hq, List.nil_append] at h1q
  obtain ⟨h2, h3⟩ := tryGets_all xs q1 h1q
  refine ⟨q1, h1, h2, h3, ?_, ?_⟩
  · unfold Queue.tryGet
    rw [h3]
  · unfold Queue.tryGet
    rw [h3]

/-- Witness for C27: 1, 2 and 3 are put into a new queue and fetched. -/
theorem queue_fifo_witness :
    ∃ q1, Queue.puts false [(1 : Int), 2, 3] Queue.new = some q1
      ∧ (Queue.tryGets 3 q1).1 = [(1, true), (2, true), (3, true)]
      ∧ (Queue.tryGets 3 q1).2.queue = []
      ∧ (Queue.tryGet (Queue.tryGets 3 q1).2).1 = (default, false)
      ∧ (Queue.tryGet (Queue.tryGets 3 q1).2).2 = (Queue.tryGets 3 q1).2 :=
  queue_fifo [(1 : Int), 2, 3] Queue.new false rfl (Or.inl rfl)

/-- C28: for every string `s` of code points below U+110000 that does not
begin with the byte order mark U+FEFF, `Utf8Codec::decode(Utf8Codec::encode(s))`
returns `s`. -/
theorem utf8_round_trip (s : List Nat) (hs : ∀ c ∈ s, c < 0x110000)
    (hm : s.head? ≠ some 0xFEFF) :
    Utf8Codec.decode (Utf8Codec.encode s) = some s := by
  rw [decode_encode s hs]
  cases s with
  | nil => rfl
  | cons c t =>
    have hc : c ≠ 0xFEFF := fun e => hm (by rw [e]; rfl)
    simp only [List.dropWhile_cons, hc, decide_False, Bool.false_eq_true, if_false]

/-- C28, at "Hi ä there": the bytes are 'Hi ' C3 A4 ' there', as `encodeTest`
asserts, and decode back to the string, as `decodeTest` asserts. -/
theorem utf8_round_trip_witness :
    (∀ c ∈ hiThere, c < 0x110000)
      ∧ hiThere.head? ≠ some 0xFEFF
      ∧ Utf8Codec.encode hiThere
          = [0x48, 0x69, 0x20, 0xC3, 0xA4, 0x20, 0x74, 0x68, 0x65, 0x72, 0x65]
      ∧ Utf8Codec.decode (Utf8Codec.encode hiThere) = some hiThere :=
  ⟨by decide, by decide, by decide, utf8_round_trip hiThere (by decide) (by decide)⟩

/-- C28, where the claim fails: the standard byte sequence of the string
U+FEFF "Hi ä there" is EF BB BF 'Hi ' C3 A4 ' there'; these are the bytes that
`byteordermarkTest` decodes, and they decode to "Hi ä there" as that test
asserts, which is the string without its first character. -/
theorem utf8_round_trip_drops_mark :
    Utf8Codec.encode (0xFEFF :: hiThere)
        = [0xEF, 0xBB, 0xBF, 0x48, 0x69, 0x20, 0xC3, 0xA4, 0x20, 0x74, 0x68, 0x65, 0x72, 0x65]
      ∧ Utf8Codec.decode
          [0xEF, 0xBB, 0xBF, 0x48, 0x69, 0x20, 0xC3, 0xA4, 0x20, 0x74, 0x68, 0x65, 0x72, 0x65]
        = some hiThere
      ∧ Utf8Codec.decode (Utf8Codec.encode (0xFEFF :: hiThere)) ≠ some (0xFEFF :: hiThere) := by
  decide

/-- C29: for every byte string `b`, decoding EF BB BF followed by `b` gives what
decoding `b` gives; fed to a new codec in successive calls of one byte, one
byte, and the third byte with `b`, the mark produces no output in the first two
calls and the third call produces what one call on `b` alone produces; and the
truncated mark EF BB decodes to the empty string. -/
theorem byte_order_mark_consumed (b : List Nat) :
    Utf8Codec.decode (Utf8Codec.byteOrderMark ++ b) = Utf8Codec.decode b
      ∧ (∃ s1 s2, Utf8Codec.codecIn Utf8Codec.initial [0xEF] = some (s1, [])
          ∧ Utf8Codec.codecIn s1 [0xBB] = some (s2, [])
          ∧ Utf8Codec.codecIn s2 (0xBF :: b) = Utf8Codec.codecIn Utf8Codec.initial b)
      ∧ Utf8Codec.codecIns Utf8Codec.initial [[0xEF], [0xBB], 0xBF :: b]
          = Utf8Codec.codecIn Utf8Codec.initial b
      ∧ Utf8Codec.decode [0xEF, 0xBB] = some [] := by
  refine ⟨?_, ⟨{ atStart := true, need := 2, acc := 15 },
    { atStart := true, need := 1, acc := 1019 }, rfl, rfl, ?_⟩, ?_, rfl⟩
  · unfold Utf8Codec.decode
    rw [codecIn_byteOrderMark]
  · rw [codecIn_step { atStart := true, need := 1, acc := 1019 } (Utf8Codec.initial, [])
      0xBF b rfl]
    cases Utf8Codec.codecIn Utf8Codec.initial b <;> rfl
  · rw [codecIns_flatten]
    simp only [List.flatten_cons, List.flatten_nil, List.append_nil, List.singleton_append]
    exact codecIn_byteOrderMark b

/-- C29, at the bytes of `partialBomTest`: EF, then BB, then BF with 'A' give
exactly one character, 'A'. -/
theorem byte_order_mark_consumed_witness :
    Utf8Codec.codecIns Utf8Codec.initial [[0xEF], [0xBB], [0xBF, 0x41]]
      = some ({ atStart := false, need := 0, acc := 0 }, [0x41]) :=
  (byte_order_mark_consumed [0x41]).2.2.1.trans rfl

/-- C30: for every procedure registered with a service under a name: if it is
a handler of two integers, the remote call of that name with `(a, b)` gives the
caller exactly what the handler computes for `(a, b)`, arguments in order; and
whenever the handler throws a fault, the caller gets that fault, with the same
code and text, instead of a result. -/
theorem remote_call_end_to_end (s : xmlrpc.Service) (name : String)
    (p : xmlrpc.ServiceProcedure) (hreg : s.getProcedure name = some p) :
    (∀ (h : Int → Int → Except xmlrpc.Fault Int) (a b : Int),
        p = xmlrpc.ServiceProcedure.proc2 h →
        xmlrpc.remoteCall s name [a, b] = some (h a b))
      ∧ (∀ (args : List Int) (rc : Int) (text : String),
        p.invoke args = some (Except.error { rc := rc, text := text }) →
        xmlrpc.remoteCall s name args = some (Except.error { rc := rc, text := text })) := by
  refine ⟨fun h a b hp => ?_, fun args rc text hf => ?_⟩
  · subst hp
    rw [remoteCall_dispatch]
    simp only [xmlrpc.Service.dispatch, hreg, xmlrpc.ServiceProcedure.invoke]
  · rw [remoteCall_dispatch]
    simp only [xmlrpc.Service.dispatch, hreg, hf]

/-- C30, at the handlers of the sources: `multiply(2, 3)` yields 6,
`add(2, 3)` yields 5, and the fault of `throwFault` reaches the caller with
code 7 and text "Fault". -/
theorem remote_call_end_to_end_witness :
    calcService.getProcedure "multiply"
        = some (xmlrpc.ServiceProcedure.proc2
            (fun a b => Except.ok (XmlRpcTest.multiplyInt a b)))
      ∧ xmlrpc.remoteCall calcService "multiply" [2, 3] = some (Except.ok 6)
      ∧ xmlrpc.remoteCall calcService "add" [2, 3] = some (Except.ok 5)
      ∧ xmlrpc.remoteCall faultService "multiply" []
          = some (Except.error { rc := 7, text := "Fault" }) :=
  ⟨rfl,
    (remote_call_end_to_end calcService "multiply" _ rfl).1
      (fun a b => Except.ok (XmlRpcTest.multiplyInt a b)) 2 3 rfl,
    rfl, rfl⟩

/-- C31: `get(timeout)` on a queue that is not empty removes and returns the
front element with true, without waiting. On an empty queue it waits; when the
wait ends by timeout it returns a default value with false and takes nothing
from the queue, whatever the queue holds by then; when the wait ends by a
wake-up and the queue holds an element by then, it removes and returns the
front element with true; and when the wait ends by a wake-up with the queue
still empty, it calls `front()` and `pop_front()` on the empty deque. -/
theorem getTimed_cases {T : Type} [Inhabited T] (q : Queue T) (w : WaitEnd T) :
    (∀ x rest, q.queue = x :: rest →
        Queue.getTimed q w = Except.ok ((x, true), Queue.popped q rest))
      ∧ (q.queue = [] → w.woken = false →
        Queue.getTimed q w = Except.ok ((default, false), { q with queue := w.queue }))
      ∧ (∀ x rest, q.queue = [] → w.woken = true → w.queue = x :: rest →
        Queue.getTimed q w
          = Except.ok ((x, true), Queue.popped { q with queue := w.queue } rest))
      ∧ (q.queue = [] → w.woken = true → w.queue = [] →
        Queue.getTimed q w = Except.error QueueFault.frontOfEmpty) := by
  refine ⟨fun x rest h => ?_, fun h hw => ?_, fun x rest h hw hq => ?_, fun h hw hq => ?_⟩
  · simp only [Queue.getTimed, h, List.isEmpty_cons, Bool.false_eq_true, if_false,
      Queue.takeFront]
  · simp only [Queue.getTimed, h, List.isEmpty_nil, if_true, hw]
  · simp only [Queue.getTimed, h, List.isEmpty_nil, if_true, hw, Bool.true_eq_false, if_false,
      Queue.takeFront, hq]
  · simp only [Queue.getTimed, h, List.isEmpty_nil, if_true, hw, Bool.true_eq_false, if_false,
      Queue.takeFront, hq]

/-- C31, at the failing input: a new queue of integers, and a wait that ends
by a wake-up while the queue is still empty. -/
theorem getTimed_cases_witness :
    (Queue.new : Queue Int).queue = []
      ∧ Queue.getTimed (Queue.new : Queue Int) { woken := true, queue := [] }
          = Except.error QueueFault.frontOfEmpty :=
  ⟨rfl, (getTimed_cases (Queue.new : Queue Int) { woken := true, queue := [] }).2.2.2
    rfl rfl rfl⟩

/-- C32: for every parameter list whose names and values are strings of bytes
and in which no unnamed parameter has an empty value, `parse_url` of `getUrl`
into an empty `QueryParams` gives the same parameters, names and values, in
the same order. -/
theorem url_round_trip (q : QueryParams) (hq : ∀ e ∈ q.values, QueryParams.carried e) :
    QueryParams.parse_url { values := [] } (QueryParams.getUrl q) = q := by
  obtain ⟨vs⟩ := q
  cases vs with
  | nil => rfl
  | cons e rest =>
    have he := hq e (List.mem_cons_self e rest)
    have hr : ∀ x ∈ rest, QueryParams.carried x := fun x hx =>
      hq x (List.mem_cons_of_mem e hx)
    unfold QueryParams.parse_url
    rw [getUrl_cons, List.foldl_append, (parse_urlOf _ e he).1,
      parse_urlOfRest rest hr _ e he]
    rfl

/-- C32, at three parameters with a space, an `&`, an `=` and bytes outside
the printable range: the url is `a+b=1%262&x%3Dy&k=%C8%0A`, and it is read back
as the three parameters. -/
theorem url_round_trip_witness :
    (∀ e ∈ mixedParams.values, QueryParams.carried e)
      ∧ QueryParams.getUrl mixedParams = "a+b=1%262&x%3Dy&k=%C8%0A".toList
      ∧ QueryParams.parse_url { values := [] } (QueryParams.getUrl mixedParams)
        = mixedParams :=
  ⟨by decide, by decide, url_round_trip mixedParams (by decide)⟩

/-- C33: `a.swap(b)` on two distinct nodes exchanges name, type name, payload
and children. It exchanges the categories when both payloads are wide
strings, both are narrow strings, or neither is a string. Otherwise a node
that receives a string from a node of another kind ends with the category
Value, whatever the category of the other node was. -/
theorem swap_fields (a b : SerializationInfo) :
    (a.swap b).1.name = b.name ∧ (a.swap b).2.name = a.name
      ∧ (a.swap b).1.type = b.type ∧ (a.swap b).2.type = a.type
      ∧ (a.swap b).1.value = b.value ∧ (a.swap b).2.value = a.value
      ∧ (a.swap b).1.nodesPtr = b.nodesPtr ∧ (a.swap b).2.nodesPtr = a.nodesPtr
      ∧ (a.value.stringKind = b.value.stringKind →
          (a.swap b).1.category = b.category ∧ (a.swap b).2.category = a.category)
      ∧ (a.value.stringKind ≠ b.value.stringKind →
          (a.swap b).1.category
              = (if b.value.stringKind ≠ 2 then Category.Value else b.category)
            ∧ (a.swap b).2.category
              = (if a.value.stringKind ≠ 2 then Category.Value else a.category)) := by
  obtain ⟨c, n, t, v, ns⟩ := a
  obtain ⟨c1, n1, t1, v1, ns1⟩ := b
  cases v <;> cases v1 <;>
    simp [SerializationInfo.swap, SerializationInfo.swapValues,
      SerializationInfo.setValueString, SerializationInfo.setValueString8,
      SerializationInfo._setString, SerializationInfo._setString8, SerializationInfo.store,
      SerializationInfo._releaseValue, SerializationInfo.withValue,
      SerializationInfo.withNodes, SerializationInfo.name, SerializationInfo.type,
      SerializationInfo.value, SerializationInfo.nodesPtr, SerializationInfo.category,
      Payload.stringKind]

/-- C33, at the failing input: `a` holds the string "x" and has a member, so
its category is Object; `b` is a Value that holds the integer 5. After
`a.swap(b)` the node `b` has the string and the member of `a`, but the
category Value, and a second swap does not give `a` its category back. -/
theorem swap_fields_witness :
    labelled.category = Category.Object
      ∧ labelled.value.stringKind ≠ five.value.stringKind
      ∧ (labelled.swap five).2.value = Payload.string "x"
      ∧ (labelled.swap five).2.nodes.length = 1
      ∧ (labelled.swap five).2.category = Category.Value
      ∧ ((labelled.swap five).1.swap (labelled.swap five).2).1.category = Category.Value :=
  ⟨rfl, by decide, rfl, rfl,
    ((swap_fields labelled five).2.2.2.2.2.2.2.2.2 (by decide)).2.trans rfl, rfl⟩

/-- C34: `assignData` from another node `src` gives `si` the type name, the
payload and the children of `src` and keeps the name of `si`; it gives `si`
the category of `src` when `src` holds no string, and the category Value when
`src` holds a wide or a narrow string, whatever the category of `src`. The
copy assignment does the same and sets the name to the name of `src`. -/
theorem assignData_fields (si src : SerializationInfo) :
    (si.assignData src).name = si.name
      ∧ (si.assignData src).type = src.type
      ∧ (si.assignData src).value = src.value
      ∧ (si.assignData src).nodesPtr = src.nodesPtr
      ∧ (src.value.stringKind = 2 → (si.assignData src).category = src.category)
      ∧ (src.value.stringKind ≠ 2 → (si.assignData src).category = Category.Value)
      ∧ (si.assign src).name = src.name
      ∧ (si.assign src).type = src.type
      ∧ (si.assign src).value = src.value
      ∧ (si.assign src).nodesPtr = src.nodesPtr
      ∧ (si.assign src).category = (si.assignData src).category := by
  obtain ⟨c, n, t, v, ns⟩ := si
  obtain ⟨c1, n1, t1, v1, ns1⟩ := src
  cases v <;> cases v1 <;>
    simp [SerializationInfo.assign, SerializationInfo.assignData, SerializationInfo._setString,
      SerializationInfo._setString8, SerializationInfo.store, SerializationInfo._releaseValue,
      SerializationInfo.withValue, SerializationInfo.setName, SerializationInfo.name,
      SerializationInfo.type, SerializationInfo.value, SerializationInfo.nodesPtr,
      SerializationInfo.category, Payload.stringKind]

/-- C34, at the failing input: the source holds the string "x" and has a
member, so its category is Object; after `assignData` from it a new node has
the string and the member, and the category Value. -/
theorem assignData_fields_witness :
    labelled.category = Category.Object
      ∧ labelled.value = Payload.string "x"
      ∧ labelled.value.stringKind ≠ 2
      ∧ (SerializationInfo.empty.assignData labelled).nodes.length = 1
      ∧ (SerializationInfo.empty.assignData labelled).category = Category.Value
      ∧ (SerializationInfo.empty.assign labelled).category = Category.Value :=
  ⟨rfl, rfl, by decide, rfl,
    (assignData_fields SerializationInfo.empty labelled).2.2.2.2.2.1 (by decide), rfl⟩

/-- C35: for a name without `}` and `:`. When the variable is set, the
construct `${name:-d}` gives its value and ends at the first `}` after
`:-`: what follows that brace is read as ordinary input, so that a default
text `d` with a `}` of its own, such as one with a nested `${...}`,
leaves its remainder and the closing brace of the construct in the result.
When the variable is unset, the braces of `d` match and `envSubst(d)` returns,
the construct gives exactly `envSubst(d)`. -/
theorem envSubst_default (env : List Char → Option (List Char)) (name : List Char)
    (hn : ∀ c ∈ name, c ≠ '\x7d' ∧ c ≠ ':') :
    (∀ v, env (EnvSubst.c_str name) = some v →
        ∀ d1, (∀ c ∈ d1, c ≠ '\x7d') →
          (∀ p vn nx r,
            EnvSubst.parseAll env EnvSubst.new [] p
              = Except.ok (EnvSubst.obj EnvSubstState.state_0 vn nx, r) →
            EnvSubst.parseAll env EnvSubst.new []
                (p ++ '$' :: '\x7b' :: (name ++ ':' :: '-' :: (d1 ++ ['\x7d'])))
              = Except.ok (EnvSubst.obj EnvSubstState.state_0 name nx, r ++ v))
          ∧ (∀ rest, (∀ c ∈ rest, c ≠ '$') →
            envSubst env ('$' :: '\x7b' :: (name ++ ':' :: '-' :: (d1 ++ '\x7d' :: rest)))
              = Except.ok (v ++ rest)))
      ∧ (env (EnvSubst.c_str name) = none →
        ∀ d out, EnvSubst.bracesMatched env EnvSubst.new [] d = true →
          envSubst env d = Except.ok out →
          envSubst env ('$' :: '\x7b' :: (name ++ ':' :: '-' :: (d ++ ['\x7d'])))
            = Except.ok out) := by
  have hopen : ∀ vn nx r rest,
      EnvSubst.parseAll env (EnvSubst.obj EnvSubstState.state_0 vn nx) r
          ('$' :: '\x7b' :: (name ++ ':' :: '-' :: rest))
        = match EnvSubst.parse env (EnvSubst.obj EnvSubstState.state_subst0 name nx) r '-' with
          | Except.error e => Except.error e
          | Except.ok x => EnvSubst.parseAll env x.1 x.2 rest := by
    intro vn nx r rest
    rw [parseAll_open env name hn vn nx r (':' :: '-' :: rest),
      parseAll_step env _ _ _ _ _ _ (parse_dollar_brace env name nx r).2.2]
    rfl
  refine ⟨fun v hv d1 hd => ?_, fun hu d out hm ho => ?_⟩
  · have hminus : ∀ nx r, EnvSubst.parse env (EnvSubst.obj EnvSubstState.state_subst0 name nx)
        r '-' = Except.ok (EnvSubst.obj EnvSubstState.state_nosubst name nx, r ++ v) := by
      intro nx r
      simp only [EnvSubst.parse, hv, if_true]
    have hrun : ∀ vn nx r,
        EnvSubst.parseAll env (EnvSubst.obj EnvSubstState.state_0 vn nx) r
            ('$' :: '\x7b' :: (name ++ ':' :: '-' :: (d1 ++ ['\x7d'])))
          = Except.ok (EnvSubst.obj EnvSubstState.state_0 name nx, r ++ v) := by
      intro vn nx r
      rw [hopen, hminus]
      show EnvSubst.parseAll env (EnvSubst.obj EnvSubstState.state_nosubst name nx) (r ++ v)
        (d1 ++ ['\x7d']) = _
      rw [parseAll_append, parseAll_nosubst env d1 hd]
      rfl
    refine ⟨fun p vn nx r hp => ?_, fun rest hr => ?_⟩
    · rw [parseAll_append, hp]
      exact hrun vn nx r
    · obtain ⟨es, h⟩ := (parseAll_no_dollar env rest hr name EnvSubst.null ([] ++ v)).1
      have e : '$' :: '\x7b' :: (name ++ ':' :: '-' :: (d1 ++ '\x7d' :: rest))
          = ('$' :: '\x7b' :: (name ++ ':' :: '-' :: (d1 ++ ['\x7d']))) ++ rest := by
        simp only [List.cons_append, List.append_assoc, List.singleton_append,
          List.nil_append]
      cases hp : EnvSubst.parseAll env (EnvSubst.obj EnvSubstState.state_0 name EnvSubst.null)
          ([] ++ v) rest with
      | error x => rw [hp] at h; exact absurd h (by simp)
      | ok x =>
        rw [hp] at h
        refine ((envSubst_of_parseAll env _).1 x.1 x.2 es _ ?_ h).trans ?_
        · rw [e, parseAll_append]
          have h0 := hrun [] EnvSubst.null []
          unfold EnvSubst.new
          rw [h0]
          exact hp
        · simp only [List.nil_append]
  · obtain ⟨es, r, es1, h1, h2, h3⟩ := envSubst_ok env d out ho
    have hminus : EnvSubst.parse env
        (EnvSubst.obj EnvSubstState.state_subst0 name EnvSubst.null) [] '-'
        = Except.ok (EnvSubst.obj EnvSubstState.state_subst name EnvSubst.new, []) := by
      simp only [EnvSubst.parse, hu, if_true]
    refine (envSubst_of_parseAll env _).1
      (EnvSubst.obj EnvSubstState.state_0 name EnvSubst.null) out _ _ ?_ rfl
    have h0 := hopen [] EnvSubst.null [] (d ++ ['\x7d'])
    unfold EnvSubst.new at h0 ⊢
    rw [h0, hminus]
    show EnvSubst.parseAll env (EnvSubst.obj EnvSubstState.state_subst name EnvSubst.new) []
      (d ++ ['\x7d']) = _
    rw [parseAll_append, parseAll_subst env name d EnvSubst.new [] hm, h1]
    simp only [EnvSubst.parseAll, EnvSubst.parse, h3, and_self, if_true, h2]

/-- C35, at the failing input `${A:-${B}}` with `A` set to "x":
the construct ends at the brace of the nested `${B}` and its own closing
brace is left in the result, which is `x}` and not `x`. -/
theorem envSubst_default_witness :
    (∀ c ∈ ['A'], c ≠ '\x7d' ∧ c ≠ ':') ∧ sampleEnv (EnvSubst.c_str ['A']) = some ['x']
      ∧ (∀ c ∈ "$\x7bB".toList, c ≠ '\x7d') ∧ (∀ c ∈ "\x7d".toList, c ≠ '$')
      ∧ envSubst sampleEnv "$\x7bA:-$\x7bB\x7d\x7d".toList = Except.ok "x\x7d".toList :=
  ⟨by decide, rfl, by decide, by decide,
    ((envSubst_default sampleEnv ['A'] (by decide)).1 ['x'] rfl "$\x7bB".toList (by decide)).2
      "\x7d".toList (by decide)⟩

/-- C36: after any input that leaves the parser in `state_0`, `$name` followed
by a char `c` that is no name char puts the value of `name`, or nothing when
it is unset, in the place of `$name`; the char `c` is then copied and the
parser is in `state_0`, unless `c` is a backslash. This holds for `c = $` too:
the `$` is copied and does not begin a variable, so that `$name$other` gives
the value of `name` followed by the text `$other`. A `$name` at the end of the
input is replaced by the value of `name`. -/
theorem envSubst_variable_then_char (env : List Char → Option (List Char))
    (name : List Char) (hne : name ≠ []) (hn : ∀ c ∈ name, isVarChar c = true) :
    (∀ p vn nx r,
        EnvSubst.parseAll env EnvSubst.new [] p
          = Except.ok (EnvSubst.obj EnvSubstState.state_0 vn nx, r) →
        ∀ c, isVarChar c = false →
          EnvSubst.parseAll env EnvSubst.new [] (p ++ '$' :: (name ++ [c]))
            = Except.ok (if c = '\\' then
                (EnvSubst.obj EnvSubstState.state_esc name nx, EnvSubst.substitute env name r)
              else (EnvSubst.obj EnvSubstState.state_0 name nx,
                EnvSubst.substitute env name r ++ [c])))
      ∧ envSubst env ('$' :: name) = Except.ok (EnvSubst.substitute env name [])
      ∧ (∀ other, (∀ c ∈ other, isVarChar c = true) →
          envSubst env ('$' :: (name ++ '$' :: other))
            = Except.ok (EnvSubst.substitute env name [] ++ '$' :: other)) := by
  obtain ⟨a, t, rfl⟩ := List.exists_cons_of_ne_nil hne
  have ha := hn a (List.mem_cons_self a t)
  have ht : ∀ c ∈ t, isVarChar c = true := fun c hc => hn c (List.mem_cons_of_mem a hc)
  have hbegin : ∀ vn nx r, EnvSubst.parse env (EnvSubst.obj EnvSubstState.state_varbegin vn nx)
      r a = Except.ok (EnvSubst.obj EnvSubstState.state_varname [a] nx, r) := by
    intro vn nx r
    simp only [EnvSubst.parse, ha, if_true]
  have hname : ∀ vn nx r rest,
      EnvSubst.parseAll env (EnvSubst.obj EnvSubstState.state_0 vn nx) r
          ('$' :: (a :: t ++ rest))
        = EnvSubst.parseAll env (EnvSubst.obj EnvSubstState.state_varname (a :: t) nx) r
            rest := by
    intro vn nx r rest
    show EnvSubst.parseAll env _ r ('$' :: a :: (t ++ rest)) = _
    rw [parseAll_step env _ _ _ _ _ _ (parse_dollar_brace env vn nx r).1,
      parseAll_step env _ _ _ _ _ _ (hbegin vn nx r), parseAll_append,
      parseAll_varname env t ht [a] nx r]
    rfl
  have hchar : ∀ p vn nx r,
      EnvSubst.parseAll env EnvSubst.new [] p
        = Except.ok (EnvSubst.obj EnvSubstState.state_0 vn nx, r) →
      ∀ c, isVarChar c = false →
        EnvSubst.parseAll env EnvSubst.new [] (p ++ '$' :: (a :: t ++ [c]))
          = Except.ok (if c = '\\' then
              (EnvSubst.obj EnvSubstState.state_esc (a :: t) nx,
                EnvSubst.substitute env (a :: t) r)
            else (EnvSubst.obj EnvSubstState.state_0 (a :: t) nx,
              EnvSubst.substitute env (a :: t) r ++ [c])) := by
    intro p vn nx r hp c hc
    rw [parseAll_append, hp]
    show EnvSubst.parseAll env (EnvSubst.obj EnvSubstState.state_0 vn nx) r _ = _
    rw [hname]
    by_cases hb : c = '\\'
    · rw [hb] at hc
      rw [hb, if_pos rfl]
      simp only [EnvSubst.parseAll, EnvSubst.parse, hc, Bool.false_eq_true, if_false, if_true]
    · simp only [EnvSubst.parseAll, EnvSubst.parse, hc, Bool.false_eq_true, if_false, hb]
  refine ⟨hchar, ?_, fun other ho => ?_⟩
  · refine (envSubst_of_parseAll env _).1
      (EnvSubst.obj EnvSubstState.state_varname (a :: t) EnvSubst.null) [] _ _ ?_ rfl
    have h := hname [] EnvSubst.null [] []
    rw [List.append_nil] at h
    exact h
  · have h := hchar [] [] EnvSubst.null [] rfl '$' (by decide)
    rw [if_neg (by decide)] at h
    refine (envSubst_of_parseAll env _).1
      (EnvSubst.obj EnvSubstState.state_0 (a :: t) EnvSubst.null)
      (EnvSubst.substitute env (a :: t) [] ++ '$' :: other) _ _ ?_ rfl
    have e : '$' :: (a :: t ++ '$' :: other) = ([] ++ '$' :: (a :: t ++ ['$'])) ++ other := by
      simp only [List.nil_append, List.cons_append, List.append_assoc, List.singleton_append]
    rw [e, parseAll_append, h]
    show EnvSubst.parseAll env (EnvSubst.obj EnvSubstState.state_0 (a :: t) EnvSubst.null)
      (EnvSubst.substitute env (a :: t) [] ++ ['$']) other = _
    rw [parseAll_copy_name env other ho]
    simp only [List.append_assoc, List.singleton_append]

/-- C36, at the failing input `$A$B` with `A` set to "x" and `B` set to "y":
the result is `x$B`, not `xy`. -/
theorem envSubst_variable_then_char_witness :
    ['A'] ≠ [] ∧ (∀ c ∈ ['A'], isVarChar c = true) ∧ (∀ c ∈ ['B'], isVarChar c = true)
      ∧ sampleEnv ['A'] = some ['x'] ∧ sampleEnv ['B'] = some ['y']
      ∧ envSubst sampleEnv "$A$B".toList = Except.ok "x$B".toList :=
  ⟨by decide, by decide, by decide, rfl, rfl,
    ((envSubst_variable_then_char sampleEnv ['A'] (by decide) (by decide)).2.2 ['B']
      (by decide)).trans rfl⟩

/-- C37: after any input that leaves the parser in `state_0`, `envSubst` fails
with `EnvSubstSyntaxError` when the input ends directly after a `$`, when the
`$` is followed by a char that is neither a name char nor `{`, when the input
ends inside `${name` or directly after `${name:`, and when the `:` that ends
the name in `${name` is followed by a char other than `-`; it fails on every
input whose end finds the parser inside a `${` construct; and an input without
`$` is returned unchanged. -/
theorem envSubst_syntax_errors (env : List Char → Option (List Char)) :
    (∀ p vn nx r,
        EnvSubst.parseAll env EnvSubst.new [] p
          = Except.ok (EnvSubst.obj EnvSubstState.state_0 vn nx, r) →
        envSubst env (p ++ ['$'])
            = Except.error (EnvSubstFailure.failedToParse (p ++ ['$'])
                EnvSubstMessage.unexpectedEnd)
          ∧ (∀ c rest, isVarChar c = false → c ≠ '\x7b' →
              envSubst env (p ++ '$' :: c :: rest)
                = Except.error (EnvSubstFailure.failedToParse (p ++ '$' :: c :: rest)
                    (EnvSubstMessage.expectedVariable c)))
          ∧ (∀ name, (∀ c ∈ name, c ≠ '\x7d' ∧ c ≠ ':') →
              envSubst env (p ++ '$' :: '\x7b' :: name)
                  = Except.error (EnvSubstFailure.failedToParse (p ++ '$' :: '\x7b' :: name)
                      EnvSubstMessage.unexpectedEnd)
                ∧ envSubst env (p ++ '$' :: '\x7b' :: (name ++ [':']))
                  = Except.error (EnvSubstFailure.failedToParse
                      (p ++ '$' :: '\x7b' :: (name ++ [':'])) EnvSubstMessage.unexpectedEnd)
                ∧ (∀ c rest, c ≠ '-' →
                  envSubst env (p ++ '$' :: '\x7b' :: (name ++ ':' :: c :: rest))
                    = Except.error (EnvSubstFailure.failedToParse
                        (p ++ '$' :: '\x7b' :: (name ++ ':' :: c :: rest))
                        (EnvSubstMessage.invalidOperator c)))))
      ∧ (∀ str es r, EnvSubst.parseAll env EnvSubst.new [] str = Except.ok (es, r) →
          EnvSubst.isInBracket es = true →
          envSubst env str
            = Except.error (EnvSubstFailure.failedToParse str EnvSubstMessage.unexpectedEnd))
      ∧ (∀ str, (∀ c ∈ str, c ≠ '$') → envSubst env str = Except.ok str) := by
  refine ⟨fun p vn nx r hp => ⟨?_, fun c rest hv hb => ?_, fun name hn => ⟨?_, ?_,
    fun c rest hc => ?_⟩⟩, fun str es r hs hb => ?_, fun str hs => ?_⟩
  · refine (envSubst_of_parseAll env _).2.1
      (EnvSubst.obj EnvSubstState.state_varbegin vn nx) r _ ?_ rfl
    rw [parseAll_append, hp]
    rfl
  · refine (envSubst_of_parseAll env _).2.2 _ ?_
    rw [parseAll_append, hp]
    show EnvSubst.parseAll env (EnvSubst.obj EnvSubstState.state_0 vn nx) r
      ('$' :: c :: rest) = _
    rw [parseAll_step env _ _ _ _ _ _ (parse_dollar_brace env vn nx r).1]
    refine parseAll_throw env _ _ _ _ _ ?_
    simp only [EnvSubst.parse, hv, hb, Bool.false_eq_true, if_false]
  · refine (envSubst_of_parseAll env _).2.1
      (EnvSubst.obj EnvSubstState.state_bvarname name nx) r _ ?_ rfl
    rw [parseAll_append, hp]
    have h := parseAll_open env name hn vn nx r []
    rw [List.append_nil] at h
    exact h
  · refine (envSubst_of_parseAll env _).2.1
      (EnvSubst.obj EnvSubstState.state_subst0 name nx) r _ ?_ rfl
    rw [parseAll_append, hp]
    show EnvSubst.parseAll env (EnvSubst.obj EnvSubstState.state_0 vn nx) r
      ('$' :: '\x7b' :: (name ++ [':'])) = _
    rw [parseAll_open env name hn vn nx r [':']]
    rfl
  · refine (envSubst_of_parseAll env _).2.2 _ ?_
    rw [parseAll_append, hp]
    show EnvSubst.parseAll env (EnvSubst.obj EnvSubstState.state_0 vn nx) r
      ('$' :: '\x7b' :: (name ++ ':' :: c :: rest)) = _
    rw [parseAll_open env name hn vn nx r (':' :: c :: rest),
      parseAll_step env _ _ _ _ _ _ (parse_dollar_brace env name nx r).2.2]
    refine parseAll_throw env _ _ _ _ _ ?_
    simp only [EnvSubst.parse, hc, if_false]
  · refine (envSubst_of_parseAll env _).2.1 es r _ hs ?_
    cases es with
    | null => exact absurd hb (by decide)
    | obj st vn nx =>
      cases st <;> first | rfl | exact absurd hb (by simp [EnvSubst.isInBracket])
  · obtain ⟨es, h⟩ := (parseAll_no_dollar env str hs [] EnvSubst.null []).1
    cases hp : EnvSubst.parseAll env (EnvSubst.obj EnvSubstState.state_0 [] EnvSubst.null)
        [] str with
    | error e => rw [hp] at h; exact absurd h (by simp)
    | ok x =>
      rw [hp] at h
      have h2 := (envSubst_of_parseAll env str).1 x.1 x.2 es ([] ++ str) hp h
      rw [h2]
      rfl

/-- C37, at the inputs `a$`, `a$-` and `a\b\`. -/
theorem envSubst_syntax_errors_witness :
    EnvSubst.parseAll sampleEnv EnvSubst.new [] ['a']
        = Except.ok (EnvSubst.obj EnvSubstState.state_0 [] EnvSubst.null, ['a'])
      ∧ envSubst sampleEnv "a$".toList
        = Except.error (EnvSubstFailure.failedToParse "a$".toList EnvSubstMessage.unexpectedEnd)
      ∧ envSubst sampleEnv "a$-".toList
        = Except.error (EnvSubstFailure.failedToParse "a$-".toList
            (EnvSubstMessage.expectedVariable '-'))
      ∧ envSubst sampleEnv "a\\b\\".toList = Except.ok "a\\b\\".toList :=
  ⟨rfl, ((envSubst_syntax_errors sampleEnv).1 ['a'] [] EnvSubst.null ['a'] rfl).1,
    ((envSubst_syntax_errors sampleEnv).1 ['a'] [] EnvSubst.null ['a'] rfl).2.1 '-' []
      (by decide) (by decide),
    (envSubst_syntax_errors sampleEnv).2.2 "a\\b\\".toList (by decide)⟩

/-- C38: for a parameter whose name is `base[k1]...[kn]`, `base` without `[`
and the keys without `]`, and whose value can be decoded, the conversion
appends a leaf member with the last of the names `base`, `k1`, ..., `kn` at
the end of the path of the names before it, and assigns the decoded value to
it; each node of the path is the first member of that name, the one
`findMember` returns, or a member appended for it. The conversion of a
parameter throws the `SerializationError` exactly when in its name a `]` that
closes a key is directly followed by a char other than `[`, and the conversion
of parameters whose values can all be decoded throws it exactly when one of
the names is such a name. -/
theorem query_params_to_tree (cv : QueryConvert) :
    (∀ si base keys value v, (∀ x ∈ base, x ≠ '[') → (∀ k ∈ keys, ∀ x ∈ k, x ≠ ']') →
        cv.decode value = some v →
        convertParam cv si { name := base ++ QueryParams.bracketGroups keys, value := value }
          = Except.ok (SerializationInfo.insertLeaf
              (String.mk ((base :: keys).getLast (List.cons_ne_nil _ _)))
              (fun m => cv.assignString m v) ((base :: keys).dropLast.map String.mk) si))
      ∧ (∀ name ns, (SerializationInfo.firstNamedIndex name ns).bind (fun i => ns[i]?)
          = SerializationInfo.firstNamed name ns)
      ∧ (∀ si e, (∃ msg, convertParam cv si e
            = Except.error (QueryConvertError.serializationError msg))
          ↔ QueryParams.badName e.name)
      ∧ (∀ q, (∀ e ∈ q.values, cv.decode e.value ≠ none) → ∀ si,
          ((∃ msg, convertQueryParams cv si q
              = Except.error (QueryConvertError.serializationError msg))
            ↔ ∃ e ∈ q.values, QueryParams.badName e.name)) := by
  have hstart : ∀ si base, (∀ x ∈ base, x ≠ '[') →
      NameScan.scan (NameScan.start si) base
        = Except.ok { root := si, current := [], state := NameScanState.state_0,
                      nodename := base } := by
    intro si base hbase
    rw [scan_base base hbase (NameScan.start si) rfl]
    simp only [NameScan.start, List.nil_append]
  have hone : ∀ si e, (∃ msg, convertParam cv si e
        = Except.error (QueryConvertError.serializationError msg))
      ↔ QueryParams.badName e.name := by
    intro si e
    constructor
    · rintro ⟨msg, h⟩
      cases hs : NameScan.scan (NameScan.start si) e.name with
      | error x => exact (scan_error_shape e.name _ x hs).1 rfl
      | ok s =>
        simp only [convertParam, hs] at h
        cases hd : cv.decode e.value with
        | none => rw [hd] at h; exact absurd h (by simp)
        | some v => rw [hd] at h; exact absurd h (by simp)
    · rintro ⟨base, keys, c, rest, hne, hn, hbase, hks, hc⟩
      obtain ⟨s1, h1, h2, _⟩ := scan_groups (fun n => n) keys hks
        { root := si, current := [], state := NameScanState.state_0, nodename := base } si
        (Or.inl rfl) rfl
      have hstep : NameScan.step s1 c = Except.error
          (QueryConvertError.serializationError "'[' expected in query parameters") := by
        simp only [NameScan.step, h2 hne, hc, if_false]
      refine ⟨"'[' expected in query parameters", ?_⟩
      simp only [convertParam, hn]
      rw [scan_append, scan_append, hstart si base hbase]
      simp only [h1, NameScan.scan, hstep]
  refine ⟨fun si base keys value v hbase hks hv => ?_, fun name ns => (firstNamedIndex_spec name ns).1,
    hone, fun q hq => ?_⟩
  · obtain ⟨s1, h1, _, h3⟩ := scan_groups (fun m => cv.assignString m v) keys hks
      { root := si, current := [], state := NameScanState.state_0, nodename := base } si
      (Or.inl rfl) rfl
    simp only [convertParam]
    rw [scan_append, hstart si base hbase]
    simp only [h1, hv, h3]
    rfl
  · obtain ⟨es⟩ := q
    simp only at hq
    induction es with
    | nil =>
      intro si
      simp [convertQueryParams, convertParams]
    | cons e rest ih =>
      intro si
      have hrest : ∀ x ∈ rest, cv.decode x.value ≠ none := fun x hx =>
        hq x (List.mem_cons_of_mem e hx)
      by_cases hbad : QueryParams.badName e.name
      · obtain ⟨msg, hm⟩ := (hone si e).2 hbad
        constructor
        · intro _
          exact ⟨e, List.mem_cons_self e rest, hbad⟩
        · intro _
          exact ⟨msg, by simp only [convertQueryParams, convertParams, hm]⟩
      · cases hs : NameScan.scan (NameScan.start si) e.name with
        | error x => exact absurd ((scan_error_shape e.name _ x hs).1 rfl) hbad
        | ok s =>
          cases hd : cv.decode e.value with
          | none => exact absurd hd (hq e (List.mem_cons_self e rest))
          | some v =>
            have hok : convertParam cv si e = Except.ok (SerializationInfo.updateAt
                (fun n => n.addMemberWith (String.mk s.nodename) (fun m => cv.assignString m v))
                s.current s.root) := by
              simp only [convertParam, hs, hd]
            have := ih hrest (SerializationInfo.updateAt
                (fun n => n.addMemberWith (String.mk s.nodename) (fun m => cv.assignString m v))
                s.current s.root)
            simp only [convertQueryParams] at this
            simp only [convertQueryParams, convertParams, hok, this, List.mem_cons,
              exists_eq_or_imp, hbad, false_or]

/-- C38, at the parameters `a[b]=1` and `a[c]=2` converted into a new node: the
first gives the member `a` with the member `b`, the second finds `a` and
appends `c` to it. -/
theorem query_params_to_tree_witness :
    (∀ x ∈ "a".toList, x ≠ '[') ∧ (∀ k ∈ ["b".toList], ∀ x ∈ k, x ≠ ']')
      ∧ convertParam plainQueryConvert SerializationInfo.empty
          { name := "a[b]".toList, value := "1".toList }
        = Except.ok (SerializationInfo.insertLeaf "b"
            (fun m => SerializationInfo.setValueString m "1") ["a"] SerializationInfo.empty)
      ∧ convertQueryParams plainQueryConvert SerializationInfo.empty nestedParams
        = Except.ok nestedTree :=
  ⟨by decide, by decide,
    (query_params_to_tree plainQueryConvert).1 SerializationInfo.empty "a".toList
      ["b".toList] "1".toList "1" (by decide) (by decide) rfl,
    rfl⟩

/-- C39: `remove(name)` leaves exactly the entries whose name is not `name`,
in their order; afterwards `has(name)` is false and `paramcount(name)` is 0,
and for every other name `paramcount` and `param(other, n)` are what they
were. -/
theorem remove_all_and_only (q : QueryParams) (name : List Char) :
    (q.remove name).values = q.values.filter (fun e => decide (e.name ≠ name))
      ∧ (q.remove name).has name = false
      ∧ (q.remove name).paramcount name = 0
      ∧ (∀ other, other ≠ name →
          (q.remove name).paramcount other = q.paramcount other
            ∧ (∀ n, (q.remove name).param other n = q.param other n)
            ∧ (∀ n dflt, (q.remove name).paramOr other n dflt = q.paramOr other n dflt)) := by
  refine ⟨removeFrom_filter name q.values, (removeFrom_none name q.values 0).1,
    (removeFrom_none name q.values 0).2, fun other h => ⟨?_, fun n => ?_, fun n dflt => ?_⟩⟩
  · exact (removeFrom_other name other h q.values).1 0
  · simp only [QueryParams.param, QueryParams.remove, (removeFrom_other name other h q.values).2]
  · simp only [QueryParams.paramOr, QueryParams.remove,
      (removeFrom_other name other h q.values).2]

/-- C39, at the parameters `a=1`, `b=2`, `a=3`: `remove("a")` leaves `b=2`. -/
theorem remove_all_and_only_witness :
    (abaParams.remove "a".toList).values = [{ name := "b".toList, value := "2".toList }]
      ∧ "b".toList ≠ "a".toList
      ∧ (abaParams.remove "a".toList).paramcount "b".toList = 1
      ∧ (abaParams.remove "a".toList).param "b".toList 0 = "2".toList :=
  ⟨by decide, by decide,
    ((remove_all_and_only abaParams "a".toList).2.2.2 "b".toList (by decide)).1.trans
      (by decide),
    (((remove_all_and_only abaParams "a".toList).2.2.2 "b".toList (by decide)).2.1 0).trans
      (by decide)⟩

/-- C40: after every sequence of constructions, copy constructions, copy
assignments, `getImpl` calls and destructions of `HttpClient` handles, no
handle points to a slot of the heap in which no implementation was created;
the counter of every implementation equals the number of live handles that
point to it; every implementation has been deleted at most once, and it has
been deleted exactly when no live handle points to it. Hence a call deletes an
implementation exactly when it takes the last handle from it. -/
theorem handle_reference_counts (ops : List HandleOp) :
    (∀ i, (HandleWorld.run ops).impls[i]? = none → (HandleWorld.run ops).holders i = 0)
      ∧ (∀ i o, (HandleWorld.run ops).impls[i]? = some o →
          o.refs = ((HandleWorld.run ops).holders i : Int) ∧ o.deleted ≤ 1
            ∧ (o.deleted = 0 ↔ 0 < (HandleWorld.run ops).holders i))
      ∧ (∀ op i o o1, (HandleWorld.run ops).impls[i]? = some o →
          (HandleWorld.run (ops ++ [op])).impls[i]? = some o1 →
          (o1.deleted = o.deleted + 1
            ↔ 0 < (HandleWorld.run ops).holders i
              ∧ (HandleWorld.run (ops ++ [op])).holders i = 0)) := by
  have hall : ∀ l : List HandleOp, (HandleWorld.run l).consistent := fun l =>
    foldl_step_consistent l HandleWorld.empty (fun i => by
      simp [HandleWorld.empty, HandleWorld.holders, ImplObject.counted])
  have hsome : ∀ (l : List HandleOp) i o, (HandleWorld.run l).impls[i]? = some o →
      o.refs = ((HandleWorld.run l).holders i : Int) ∧ o.deleted ≤ 1
        ∧ (o.deleted = 0 ↔ 0 < (HandleWorld.run l).holders i) := by
    intro l i o h
    have := hall l i
    rw [h] at this
    exact this
  refine ⟨fun i h => ?_, hsome ops, fun op i o o1 h h1 => ?_⟩
  · have := hall ops i
    rw [h] at this
    exact this
  · have a := hsome ops i o h
    have b := hsome (ops ++ [op]) i o1 h1
    constructor
    · intro e
      have h0 : o.deleted = 0 := by omega
      have h1 : ¬ o1.deleted = 0 := by omega
      exact ⟨a.2.2.mp h0, by have := b.2.2; omega⟩
    · intro e
      have h0 : o.deleted = 0 := a.2.2.mpr e.1
      have h1 : ¬ o1.deleted = 0 := fun x => by have := b.2.2.mp x; omega
      omega

/-- C40, at a program with three handles that share one implementation: after
the first and the second handle have been destroyed the counter is 1 and the
implementation has not been deleted; the destruction of the third handle
deletes it, once. -/
theorem handle_reference_counts_witness :
    HandleWorld.run sharingProgram
        = { impls := [{ refs := 1, deleted := 0 }], handles := [none, none, some (some 0)] }
      ∧ (HandleWorld.run sharingProgram).holders 0 = 1
      ∧ HandleWorld.run (sharingProgram ++ [HandleOp.destroy 2])
        = { impls := [{ refs := 0, deleted := 1 }], handles := [none, none, none] } :=
  ⟨by decide,
    by
      have h : (1 : Int) = ((HandleWorld.run sharingProgram).holders 0 : Int) :=
        ((handle_reference_counts sharingProgram).2.1 0 { refs := 1, deleted := 0 }
          (by decide)).1
      omega,
    by decide⟩
